import Mathlib

/-!
# At-RTOS kernel core: mutex, event flags and the scheduler hand-shake

A shallow embedding of `src/kernel/mutex.c`, `src/kernel/event.c` and
`src/kernel/kernel.c`.  Pointers to tasks, mutexes and events are slot numbers,
a null pointer is `none`, and a routine that would dereference a null pointer
returns `none`.  The singly linked lists of `linker.h` are lists of task
numbers; every task records in `linker.pList` the list it is linked in.
-/

namespace AtRTOS

/-! ## Constants of the headers that are not part of the sources -/

/-- Constants and postcode tests declared in `ktype.h`, `postcode.h`, `timer.h`
and `configuration.h`; their values are not fixed by the sources at hand, so
every routine takes them as a parameter. -/
structure Config where
  /-- The priority stored in a mutex that has no holder. -/
  OS_PRIOTITY_INVALID_LEVEL : Int
  /-- The kernel thread priority. -/
  OS_PRIOTITY_HIGHEST_LEVEL : Int
  /-- The timeout value that stands for waiting forever. -/
  OS_TIME_FOREVER_VAL : Nat
  /-- The value of `PC_EOR` in kernel.c. -/
  PC_EOR_KERNEL : Int
  /-- The value of `PC_EOR` in mutex.c. -/
  PC_EOR_MUTEX : Int
  /-- The value of `PC_EOR` in event.c. -/
  PC_EOR_EVENT : Int
  /-- The postcode `PC_OS_WAIT_TIMEOUT`. -/
  PC_OS_WAIT_TIMEOUT : Int
  /-- The test made by `PC_IF(postcode, PC_ERROR)`. -/
  PC_ERROR : Int → Bool
  /-- The number of mutex descriptors between the section bounds. -/
  MUTEX_INSTANCE_SUPPORTED_NUMBER : Nat
  /-- The number of event descriptors between the section bounds. -/
  EVENT_INSTANCE_SUPPORTED_NUMBER : Nat
  /-- The postcode `PC_OS_WAIT_UNAVAILABLE`. -/
  PC_OS_WAIT_UNAVAILABLE : Int
  /-- The test made by `PC_IF(postcode, PC_PASS)`. -/
  PC_PASS : Int → Bool
  /-- The test made by `PC_IF(postcode, PC_PASS_INFO)`. -/
  PC_PASS_INFO : Int → Bool
  /-- The trap number `SVC_KERNEL_INVOKE_NUMBER`. -/
  SVC_KERNEL_INVOKE_NUMBER : Nat

/-! ## Data model -/

/-- The lists a linker can be part of: the four scheduler lists of
`g_kernel_rsc` and the `q_list` of every mutex and event. -/
inductive list_ref where
  | pend
  | entry
  | exit
  | wait
  | mutex (m : Nat)
  | event (e : Nat)
  deriving DecidableEq, Repr

/-- The primitive a `pPendCtx` pointer refers to. -/
inductive ctx_ref where
  | mutex (m : Nat)
  | event (e : Nat)
  deriving DecidableEq, Repr

/-- The entry callbacks (`pTask_callbackFunc_t`) that the sources pass to
`schedule_entry_trigger`. -/
inductive callback where
  | event_schedule
  deriving DecidableEq, Repr

/-- The direction of a node operation (`list_direction_t`). -/
inductive list_direction_t where
  | LIST_HEAD
  | LIST_TAIL
  deriving DecidableEq, Repr

/-- The output record of an event waiter (`struct evt_val`). -/
structure evt_val where
  value : Nat
  trigger : Nat
  deriving DecidableEq, Repr

/-- The per-waiter record of an event (`event_sch_t`); the record pointed to by
`pEvtVal` is kept inline. -/
structure event_sch_t where
  listen : Nat
  pEvtVal : evt_val
  deriving DecidableEq, Repr

/-- The entry-staging record (`struct call_entry`); `func` is the field `fun`. -/
structure call_entry where
  result : Int
  func : Option callback
  deriving DecidableEq, Repr

/-- The exit-staging record (`struct call_exit`). -/
structure call_exit where
  pToList : Option list_ref
  timeout_ms : Nat
  deriving DecidableEq, Repr

/-- The run-time figures of a task (`exec.analyze`). -/
structure call_analyze where
  last_run_ms : Nat
  total_run_ms : Nat
  last_active_ms : Nat
  last_pend_ms : Nat
  deriving DecidableEq, Repr

/-- The `exec` member of a task. -/
structure call_exec where
  entry : call_entry
  exit : call_exit
  analyze : call_analyze
  deriving DecidableEq, Repr

/-- Modelled from the spec: the deadline node of a task, owned by the absent
timer.c.  The model keeps what the last `timeout_set` asked for (the duration
and whether the node was to be linked); the time wheel itself is left out. -/
structure expired_time where
  duration_ms : Nat
  linked : Bool
  deriving DecidableEq, Repr

/-- The linker of `linker.h`; the `node.pNext` chain is carried by the lists of
the kernel state, `pList` is the list the node is in. -/
structure linker where
  pList : Option list_ref
  deriving DecidableEq, Repr

/-- The schedulable part of a thread (`struct schedule_task`, declared in the
absent ktype.h): the members that kernel.c, mutex.c and event.c read or write. -/
structure schedule_task where
  prior : Int
  psp : Nat
  pPendCtx : Option ctx_ref
  pPendData : Option event_sch_t
  exec : call_exec
  expire : expired_time
  linker : linker
  deriving DecidableEq, Repr

/-- A mutex descriptor (`mutex_context_t`); `cs` is the init marker of its head. -/
structure mutex_context_t where
  cs : Bool
  pName : Nat
  q_list : List Nat
  locked : Bool
  pHoldTask : Option Nat
  originalPriority : Int
  deriving DecidableEq, Repr

/-- An event descriptor (`event_context_t`). -/
structure event_context_t where
  cs : Bool
  pName : Nat
  q_list : List Nat
  value : Nat
  triggered : Nat
  anyMask : Nat
  modeMask : Nat
  dirMask : Nat
  pEvtCallEntry : Option Nat
  deriving DecidableEq, Repr

/-- The machine state: `g_kernel_rsc` of kernel.c, the task, mutex and event
descriptors, and the two facts of the port layer that the kernel consults
(whether the CPU is in a handler, whether PendSV is pending). -/
structure Kernel where
  tasks : Nat → schedule_task
  mutexes : Nat → mutex_context_t
  events : Nat → event_context_t
  pTask : Option Nat
  run : Bool
  pendsv_ms : Nat
  sch_pend_list : List Nat
  sch_entry_list : List Nat
  sch_exit_list : List Nat
  sch_wait_list : List Nat
  inInterrupt : Bool
  pendSV : Bool

/-- The task descriptor after `os_memset(.., 0x0u, ..)`. -/
def schedule_task.zero : schedule_task :=
  { prior := 0, psp := 0, pPendCtx := none, pPendData := none,
    exec := { entry := { result := 0, func := none },
              exit := { pToList := none, timeout_ms := 0 },
              analyze := { last_run_ms := 0, total_run_ms := 0,
                           last_active_ms := 0, last_pend_ms := 0 } },
    expire := { duration_ms := 0, linked := false },
    linker := { pList := none } }

/-- Write through a task pointer. -/
def task_update (k : Kernel) (t : Nat) (f : schedule_task → schedule_task) : Kernel :=
  { k with tasks := Function.update k.tasks t (f (k.tasks t)) }

/-- Write through a mutex pointer. -/
def mutex_update (k : Kernel) (m : Nat) (f : mutex_context_t → mutex_context_t) : Kernel :=
  { k with mutexes := Function.update k.mutexes m (f (k.mutexes m)) }

/-- Write through an event pointer. -/
def event_update (k : Kernel) (e : Nat) (f : event_context_t → event_context_t) : Kernel :=
  { k with events := Function.update k.events e (f (k.events e)) }

/-- The content of a list. -/
def list_get (k : Kernel) : list_ref → List Nat
  | .pend => k.sch_pend_list
  | .entry => k.sch_entry_list
  | .exit => k.sch_exit_list
  | .wait => k.sch_wait_list
  | .mutex m => (k.mutexes m).q_list
  | .event e => (k.events e).q_list

/-- Replace the content of a list. -/
def list_set (k : Kernel) (r : list_ref) (l : List Nat) : Kernel :=
  match r with
  | .pend => { k with sch_pend_list := l }
  | .entry => { k with sch_entry_list := l }
  | .exit => { k with sch_exit_list := l }
  | .wait => { k with sch_wait_list := l }
  | .mutex m => mutex_update k m (fun x => { x with q_list := l })
  | .event e => event_update k e (fun x => { x with q_list := l })

/-! ## Lists (linker.h) -/

/-- Modelled from the spec: `list_head` of the absent linker.c, the first node
of a list or null. -/
def list_head (l : List Nat) : Option Nat := l.head?

/-- Modelled from the spec: `list_node_delete` of the absent linker.c, which
unlinks a node from a list. -/
def list_node_delete (l : List Nat) (t : Nat) : List Nat := l.erase t

/-- Modelled from the spec: `list_node_push` of the absent linker.c, insertion
at the head or at the tail. -/
def list_node_push (l : List Nat) (t : Nat) : list_direction_t → List Nat
  | .LIST_HEAD => t :: l
  | .LIST_TAIL => l ++ [t]

/-- Modelled from the spec: the sorted insert of the absent linker.c (spec 4.A).
The walk starts at the head and calls `predicate(cur, new)`; the new node is
inserted before the first `cur` that it is to precede, and at the tail when
there is none.  The sentences of the spec do not agree on the return value that
marks this `cur`.  The rule sentence names `false`, as does the comment over
the predicate in kernel.c.  The order sentences,
"equal keys place the newer after the older" (4.A) and "lower numeric priority
wins, FIFO on ties" (4.C), hold with the predicate of kernel.c, which returns
true exactly when the priority of the new node is numerically below that of
`cur`, only when the walk stops at `true`.  The order is what
`_schedule_nextTaskGet` and `_schedule_can_preempt` of kernel.c rely on, so
the model follows the order sentences: the walk passes every `cur` for which
the predicate returns false and stops at the first for which it returns true. -/
def sorted_insert (pred : Nat → Nat → Bool) (new : Nat) : List Nat → List Nat
  | [] => [new]
  | cur :: rest => if pred cur new then new :: cur :: rest else cur :: sorted_insert pred new rest

/-- The rule sentence of spec 4.A taken by its letter, for comparison with
`sorted_insert`: the walk starts at the head and the insertion happens before
the first `cur` for which the predicate returns false, at the tail when there
is none. -/
def spec_rule_insert (pred : Nat → Nat → Bool) (new : Nat) : List Nat → List Nat
  | [] => [new]
  | cur :: rest =>
    if pred cur new then cur :: spec_rule_insert pred new rest else new :: cur :: rest

/-- Unlink a task from the list its linker records (the first half of a list
transaction). -/
def linker_unlink (k : Kernel) (t : Nat) : Kernel :=
  match (k.tasks t).linker.pList with
  | none => k
  | some r => list_set k r (list_node_delete (list_get k r) t)

/-- Record in the linker of a task the list it is now in. -/
def linker_set_pList (k : Kernel) (t : Nat) (r : Option list_ref) : Kernel :=
  task_update k t (fun x => { x with linker := { pList := r } })

/-- Modelled from the spec: `linker_list_transaction_common` of the absent
linker.c.  A task is linked in at most one list: the node leaves the list its
linker records, is pushed on the target list (when there is one) and the linker
records the target. -/
def linker_list_transaction_common (k : Kernel) (t : Nat) (pToList : Option list_ref)
    (direction : list_direction_t) : Kernel :=
  let k1 := linker_unlink k t
  let k2 := match pToList with
    | none => k1
    | some r => list_set k1 r (list_node_push (list_get k1 r) t direction)
  linker_set_pList k2 t pToList

/-- Modelled from the spec: `linker_list_transaction_specific` of the absent
linker.c.  The node leaves the list its linker records and enters the target
list by the sorted insert under the given condition function. -/
def linker_list_transaction_specific (k : Kernel) (t : Nat) (pToList : list_ref)
    (pConditionFunc : Kernel → Option Nat → Option Nat → Bool) : Kernel :=
  let k1 := linker_unlink k t
  let k2 := list_set k1 pToList
    (sorted_insert (fun cur new => pConditionFunc k1 (some cur) (some new)) t (list_get k1 pToList))
  linker_set_pList k2 t (some pToList)

/-! ## Timer interface (timer.h) -/

/-- Modelled from the spec: `timeout_set(node, ms, link_if_unlinked)` of the
absent timer.c installs or updates a deadline, and `OS_TIME_FOREVER` means do
not link.  The node records the duration asked for. -/
def timeout_set (cfg : Config) (e : expired_time) (timeout_ms : Nat) (immediately : Bool) :
    expired_time :=
  if timeout_ms = cfg.OS_TIME_FOREVER_VAL then { duration_ms := timeout_ms, linked := false }
  else { duration_ms := timeout_ms, linked := e.linked || immediately }

/-- Modelled from the spec: `timeout_remove(node, cancel_expired)` of the absent
timer.c unlinks the deadline node. -/
def timeout_remove (e : expired_time) (_cancel_expired : Bool) : expired_time :=
  { e with linked := false }

/-! ## Scheduler (kernel.c) -/

/-- The function `_schedule_priority_node_order_compare_condition`. -/
def _schedule_priority_node_order_compare_condition (k : Kernel)
    (pCurNode pExtractNode : Option Nat) : Bool :=
  match pCurNode, pExtractNode with
  | some pCurTask, some pExtractTask =>
    if (k.tasks pCurTask).prior ≤ (k.tasks pExtractTask).prior then false else true
  | _, _ => false

/-- The function `_schedule_transfer_toEntryList`. -/
def _schedule_transfer_toEntryList (k : Kernel) (t : Nat) : Kernel :=
  linker_list_transaction_common k t (some .entry) .LIST_TAIL

/-- The function `_schedule_transfer_toNullList`. -/
def _schedule_transfer_toNullList (k : Kernel) (t : Nat) : Kernel :=
  linker_list_transaction_common k t none .LIST_TAIL

/-- The function `_schedule_transfer_toTargetList`. -/
def _schedule_transfer_toTargetList (k : Kernel) (t : Nat) (pToList : Option list_ref) : Kernel :=
  match pToList with
  | some r => linker_list_transaction_specific k t r _schedule_priority_node_order_compare_condition
  | none => k

/-- The function `_schedule_transfer_toExitList`. -/
def _schedule_transfer_toExitList (k : Kernel) (t : Nat) : Kernel :=
  linker_list_transaction_specific k t .exit _schedule_priority_node_order_compare_condition

/-- The function `_schedule_transfer_toPendList`. -/
def _schedule_transfer_toPendList (k : Kernel) (t : Nat) : Kernel :=
  linker_list_transaction_specific k t .pend _schedule_priority_node_order_compare_condition

/-- The function `_schedule_nextTaskGet`. -/
def _schedule_nextTaskGet (k : Kernel) : Option Nat := k.sch_pend_list.head?

/-- The function `kernel_thread_schedule_request`; `_kernel_isInPrivilegeMode` is
the port query `port_isInInterruptContent`, `_kernel_setPendSV` raises PendSV. -/
def kernel_thread_schedule_request (cfg : Config) (k : Kernel) : Kernel × Int :=
  if !k.inInterrupt then (k, cfg.PC_EOR_KERNEL)
  else ({ k with pendSV := true }, 0)

/-- The function `schedule_exit_trigger`. -/
def schedule_exit_trigger (cfg : Config) (k : Kernel) (pTask : Nat) (pHoldCtx : Option ctx_ref)
    (pHoldData : Option event_sch_t) (pToList : Option list_ref) (timeout_ms : Nat)
    (immediately : Bool) : Kernel × Int :=
  let k1 := task_update k pTask (fun x => { x with pPendCtx := pHoldCtx, pPendData := pHoldData })
  let k2 :=
    if immediately then
      _schedule_transfer_toTargetList
        (task_update k1 pTask (fun x => { x with expire := timeout_set cfg x.expire timeout_ms true }))
        pTask pToList
    else
      _schedule_transfer_toExitList
        (task_update k1 pTask (fun x =>
          { x with exec := { x.exec with exit := { pToList := pToList, timeout_ms := timeout_ms } } }))
        pTask
  kernel_thread_schedule_request cfg k2

/-- The function `schedule_entry_trigger`. -/
def schedule_entry_trigger (cfg : Config) (k : Kernel) (pTask : Nat) (cb : Option callback)
    (result : Int) : Kernel × Int :=
  let k1 := task_update k pTask (fun x =>
    { x with exec := { x.exec with entry := { result := result, func := cb } } })
  kernel_thread_schedule_request cfg (_schedule_transfer_toEntryList k1 pTask)

/-! ## Mutex (mutex.c) -/

/-- The function `_mutex_context_isInvalid`: the descriptor lies outside the
descriptor range. -/
def _mutex_context_isInvalid (cfg : Config) (m : Nat) : Bool :=
  !decide (m < cfg.MUTEX_INSTANCE_SUPPORTED_NUMBER)

/-- The function `_mutex_context_isInit`. -/
def _mutex_context_isInit (k : Kernel) (m : Nat) : Bool := (k.mutexes m).cs

/-- The function `_mutex_init_privilege_routine`: the first descriptor of the
range whose init marker is clear is zeroed and initialised; the result is its
address, or 0 (here `none`) when every descriptor is in use. -/
def _mutex_init_privilege_routine (cfg : Config) (k : Kernel) (pName : Nat) :
    Kernel × Option Nat :=
  match (List.range cfg.MUTEX_INSTANCE_SUPPORTED_NUMBER).find?
      (fun m => !_mutex_context_isInit k m) with
  | none => (k, none)
  | some m =>
    (mutex_update k m (fun _ =>
      { cs := true, pName := pName, q_list := [], locked := false, pHoldTask := none,
        originalPriority := cfg.OS_PRIOTITY_INVALID_LEVEL }), some m)

/-- The function `_mutex_lock_privilege_routine`.  The running thread is
`kernel_thread_runContextGet()`; without a running task, or with a locked mutex
that has no holder, the routine dereferences a null pointer. -/
def _mutex_lock_privilege_routine (cfg : Config) (k : Kernel) (m : Nat) : Option (Kernel × Int) :=
  match k.pTask with
  | none => none
  | some pCurThread =>
    if (k.mutexes m).locked = true then
      match (k.mutexes m).pHoldTask with
      | none => none
      | some pLockTask =>
        let k1 :=
          if (k.tasks pCurThread).prior < (k.tasks pLockTask).prior then
            task_update k pLockTask (fun x => { x with prior := (k.tasks pCurThread).prior })
          else k
        some (schedule_exit_trigger cfg k1 pCurThread (some (.mutex m)) none (some (.mutex m)) 0 true)
    else
      some (mutex_update k m (fun x =>
        { x with pHoldTask := some pCurThread, originalPriority := (k.tasks pCurThread).prior,
                 locked := true }), 0)

/-- The function `_mutex_unlock_privilege_routine`.  A mutex without a holder
makes the routine write through a null pointer. -/
def _mutex_unlock_privilege_routine (cfg : Config) (k : Kernel) (m : Nat) :
    Option (Kernel × Int) :=
  let pCurTask := list_head (k.mutexes m).q_list
  match (k.mutexes m).pHoldTask with
  | none => none
  | some pLockTask =>
    let k1 := task_update k pLockTask (fun x => { x with prior := (k.mutexes m).originalPriority })
    match pCurTask with
    | none =>
      some (mutex_update k1 m (fun x =>
        { x with originalPriority := cfg.OS_PRIOTITY_INVALID_LEVEL, pHoldTask := none,
                 locked := false }), 0)
    | some w =>
      let k2 := mutex_update k1 m (fun x =>
        { x with pHoldTask := some w, originalPriority := (k1.tasks w).prior })
      some (schedule_entry_trigger cfg k2 w none 0)

/-! ## Privilege gate and public mutex calls -/

/-- Modelled from the spec: `kernel_svc_call` of the absent port layer issues a
software trap that re-enters the routine from handler mode and returns its
value; the CPU is back in the mode of the caller afterwards. -/
def kernel_svc_call {α : Type} (pCallFun : Kernel → Option (Kernel × α)) (k : Kernel) :
    Option (Kernel × α) :=
  match pCallFun { k with inInterrupt := true } with
  | none => none
  | some (k', r) => some ({ k' with inInterrupt := k.inInterrupt }, r)

/-- The function `kernel_privilege_invoke`; `err` is `PC_EOR` in the result type
of the routine. -/
def kernel_privilege_invoke {α : Type} (err : α)
    (pCallFun : Option (Kernel → Option (Kernel × α))) (k : Kernel) : Option (Kernel × α) :=
  match pCallFun with
  | none => some (k, err)
  | some pCall => if !k.inInterrupt then kernel_svc_call pCall k else pCall k

/-- The function `kernel_privilege_call_inSVC_c`, the handler of the trap.
`svc_number` is the byte it reads behind the stacked return address, `pCall` is
what the first slot of the stacked frame (`svc_args[0]`) holds on entry.  The
second component of the result is what the handler writes into that slot: the
result of the routine when the number is `SVC_KERNEL_INVOKE_NUMBER`, and
nothing (`none`) otherwise, in which case the routine is not called. -/
def kernel_privilege_call_inSVC_c {α : Type} (cfg : Config) (svc_number : Nat)
    (pCall : Kernel → Option (Kernel × α)) (k : Kernel) : Option (Kernel × Option α) :=
  if svc_number = cfg.SVC_KERNEL_INVOKE_NUMBER then
    (pCall k).map (fun res => (res.1, some res.2))
  else some (k, none)

/-- The privilege gate in the words of the spec (section 4.D), for comparison
with `kernel_privilege_invoke`: in privileged context `fn(args)` is called; in
thread context a trap re-enters `fn(args)` from handler mode and its value is
returned, the caller being in thread mode again afterwards. -/
def spec_privilege_invoke {α : Type} (fn : Kernel → Option (Kernel × α)) (k : Kernel) :
    Option (Kernel × α) :=
  if k.inInterrupt then fn k
  else (fn { k with inInterrupt := true }).map
    (fun res => ({ res.1 with inInterrupt := false }, res.2))

/-- The function `kernel_isInThreadMode`, the port query `port_isInThreadMode`:
the CPU is in thread mode when it is not in a handler. -/
def kernel_isInThreadMode (k : Kernel) : Bool := !k.inInterrupt

/-- The function `_impl_mutex_init`; the result is the descriptor claimed. -/
def _impl_mutex_init (cfg : Config) (k : Kernel) (pName : Nat) : Option (Kernel × Option Nat) :=
  kernel_privilege_invoke none
    (some (fun k0 => some (_mutex_init_privilege_routine cfg k0 pName))) k

/-- The function `_impl_mutex_lock`. -/
def _impl_mutex_lock (cfg : Config) (k : Kernel) (ctx : Nat) : Option (Kernel × Int) :=
  if _mutex_context_isInvalid cfg ctx then some (k, cfg.PC_EOR_MUTEX)
  else if !_mutex_context_isInit k ctx then some (k, cfg.PC_EOR_MUTEX)
  else if !kernel_isInThreadMode k then some (k, cfg.PC_EOR_MUTEX)
  else kernel_privilege_invoke cfg.PC_EOR_KERNEL
    (some (fun k0 => _mutex_lock_privilege_routine cfg k0 ctx)) k

/-- The function `_impl_mutex_unlock`. -/
def _impl_mutex_unlock (cfg : Config) (k : Kernel) (ctx : Nat) : Option (Kernel × Int) :=
  if _mutex_context_isInvalid cfg ctx then some (k, cfg.PC_EOR_MUTEX)
  else if !_mutex_context_isInit k ctx then some (k, cfg.PC_EOR_MUTEX)
  else kernel_privilege_invoke cfg.PC_EOR_KERNEL
    (some (fun k0 => _mutex_unlock_privilege_routine cfg k0 ctx)) k

/-! ## Event flags (event.c) -/

/-- The cast to `u32_t`. -/
def u32 (x : Nat) : Nat := x % 4294967296

/-- The operator `~` on a `u32_t`. -/
def not32 (x : Nat) : Nat := (x ^^^ 4294967295) % 4294967296

/-- The trigger word without the latched bits, as `_event_set_privilege_routine`,
`_event_wait_privilege_routine` and `_event_schedule` compute it from the masks
of the event, a value and the changed bits, statement by statement. -/
def event_trigger_bits (ev : event_context_t) (val changed : Nat) : Nat :=
  let any := ev.anyMask
  let trigger := any &&& changed
  let edge := ev.modeMask
  let edge := edge &&& not32 ev.anyMask
  let trigger := trigger ||| (edge &&& val &&& ev.dirMask &&& changed)
  let trigger := trigger ||| (edge &&& not32 val &&& not32 ev.dirMask &&& changed)
  let level := not32 ev.modeMask
  let level := level &&& not32 ev.anyMask
  let trigger := trigger ||| (level &&& val &&& ev.dirMask &&& changed)
  let trigger := trigger ||| (level &&& not32 val &&& not32 ev.dirMask &&& changed)
  trigger

/-- The function `_event_schedule`, the entry callback of an event waiter.  It
reads the event through `pPendCtx`, which must point to an event. -/
def _event_schedule (k : Kernel) (t : Nat) : Option Kernel :=
  let k1 := task_update k t (fun x => { x with expire := timeout_remove x.expire true })
  match (k1.tasks t).pPendData with
  | none => some k1
  | some pEvt_sche =>
    match (k1.tasks t).pPendCtx with
    | some (.event e) =>
      let pCurEvent := k1.events e
      let changed := pEvt_sche.pEvtVal.value ^^^ pCurEvent.value
      let trigger := if changed ≠ 0 then event_trigger_bits pCurEvent pCurEvent.value changed else 0
      let trigger := trigger ||| pCurEvent.triggered
      let report := trigger &&& pEvt_sche.listen
      let out : evt_val :=
        if report ≠ 0 then { value := pCurEvent.value, trigger := trigger }
        else { pEvt_sche.pEvtVal with value := pCurEvent.value }
      let k2 := task_update k1 t (fun x => { x with pPendData := some { pEvt_sche with pEvtVal := out } })
      let k3 := if report ≠ 0 then
          event_update k2 e (fun x => { x with triggered := x.triggered &&& not32 report })
        else k2
      some (task_update k3 t (fun x =>
        { x with exec := { x.exec with entry := { x.exec.entry with result := 0 } } }))
    | _ => none

/-- How the waiter loop of `_event_set_privilege_routine` ends: by the early
`return PC_EOR`, or by leaving the loop with the reported bits and a postcode. -/
inductive event_set_loop where
  | returned (k : Kernel) (postcode : Int)
  | finished (k : Kernel) (reported : Nat) (postcode : Int)

/-- The waiter loop of `_event_set_privilege_routine` over the wait queue as it
stands when the loop starts; the iterator stays valid when the current node is
moved to the entry list. -/
def _event_set_waiters (cfg : Config) (val trigger : Nat) :
    List Nat → Kernel → Nat → Int → event_set_loop
  | [], k, reported, postcode => .finished k reported postcode
  | pCurTask :: rest, k, reported, postcode =>
    match (k.tasks pCurTask).pPendData with
    | none => .returned k cfg.PC_EOR_EVENT
    | some pEvt_sche =>
      let report := trigger &&& pEvt_sche.listen
      if report ≠ 0 then
        let k1 := task_update k pCurTask (fun x =>
          { x with pPendData := some { pEvt_sche with
              pEvtVal := { value := val, trigger := trigger } } })
        let res := schedule_entry_trigger cfg k1 pCurTask (some .event_schedule) 0
        if cfg.PC_ERROR res.2 then .finished res.1 (reported ||| report) res.2
        else _event_set_waiters cfg val trigger rest res.1 (reported ||| report) res.2
      else _event_set_waiters cfg val trigger rest k reported postcode

/-- The new value computed by `_event_set_privilege_routine`: clear, then set,
then toggle. -/
def _event_set_value (ev : event_context_t) (set clear toggle : Nat) : Nat :=
  let val := ev.value
  let val := val &&& not32 clear
  let val := val ||| u32 set
  let val := val ^^^ u32 toggle
  val

/-- The trigger word of `_event_set_privilege_routine`: the bits computed from
the new value and the changed bits, or-ed with the latched bits. -/
def _event_set_trigger (ev : event_context_t) (set clear toggle : Nat) : Nat :=
  let val := _event_set_value ev set clear toggle
  let changed := val ^^^ ev.value
  event_trigger_bits ev val changed ||| ev.triggered

/-- The function `_event_set_privilege_routine`. -/
def _event_set_privilege_routine (cfg : Config) (k : Kernel) (e : Nat) (set clear toggle : Nat) :
    Kernel × Int :=
  let pCurEvent := k.events e
  let val := _event_set_value pCurEvent set clear toggle
  let trigger := _event_set_trigger pCurEvent set clear toggle
  match _event_set_waiters cfg val trigger pCurEvent.q_list k 0 0 with
  | .returned k1 postcode => (k1, postcode)
  | .finished k1 reported postcode =>
    (event_update k1 e (fun x => { x with triggered := not32 reported &&& trigger, value := val }),
     postcode)

/-- The function `_event_context_isInvalid`: the descriptor lies outside the
descriptor range. -/
def _event_context_isInvalid (cfg : Config) (e : Nat) : Bool :=
  !decide (e < cfg.EVENT_INSTANCE_SUPPORTED_NUMBER)

/-- The function `_event_context_isInit`. -/
def _event_context_isInit (k : Kernel) (e : Nat) : Bool := (k.events e).cs

/-- The function `_event_init_privilege_routine`: the first descriptor of the
range whose init marker is clear is zeroed and initialised with the masks and
the initial value, all of type `u32_t`; the result is its address, or 0 (here
`none`) when every descriptor is in use. -/
def _event_init_privilege_routine (cfg : Config) (k : Kernel)
    (anyMask modeMask dirMask init pName : Nat) : Kernel × Option Nat :=
  match (List.range cfg.EVENT_INSTANCE_SUPPORTED_NUMBER).find?
      (fun e => !_event_context_isInit k e) with
  | none => (k, none)
  | some e =>
    (event_update k e (fun _ =>
      { cs := true, pName := pName, q_list := [], value := u32 init, triggered := 0,
        anyMask := u32 anyMask, modeMask := u32 modeMask, dirMask := u32 dirMask,
        pEvtCallEntry := none }), some e)

/-- The trigger word of `_event_wait_privilege_routine`: the bits computed from
the current value and the bits in which it differs from the value in the output
record of the caller (nothing when they do not differ), or-ed with the latched
bits. -/
def _event_wait_trigger (ev : event_context_t) (pEvtData : evt_val) : Nat :=
  let changed := pEvtData.value ^^^ ev.value
  let trigger := if changed ≠ 0 then event_trigger_bits ev ev.value changed else 0
  trigger ||| ev.triggered

/-- The function `_event_wait_privilege_routine`.  The second component of the
result is the output record `*pEvtData` of the caller as the routine leaves it;
for a caller that is queued the waiter record of the task holds the same
record.  Queueing the caller without a running task dereferences a null
pointer. -/
def _event_wait_privilege_routine (cfg : Config) (k : Kernel) (e : Nat) (pEvt_sch : event_sch_t)
    (timeout_ms : Nat) : Option (Kernel × evt_val × Int) :=
  let pCurEvent := k.events e
  let trigger := _event_wait_trigger pCurEvent pEvt_sch.pEvtVal
  let pEvtData : evt_val := { pEvt_sch.pEvtVal with value := pCurEvent.value }
  let report := trigger &&& pEvt_sch.listen
  if report ≠ 0 then
    some (event_update k e (fun x => { x with triggered := x.triggered &&& not32 report }),
          { pEvtData with trigger := trigger }, 0)
  else
    match k.pTask with
    | none => none
    | some pCurThread =>
      let res := schedule_exit_trigger cfg k pCurThread (some (.event e))
        (some { pEvt_sch with pEvtVal := pEvtData }) (some (.event e)) timeout_ms true
      some (res.1, pEvtData, if cfg.PC_PASS res.2 then cfg.PC_OS_WAIT_UNAVAILABLE else res.2)

/-- The function `kernel_schedule_result_take` of kernel.c: the entry result of
the running task is read and replaced by `PC_EOR`. -/
def kernel_schedule_result_take (cfg : Config) (k : Kernel) : Option (Kernel × Int) :=
  match k.pTask with
  | none => none
  | some pCurThread =>
    some (task_update k pCurThread (fun x =>
            { x with exec := { x.exec with entry := { x.exec.entry with result := cfg.PC_EOR_KERNEL } } }),
          (k.tasks pCurThread).exec.entry.result)

/-- The function `_impl_event_init`; the result is the descriptor claimed. -/
def _impl_event_init (cfg : Config) (k : Kernel) (anyMask modeMask dirMask init pName : Nat) :
    Option (Kernel × Option Nat) :=
  kernel_privilege_invoke none
    (some (fun k0 => some (_event_init_privilege_routine cfg k0 anyMask modeMask dirMask init pName)))
    k

/-- The function `_impl_event_set`. -/
def _impl_event_set (cfg : Config) (k : Kernel) (ctx set clear toggle : Nat) :
    Option (Kernel × Int) :=
  if _event_context_isInvalid cfg ctx then some (k, cfg.PC_EOR_EVENT)
  else if !_event_context_isInit k ctx then some (k, cfg.PC_EOR_EVENT)
  else kernel_privilege_invoke cfg.PC_EOR_KERNEL
    (some (fun k0 => some (_event_set_privilege_routine cfg k0 ctx set clear toggle))) k

/-- The function `_event_value_get_privilege_routine`.  The second component of
the result is `*pValue` as the routine leaves it; a null `pValue` is `none`, and
the routine writes through it without a test. -/
def _event_value_get_privilege_routine (k : Kernel) (e : Nat) (pValue : Option Nat) :
    Option (Kernel × Option Nat × Int) :=
  match pValue with
  | none => none
  | some _ => some (k, some (k.events e).value, 0)

/-- The function `_impl_event_value_get`. -/
def _impl_event_value_get (cfg : Config) (k : Kernel) (ctx : Nat) (pValue : Option Nat) :
    Option (Kernel × Option Nat × Int) :=
  if _event_context_isInvalid cfg ctx then some (k, pValue, cfg.PC_EOR_EVENT)
  else if !_event_context_isInit k ctx then some (k, pValue, cfg.PC_EOR_EVENT)
  else
    (kernel_privilege_invoke (pValue, cfg.PC_EOR_KERNEL)
      (some (fun k0 => _event_value_get_privilege_routine k0 ctx pValue)) k).map
      (fun res => (res.1, res.2.1, res.2.2))

/-- The function `_impl_event_wait` up to the return of the privileged routine:
the argument checks and the call through the privilege gate.  A null `pEvtData`
is `none`.  A caller that the routine has queued is switched out here. -/
def _impl_event_wait_invoke (cfg : Config) (k : Kernel) (ctx : Nat) (pEvtData : Option evt_val)
    (listen_mask timeout_ms : Nat) : Option (Kernel × Option evt_val × Int) :=
  if _event_context_isInvalid cfg ctx then some (k, pEvtData, cfg.PC_EOR_EVENT)
  else if !_event_context_isInit k ctx then some (k, pEvtData, cfg.PC_EOR_EVENT)
  else
    match pEvtData with
    | none => some (k, none, cfg.PC_EOR_EVENT)
    | some d =>
      if timeout_ms = 0 then some (k, some d, cfg.PC_EOR_EVENT)
      else if !kernel_isInThreadMode k then some (k, some d, cfg.PC_EOR_EVENT)
      else
        (kernel_privilege_invoke (d, cfg.PC_EOR_KERNEL)
          (some (fun k0 =>
            _event_wait_privilege_routine cfg k0 ctx { listen := listen_mask, pEvtVal := d }
              timeout_ms)) k).map
          (fun res => (res.1, some res.2.1, res.2.2))

/-- The rest of `_impl_event_wait`, which the caller executes when it runs on
after the privileged routine: the staged result is taken when the routine
answered `PC_OS_WAIT_UNAVAILABLE`, and every pass or info postcode other than
the timeout becomes 0. -/
def _impl_event_wait_result (cfg : Config) (k : Kernel) (postcode : Int) : Option (Kernel × Int) :=
  let taken :=
    if postcode = cfg.PC_OS_WAIT_UNAVAILABLE then kernel_schedule_result_take cfg k
    else some (k, postcode)
  taken.map (fun res =>
    (res.1,
     if cfg.PC_PASS_INFO res.2 then (if res.2 ≠ cfg.PC_OS_WAIT_TIMEOUT then 0 else res.2)
     else res.2))

/-- The function `_impl_event_wait` for a caller that runs on without being
switched out between the privileged routine and the rest of the function. -/
def _impl_event_wait (cfg : Config) (k : Kernel) (ctx : Nat) (pEvtData : Option evt_val)
    (listen_mask timeout_ms : Nat) : Option (Kernel × Option evt_val × Int) :=
  if _event_context_isInvalid cfg ctx then some (k, pEvtData, cfg.PC_EOR_EVENT)
  else if !_event_context_isInit k ctx then some (k, pEvtData, cfg.PC_EOR_EVENT)
  else
    match pEvtData with
    | none => some (k, none, cfg.PC_EOR_EVENT)
    | some d =>
      if timeout_ms = 0 then some (k, some d, cfg.PC_EOR_EVENT)
      else if !kernel_isInThreadMode k then some (k, some d, cfg.PC_EOR_EVENT)
      else
        match kernel_privilege_invoke (d, cfg.PC_EOR_KERNEL)
          (some (fun k0 =>
            _event_wait_privilege_routine cfg k0 ctx { listen := listen_mask, pEvtVal := d }
              timeout_ms)) k with
        | none => none
        | some res =>
          (_impl_event_wait_result cfg res.1 res.2.2).map
            (fun fin => (fin.1, some res.2.1, fin.2))

/-! ## Pend-switch (kernel.c) -/

/-- The body of the loop of `_schedule_exit` for one task of the exit list.  The
call of `timer_schedule` belongs to the absent timer.c and touches none of the
members modelled here. -/
def _schedule_exit_task (cfg : Config) (k : Kernel) (pCurTask : Nat) : Kernel :=
  let pExit := (k.tasks pCurTask).exec.exit
  let k1 :=
    if pExit.timeout_ms ≠ 0 then
      task_update k pCurTask (fun x =>
        { x with expire := timeout_set cfg x.expire pExit.timeout_ms false })
    else k
  let k2 :=
    match pExit.pToList with
    | some r => _schedule_transfer_toTargetList k1 pCurTask (some r)
    | none =>
      task_update (_schedule_transfer_toNullList k1 pCurTask) pCurTask
        (fun _ => schedule_task.zero)
  task_update k2 pCurTask (fun x =>
    { x with exec := { x.exec with exit := { pToList := none, timeout_ms := 0 },
                                   entry := { x.exec.entry with result := cfg.PC_EOR_KERNEL } } })

/-- The function `_schedule_exit`: the exit list is drained in list order. -/
def _schedule_exit (cfg : Config) (k : Kernel) (_ms : Nat) : Kernel :=
  k.sch_exit_list.foldl (_schedule_exit_task cfg) k

/-- The body of the loop of `_schedule_entry` for one task of the entry list. -/
def _schedule_entry_task (k : Kernel) (ms : Nat) (pCurTask : Nat) : Option Kernel :=
  let called :=
    match (k.tasks pCurTask).exec.entry.func with
    | some .event_schedule =>
      (_event_schedule k pCurTask).map (fun k1 =>
        task_update k1 pCurTask (fun x =>
          { x with exec := { x.exec with entry := { x.exec.entry with func := none } } }))
    | none => some k
  called.map (fun k1 =>
    _schedule_transfer_toPendList
      (task_update k1 pCurTask (fun x =>
        { x with pPendCtx := none,
                 exec := { x.exec with analyze := { x.exec.analyze with last_pend_ms := ms } } }))
      pCurTask)

/-- The loop of `_schedule_entry` over the tasks of the entry list. -/
def _schedule_entry_loop (ms : Nat) : List Nat → Kernel → Option Kernel
  | [], k => some k
  | t :: rest, k =>
    match _schedule_entry_task k ms t with
    | none => none
    | some k1 => _schedule_entry_loop ms rest k1

/-- The function `_schedule_entry`: the entry list is drained in list order. -/
def _schedule_entry (k : Kernel) (ms : Nat) : Option Kernel :=
  _schedule_entry_loop ms k.sch_entry_list k

/-- The loop of `_schedule_can_preempt` over the ready list. -/
def _schedule_can_preempt_loop (cfg : Config) (k : Kernel) (pCurrent : Option Nat) :
    List Nat → Bool
  | [] => true
  | pTmpTask :: rest =>
    if (k.tasks pTmpTask).prior ≥ 0 then true
    else if some pTmpTask = pCurrent then false
    else if (k.tasks pTmpTask).prior = cfg.OS_PRIOTITY_HIGHEST_LEVEL then true
    else _schedule_can_preempt_loop cfg k pCurrent rest

/-- The function `_schedule_can_preempt`. -/
def _schedule_can_preempt (cfg : Config) (k : Kernel) (pCurrent : Option Nat) : Bool :=
  _schedule_can_preempt_loop cfg k pCurrent k.sch_pend_list

/-- The function `_schedule_time_analyze`, on 32-bit counters. -/
def _schedule_time_analyze (k : Kernel) (pFrom pTo : Nat) (ms : Nat) : Kernel :=
  let k1 := task_update k pFrom (fun x =>
    { x with exec := { x.exec with analyze := { x.exec.analyze with
        last_run_ms := u32 (ms + (4294967296 - u32 x.exec.analyze.last_active_ms)) } } })
  let k2 := task_update k1 pFrom (fun x =>
    { x with exec := { x.exec with analyze := { x.exec.analyze with
        total_run_ms := u32 (x.exec.analyze.total_run_ms + x.exec.analyze.last_run_ms) } } })
  task_update k2 pTo (fun x =>
    { x with exec := { x.exec with analyze := { x.exec.analyze with last_active_ms := ms } } })

/-- The function `kernel_scheduler_inPendSV_c`; `ms` is the value read from
`timer_total_system_ms_get`.  The two outputs are the tasks whose `psp` member
`*ppCurPsp` and `*ppNextPSP` point to.  A switch with no running task or with an
empty ready list dereferences a null pointer. -/
def kernel_scheduler_inPendSV_c (cfg : Config) (k : Kernel) (ms : Nat) :
    Option (Kernel × Nat × Nat) :=
  match _schedule_entry (_schedule_exit cfg k ms) ms with
  | none => none
  | some k1 =>
    let pCurrent := k1.pTask
    let pNext := _schedule_nextTaskGet k1
    if _schedule_can_preempt cfg k1 pCurrent then
      match pCurrent, pNext with
      | some c, some n =>
        some ({ _schedule_time_analyze k1 c n ms with pTask := some n, pendsv_ms := ms }, c, n)
      | _, _ => none
    else
      match pCurrent with
      | some c => some (k1, c, c)
      | none => none

/-- The function `schedule_callback_fromTimeOut`. -/
def schedule_callback_fromTimeOut (cfg : Config) (k : Kernel) (t : Nat) : Kernel :=
  (schedule_entry_trigger cfg k t none cfg.PC_OS_WAIT_TIMEOUT).1

/-! ## The kernel as a transition system -/

/-- The members of a mutex descriptor other than its wait queue and its name. -/
def mutex_core (x : mutex_context_t) : Bool × Bool × Option Nat × Int :=
  (x.cs, x.locked, x.pHoldTask, x.originalPriority)

/-- The state with another running task: what `g_kernel_rsc.pTask` points to is
replaced and nothing else. -/
def with_pTask (k : Kernel) (p : Option Nat) : Kernel := { k with pTask := p }

/-- The calls and events that change the kernel state.  Which task runs next is
decided by the scheduler together with thread primitives (sleep, resume, yield)
that are not part of the sources at hand, and interrupts come and go with the
hardware; `dispatch` and `irq` therefore allow every choice. -/
inductive action where
  | mutex_init (pName : Nat)
  | mutex_lock (m : Nat)
  | mutex_unlock (m : Nat)
  | pendsv (ms : Nat)
  | timeout (t : Nat)
  | dispatch (t : Nat)
  | irq (b : Bool)
  deriving DecidableEq, Repr

/-- One step of the kernel; `none` when the call dereferences a null pointer. -/
def step (cfg : Config) (k : Kernel) : action → Option Kernel
  | .mutex_init pName => (_impl_mutex_init cfg k pName).map (fun x => x.1)
  | .mutex_lock m => (_impl_mutex_lock cfg k m).map (fun x => x.1)
  | .mutex_unlock m => (_impl_mutex_unlock cfg k m).map (fun x => x.1)
  | .pendsv ms => (kernel_scheduler_inPendSV_c cfg k ms).map (fun x => x.1)
  | .timeout t => some (schedule_callback_fromTimeOut cfg k t)
  | .dispatch t => some (with_pTask k (some t))
  | .irq b => some { k with inInterrupt := b }

/-- A sequence of steps. -/
def run (cfg : Config) : Kernel → List action → Option Kernel
  | k, [] => some k
  | k, a :: rest =>
    match step cfg k a with
    | none => none
    | some k1 => run cfg k1 rest

/-- The action is a call of mutex unlock. -/
def action.is_unlock : action → Bool
  | .mutex_unlock _ => true
  | _ => false

/-- A start state: no mutex descriptor is initialised yet and nothing is staged
for leaving the ready list. -/
def initial (k : Kernel) : Prop :=
  (∀ m, (k.mutexes m).cs = false) ∧ k.sch_exit_list = []

/-- The mutex-related part of a state: the priority of every task and, of every
mutex, the init marker, the lock flag, the holder and the recorded priority. -/
structure View where
  prior : Nat → Int
  core : Nat → Bool × Bool × Option Nat × Int

/-- The mutex-related part of a kernel state. -/
def view (k : Kernel) : View :=
  { prior := fun t => (k.tasks t).prior, core := fun m => mutex_core (k.mutexes m) }

/-- The effect of a mutex call on the mutex-related part of the state, for a
call that is not an unlock: nothing, a descriptor claimed by create, a free
mutex acquired by task `c`, or the holder `h` of a locked mutex inheriting from
the blocked caller `c`. -/
inductive quiet_effect (cfg : Config) (v : View) : View → Prop where
  | stay : quiet_effect cfg v v
  | create (m : Nat) (hm : m < cfg.MUTEX_INSTANCE_SUPPORTED_NUMBER)
      (hcs : (v.core m).1 = false) :
      quiet_effect cfg v
        { v with core := (Function.update v.core m
            (true, false, none, cfg.OS_PRIOTITY_INVALID_LEVEL)) }
  | acquire (m c : Nat) (hm : m < cfg.MUTEX_INSTANCE_SUPPORTED_NUMBER)
      (hcs : (v.core m).1 = true) (hfree : (v.core m).2.1 = false) :
      quiet_effect cfg v
        { v with core := Function.update v.core m (true, true, some c, v.prior c) }
  | block (m c h : Nat) (hm : m < cfg.MUTEX_INSTANCE_SUPPORTED_NUMBER)
      (hcs : (v.core m).1 = true) (hlocked : (v.core m).2.1 = true)
      (hhold : (v.core m).2.2.1 = some h) :
      quiet_effect cfg v
        { v with prior := Function.update v.prior h (min (v.prior h) (v.prior c)) }

/-- The effect of a mutex unlock that is not rejected: the holder `h` gets the
recorded priority back and the mutex is released, or handed to the waiter `w`
with the priority of `w` recorded. -/
inductive unlock_effect (cfg : Config) (v : View) (m : Nat) : View → Prop where
  | release (h : Nat) (hm : m < cfg.MUTEX_INSTANCE_SUPPORTED_NUMBER)
      (hcs : (v.core m).1 = true) (hhold : (v.core m).2.2.1 = some h) :
      unlock_effect cfg v m
        { prior := Function.update v.prior h (v.core m).2.2.2,
          core := (Function.update v.core m
            (true, false, none, cfg.OS_PRIOTITY_INVALID_LEVEL)) }
  | handoff (h w : Nat) (hm : m < cfg.MUTEX_INSTANCE_SUPPORTED_NUMBER)
      (hcs : (v.core m).1 = true) (hhold : (v.core m).2.2.1 = some h) :
      unlock_effect cfg v m
        { prior := Function.update v.prior h (v.core m).2.2.2,
          core := (Function.update v.core m
            (true, (v.core m).2.1, some w, Function.update v.prior h (v.core m).2.2.2 w)) }

/-- The lock flag of every initialised mutex says whether a holder is recorded. -/
def inv_locked (v : View) : Prop :=
  ∀ m, (v.core m).1 = true → ((v.core m).2.1 = true ↔ (v.core m).2.2.1 ≠ none)

/-- No priority is numerically above the stable priority of its task, and the
priority recorded in a held mutex is not above the stable priority of the holder. -/
def inv_below (stable : Nat → Int) (v : View) : Prop :=
  (∀ t, v.prior t ≤ stable t)
    ∧ (∀ m h, (v.core m).1 = true → (v.core m).2.2.1 = some h → (v.core m).2.2.2 ≤ stable h)

/-- With a single mutex descriptor: a task that is not the holder of the mutex has
its stable priority, and the priority recorded in the held mutex is the stable
priority of the holder. -/
def inv_single (stable : Nat → Int) (v : View) : Prop :=
  (∀ t, ¬ ((v.core 0).1 = true ∧ (v.core 0).2.2.1 = some t) → v.prior t = stable t)
    ∧ (∀ h, (v.core 0).1 = true → (v.core 0).2.2.1 = some h → (v.core 0).2.2.2 = stable h)

/-- The members of an event descriptor other than its wait queue and its name. -/
def event_core (x : event_context_t) : Bool × Nat × Nat × Nat × Nat × Nat :=
  (x.cs, x.value, x.triggered, x.anyMask, x.modeMask, x.dirMask)

/-- The calls of the event interface next to the steps of `action`.  The output
record handed to a wait is memory of the caller and may hold anything;
`result_take` is the call of `kernel_schedule_result_take` by which a caller
that was queued finishes its wait once it runs again. -/
inductive event_action where
  | kernel (a : action)
  | event_init (anyMask modeMask dirMask init pName : Nat)
  | event_set (e set clear toggle : Nat)
  | event_wait (e : Nat) (pEvtData : Option evt_val) (listen_mask timeout_ms : Nat)
  | result_take
  deriving DecidableEq, Repr

/-- One step of the kernel with the event calls; `none` when the call
dereferences a null pointer. -/
def event_step (cfg : Config) (k : Kernel) : event_action → Option Kernel
  | .kernel a => step cfg k a
  | .event_init anyMask modeMask dirMask init pName =>
    (_impl_event_init cfg k anyMask modeMask dirMask init pName).map (fun x => x.1)
  | .event_set e set clear toggle => (_impl_event_set cfg k e set clear toggle).map (fun x => x.1)
  | .event_wait e pEvtData listen_mask timeout_ms =>
    (_impl_event_wait_invoke cfg k e pEvtData listen_mask timeout_ms).map (fun x => x.1)
  | .result_take => (kernel_schedule_result_take cfg k).map (fun x => x.1)

/-- A sequence of steps with event calls. -/
def event_run (cfg : Config) : Kernel → List event_action → Option Kernel
  | k, [] => some k
  | k, a :: rest =>
    match event_step cfg k a with
    | none => none
    | some k1 => event_run cfg k1 rest

/-- The kernel after start-up: every task of the ready list is linked there and
only once, every other list is empty, and no mutex and no event descriptor is
initialised. -/
def boot (k : Kernel) : Prop :=
  (∀ e, (k.events e).cs = false ∧ (k.events e).q_list = [])
    ∧ (∀ m, (k.mutexes m).cs = false ∧ (k.mutexes m).q_list = [])
    ∧ k.sch_entry_list = [] ∧ k.sch_exit_list = [] ∧ k.sch_wait_list = []
    ∧ k.sch_pend_list.Nodup
    ∧ (∀ t ∈ k.sch_pend_list, (k.tasks t).linker.pList = some .pend)

/-- Every list is free of duplicates and the linker of every task of a list
records that list. -/
def linked (k : Kernel) : Prop :=
  (∀ r, (list_get k r).Nodup)
    ∧ (∀ r t, t ∈ list_get k r → (k.tasks t).linker.pList = some r)

/-- Every task in the wait queue of an event carries a waiter record whose
listen mask has no bit in common with the triggered latch of the event. -/
def waiters_unlatched (k : Kernel) : Prop :=
  ∀ e t, t ∈ (k.events e).q_list →
    ∃ d, (k.tasks t).pPendData = some d ∧ (k.events e).triggered &&& d.listen = 0

/-- The value and the latch of every initialised event are 32-bit words. -/
def events_u32 (k : Kernel) : Prop :=
  ∀ e, (k.events e).cs = true →
    (k.events e).value < 4294967296 ∧ (k.events e).triggered < 4294967296

/-- An event descriptor that differs from an earlier one at most in its wait
queue, its name and in bits that have left its latch. -/
def latch_shrunk (x x' : event_context_t) : Prop :=
  x'.cs = x.cs ∧ x'.value = x.value ∧ x'.anyMask = x.anyMask ∧ x'.modeMask = x.modeMask
    ∧ x'.dirMask = x.dirMask ∧ ∃ y, x'.triggered = x.triggered &&& y

/-- What every step other than event create and event set does to the lists,
the waiter records and the events: `linked` and `waiters_unlatched` carry over,
and every event keeps its value and masks while its latch can only lose bits. -/
def keeps (k k' : Kernel) : Prop :=
  (linked k → waiters_unlatched k → linked k' ∧ waiters_unlatched k')
    ∧ (∀ e, latch_shrunk (k.events e) (k'.events e))

/-- The invariant of the event model. -/
def event_inv (k : Kernel) : Prop :=
  linked k ∧ waiters_unlatched k ∧ events_u32 k ∧ k.sch_exit_list = []

/-- The listen mask in the waiter record of a task, 0 without a record. -/
def event_listen (k : Kernel) (t : Nat) : Nat :=
  match (k.tasks t).pPendData with
  | some d => d.listen
  | none => 0

/-- The waiters of a queue whose listen mask has a bit in common with the
trigger word. -/
def event_woken (k : Kernel) (trigger : Nat) (q : List Nat) : List Nat :=
  q.filter (fun t => trigger &&& event_listen k t ≠ 0)

/-- The union of `trigger & listen` over a list of waiters. -/
def event_reported (k : Kernel) (trigger : Nat) (q : List Nat) : Nat :=
  q.foldl (fun reported t => reported ||| (trigger &&& event_listen k t)) 0

/-- The body of the waiter loop of `_event_set_privilege_routine` for a waiter
that is reported to: the outputs are written into its waiter record and the
task goes to the entry list with result 0 and the callback `_event_schedule`. -/
def event_wake (cfg : Config) (val trigger : Nat) (k : Kernel) (t : Nat) : Kernel :=
  (schedule_entry_trigger cfg
    (task_update k t (fun x =>
      { x with pPendData := x.pPendData.map (fun d =>
          { d with pEvtVal := { value := val, trigger := trigger } }) }))
    t (some .event_schedule) 0).1

/-- A step that keeps the lists in agreement with the linkers and does not
change which task is the running one. -/
def carries (k k' : Kernel) : Prop :=
  (linked k → linked k') ∧ k'.pTask = k.pTask

/-- What the entry drain of a pend-switch at time `ms` makes of the record `x`
of a task of the entry list: the pending context and the callback are cleared,
`last_pend_ms` is the time of the switch and the linker records the ready list.
The one callback of the sources, `_event_schedule`, unlinks the deadline node
and, for a task with a waiter record, sets the entry result to 0; without a
callback the entry result, the waiter record and the deadline node are as
before. -/
def entry_drained (ms : Nat) (x y : schedule_task) : Prop :=
  y.pPendCtx = none ∧ y.exec.entry.func = none ∧ y.exec.analyze.last_pend_ms = ms
    ∧ y.linker.pList = some .pend
    ∧ y.exec.entry.result
        = (if x.exec.entry.func = some .event_schedule ∧ x.pPendData ≠ none then 0
           else x.exec.entry.result)
    ∧ (x.exec.entry.func = some .event_schedule → y.expire.linked = false)
    ∧ (x.exec.entry.func = none → y.pPendData = x.pPendData ∧ y.expire = x.expire)
    ∧ y.prior = x.prior ∧ y.exec.exit = x.exec.exit

/-- What the exit drain of a pend-switch makes of the record `x` of a task of
the exit list whose exit record names the target list `r`: the linker records
`r`, the exit record is cleared and the entry result is `PC_EOR`. -/
def exit_drained (cfg : Config) (r : list_ref) (x y : schedule_task) : Prop :=
  y.linker.pList = some r ∧ y.exec.exit = { pToList := none, timeout_ms := 0 }
    ∧ y.exec.entry.result = cfg.PC_EOR_KERNEL ∧ y.exec.entry.func = x.exec.entry.func
    ∧ y.pPendCtx = x.pPendCtx ∧ y.pPendData = x.pPendData ∧ y.prior = x.prior

/-- The list `r` is in priority order: non-decreasing numeric priority from the
head on. -/
def prior_sorted (k : Kernel) (r : list_ref) : Prop :=
  (list_get k r).Pairwise (fun x y => (k.tasks x).prior ≤ (k.tasks y).prior)

/-- The list that results when the tasks `ts` are put into the list `l` one
after the other, each by the sorted insert under the comparison of the
priorities `prior`. -/
def sorted_into (prior : Nat → Int) (l ts : List Nat) : List Nat :=
  ts.foldl (fun acc t => sorted_insert (fun cur new => decide (prior new < prior cur)) t acc) l

/-- Every list other than the entry list, to which tasks are appended, that is
in priority order before a step is in priority order after it. -/
def sorted_kept (k k' : Kernel) : Prop :=
  ∀ r, r ≠ .entry → prior_sorted k r → prior_sorted k' r

/-! ## Sample configuration and states -/

/-- A configuration with three mutex and three event descriptors, as in the
configuration template. -/
def sample_cfg : Config :=
  { OS_PRIOTITY_INVALID_LEVEL := 255, OS_PRIOTITY_HIGHEST_LEVEL := -128,
    OS_TIME_FOREVER_VAL := 4294967295, PC_EOR_KERNEL := -1, PC_EOR_MUTEX := -2,
    PC_EOR_EVENT := -3, PC_OS_WAIT_TIMEOUT := 1, PC_ERROR := fun p => decide (p < 0),
    MUTEX_INSTANCE_SUPPORTED_NUMBER := 3, EVENT_INSTANCE_SUPPORTED_NUMBER := 3,
    PC_OS_WAIT_UNAVAILABLE := 2, PC_PASS := fun p => decide (p = 0),
    PC_PASS_INFO := fun p => decide (0 ≤ p), SVC_KERNEL_INVOKE_NUMBER := 2 }

/-- A detached task of the given priority. -/
def sample_task (prior : Int) : schedule_task := { schedule_task.zero with prior := prior }

/-- A task of the given priority linked in the given list. -/
def sample_task_in (prior : Int) (r : list_ref) : schedule_task :=
  { schedule_task.zero with prior := prior, linker := { pList := some r } }

/-- An initialised, unlocked mutex. -/
def sample_mutex : mutex_context_t :=
  { cs := true, pName := 0, q_list := [], locked := false, pHoldTask := none,
    originalPriority := 255 }

/-- An event descriptor whose init marker is clear. -/
def sample_event : event_context_t :=
  { cs := false, pName := 0, q_list := [], value := 0, triggered := 0, anyMask := 0,
    modeMask := 0, dirMask := 0, pEvtCallEntry := none }

/-- Three ready tasks L = 0, M = 1 and H = 2 of priorities 5, 3 and 1, the ready
list in priority order, L running inside a privileged call, no mutex held. -/
def sample_kernel : Kernel :=
  { tasks := fun t => if t = 0 then sample_task_in 5 .pend else if t = 1 then sample_task_in 3 .pend
      else if t = 2 then sample_task_in 1 .pend else schedule_task.zero,
    mutexes := fun _ => sample_mutex,
    events := fun _ => sample_event,
    pTask := some 0, run := true, pendsv_ms := 0,
    sch_pend_list := [2, 1, 0], sch_entry_list := [], sch_exit_list := [], sch_wait_list := [],
    inInterrupt := true, pendSV := false }

/-- The order the spec gives to every scheduler list ("lower numeric priority
wins, FIFO on ties"): the new task goes after every task whose priority is
numerically less than or equal to its own, and before the first other one. -/
def spec_priority_insert (prior : Nat → Int) (new : Nat) : List Nat → List Nat
  | [] => [new]
  | cur :: rest =>
    if prior cur ≤ prior new then cur :: spec_priority_insert prior new rest
    else new :: cur :: rest

/-- Mutex 0 is held by L = 0, M = 1 of priority 3 waits for it, and H = 2 of
priority 1 is running and M, H and L are the only tasks. -/
def sample_contended : Kernel :=
  { sample_kernel with
    tasks := fun t => if t = 0 then sample_task_in 5 .pend
      else if t = 1 then { sample_task_in 3 (.mutex 0) with pPendCtx := some (.mutex 0) }
      else if t = 2 then sample_task_in 1 .pend else schedule_task.zero,
    mutexes := fun m => if m = 0 then
        { sample_mutex with locked := true, pHoldTask := some 0, originalPriority := 5,
                            q_list := [1] }
      else sample_mutex,
    pTask := some 2,
    sch_pend_list := [2, 0] }

/-- A start state: the tasks L = 0, M = 1 and H = 2 of priorities 5, 3 and 1 are
ready, L runs in thread mode, and no mutex descriptor is initialised. -/
def sample_init : Kernel :=
  { sample_kernel with
    mutexes := fun _ => { sample_mutex with cs := false },
    inInterrupt := false }

/-- The sample configuration with a single mutex descriptor. -/
def sample_cfg_single : Config := { sample_cfg with MUTEX_INSTANCE_SUPPORTED_NUMBER := 1 }

/-- The priority-inversion scenario with the ready list in the order of the spec
(lower numeric priority first): L = 0 of priority 5 holds mutex 0, M = 1 of
priority 3 is ready, and H = 2 of priority 1 is running inside its lock call. -/
def sample_inversion : Kernel :=
  { sample_kernel with
    mutexes := fun m => if m = 0 then
        { sample_mutex with locked := true, pHoldTask := some 0, originalPriority := 5 }
      else sample_mutex,
    pTask := some 2,
    sch_pend_list := [2, 1, 0] }

/-- The scenario after the lock call of H: L = 0 holds mutex 0 and runs with the
inherited priority 1 at the head of the ready list, M = 1 is ready behind it
and H = 2 waits for the mutex. -/
def sample_inversion_unlock : Kernel :=
  { sample_kernel with
    tasks := fun t => if t = 0 then sample_task_in 1 .pend
      else if t = 1 then sample_task_in 3 .pend
      else if t = 2 then { sample_task_in 1 (.mutex 0) with pPendCtx := some (.mutex 0) }
      else schedule_task.zero,
    mutexes := fun m => if m = 0 then
        { sample_mutex with locked := true, pHoldTask := some 0, originalPriority := 5,
                            q_list := [2] }
      else sample_mutex,
    pTask := some 0,
    sch_pend_list := [0, 1] }

/-- An edge-mode event with rising direction on its low four bits, value 0. -/
def sample_edge_event : event_context_t :=
  { cs := true, pName := 0, q_list := [], value := 0, triggered := 0, anyMask := 0,
    modeMask := 15, dirMask := 15, pEvtCallEntry := none }

/-- The sample state with event 0 an edge-mode event on which task 1 waits with
listen mask 1. -/
def sample_event_kernel : Kernel :=
  { sample_kernel with
    tasks := fun t => if t = 0 then sample_task_in 5 .pend
      else if t = 1 then
        { sample_task_in 3 (.event 0) with
          pPendCtx := some (.event 0),
          pPendData := some { listen := 1, pEvtVal := { value := 0, trigger := 0 } } }
      else if t = 2 then sample_task_in 1 .pend else schedule_task.zero,
    events := fun e => if e = 0 then { sample_edge_event with q_list := [1] } else sample_event,
    sch_pend_list := [2, 0] }

/-- The sample state with event 0 an edge-mode event on which task 1 waits with
listen mask 1 and task 2 with listen mask 2, both having seen the value 0, and
task 0 running in handler mode. -/
def sample_two_waiters : Kernel :=
  { sample_kernel with
    tasks := fun t => if t = 0 then sample_task_in 5 .pend
      else if t = 1 then
        { sample_task_in 3 (.event 0) with
          pPendCtx := some (.event 0),
          pPendData := some { listen := 1, pEvtVal := { value := 0, trigger := 0 } } }
      else if t = 2 then
        { sample_task_in 1 (.event 0) with
          pPendCtx := some (.event 0),
          pPendData := some { listen := 2, pEvtVal := { value := 0, trigger := 0 } } }
      else schedule_task.zero,
    events := fun e => if e = 0 then { sample_edge_event with q_list := [1, 2] } else sample_event,
    sch_pend_list := [0] }

/-- A level-mode event with high polarity on its low four bits, value 0. -/
def sample_level_event : event_context_t :=
  { sample_edge_event with modeMask := 0 }

/-- The sample state in thread mode with event 0 a level-mode event of the given
value and latch, and no waiter. -/
def sample_level_kernel (value triggered : Nat) : Kernel :=
  { sample_kernel with
    events := fun e => if e = 0 then { sample_level_event with value := value, triggered := triggered }
      else sample_event,
    inInterrupt := false }

/-- The sample state in thread mode with event 0 an edge-mode event of the given
value and latch, and no waiter. -/
def sample_edge_kernel (value triggered : Nat) : Kernel :=
  { sample_kernel with
    events := fun e => if e = 0 then { sample_edge_event with value := value, triggered := triggered }
      else sample_event,
    inInterrupt := false }

/-- Two tasks of negative priority: task 0 of priority -5 is running and ready,
task 1 of priority -1 has been woken and stands in the entry list. -/
def sample_woken : Kernel :=
  { sample_kernel with
    tasks := fun t => if t = 0 then sample_task_in (-5) .pend
      else if t = 1 then sample_task_in (-1) .entry else schedule_task.zero,
    sch_pend_list := [0], sch_entry_list := [1] }

/-- Task 0 is running and ready; task 1 is staged in the exit list with the wait
queue of the edge-mode event 0 as target and a timeout of 10 ms; task 2, last
blocked on mutex 0, is staged in the entry list with result 0 and no callback. -/
def sample_staged : Kernel :=
  { sample_kernel with
    tasks := fun t => if t = 0 then sample_task_in 5 .pend
      else if t = 1 then
        { sample_task_in 3 .exit with
          pPendCtx := some (.event 0),
          pPendData := some { listen := 1, pEvtVal := { value := 0, trigger := 0 } },
          exec := { schedule_task.zero.exec with
            exit := { pToList := some (.event 0), timeout_ms := 10 } } }
      else if t = 2 then { sample_task_in 1 .entry with pPendCtx := some (.mutex 0) }
      else schedule_task.zero,
    events := fun e => if e = 0 then sample_edge_event else sample_event,
    sch_pend_list := [0], sch_entry_list := [2], sch_exit_list := [1] }

/-- Two ready tasks of negative priority in the order of the spec (lower numeric
priority first): task 0 of priority -5 and task 1 of priority -1, which is the
running task. -/
def sample_coop : Kernel :=
  { sample_kernel with
    tasks := fun t => if t = 0 then sample_task_in (-5) .pend
      else if t = 1 then sample_task_in (-1) .pend else schedule_task.zero,
    pTask := some 1,
    sch_pend_list := [0, 1] }

/-- L = 0 holds mutex 0 and is the running task, in thread mode; nobody waits. -/
def sample_relock : Kernel :=
  { sample_kernel with
    mutexes := fun m => if m = 0 then
        { sample_mutex with locked := true, pHoldTask := some 0, originalPriority := 5 }
      else sample_mutex,
    inInterrupt := false }

/-- A start state with three tasks of negative priority: the tasks 2, 1 and 0
of priorities -9, -5 and -1 are ready in this order, task 0 runs in thread
mode, and no descriptor is initialised. -/
def sample_three_coop : Kernel :=
  { sample_init with
    tasks := fun t => if t = 0 then sample_task_in (-1) .pend
      else if t = 1 then sample_task_in (-5) .pend
      else if t = 2 then sample_task_in (-9) .pend else schedule_task.zero,
    sch_pend_list := [2, 1, 0] }

/-! ## Theorems -/

/-- C1: locking a mutex that is not locked succeeds without blocking.  The
routine returns 0, the mutex is locked, its holder is the running task, the
recorded original priority is the priority of the caller at the call, and no
task (so not the priority of the caller either) and no list changes. -/
theorem mutex_lock_unlocked (cfg : Config) (k : Kernel) (m t : Nat)
    (hrun : k.pTask = some t) (hfree : (k.mutexes m).locked = false) :
    ∃ k', _mutex_lock_privilege_routine cfg k m = some (k', 0)
      ∧ (k'.mutexes m).locked = true
      ∧ (k'.mutexes m).pHoldTask = some t
      ∧ (k'.mutexes m).originalPriority = (k.tasks t).prior
      ∧ k'.tasks = k.tasks
      ∧ (∀ r, list_get k' r = list_get k r)
      ∧ k'.pTask = k.pTask := by
  refine ⟨mutex_update k m (fun x =>
    { x with pHoldTask := some t, originalPriority := (k.tasks t).prior, locked := true }),
    ?_, ?_, ?_, ?_, ?_, ?_, ?_⟩
  · simp [_mutex_lock_privilege_routine, hrun, hfree]
  · simp [mutex_update]
  · simp [mutex_update]
  · simp [mutex_update]
  · rfl
  · intro r
    cases r <;> simp [list_get, mutex_update]
    rename_i m'
    by_cases h : m' = m
    · subst h; simp
    · simp [Function.update_noteq h]
  · rfl

/-- C1 witness: task 0 of priority 5 locks the free mutex 0. -/
theorem mutex_lock_unlocked_witness :
    ∃ k', _mutex_lock_privilege_routine sample_cfg sample_kernel 0 = some (k', 0)
      ∧ (k'.mutexes 0).locked = true
      ∧ (k'.mutexes 0).pHoldTask = some 0
      ∧ (k'.mutexes 0).originalPriority = (sample_kernel.tasks 0).prior
      ∧ k'.tasks = sample_kernel.tasks
      ∧ (∀ r, list_get k' r = list_get sample_kernel r)
      ∧ k'.pTask = sample_kernel.pTask :=
  mutex_lock_unlocked sample_cfg sample_kernel 0 0 rfl rfl

/-! ### Frame lemmas for the list transactions -/

theorem list_get_list_set_same (k : Kernel) (r : list_ref) (l : List Nat) :
    list_get (list_set k r l) r = l := by
  cases r <;> simp [list_get, list_set, mutex_update, event_update]

theorem list_get_list_set_ne (k : Kernel) (r r' : list_ref) (l : List Nat) (h : r' ≠ r) :
    list_get (list_set k r l) r' = list_get k r' := by
  cases r <;> cases r' <;> simp_all [list_get, list_set, mutex_update, event_update]

theorem list_set_tasks (k : Kernel) (r : list_ref) (l : List Nat) :
    (list_set k r l).tasks = k.tasks := by
  cases r <;> rfl

theorem list_get_task_update (k : Kernel) (t : Nat) (f : schedule_task → schedule_task)
    (r : list_ref) : list_get (task_update k t f) r = list_get k r := by
  cases r <;> rfl

theorem sorted_insert_split (pred : Nat → Nat → Bool) (new : Nat) (l : List Nat) :
    ∃ pre post, l = pre ++ post ∧ sorted_insert pred new l = pre ++ new :: post
      ∧ (∀ x ∈ pre, pred x new = false)
      ∧ (∀ x, post.head? = some x → pred x new = true) := by
  induction l with
  | nil => exact ⟨[], [], rfl, rfl, by simp, by simp⟩
  | cons cur rest ih =>
    by_cases hp : pred cur new = true
    · refine ⟨[], cur :: rest, rfl, by simp [sorted_insert, hp], by simp, ?_⟩
      intro x hx
      simp at hx
      subst hx
      exact hp
    · obtain ⟨pre, post, h1, h2, h3, h4⟩ := ih
      refine ⟨cur :: pre, post, by simp [h1], by simp [sorted_insert, hp, h2], ?_, h4⟩
      intro x hx
      rcases List.mem_cons.mp hx with rfl | hx
      · simpa using hp
      · exact h3 x hx

/-- The sorted insert with a priority comparison as predicate, into a list in
non-decreasing priority: the list stays in non-decreasing priority, the new
node stands behind every node of priority less than or equal to its own and
before every node of greater priority. -/
theorem sorted_insert_asc (prior : Nat → Int) (new : Nat) (l : List Nat)
    (hs : l.Pairwise (fun x y => prior x ≤ prior y)) :
    ∃ pre post, l = pre ++ post
      ∧ sorted_insert (fun cur n => decide (prior n < prior cur)) new l = pre ++ new :: post
      ∧ (∀ x ∈ pre, prior x ≤ prior new)
      ∧ (∀ x ∈ post, prior new < prior x)
      ∧ (pre ++ new :: post).Pairwise (fun x y => prior x ≤ prior y) := by
  obtain ⟨pre, post, h1, h2, h3, h4⟩ :=
    sorted_insert_split (fun cur n => decide (prior n < prior cur)) new l
  have hpre : ∀ x ∈ pre, prior x ≤ prior new := by
    intro x hx
    have := h3 x hx
    simp only [decide_eq_false_iff_not, not_lt] at this
    exact this
  rw [h1] at hs
  obtain ⟨hs1, hs2, hs3⟩ := List.pairwise_append.mp hs
  have hpost : ∀ x ∈ post, prior new < prior x := by
    intro x hx
    cases post with
    | nil => exact absurd hx (List.not_mem_nil _)
    | cons a rest =>
      have ha : prior new < prior a := by
        have := h4 a rfl
        simpa using this
      rcases List.mem_cons.mp hx with rfl | hx
      · exact ha
      · exact lt_of_lt_of_le ha ((List.pairwise_cons.mp hs2).1 x hx)
  refine ⟨pre, post, h1, h2, hpre, hpost, ?_⟩
  rw [List.pairwise_append]
  refine ⟨hs1, List.pairwise_cons.mpr ⟨fun x hx => le_of_lt (hpost x hx), hs2⟩, ?_⟩
  intro a ha b hb
  rcases List.mem_cons.mp hb with rfl | hb
  · exact hpre a ha
  · exact hs3 a ha b hb

theorem list_set_mutex_core (k : Kernel) (r : list_ref) (l : List Nat) (m : Nat) :
    mutex_core ((list_set k r l).mutexes m) = mutex_core (k.mutexes m) := by
  cases r <;> simp [list_set, mutex_update, event_update]
  rename_i m'
  by_cases h : m = m'
  · subst h; simp [mutex_core]
  · simp [Function.update_noteq h]

theorem linker_unlink_tasks (k : Kernel) (t : Nat) : (linker_unlink k t).tasks = k.tasks := by
  unfold linker_unlink
  split
  · rfl
  · exact list_set_tasks _ _ _

theorem linker_unlink_mutex_core (k : Kernel) (t m : Nat) :
    mutex_core ((linker_unlink k t).mutexes m) = mutex_core (k.mutexes m) := by
  unfold linker_unlink
  split
  · rfl
  · exact list_set_mutex_core _ _ _ _

theorem linker_unlink_list_get (k : Kernel) (t : Nat) (r : list_ref) :
    list_get (linker_unlink k t) r
      = if (k.tasks t).linker.pList = some r then (list_get k r).erase t else list_get k r := by
  unfold linker_unlink
  split
  · rename_i h; simp [h]
  · rename_i r0 h
    by_cases hr : r0 = r
    · subst hr; simp [h, list_get_list_set_same, list_node_delete]
    · have hne : r ≠ r0 := fun e => hr e.symm
      simp [h, hr, list_get_list_set_ne _ _ _ _ hne]

theorem linker_unlink_pTask (k : Kernel) (t : Nat) : (linker_unlink k t).pTask = k.pTask := by
  unfold linker_unlink
  split
  · rfl
  · rename_i r0 h; cases r0 <;> rfl

theorem list_set_pTask (k : Kernel) (r : list_ref) (l : List Nat) :
    (list_set k r l).pTask = k.pTask := by
  cases r <;> rfl

theorem transaction_specific_prior (k : Kernel) (t : Nat) (r : list_ref)
    (f : Kernel → Option Nat → Option Nat → Bool) (x : Nat) :
    ((linker_list_transaction_specific k t r f).tasks x).prior = (k.tasks x).prior := by
  simp only [linker_list_transaction_specific, linker_set_pList, task_update, list_set_tasks,
    linker_unlink_tasks]
  by_cases h : x = t
  · subst h; simp
  · simp [Function.update_noteq h]

theorem transaction_specific_task (k : Kernel) (t : Nat) (r : list_ref)
    (f : Kernel → Option Nat → Option Nat → Bool) :
    (linker_list_transaction_specific k t r f).tasks
      = Function.update k.tasks t { k.tasks t with linker := { pList := some r } } := by
  simp only [linker_list_transaction_specific, linker_set_pList, task_update, list_set_tasks,
    linker_unlink_tasks]

theorem transaction_specific_mutex_core (k : Kernel) (t : Nat) (r : list_ref)
    (f : Kernel → Option Nat → Option Nat → Bool) (m : Nat) :
    mutex_core ((linker_list_transaction_specific k t r f).mutexes m) = mutex_core (k.mutexes m) := by
  simp only [linker_list_transaction_specific, linker_set_pList, task_update]
  rw [list_set_mutex_core, linker_unlink_mutex_core]

theorem transaction_specific_target (k : Kernel) (t : Nat) (r : list_ref)
    (f : Kernel → Option Nat → Option Nat → Bool) :
    list_get (linker_list_transaction_specific k t r f) r
      = sorted_insert (fun cur new => f (linker_unlink k t) (some cur) (some new)) t
          (list_get (linker_unlink k t) r) := by
  simp only [linker_list_transaction_specific, linker_set_pList, list_get_task_update,
    list_get_list_set_same]

theorem transaction_specific_other (k : Kernel) (t : Nat) (r r' : list_ref)
    (f : Kernel → Option Nat → Option Nat → Bool) (h : r' ≠ r) :
    list_get (linker_list_transaction_specific k t r f) r' = list_get (linker_unlink k t) r' := by
  simp only [linker_list_transaction_specific, linker_set_pList, list_get_task_update,
    list_get_list_set_ne _ _ _ _ h]

theorem transaction_specific_pTask (k : Kernel) (t : Nat) (r : list_ref)
    (f : Kernel → Option Nat → Option Nat → Bool) :
    (linker_list_transaction_specific k t r f).pTask = k.pTask := by
  simp only [linker_list_transaction_specific, linker_set_pList, task_update, list_set_pTask,
    linker_unlink_pTask]

theorem schedule_request_fst (cfg : Config) (k : Kernel) :
    (kernel_thread_schedule_request cfg k).1
      = if k.inInterrupt then { k with pendSV := true } else k := by
  unfold kernel_thread_schedule_request
  cases k.inInterrupt <;> simp

theorem schedule_request_tasks (cfg : Config) (k : Kernel) :
    (kernel_thread_schedule_request cfg k).1.tasks = k.tasks := by
  rw [schedule_request_fst]; split <;> rfl

theorem schedule_request_mutexes (cfg : Config) (k : Kernel) :
    (kernel_thread_schedule_request cfg k).1.mutexes = k.mutexes := by
  rw [schedule_request_fst]; split <;> rfl

theorem schedule_request_pTask (cfg : Config) (k : Kernel) :
    (kernel_thread_schedule_request cfg k).1.pTask = k.pTask := by
  rw [schedule_request_fst]; split <;> rfl

theorem schedule_request_list_get (cfg : Config) (k : Kernel) (r : list_ref) :
    list_get (kernel_thread_schedule_request cfg k).1 r = list_get k r := by
  rw [schedule_request_fst]; split <;> cases r <;> rfl

theorem compare_condition_eq (k : Kernel) (cur new : Nat) :
    _schedule_priority_node_order_compare_condition k (some cur) (some new)
      = decide ((k.tasks new).prior < (k.tasks cur).prior) := by
  unfold _schedule_priority_node_order_compare_condition
  by_cases h : (k.tasks cur).prior ≤ (k.tasks new).prior
  · simp [h]
  · simp [h]; omega

/-- The state a blocking call leaves behind, without the schedule request. -/
theorem exit_trigger_immediately (cfg : Config) (k : Kernel) (t : Nat) (ctx : Option ctx_ref)
    (data : Option event_sch_t) (r : list_ref) (ms : Nat) :
    (schedule_exit_trigger cfg k t ctx data (some r) ms true).1
      = (kernel_thread_schedule_request cfg
          (linker_list_transaction_specific
            (task_update k t (fun x => { x with pPendCtx := ctx, pPendData := data,
                                                expire := timeout_set cfg x.expire ms true }))
            t r _schedule_priority_node_order_compare_condition)).1 := by
  simp [schedule_exit_trigger, _schedule_transfer_toTargetList, task_update]

theorem exit_trigger_prior (cfg : Config) (k : Kernel) (t : Nat) (ctx : Option ctx_ref)
    (data : Option event_sch_t) (r : list_ref) (ms : Nat) (x : Nat) :
    (((schedule_exit_trigger cfg k t ctx data (some r) ms true).1).tasks x).prior
      = (k.tasks x).prior := by
  rw [exit_trigger_immediately, schedule_request_tasks, transaction_specific_prior]
  by_cases h : x = t
  · subst h; simp [task_update]
  · simp [task_update, Function.update_noteq h]

theorem exit_trigger_task_self (cfg : Config) (k : Kernel) (t : Nat) (ctx : Option ctx_ref)
    (data : Option event_sch_t) (r : list_ref) (ms : Nat) :
    ((schedule_exit_trigger cfg k t ctx data (some r) ms true).1).tasks t
      = { k.tasks t with pPendCtx := ctx, pPendData := data,
                         expire := timeout_set cfg (k.tasks t).expire ms true,
                         linker := { pList := some r } } := by
  rw [exit_trigger_immediately, schedule_request_tasks, transaction_specific_task]
  simp [task_update]

theorem exit_trigger_task_other (cfg : Config) (k : Kernel) (t : Nat) (ctx : Option ctx_ref)
    (data : Option event_sch_t) (r : list_ref) (ms : Nat) (x : Nat) (h : x ≠ t) :
    ((schedule_exit_trigger cfg k t ctx data (some r) ms true).1).tasks x = k.tasks x := by
  rw [exit_trigger_immediately, schedule_request_tasks, transaction_specific_task]
  simp [task_update, Function.update_noteq h]

theorem exit_trigger_mutex_core (cfg : Config) (k : Kernel) (t : Nat) (ctx : Option ctx_ref)
    (data : Option event_sch_t) (r : list_ref) (ms : Nat) (m : Nat) :
    mutex_core (((schedule_exit_trigger cfg k t ctx data (some r) ms true).1).mutexes m)
      = mutex_core (k.mutexes m) := by
  rw [exit_trigger_immediately, schedule_request_mutexes, transaction_specific_mutex_core]
  rfl

theorem exit_trigger_pTask (cfg : Config) (k : Kernel) (t : Nat) (ctx : Option ctx_ref)
    (data : Option event_sch_t) (r : list_ref) (ms : Nat) :
    ((schedule_exit_trigger cfg k t ctx data (some r) ms true).1).pTask = k.pTask := by
  rw [exit_trigger_immediately, schedule_request_pTask, transaction_specific_pTask]
  rfl

theorem task_update_self (k : Kernel) (t : Nat) (f : schedule_task → schedule_task) :
    (task_update k t f).tasks t = f (k.tasks t) := by
  simp [task_update]

theorem task_update_other (k : Kernel) (t x : Nat) (f : schedule_task → schedule_task)
    (h : x ≠ t) : (task_update k t f).tasks x = k.tasks x := by
  simp [task_update, Function.update_noteq h]

theorem task_update_prior (k : Kernel) (t x : Nat) (f : schedule_task → schedule_task)
    (hf : (f (k.tasks t)).prior = (k.tasks t).prior) :
    ((task_update k t f).tasks x).prior = (k.tasks x).prior := by
  by_cases h : x = t
  · subst h; rw [task_update_self, hf]
  · rw [task_update_other _ _ _ _ h]

theorem exit_trigger_target (cfg : Config) (k : Kernel) (t : Nat) (ctx : Option ctx_ref)
    (data : Option event_sch_t) (r : list_ref) (ms : Nat) :
    list_get (schedule_exit_trigger cfg k t ctx data (some r) ms true).1 r
      = sorted_insert (fun cur new => decide ((k.tasks new).prior < (k.tasks cur).prior)) t
          (if (k.tasks t).linker.pList = some r then (list_get k r).erase t else list_get k r) := by
  rw [exit_trigger_immediately, schedule_request_list_get, transaction_specific_target,
    linker_unlink_list_get]
  simp only [compare_condition_eq, linker_unlink_tasks, list_get_task_update, task_update_self]
  congr 1
  funext cur new
  rw [task_update_prior _ _ _ _ rfl, task_update_prior _ _ _ _ rfl]

theorem exit_trigger_other_list (cfg : Config) (k : Kernel) (t : Nat) (ctx : Option ctx_ref)
    (data : Option event_sch_t) (r r' : list_ref) (ms : Nat) (h : r' ≠ r) :
    list_get (schedule_exit_trigger cfg k t ctx data (some r) ms true).1 r'
      = if (k.tasks t).linker.pList = some r' then (list_get k r').erase t else list_get k r' := by
  rw [exit_trigger_immediately, schedule_request_list_get,
    transaction_specific_other _ _ _ _ _ h, linker_unlink_list_get]
  simp only [list_get_task_update, task_update_self]

theorem transaction_common_tasks (k : Kernel) (t : Nat) (r : Option list_ref)
    (d : list_direction_t) :
    (linker_list_transaction_common k t r d).tasks
      = Function.update k.tasks t { k.tasks t with linker := { pList := r } } := by
  cases r <;>
    simp only [linker_list_transaction_common, linker_set_pList, task_update, list_set_tasks,
      linker_unlink_tasks]

theorem transaction_common_mutex_core (k : Kernel) (t : Nat) (r : Option list_ref)
    (d : list_direction_t) (m : Nat) :
    mutex_core ((linker_list_transaction_common k t r d).mutexes m) = mutex_core (k.mutexes m) := by
  cases r with
  | none =>
    simp only [linker_list_transaction_common, linker_set_pList, task_update]
    rw [linker_unlink_mutex_core]
  | some r =>
    simp only [linker_list_transaction_common, linker_set_pList, task_update]
    rw [list_set_mutex_core, linker_unlink_mutex_core]

theorem transaction_common_target (k : Kernel) (t : Nat) (r : list_ref) (d : list_direction_t) :
    list_get (linker_list_transaction_common k t (some r) d) r
      = list_node_push (list_get (linker_unlink k t) r) t d := by
  simp only [linker_list_transaction_common, linker_set_pList, list_get_task_update,
    list_get_list_set_same]

theorem transaction_common_other (k : Kernel) (t : Nat) (r r' : list_ref) (d : list_direction_t)
    (h : r' ≠ r) :
    list_get (linker_list_transaction_common k t (some r) d) r' = list_get (linker_unlink k t) r' := by
  simp only [linker_list_transaction_common, linker_set_pList, list_get_task_update,
    list_get_list_set_ne _ _ _ _ h]

theorem transaction_common_pTask (k : Kernel) (t : Nat) (r : Option list_ref)
    (d : list_direction_t) : (linker_list_transaction_common k t r d).pTask = k.pTask := by
  cases r <;>
    simp only [linker_list_transaction_common, linker_set_pList, task_update, list_set_pTask,
      linker_unlink_pTask]

/-- The state a wake-up leaves behind, without the schedule request. -/
theorem entry_trigger_fst (cfg : Config) (k : Kernel) (t : Nat) (cb : Option callback)
    (res : Int) :
    (schedule_entry_trigger cfg k t cb res).1
      = (kernel_thread_schedule_request cfg
          (linker_list_transaction_common
            (task_update k t (fun x =>
              { x with exec := { x.exec with entry := { result := res, func := cb } } }))
            t (some .entry) .LIST_TAIL)).1 := rfl

theorem entry_trigger_prior (cfg : Config) (k : Kernel) (t : Nat) (cb : Option callback)
    (res : Int) (x : Nat) :
    (((schedule_entry_trigger cfg k t cb res).1).tasks x).prior = (k.tasks x).prior := by
  rw [entry_trigger_fst, schedule_request_tasks, transaction_common_tasks]
  by_cases h : x = t
  · subst h; simp [task_update]
  · simp [task_update, Function.update_noteq h]

theorem entry_trigger_task_self (cfg : Config) (k : Kernel) (t : Nat) (cb : Option callback)
    (res : Int) :
    ((schedule_entry_trigger cfg k t cb res).1).tasks t
      = { k.tasks t with exec := { (k.tasks t).exec with entry := { result := res, func := cb } },
                         linker := { pList := some .entry } } := by
  rw [entry_trigger_fst, schedule_request_tasks, transaction_common_tasks]
  simp [task_update]

theorem entry_trigger_task_other (cfg : Config) (k : Kernel) (t : Nat) (cb : Option callback)
    (res : Int) (x : Nat) (h : x ≠ t) :
    ((schedule_entry_trigger cfg k t cb res).1).tasks x = k.tasks x := by
  rw [entry_trigger_fst, schedule_request_tasks, transaction_common_tasks]
  simp [task_update, Function.update_noteq h]

theorem entry_trigger_mutex_core (cfg : Config) (k : Kernel) (t : Nat) (cb : Option callback)
    (res : Int) (m : Nat) :
    mutex_core (((schedule_entry_trigger cfg k t cb res).1).mutexes m) = mutex_core (k.mutexes m) := by
  rw [entry_trigger_fst, schedule_request_mutexes, transaction_common_mutex_core]
  rfl

theorem entry_trigger_pTask (cfg : Config) (k : Kernel) (t : Nat) (cb : Option callback)
    (res : Int) : ((schedule_entry_trigger cfg k t cb res).1).pTask = k.pTask := by
  rw [entry_trigger_fst, schedule_request_pTask, transaction_common_pTask]
  rfl

theorem entry_trigger_entry_list (cfg : Config) (k : Kernel) (t : Nat) (cb : Option callback)
    (res : Int) :
    list_get (schedule_entry_trigger cfg k t cb res).1 .entry
      = (if (k.tasks t).linker.pList = some .entry then (list_get k .entry).erase t
          else list_get k .entry) ++ [t] := by
  rw [entry_trigger_fst, schedule_request_list_get, transaction_common_target,
    linker_unlink_list_get]
  simp only [list_get_task_update, task_update_self, list_node_push]

theorem entry_trigger_other_list (cfg : Config) (k : Kernel) (t : Nat) (cb : Option callback)
    (res : Int) (r : list_ref) (h : r ≠ .entry) :
    list_get (schedule_entry_trigger cfg k t cb res).1 r
      = if (k.tasks t).linker.pList = some r then (list_get k r).erase t else list_get k r := by
  rw [entry_trigger_fst, schedule_request_list_get, transaction_common_other _ _ _ _ _ h,
    linker_unlink_list_get]
  simp only [list_get_task_update, task_update_self]

/-! ### The wake-up path does not consult the running task -/

theorem list_set_with_pTask (k : Kernel) (p : Option Nat) (r : list_ref) (l : List Nat) :
    list_set (with_pTask k p) r l = with_pTask (list_set k r l) p := by
  cases r <;> rfl

theorem linker_unlink_with_pTask (k : Kernel) (p : Option Nat) (t : Nat) :
    linker_unlink (with_pTask k p) t = with_pTask (linker_unlink k t) p := by
  unfold linker_unlink
  show (match (k.tasks t).linker.pList with
    | none => with_pTask k p
    | some r => list_set (with_pTask k p) r (list_node_delete (list_get (with_pTask k p) r) t)) = _
  cases (k.tasks t).linker.pList with
  | none => rfl
  | some r =>
    have e : list_get (with_pTask k p) r = list_get k r := by cases r <;> rfl
    simp only [e, list_set_with_pTask]

theorem transaction_common_with_pTask (k : Kernel) (p : Option Nat) (t : Nat)
    (r : Option list_ref) (d : list_direction_t) :
    linker_list_transaction_common (with_pTask k p) t r d
      = with_pTask (linker_list_transaction_common k t r d) p := by
  unfold linker_list_transaction_common
  simp only [linker_unlink_with_pTask]
  cases r with
  | none => rfl
  | some r =>
    have e : list_get (with_pTask (linker_unlink k t) p) r = list_get (linker_unlink k t) r := by
      cases r <;> rfl
    simp only [e, list_set_with_pTask]
    rfl

theorem schedule_request_with_pTask (cfg : Config) (k : Kernel) (p : Option Nat) :
    kernel_thread_schedule_request cfg (with_pTask k p)
      = (with_pTask (kernel_thread_schedule_request cfg k).1 p,
         (kernel_thread_schedule_request cfg k).2) := by
  unfold kernel_thread_schedule_request
  show (if (!k.inInterrupt) = true then (with_pTask k p, cfg.PC_EOR_KERNEL)
    else ({ with_pTask k p with pendSV := true }, 0)) = _
  by_cases h : k.inInterrupt = true
  · have h1 : ¬ ((!k.inInterrupt) = true) := by simp [h]
    rw [if_neg h1, if_neg h1]; rfl
  · have h1 : (!k.inInterrupt) = true := by simpa using h
    rw [if_pos h1, if_pos h1]

theorem entry_trigger_with_pTask (cfg : Config) (k : Kernel) (p : Option Nat) (t : Nat)
    (cb : Option callback) (res : Int) :
    schedule_entry_trigger cfg (with_pTask k p) t cb res
      = (with_pTask (schedule_entry_trigger cfg k t cb res).1 p,
         (schedule_entry_trigger cfg k t cb res).2) := by
  unfold schedule_entry_trigger _schedule_transfer_toEntryList
  have e : ∀ f, task_update (with_pTask k p) t f = with_pTask (task_update k t f) p :=
    fun _ => rfl
  simp only [e, transaction_common_with_pTask, schedule_request_with_pTask]

theorem mutex_unlock_with_pTask (cfg : Config) (k : Kernel) (p : Option Nat) (m : Nat) :
    _mutex_unlock_privilege_routine cfg (with_pTask k p) m
      = (_mutex_unlock_privilege_routine cfg k m).map (fun x => (with_pTask x.1 p, x.2)) := by
  unfold _mutex_unlock_privilege_routine
  show (match (k.mutexes m).pHoldTask with
    | none => none
    | some pLockTask =>
      match list_head (k.mutexes m).q_list with
      | none => some (mutex_update (task_update (with_pTask k p) pLockTask
          (fun x => { x with prior := (k.mutexes m).originalPriority })) m (fun x =>
            { x with originalPriority := cfg.OS_PRIOTITY_INVALID_LEVEL, pHoldTask := none,
                     locked := false }), 0)
      | some w => some (schedule_entry_trigger cfg
          (with_pTask (mutex_update (task_update k pLockTask
            (fun x => { x with prior := (k.mutexes m).originalPriority })) m (fun x =>
              { x with pHoldTask := some w,
                       originalPriority := ((task_update k pLockTask
                          (fun x => { x with prior := (k.mutexes m).originalPriority })).tasks
                            w).prior })) p) w none 0)) = _
  cases (k.mutexes m).pHoldTask with
  | none => rfl
  | some pLockTask =>
    cases list_head (k.mutexes m).q_list with
    | none => rfl
    | some w => simp only [entry_trigger_with_pTask]; rfl

/-- The effect of `_mutex_unlock_privilege_routine` on a locked mutex with a
holder. -/
theorem unlock_locked_effect (cfg : Config) (k : Kernel) (m h : Nat)
    (hlocked : (k.mutexes m).locked = true) (hhold : (k.mutexes m).pHoldTask = some h) :
    ∃ k' r, _mutex_unlock_privilege_routine cfg k m = some (k', r)
      ∧ (∀ p, _mutex_unlock_privilege_routine cfg (with_pTask k p) m = some (with_pTask k' p, r))
      ∧ (k'.tasks h).prior = (k.mutexes m).originalPriority
      ∧ (∀ t, t ≠ h → (k'.tasks t).prior = (k.tasks t).prior)
      ∧ ((k.mutexes m).q_list = [] →
          (k'.mutexes m).locked = false ∧ (k'.mutexes m).pHoldTask = none
          ∧ (k'.mutexes m).originalPriority = cfg.OS_PRIOTITY_INVALID_LEVEL
          ∧ r = 0 ∧ (∀ l, list_get k' l = list_get k l))
      ∧ (∀ w rest, (k.mutexes m).q_list = w :: rest →
          (k'.mutexes m).locked = true ∧ (k'.mutexes m).pHoldTask = some w
          ∧ (k'.mutexes m).originalPriority = (k'.tasks w).prior
          ∧ (w ≠ h → (k'.mutexes m).originalPriority = (k.tasks w).prior)
          ∧ (k'.tasks w).exec.entry = { result := 0, func := none }
          ∧ (k'.tasks w).linker.pList = some .entry
          ∧ ((k.tasks w).linker.pList = some (.mutex m) →
              (k'.mutexes m).q_list = rest
              ∧ k'.sch_entry_list = k.sch_entry_list ++ [w]
              ∧ (∀ l, l ≠ .entry → l ≠ .mutex m → list_get k' l = list_get k l))) := by
  have hind := mutex_unlock_with_pTask cfg k
  cases hq : (k.mutexes m).q_list with
  | nil =>
    have heq : _mutex_unlock_privilege_routine cfg k m
        = some (mutex_update (task_update k h
            (fun x => { x with prior := (k.mutexes m).originalPriority })) m (fun x =>
              { x with originalPriority := cfg.OS_PRIOTITY_INVALID_LEVEL, pHoldTask := none,
                       locked := false }), 0) := by
      simp [_mutex_unlock_privilege_routine, hhold, hq, list_head]
    refine ⟨_, _, heq, ?_, ?_, ?_, ?_, ?_⟩
    · intro p; rw [hind, heq]; rfl
    · simp [mutex_update, task_update]
    · intro t ht; simp [mutex_update, task_update, Function.update_noteq ht]
    · intro _
      refine ⟨by simp [mutex_update], by simp [mutex_update], by simp [mutex_update], rfl, ?_⟩
      intro l
      cases l <;> simp [list_get, mutex_update, task_update]
      rename_i m'
      by_cases hm : m' = m
      · subst hm; simp
      · simp [Function.update_noteq hm]
    · intro w rest hw; simp at hw
  | cons w rest =>
    obtain ⟨k2, heq, hk2p, hk2m, hk2l, hk2t⟩ : ∃ k2,
        _mutex_unlock_privilege_routine cfg k m = some (schedule_entry_trigger cfg k2 w none 0)
        ∧ (∀ t, (k2.tasks t).prior
            = if t = h then (k.mutexes m).originalPriority else (k.tasks t).prior)
        ∧ mutex_core (k2.mutexes m)
            = ((k.mutexes m).cs, true, some w, if w = h then (k.mutexes m).originalPriority
                else (k.tasks w).prior)
        ∧ (∀ l, list_get k2 l = list_get k l)
        ∧ (∀ t, (k2.tasks t).linker = (k.tasks t).linker) := by
      refine ⟨mutex_update (task_update k h
          (fun x => { x with prior := (k.mutexes m).originalPriority })) m (fun x =>
            { x with pHoldTask := some w,
                     originalPriority := ((task_update k h (fun x =>
                        { x with prior := (k.mutexes m).originalPriority })).tasks w).prior }),
        ?_, ?_, ?_, ?_, ?_⟩
      · simp [_mutex_unlock_privilege_routine, hhold, hq, list_head]
      · intro t
        by_cases ht : t = h
        · subst ht; simp [mutex_update, task_update]
        · simp [mutex_update, task_update, Function.update_noteq ht, ht]
      · by_cases hw : w = h
        · subst hw; simp [mutex_core, mutex_update, task_update, hlocked]
        · simp [mutex_core, mutex_update, task_update, hlocked, Function.update_noteq hw, hw]
      · intro l
        cases l <;> simp [list_get, mutex_update, task_update]
        rename_i m'
        by_cases hm : m' = m
        · subst hm; simp
        · simp [Function.update_noteq hm]
      · intro t
        by_cases ht : t = h
        · subst ht; simp [mutex_update, task_update]
        · simp [mutex_update, task_update, Function.update_noteq ht]
    have hP : ∀ x, (((schedule_entry_trigger cfg k2 w none 0).1).tasks x).prior
        = (k2.tasks x).prior := fun x => entry_trigger_prior _ _ _ _ _ _
    have hcore := entry_trigger_mutex_core cfg k2 w none 0 m
    rw [hk2m] at hcore
    simp only [mutex_core, Prod.mk.injEq] at hcore
    have hself := entry_trigger_task_self cfg k2 w none 0
    have hentry := entry_trigger_entry_list cfg k2 w none 0
    have hother := entry_trigger_other_list cfg k2 w none 0
    have e1 : ∀ res : Kernel × Int, (res.1.mutexes m).q_list = list_get res.1 (.mutex m) :=
      fun _ => rfl
    have e2 : ∀ res : Kernel × Int, res.1.sch_entry_list = list_get res.1 .entry :=
      fun _ => rfl
    have e3 : (k.mutexes m).q_list = list_get k (.mutex m) := rfl
    have e4 : k.sch_entry_list = list_get k .entry := rfl
    generalize schedule_entry_trigger cfg k2 w none 0 = res at heq hP hcore hself hentry hother
    refine ⟨res.1, res.2, heq, ?_, ?_, ?_, ?_, ?_⟩
    · intro p; rw [hind, heq]; rfl
    · rw [hP, hk2p, if_pos rfl]
    · intro t ht; rw [hP, hk2p, if_neg ht]
    · intro hnil; simp at hnil
    · intro w' rest' hw'
      simp only [List.cons.injEq] at hw'
      obtain ⟨rfl, rfl⟩ := hw'
      refine ⟨hcore.2.1, hcore.2.2.1, ?_, ?_, ?_, ?_, ?_⟩
      · rw [hcore.2.2.2, hP, hk2p]
      · intro hne; rw [hcore.2.2.2, if_neg hne]
      · rw [hself]
      · rw [hself]
      · intro hlink
        have hl2 : (k2.tasks w).linker.pList = some (.mutex m) := by rw [hk2t, hlink]
        refine ⟨?_, ?_, ?_⟩
        · rw [e1, hother _ (by simp), if_pos hl2, hk2l, ← e3, hq]
          simp
        · rw [e2, hentry, hl2, hk2l, e4]
          simp
        · intro l hl1 hl2'
          rw [hother _ hl1, hl2, hk2l]
          have : ¬ (some (list_ref.mutex m) = some l) := by
            intro e; exact hl2' (Option.some.inj e).symm
          rw [if_neg this]

/-- C3: unlocking a locked mutex.  The result does not depend on the running
task.  The priority of the holder becomes the recorded original priority and no
other priority changes.  With an empty wait queue the mutex becomes unlocked
with no holder and no list changes.  Otherwise the mutex stays locked, the head
waiter becomes the holder, the recorded original priority is the priority of
that waiter, its entry record holds result 0 and no callback, and it moves
from the head of the wait queue to the tail of the entry list, the other
waiters and every other list staying as they are. -/
theorem mutex_unlock_locked (cfg : Config) (k : Kernel) (m h : Nat)
    (hlocked : (k.mutexes m).locked = true) (hhold : (k.mutexes m).pHoldTask = some h) :
    ∃ k' r, _mutex_unlock_privilege_routine cfg k m = some (k', r)
      ∧ (∀ p, _mutex_unlock_privilege_routine cfg (with_pTask k p) m = some (with_pTask k' p, r))
      ∧ (k'.tasks h).prior = (k.mutexes m).originalPriority
      ∧ (∀ t, t ≠ h → (k'.tasks t).prior = (k.tasks t).prior)
      ∧ ((k.mutexes m).q_list = [] →
          (k'.mutexes m).locked = false ∧ (k'.mutexes m).pHoldTask = none
          ∧ (k'.mutexes m).originalPriority = cfg.OS_PRIOTITY_INVALID_LEVEL
          ∧ r = 0 ∧ (∀ l, list_get k' l = list_get k l))
      ∧ (∀ w rest, (k.mutexes m).q_list = w :: rest →
          (k'.mutexes m).locked = true ∧ (k'.mutexes m).pHoldTask = some w
          ∧ (k'.mutexes m).originalPriority = (k'.tasks w).prior
          ∧ (w ≠ h → (k'.mutexes m).originalPriority = (k.tasks w).prior)
          ∧ (k'.tasks w).exec.entry = { result := 0, func := none }
          ∧ (k'.tasks w).linker.pList = some .entry
          ∧ ((k.tasks w).linker.pList = some (.mutex m) →
              (k'.mutexes m).q_list = rest
              ∧ k'.sch_entry_list = k.sch_entry_list ++ [w]
              ∧ (∀ l, l ≠ .entry → l ≠ .mutex m → list_get k' l = list_get k l))) :=
  unlock_locked_effect cfg k m h hlocked hhold

/-! ### The mutex-related part of the state under each step -/

theorem view_ext (k : Kernel) (v : View) (hp : ∀ t, (k.tasks t).prior = v.prior t)
    (hc : ∀ m, mutex_core (k.mutexes m) = v.core m) : view k = v := by
  cases v with
  | mk p c =>
    simp only [view, View.mk.injEq]
    exact ⟨funext hp, funext hc⟩

theorem view_same (k k' : Kernel) (hp : ∀ t, (k'.tasks t).prior = (k.tasks t).prior)
    (hc : ∀ m, mutex_core (k'.mutexes m) = mutex_core (k.mutexes m)) : view k' = view k :=
  view_ext k' (view k) hp hc

theorem privilege_invoke_some {α : Type} (err : α) (f : Kernel → Option (Kernel × α))
    (k : Kernel) (res : Kernel × α) (h : kernel_privilege_invoke err (some f) k = some res) :
    ∃ b b' res0, f { k with inInterrupt := b } = some res0
      ∧ res = ({ res0.1 with inInterrupt := b' }, res0.2) := by
  unfold kernel_privilege_invoke at h
  by_cases hi : k.inInterrupt = true
  · have h1 : ¬ ((!k.inInterrupt) = true) := by simp [hi]
    simp only [if_neg h1] at h
    refine ⟨k.inInterrupt, res.1.inInterrupt, res, h, rfl⟩
  · have h1 : (!k.inInterrupt) = true := by simpa using hi
    simp only [if_pos h1, kernel_svc_call] at h
    cases hf : f { k with inInterrupt := true } with
    | none => simp [hf] at h
    | some res0 =>
      simp only [hf, Option.some.injEq] at h
      exact ⟨true, k.inInterrupt, res0, hf, h.symm⟩

theorem exit_trigger_exit_list (cfg : Config) (k : Kernel) (t : Nat) (ctx : Option ctx_ref)
    (data : Option event_sch_t) (m : Nat) (ms : Nat) (h : k.sch_exit_list = []) :
    (schedule_exit_trigger cfg k t ctx data (some (.mutex m)) ms true).1.sch_exit_list = [] := by
  have e := exit_trigger_other_list cfg k t ctx data (.mutex m) .exit ms (by simp)
  have e' : list_get k .exit = [] := h
  rw [e'] at e
  have : list_get (schedule_exit_trigger cfg k t ctx data (some (.mutex m)) ms true).1 .exit
      = [] := by
    rw [e]; split <;> simp
  exact this

theorem entry_trigger_exit_list (cfg : Config) (k : Kernel) (t : Nat) (cb : Option callback)
    (res : Int) (h : k.sch_exit_list = []) :
    (schedule_entry_trigger cfg k t cb res).1.sch_exit_list = [] := by
  have e := entry_trigger_other_list cfg k t cb res .exit (by simp)
  have e' : list_get k .exit = [] := h
  rw [e'] at e
  have : list_get (schedule_entry_trigger cfg k t cb res).1 .exit = [] := by
    rw [e]; split <;> simp
  exact this

theorem entry_trigger_view (cfg : Config) (k : Kernel) (t : Nat) (cb : Option callback)
    (res : Int) : view (schedule_entry_trigger cfg k t cb res).1 = view k :=
  view_same _ _ (fun _ => entry_trigger_prior _ _ _ _ _ _)
    (fun _ => entry_trigger_mutex_core _ _ _ _ _ _)

theorem exit_trigger_view (cfg : Config) (k : Kernel) (t : Nat) (ctx : Option ctx_ref)
    (data : Option event_sch_t) (r : list_ref) (ms : Nat) :
    view (schedule_exit_trigger cfg k t ctx data (some r) ms true).1 = view k :=
  view_same _ _ (fun _ => exit_trigger_prior _ _ _ _ _ _ _ _)
    (fun _ => exit_trigger_mutex_core _ _ _ _ _ _ _ _)

/-- The lock routine on the mutex-related part of the state. -/
theorem mutex_lock_routine_effect (cfg : Config) (k : Kernel) (m : Nat) (res : Kernel × Int)
    (hm : m < cfg.MUTEX_INSTANCE_SUPPORTED_NUMBER) (hcs : (k.mutexes m).cs = true)
    (h : _mutex_lock_privilege_routine cfg k m = some res) (hexit : k.sch_exit_list = []) :
    quiet_effect cfg (view k) (view res.1) ∧ res.1.sch_exit_list = [] := by
  unfold _mutex_lock_privilege_routine at h
  cases hrun : k.pTask with
  | none => simp [hrun] at h
  | some c =>
    simp only [hrun] at h
    by_cases hl : (k.mutexes m).locked = true
    · rw [if_pos hl] at h
      cases hh : (k.mutexes m).pHoldTask with
      | none => simp [hh] at h
      | some hd =>
        simp only [hh, Option.some.injEq] at h
        subst h
        constructor
        · rw [exit_trigger_view]
          have hb := @quiet_effect.block cfg (view k) m c hd hm
            (by simp [view, mutex_core, hcs]) (by simp [view, mutex_core, hl])
            (by simp [view, mutex_core, hh])
          convert hb using 1
          apply view_ext
          · intro t
            by_cases hlt : (k.tasks c).prior < (k.tasks hd).prior
            · simp only [hlt, if_true]
              by_cases ht : t = hd
              · subst ht
                simp [task_update, view, min_eq_right (le_of_lt hlt)]
              · simp [task_update, view, Function.update_noteq ht]
            · simp only [hlt, if_false]
              by_cases ht : t = hd
              · subst ht
                simp [view, min_eq_left (not_lt.mp hlt)]
              · simp [view, Function.update_noteq ht]
          · intro m'
            by_cases hlt : (k.tasks c).prior < (k.tasks hd).prior
            · simp only [hlt, if_true]; rfl
            · simp only [hlt, if_false]; rfl
        · apply exit_trigger_exit_list
          by_cases hlt : (k.tasks c).prior < (k.tasks hd).prior
          · simp only [hlt, if_true]; exact hexit
          · simp only [hlt, if_false]; exact hexit
    · rw [if_neg hl] at h
      simp only [Option.some.injEq] at h
      subst h
      constructor
      · have hb := @quiet_effect.acquire cfg (view k) m c hm
          (by simp [view, mutex_core, hcs]) (by simpa [view, mutex_core] using hl)
        convert hb using 1
        apply view_ext
        · intro t; rfl
        · intro m'
          by_cases hm' : m' = m
          · subst hm'; simp [mutex_update, mutex_core, view, hcs]
          · simp [mutex_update, view, Function.update_noteq hm']
      · exact hexit

/-- The unlock routine on the mutex-related part of the state. -/
theorem mutex_unlock_routine_effect (cfg : Config) (k : Kernel) (m : Nat) (res : Kernel × Int)
    (hm : m < cfg.MUTEX_INSTANCE_SUPPORTED_NUMBER) (hcs : (k.mutexes m).cs = true)
    (h : _mutex_unlock_privilege_routine cfg k m = some res) (hexit : k.sch_exit_list = []) :
    unlock_effect cfg (view k) m (view res.1) ∧ res.1.sch_exit_list = [] := by
  unfold _mutex_unlock_privilege_routine at h
  cases hh : (k.mutexes m).pHoldTask with
  | none => simp [hh] at h
  | some hd =>
    simp only [hh] at h
    cases hq : list_head (k.mutexes m).q_list with
    | none =>
      simp only [hq, Option.some.injEq] at h
      subst h
      constructor
      · have hb := @unlock_effect.release cfg (view k) m hd hm
          (by simp [view, mutex_core, hcs]) (by simp [view, mutex_core, hh])
        convert hb using 1
        apply view_ext
        · intro t
          by_cases ht : t = hd
          · subst ht; simp [mutex_update, task_update, view, mutex_core]
          · simp [mutex_update, task_update, view, Function.update_noteq ht]
        · intro m'
          by_cases hm' : m' = m
          · subst hm'; simp [mutex_update, task_update, mutex_core, view, hcs]
          · simp [mutex_update, task_update, view, Function.update_noteq hm']
      · exact hexit
    | some w =>
      simp only [hq, Option.some.injEq] at h
      subst h
      constructor
      · rw [entry_trigger_view]
        have hb := @unlock_effect.handoff cfg (view k) m hd w hm
          (by simp [view, mutex_core, hcs]) (by simp [view, mutex_core, hh])
        convert hb using 1
        apply view_ext
        · intro t
          by_cases ht : t = hd
          · subst ht; simp [mutex_update, task_update, view, mutex_core]
          · simp [mutex_update, task_update, view, Function.update_noteq ht]
        · intro m'
          by_cases hm' : m' = m
          · subst hm'
            by_cases hw : w = hd
            · subst hw; simp [mutex_update, task_update, mutex_core, view, hcs]
            · simp [mutex_update, task_update, mutex_core, view, hcs, Function.update_noteq hw]
          · simp [mutex_update, task_update, view, Function.update_noteq hm']
      · apply entry_trigger_exit_list
        exact hexit

/-- The create routine on the mutex-related part of the state. -/
theorem mutex_init_routine_effect (cfg : Config) (k : Kernel) (pName : Nat)
    (hexit : k.sch_exit_list = []) :
    quiet_effect cfg (view k) (view (_mutex_init_privilege_routine cfg k pName).1)
      ∧ (_mutex_init_privilege_routine cfg k pName).1.sch_exit_list = [] := by
  unfold _mutex_init_privilege_routine
  cases hf : (List.range cfg.MUTEX_INSTANCE_SUPPORTED_NUMBER).find?
      (fun m => !_mutex_context_isInit k m) with
  | none => exact ⟨quiet_effect.stay, hexit⟩
  | some m =>
    have hp := List.find?_some hf
    have hmem := List.mem_of_find?_eq_some hf
    simp only [_mutex_context_isInit, Bool.not_eq_true'] at hp
    constructor
    · have hb := @quiet_effect.create cfg (view k) m
        (by simpa using hmem) (by simp [view, mutex_core, hp])
      convert hb using 1
      apply view_ext
      · intro t; rfl
      · intro m'
        by_cases hm' : m' = m
        · subst hm'; simp [mutex_update, mutex_core, view]
        · simp [mutex_update, view, Function.update_noteq hm']
    · exact hexit

theorem view_task_update (k : Kernel) (t : Nat) (f : schedule_task → schedule_task)
    (hf : (f (k.tasks t)).prior = (k.tasks t).prior) : view (task_update k t f) = view k :=
  view_same _ _ (fun x => task_update_prior k t x f hf) (fun _ => rfl)

theorem view_transaction_specific (k : Kernel) (t : Nat) (r : list_ref)
    (f : Kernel → Option Nat → Option Nat → Bool) :
    view (linker_list_transaction_specific k t r f) = view k :=
  view_same _ _ (fun _ => transaction_specific_prior _ _ _ _ _)
    (fun _ => transaction_specific_mutex_core _ _ _ _ _)

theorem transaction_specific_exit_list (k : Kernel) (t : Nat)
    (f : Kernel → Option Nat → Option Nat → Bool) (h : k.sch_exit_list = []) :
    (linker_list_transaction_specific k t .pend f).sch_exit_list = [] := by
  have e := transaction_specific_other k t .pend .exit f (by simp)
  rw [linker_unlink_list_get] at e
  have e' : list_get k .exit = [] := h
  rw [e'] at e
  have : list_get (linker_list_transaction_specific k t .pend f) .exit = [] := by
    rw [e]; split <;> simp
  exact this

theorem event_schedule_frame (k : Kernel) (t : Nat) (k' : Kernel)
    (h : _event_schedule k t = some k') :
    view k' = view k ∧ k'.sch_exit_list = k.sch_exit_list := by
  unfold _event_schedule at h
  simp only [task_update_self] at h
  cases hd : (k.tasks t).pPendData with
  | none =>
    simp only [hd, Option.some.injEq] at h
    subst h
    exact ⟨view_task_update _ _ _ rfl, rfl⟩
  | some sche =>
    simp only [hd] at h
    cases hc : (k.tasks t).pPendCtx with
    | none => simp [hc] at h
    | some c =>
      cases c with
      | mutex m => simp [hc] at h
      | event e =>
        simp only [hc, Option.some.injEq] at h
        subst h
        have hev : ∀ (k0 : Kernel) (f : event_context_t → event_context_t),
            view (event_update k0 e f) = view k0 := fun _ _ => rfl
        constructor
        · rw [view_task_update _ _ _ rfl, apply_ite view, hev, view_task_update _ _ _ rfl,
            view_task_update _ _ _ rfl, ite_self]
        · show (ite _ _ _ : Kernel).sch_exit_list = _
          rw [apply_ite Kernel.sch_exit_list]
          exact ite_self _

theorem schedule_entry_task_frame (k : Kernel) (ms t : Nat) (k' : Kernel)
    (h : _schedule_entry_task k ms t = some k') :
    view k' = view k ∧ (k.sch_exit_list = [] → k'.sch_exit_list = []) := by
  unfold _schedule_entry_task at h
  simp only [Option.map_eq_some'] at h
  obtain ⟨k1, hcalled, hk'⟩ := h
  have h1 : view k1 = view k ∧ k1.sch_exit_list = k.sch_exit_list := by
    cases hf : (k.tasks t).exec.entry.func with
    | none =>
      simp only [hf, Option.some.injEq] at hcalled
      subst hcalled
      exact ⟨rfl, rfl⟩
    | some cb =>
      cases cb
      simp only [hf, Option.map_eq_some'] at hcalled
      obtain ⟨k0, hk0, hk1⟩ := hcalled
      have := event_schedule_frame k t k0 hk0
      subst hk1
      exact ⟨by rw [view_task_update _ _ _ rfl]; exact this.1, this.2⟩
  subst hk'
  unfold _schedule_transfer_toPendList
  constructor
  · rw [view_transaction_specific, view_task_update _ _ _ rfl]
    exact h1.1
  · intro hexit
    apply transaction_specific_exit_list
    show k1.sch_exit_list = []
    rw [h1.2, hexit]

theorem schedule_entry_loop_frame (ms : Nat) (l : List Nat) (k k' : Kernel)
    (h : _schedule_entry_loop ms l k = some k') :
    view k' = view k ∧ (k.sch_exit_list = [] → k'.sch_exit_list = []) := by
  induction l generalizing k with
  | nil =>
    simp only [_schedule_entry_loop, Option.some.injEq] at h
    subst h
    exact ⟨rfl, fun e => e⟩
  | cons t rest ih =>
    simp only [_schedule_entry_loop] at h
    cases h1 : _schedule_entry_task k ms t with
    | none => simp [h1] at h
    | some k1 =>
      simp only [h1] at h
      have f1 := schedule_entry_task_frame k ms t k1 h1
      have f2 := ih k1 h
      exact ⟨by rw [f2.1, f1.1], fun e => f2.2 (f1.2 e)⟩

theorem schedule_exit_nil (cfg : Config) (k : Kernel) (ms : Nat) (h : k.sch_exit_list = []) :
    _schedule_exit cfg k ms = k := by
  unfold _schedule_exit
  rw [h]
  rfl

theorem view_time_analyze (k : Kernel) (a b ms : Nat) :
    view (_schedule_time_analyze k a b ms) = view k := by
  unfold _schedule_time_analyze
  simp only []
  rw [view_task_update _ _ _ rfl, view_task_update _ _ _ rfl, view_task_update _ _ _ rfl]

/-- The pend-switch leaves the mutex-related part of the state alone. -/
theorem pendsv_frame (cfg : Config) (k : Kernel) (ms : Nat) (res : Kernel × Nat × Nat)
    (h : kernel_scheduler_inPendSV_c cfg k ms = some res) (hexit : k.sch_exit_list = []) :
    view res.1 = view k ∧ res.1.sch_exit_list = [] := by
  unfold kernel_scheduler_inPendSV_c at h
  rw [schedule_exit_nil cfg k ms hexit] at h
  cases h1 : _schedule_entry k ms with
  | none => simp [h1] at h
  | some k1 =>
    simp only [h1] at h
    have f1 := schedule_entry_loop_frame ms k.sch_entry_list k k1 h1
    by_cases hp : _schedule_can_preempt cfg k1 k1.pTask = true
    · rw [if_pos hp] at h
      cases hc : k1.pTask with
      | none => simp [hc] at h
      | some c =>
        cases hn : _schedule_nextTaskGet k1 with
        | none => simp [hc, hn] at h
        | some n =>
          simp only [hc, hn, Option.some.injEq] at h
          subst h
          constructor
          · show view (_schedule_time_analyze k1 c n ms) = view k
            rw [view_time_analyze, f1.1]
          · exact f1.2 hexit
    · rw [if_neg hp] at h
      cases hc : k1.pTask with
      | none => simp [hc] at h
      | some c =>
        simp only [hc, Option.some.injEq] at h
        subst h
        exact ⟨f1.1, f1.2 hexit⟩

/-- Every step other than a mutex unlock acts on the mutex-related part of the
state as `quiet_effect` says; an unlock is rejected or acts as `unlock_effect`
says.  The exit list stays empty. -/
theorem step_effect (cfg : Config) (k k' : Kernel) (a : action)
    (h : step cfg k a = some k') (hexit : k.sch_exit_list = []) :
    k'.sch_exit_list = []
      ∧ (a.is_unlock = false → quiet_effect cfg (view k) (view k'))
      ∧ (∀ m, a = .mutex_unlock m →
          (view k' = view k ∨ unlock_effect cfg (view k) m (view k'))
          ∧ (m < cfg.MUTEX_INSTANCE_SUPPORTED_NUMBER → (k.mutexes m).cs = true →
              unlock_effect cfg (view k) m (view k'))) := by
  cases a with
  | mutex_init pName =>
    simp only [step, _impl_mutex_init, Option.map_eq_some'] at h
    obtain ⟨res, hres, rfl⟩ := h
    obtain ⟨b, b', res0, h0, rfl⟩ := privilege_invoke_some _ _ _ _ hres
    simp only [Option.some.injEq] at h0
    subst h0
    have := mutex_init_routine_effect cfg { k with inInterrupt := b } pName hexit
    exact ⟨this.2, fun _ => this.1, fun m hm => by cases hm⟩
  | mutex_lock m =>
    simp only [step, _impl_mutex_lock, Option.map_eq_some'] at h
    obtain ⟨res, hres, rfl⟩ := h
    refine ⟨?_, fun _ => ?_, fun m hm => by cases hm⟩
    all_goals
      split at hres
      · simp only [Option.some.injEq] at hres; subst hres; first | exact hexit | exact quiet_effect.stay
      · split at hres
        · simp only [Option.some.injEq] at hres; subst hres
          first | exact hexit | exact quiet_effect.stay
        · split at hres
          · simp only [Option.some.injEq] at hres; subst hres
            first | exact hexit | exact quiet_effect.stay
          · rename_i hv hi _
            obtain ⟨b, b', res0, h0, rfl⟩ := privilege_invoke_some _ _ _ _ hres
            have hm : m < cfg.MUTEX_INSTANCE_SUPPORTED_NUMBER := by
              simpa [_mutex_context_isInvalid] using hv
            have hcs : (k.mutexes m).cs = true := by
              simpa [_mutex_context_isInit] using hi
            have := mutex_lock_routine_effect cfg { k with inInterrupt := b } m res0 hm hcs h0 hexit
            first | exact this.2 | exact this.1
  | mutex_unlock m =>
    simp only [step, _impl_mutex_unlock, Option.map_eq_some'] at h
    obtain ⟨res, hres, rfl⟩ := h
    refine ⟨?_, fun hu => by simp [action.is_unlock] at hu, fun m' hm' => ⟨?_, ?_⟩⟩
    all_goals
      try (cases hm')
      split at hres
      · rename_i hv
        simp only [Option.some.injEq] at hres; subst hres
        first
          | exact hexit
          | exact Or.inl rfl
          | (intro hm _; simp [_mutex_context_isInvalid, hm] at hv)
      · split at hres
        · rename_i hv hi
          simp only [Option.some.injEq] at hres; subst hres
          first
            | exact hexit
            | exact Or.inl rfl
            | (intro _ hcs; simp [_mutex_context_isInit, hcs] at hi)
        · rename_i hv hi
          obtain ⟨b, b', res0, h0, rfl⟩ := privilege_invoke_some _ _ _ _ hres
          have hm : m < cfg.MUTEX_INSTANCE_SUPPORTED_NUMBER := by
            simpa [_mutex_context_isInvalid] using hv
          have hcs : (k.mutexes m).cs = true := by
            simpa [_mutex_context_isInit] using hi
          have := mutex_unlock_routine_effect cfg { k with inInterrupt := b } m res0 hm hcs h0 hexit
          first | exact this.2 | exact Or.inr this.1 | exact fun _ _ => this.1
  | pendsv ms =>
    simp only [step, Option.map_eq_some'] at h
    obtain ⟨res, hres, rfl⟩ := h
    have := pendsv_frame cfg k ms res hres hexit
    refine ⟨this.2, fun _ => ?_, fun m hm => by cases hm⟩
    rw [this.1]; exact quiet_effect.stay
  | timeout t =>
    simp only [step, Option.some.injEq] at h
    subst h
    refine ⟨entry_trigger_exit_list _ _ _ _ _ hexit, fun _ => ?_, fun m hm => by cases hm⟩
    unfold schedule_callback_fromTimeOut
    rw [entry_trigger_view]; exact quiet_effect.stay
  | dispatch t =>
    simp only [step, Option.some.injEq] at h
    subst h
    exact ⟨hexit, fun _ => quiet_effect.stay, fun m hm => by cases hm⟩
  | irq b =>
    simp only [step, Option.some.injEq] at h
    subst h
    exact ⟨hexit, fun _ => quiet_effect.stay, fun m hm => by cases hm⟩

/-! ### Invariants of the mutex-related part of the state -/

theorem update_core_fst (v : View) (m m' : Nat) (x : Bool × Bool × Option Nat × Int) :
    Function.update v.core m x m' = if m' = m then x else v.core m' := by
  by_cases h : m' = m
  · subst h; simp
  · simp [Function.update_noteq h, h]

theorem inv_locked_quiet (cfg : Config) (v v' : View) (h : quiet_effect cfg v v')
    (hi : inv_locked v) : inv_locked v' := by
  cases h with
  | stay => exact hi
  | create m hm hcs =>
    intro m'
    simp only [update_core_fst]
    by_cases e : m' = m
    · simp [e]
    · simp only [if_neg e]; exact hi m'
  | acquire m c hm hcs hfree =>
    intro m'
    simp only [update_core_fst]
    by_cases e : m' = m
    · simp [e]
    · simp only [if_neg e]; exact hi m'
  | block m c h hm hcs hlocked hhold => exact hi

theorem inv_locked_unlock (cfg : Config) (v v' : View) (m : Nat) (h : unlock_effect cfg v m v')
    (hi : inv_locked v) : inv_locked v' := by
  cases h with
  | release h hm hcs hhold =>
    intro m'
    simp only [update_core_fst]
    by_cases e : m' = m
    · simp [e]
    · simp only [if_neg e]; exact hi m'
  | handoff h w hm hcs hhold =>
    intro m'
    simp only [update_core_fst]
    by_cases e : m' = m
    · simp only [if_pos e]
      intro _
      have := (hi m hcs).mpr (by rw [hhold]; simp)
      simp [this]
    · simp only [if_neg e]; exact hi m'

theorem run_induction (cfg : Config) (P : Kernel → Prop)
    (hstep : ∀ k k' a, P k → step cfg k a = some k' → P k')
    (k0 : Kernel) (acts : List action) (k : Kernel) (h0 : P k0)
    (hrun : run cfg k0 acts = some k) : P k := by
  induction acts generalizing k0 with
  | nil =>
    simp only [run, Option.some.injEq] at hrun
    subst hrun; exact h0
  | cons a rest ih =>
    simp only [run] at hrun
    cases hs : step cfg k0 a with
    | none => simp [hs] at hrun
    | some k1 =>
      simp only [hs] at hrun
      exact ih k1 (hstep k0 k1 a h0 hs) hrun

theorem step_effect_cases (cfg : Config) (k k' : Kernel) (a : action)
    (h : step cfg k a = some k') (hexit : k.sch_exit_list = []) :
    k'.sch_exit_list = []
      ∧ (quiet_effect cfg (view k) (view k') ∨ ∃ m, unlock_effect cfg (view k) m (view k')) := by
  obtain ⟨h1, h2, h3⟩ := step_effect cfg k k' a h hexit
  refine ⟨h1, ?_⟩
  cases a with
  | mutex_unlock m =>
    rcases (h3 m rfl).1 with e | e
    · left; rw [e]; exact quiet_effect.stay
    · right; exact ⟨m, e⟩
  | _ => left; exact h2 rfl

/-- C5: in every state reached from a start state (no mutex descriptor
initialised) by mutex create, lock and unlock calls, pend-switches, timeouts and
changes of the running task, every initialised mutex is locked if and only if a
holder is recorded. -/
theorem mutex_locked_iff_holder (cfg : Config) (k0 k : Kernel) (acts : List action)
    (h0 : initial k0) (hrun : run cfg k0 acts = some k) (m : Nat)
    (hcs : (k.mutexes m).cs = true) :
    (k.mutexes m).locked = true ↔ (k.mutexes m).pHoldTask ≠ none := by
  have key : k.sch_exit_list = [] ∧ inv_locked (view k) := by
    refine run_induction cfg (fun k => k.sch_exit_list = [] ∧ inv_locked (view k)) ?_ k0 acts k
      ⟨h0.2, ?_⟩ hrun
    · intro k1 k2 a hP hs
      obtain ⟨he, hv⟩ := step_effect_cases cfg k1 k2 a hs hP.1
      refine ⟨he, ?_⟩
      rcases hv with hq | ⟨m', hu⟩
      · exact inv_locked_quiet cfg _ _ hq hP.2
      · exact inv_locked_unlock cfg _ _ m' hu hP.2
    · intro m' hm'
      have := h0.1 m'
      simp [view, mutex_core, this] at hm'
  exact key.2 m hcs

/-- C5 witness: create, lock by L, a blocked lock by H, unlock by L. -/
theorem mutex_locked_iff_holder_witness :
    ∃ k, run sample_cfg sample_init
        [.mutex_init 0, .mutex_lock 0, .dispatch 2, .mutex_lock 0, .dispatch 0, .mutex_unlock 0]
        = some k
      ∧ initial sample_init ∧ (k.mutexes 0).cs = true
      ∧ ((k.mutexes 0).locked = true ↔ (k.mutexes 0).pHoldTask ≠ none) :=
  ⟨_, rfl, ⟨fun _ => rfl, rfl⟩, rfl,
    mutex_locked_iff_holder sample_cfg sample_init _
      [.mutex_init 0, .mutex_lock 0, .dispatch 2, .mutex_lock 0, .dispatch 0, .mutex_unlock 0]
      ⟨fun _ => rfl, rfl⟩ rfl 0 rfl⟩

theorem update_prior_apply (v : View) (h t : Nat) (x : Int) :
    Function.update v.prior h x t = if t = h then x else v.prior t := by
  by_cases e : t = h
  · subst e; simp
  · simp [Function.update_noteq e, e]

theorem inv_below_quiet (cfg : Config) (stable : Nat → Int) (v v' : View)
    (h : quiet_effect cfg v v') (hi : inv_below stable v) : inv_below stable v' := by
  obtain ⟨hp, hc⟩ := hi
  cases h with
  | stay => exact ⟨hp, hc⟩
  | create m hm hcs =>
    refine ⟨hp, ?_⟩
    intro m' h'
    simp only [update_core_fst]
    by_cases e : m' = m
    · simp [e]
    · simp only [if_neg e]; exact hc m' h'
  | acquire m c hm hcs hfree =>
    refine ⟨hp, ?_⟩
    intro m' h'
    simp only [update_core_fst]
    by_cases e : m' = m
    · simp only [if_pos e]
      intro _ hh
      simp only [Option.some.injEq] at hh
      subst hh
      exact hp c
    · simp only [if_neg e]; exact hc m' h'
  | block m c h hm hcs hlocked hhold =>
    refine ⟨?_, hc⟩
    intro t
    simp only [update_prior_apply]
    by_cases e : t = h
    · simp only [if_pos e]
      subst e
      exact le_trans (min_le_left _ _) (hp t)
    · simp only [if_neg e]; exact hp t

theorem inv_below_unlock (cfg : Config) (stable : Nat → Int) (v v' : View) (m : Nat)
    (h : unlock_effect cfg v m v') (hi : inv_below stable v) : inv_below stable v' := by
  obtain ⟨hp, hc⟩ := hi
  have hP : ∀ hd, (v.core m).1 = true → (v.core m).2.2.1 = some hd →
      ∀ t, Function.update v.prior hd (v.core m).2.2.2 t ≤ stable t := by
    intro hd hcs hhold t
    simp only [update_prior_apply]
    by_cases e : t = hd
    · simp only [if_pos e]; subst e; exact hc m t hcs hhold
    · simp only [if_neg e]; exact hp t
  cases h with
  | release hd hm hcs hhold =>
    refine ⟨hP hd hcs hhold, ?_⟩
    intro m' h'
    simp only [update_core_fst]
    by_cases e : m' = m
    · simp [e]
    · simp only [if_neg e]; exact hc m' h'
  | handoff hd w hm hcs hhold =>
    refine ⟨hP hd hcs hhold, ?_⟩
    intro m' h'
    simp only [update_core_fst]
    by_cases e : m' = m
    · simp only [if_pos e]
      intro _ hh
      simp only [Option.some.injEq] at hh
      subst hh
      exact hP hd hcs hhold w
    · simp only [if_neg e]; exact hc m' h'

theorem inv_single_quiet (cfg : Config) (hN : cfg.MUTEX_INSTANCE_SUPPORTED_NUMBER = 1)
    (stable : Nat → Int) (v v' : View) (h : quiet_effect cfg v v')
    (hl : inv_locked v) (hi : inv_single stable v) : inv_single stable v' := by
  obtain ⟨hp, hc⟩ := hi
  cases h with
  | stay => exact ⟨hp, hc⟩
  | create m hm hcs =>
    have hm0 : m = 0 := by omega
    subst hm0
    constructor
    · intro t _
      exact hp t (by simp [hcs])
    · intro h _ hh
      simp at hh
  | acquire m c hm hcs hfree =>
    have hm0 : m = 0 := by omega
    subst hm0
    have hnone : (v.core 0).2.2.1 = none := by
      by_contra hne
      have := (hl 0 hcs).mpr hne
      rw [hfree] at this
      exact Bool.false_ne_true this
    constructor
    · intro t ht
      exact hp t (by simp [hnone])
    · intro h _ hh
      simp only [Function.update_same, Option.some.injEq] at hh
      subst hh
      simp only [Function.update_same]
      exact hp c (by simp [hnone])
  | block m c h hm hcs hlocked hhold =>
    have hm0 : m = 0 := by omega
    subst hm0
    constructor
    · intro t ht
      simp only [update_prior_apply]
      have hne : t ≠ h := by
        intro e; subst e; exact ht ⟨hcs, hhold⟩
      simp only [if_neg hne]
      exact hp t ht
    · exact hc

theorem inv_single_unlock (cfg : Config) (hN : cfg.MUTEX_INSTANCE_SUPPORTED_NUMBER = 1)
    (stable : Nat → Int) (v v' : View) (m : Nat) (h : unlock_effect cfg v m v')
    (hi : inv_single stable v) : inv_single stable v' := by
  obtain ⟨hp, hc⟩ := hi
  have hP : ∀ hd, m = 0 → (v.core m).1 = true → (v.core m).2.2.1 = some hd →
      ∀ t, Function.update v.prior hd (v.core m).2.2.2 t = stable t := by
    intro hd hm0 hcs hhold t
    subst hm0
    simp only [update_prior_apply]
    by_cases e : t = hd
    · simp only [if_pos e]; subst e; exact hc t hcs hhold
    · simp only [if_neg e]
      apply hp t
      intro hh
      rw [hhold] at hh
      exact e (Option.some.inj hh.2).symm
  cases h with
  | release hd hm hcs hhold =>
    have hm0 : m = 0 := by omega
    constructor
    · intro t _
      exact hP hd hm0 hcs hhold t
    · intro h _ hh
      subst hm0
      simp at hh
  | handoff hd w hm hcs hhold =>
    have hm0 : m = 0 := by omega
    constructor
    · intro t _
      exact hP hd hm0 hcs hhold t
    · intro h _ hh
      subst hm0
      simp only [Function.update_same, Option.some.injEq] at hh
      subst hh
      simp only [Function.update_same]
      exact hP hd rfl hcs hhold w

/-- The three invariants hold in every state reached from a start state. -/
theorem reachable_invariants (cfg : Config) (k0 k : Kernel) (acts : List action)
    (h0 : initial k0) (hrun : run cfg k0 acts = some k) :
    k.sch_exit_list = [] ∧ inv_locked (view k)
      ∧ inv_below (fun t => (k0.tasks t).prior) (view k)
      ∧ (cfg.MUTEX_INSTANCE_SUPPORTED_NUMBER = 1 →
          inv_single (fun t => (k0.tasks t).prior) (view k)) := by
  have hcs0 : ∀ m, ((view k0).core m).1 = false := fun m => by
    simp [view, mutex_core, h0.1 m]
  refine run_induction cfg (fun k => k.sch_exit_list = [] ∧ inv_locked (view k)
      ∧ inv_below (fun t => (k0.tasks t).prior) (view k)
      ∧ (cfg.MUTEX_INSTANCE_SUPPORTED_NUMBER = 1 →
          inv_single (fun t => (k0.tasks t).prior) (view k))) ?_ k0 acts k ?_ hrun
  · intro k1 k2 a hP hs
    obtain ⟨he, hv⟩ := step_effect_cases cfg k1 k2 a hs hP.1
    refine ⟨he, ?_⟩
    rcases hv with hq | ⟨m', hu⟩
    · exact ⟨inv_locked_quiet cfg _ _ hq hP.2.1, inv_below_quiet cfg _ _ _ hq hP.2.2.1,
        fun hN => inv_single_quiet cfg hN _ _ _ hq hP.2.1 (hP.2.2.2 hN)⟩
    · exact ⟨inv_locked_unlock cfg _ _ m' hu hP.2.1, inv_below_unlock cfg _ _ _ m' hu hP.2.2.1,
        fun hN => inv_single_unlock cfg hN _ _ _ m' hu (hP.2.2.2 hN)⟩
  · refine ⟨h0.2, ?_, ⟨fun t => le_refl _, ?_⟩, fun _ => ⟨fun t _ => rfl, ?_⟩⟩
    · intro m hm; rw [hcs0 m] at hm; exact absurd hm Bool.false_ne_true
    · intro m h hm; rw [hcs0 m] at hm; exact absurd hm Bool.false_ne_true
    · intro h hm; rw [hcs0 0] at hm; exact absurd hm Bool.false_ne_true

/-- The blocking branch of the lock routine, as a call of `schedule_exit_trigger`
on the state with the inherited priority. -/
theorem mutex_lock_blocked_eq (cfg : Config) (k : Kernel) (m c h : Nat)
    (hrun : k.pTask = some c) (hlocked : (k.mutexes m).locked = true)
    (hhold : (k.mutexes m).pHoldTask = some h) :
    ∃ k1, _mutex_lock_privilege_routine cfg k m
        = some (schedule_exit_trigger cfg k1 c (some (.mutex m)) none (some (.mutex m)) 0 true)
      ∧ (∀ t, (k1.tasks t).prior
          = if t = h then min (k.tasks h).prior (k.tasks c).prior else (k.tasks t).prior)
      ∧ k1.mutexes = k.mutexes := by
  by_cases hlt : (k.tasks c).prior < (k.tasks h).prior
  · refine ⟨task_update k h (fun x => { x with prior := (k.tasks c).prior }), ?_, ?_, rfl⟩
    · simp [_mutex_lock_privilege_routine, hrun, hlocked, hhold, hlt]
    · intro t
      by_cases ht : t = h
      · subst ht
        simp only [task_update_self, if_true]
        rw [min_eq_right (le_of_lt hlt)]
      · simp only [task_update_other _ _ _ _ ht, if_neg ht]
  · refine ⟨k, ?_, ?_, rfl⟩
    · simp [_mutex_lock_privilege_routine, hrun, hlocked, hhold, hlt]
    · intro t
      by_cases ht : t = h
      · subst ht
        simp only [if_true]
        rw [min_eq_left (not_lt.mp hlt)]
      · simp only [if_neg ht]

theorem mem_sorted_insert (pred : Nat → Nat → Bool) (new : Nat) (l : List Nat) :
    new ∈ sorted_insert pred new l := by
  obtain ⟨pre, post, _, h2, _, _⟩ := sorted_insert_split pred new l
  rw [h2]; simp

/-- A lock call from thread mode on a valid, initialised and locked mutex: the
holder inherits, the caller is queued. -/
theorem step_lock_blocked (cfg : Config) (k k' : Kernel) (m c h : Nat)
    (hm : m < cfg.MUTEX_INSTANCE_SUPPORTED_NUMBER) (hcs : (k.mutexes m).cs = true)
    (hthread : k.inInterrupt = false) (hrun : k.pTask = some c)
    (hlocked : (k.mutexes m).locked = true) (hhold : (k.mutexes m).pHoldTask = some h)
    (hs : step cfg k (.mutex_lock m) = some k') :
    (k'.tasks h).prior = min (k.tasks h).prior (k.tasks c).prior
      ∧ (∀ t, t ≠ h → (k'.tasks t).prior = (k.tasks t).prior)
      ∧ c ∈ (k'.mutexes m).q_list
      ∧ mutex_core (k'.mutexes m) = mutex_core (k.mutexes m) := by
  simp only [step, _impl_mutex_lock, Option.map_eq_some'] at hs
  obtain ⟨res, hres, rfl⟩ := hs
  have h1 : _mutex_context_isInvalid cfg m = false := by simp [_mutex_context_isInvalid, hm]
  have h2 : _mutex_context_isInit k m = true := hcs
  have h3 : kernel_isInThreadMode k = true := by simp [kernel_isInThreadMode, hthread]
  simp only [h1, h2, h3, Bool.false_eq_true, if_false, Bool.not_true] at hres
  obtain ⟨b, b', res0, hr0, rfl⟩ := privilege_invoke_some _ _ _ _ hres
  obtain ⟨k1, heq, hprior, hmut⟩ :=
    mutex_lock_blocked_eq cfg { k with inInterrupt := b } m c h hrun hlocked hhold
  rw [heq] at hr0
  simp only [Option.some.injEq] at hr0
  subst hr0
  have hP := exit_trigger_prior cfg k1 c (some (.mutex m)) none (.mutex m) 0
  have hC := exit_trigger_mutex_core cfg k1 c (some (.mutex m)) none (.mutex m) 0 m
  have hT := exit_trigger_target cfg k1 c (some (.mutex m)) none (.mutex m) 0
  refine ⟨?_, ?_, ?_, ?_⟩
  · show (((schedule_exit_trigger cfg k1 c (some (.mutex m)) none (some (.mutex m)) 0
        true).1).tasks h).prior = _
    rw [hP, hprior, if_pos rfl]
  · intro t ht
    show (((schedule_exit_trigger cfg k1 c (some (.mutex m)) none (some (.mutex m)) 0
        true).1).tasks t).prior = _
    rw [hP, hprior, if_neg ht]
  · show c ∈ list_get (schedule_exit_trigger cfg k1 c (some (.mutex m)) none (some (.mutex m))
        0 true).1 (.mutex m)
    rw [hT]
    exact mem_sorted_insert _ _ _
  · show mutex_core (((schedule_exit_trigger cfg k1 c (some (.mutex m)) none (some (.mutex m)) 0
        true).1).mutexes m) = _
    rw [hC, hmut]

/-- C6 (amended): in every reachable state the priority of the holder of a mutex
is numerically at most the stable priority of the holder; and right after a
task is blocked by a lock call on a locked mutex, the priority of the holder is
numerically at most the priority of that new waiter, which is at most its
stable priority.  Nothing keeps the holder below its waiters afterwards. -/
theorem mutex_holder_priority_bound (cfg : Config) (k0 k : Kernel) (acts : List action)
    (h0 : initial k0) (hrun : run cfg k0 acts = some k) :
    (∀ m h, (k.mutexes m).cs = true → (k.mutexes m).locked = true →
        (k.mutexes m).pHoldTask = some h → (k.tasks h).prior ≤ (k0.tasks h).prior)
      ∧ (∀ m h c k', m < cfg.MUTEX_INSTANCE_SUPPORTED_NUMBER → (k.mutexes m).cs = true →
          (k.mutexes m).locked = true → (k.mutexes m).pHoldTask = some h →
          k.pTask = some c → k.inInterrupt = false →
          step cfg k (.mutex_lock m) = some k' →
            c ∈ (k'.mutexes m).q_list ∧ (k'.mutexes m).locked = true
            ∧ (k'.mutexes m).pHoldTask = some h
            ∧ (k'.tasks h).prior ≤ (k'.tasks c).prior
            ∧ (k'.tasks c).prior ≤ (k0.tasks c).prior) := by
  obtain ⟨_, _, hbelow, _⟩ := reachable_invariants cfg k0 k acts h0 hrun
  refine ⟨fun m h _ _ _ => hbelow.1 h, ?_⟩
  intro m h c k' hm hcs hlocked hhold hc hthread hs
  obtain ⟨p1, p2, p3, p4⟩ := step_lock_blocked cfg k k' m c h hm hcs hthread hc hlocked hhold hs
  simp only [mutex_core, Prod.mk.injEq] at p4
  refine ⟨p3, by rw [p4.2.1, hlocked], by rw [p4.2.2.1, hhold], ?_, ?_⟩
  · by_cases e : c = h
    · subst e; exact le_refl _
    · rw [p1, p2 c e]; exact min_le_right _ _
  · by_cases e : c = h
    · subst e; rw [p1]; exact le_trans (min_le_left _ _) (hbelow.1 c)
    · rw [p2 c e]; exact hbelow.1 c

/-- C7 (amended): in every reachable state the priority of a task is numerically
at most its stable priority; and in a system with a single mutex descriptor a
task that is not the recorded holder of the mutex has its stable priority. -/
theorem task_priority_stable (cfg : Config) (k0 k : Kernel) (acts : List action)
    (h0 : initial k0) (hrun : run cfg k0 acts = some k) :
    (∀ t, (k.tasks t).prior ≤ (k0.tasks t).prior)
      ∧ (cfg.MUTEX_INSTANCE_SUPPORTED_NUMBER = 1 →
          ∀ t, (∀ m, m < cfg.MUTEX_INSTANCE_SUPPORTED_NUMBER → (k.mutexes m).cs = true →
              (k.mutexes m).pHoldTask ≠ some t) →
            (k.tasks t).prior = (k0.tasks t).prior) := by
  obtain ⟨_, _, hbelow, hsingle⟩ := reachable_invariants cfg k0 k acts h0 hrun
  refine ⟨hbelow.1, ?_⟩
  intro hN t ht
  apply (hsingle hN).1 t
  intro hh
  exact ht 0 (by omega) hh.1 hh.2

/-- C6 witness: L = 0 holds mutex 0 and H = 2 is blocked by its lock call. -/
theorem mutex_holder_priority_bound_witness :
    ∃ k k', run sample_cfg sample_init [.mutex_init 0, .mutex_lock 0, .dispatch 2] = some k
      ∧ step sample_cfg k (.mutex_lock 0) = some k'
      ∧ initial sample_init
      ∧ (k.tasks 0).prior ≤ (sample_init.tasks 0).prior
      ∧ 2 ∈ (k'.mutexes 0).q_list ∧ (k'.mutexes 0).locked = true
      ∧ (k'.mutexes 0).pHoldTask = some 0
      ∧ (k'.tasks 0).prior ≤ (k'.tasks 2).prior
      ∧ (k'.tasks 2).prior ≤ (sample_init.tasks 2).prior :=
  ⟨_, _, rfl, rfl, ⟨fun _ => rfl, rfl⟩,
    (mutex_holder_priority_bound sample_cfg sample_init _
      [.mutex_init 0, .mutex_lock 0, .dispatch 2] ⟨fun _ => rfl, rfl⟩ rfl).1 0 0 rfl rfl rfl,
    (mutex_holder_priority_bound sample_cfg sample_init _
      [.mutex_init 0, .mutex_lock 0, .dispatch 2] ⟨fun _ => rfl, rfl⟩ rfl).2 0 0 2 _
        (by decide) rfl rfl rfl rfl rfl rfl⟩

/-- C6 counterexample: L = 0 of priority 5 locks mutexes 0 and 1, H = 2 of
priority 1 is blocked on mutex 1, and L unlocks mutex 0.  Mutex 1 is then
locked by L with H in its wait queue, and the priority of L is 5 again, above
the stable priority 1 of H. -/
theorem mutex_holder_priority_bound_counterexample :
    ∃ k, run sample_cfg sample_init
        [.mutex_init 0, .mutex_init 0, .mutex_lock 0, .mutex_lock 1, .dispatch 2, .mutex_lock 1,
         .dispatch 0, .mutex_unlock 0] = some k
      ∧ initial sample_init
      ∧ (k.mutexes 1).cs = true ∧ (k.mutexes 1).locked = true
      ∧ (k.mutexes 1).pHoldTask = some 0 ∧ (k.mutexes 1).q_list = [2]
      ∧ (k.tasks 0).prior = 5 ∧ (sample_init.tasks 0).prior = 5 ∧ (sample_init.tasks 2).prior = 1
      ∧ ¬ ((k.tasks 0).prior ≤ min (sample_init.tasks 0).prior (sample_init.tasks 2).prior) := by
  refine ⟨_, rfl, ⟨fun _ => rfl, rfl⟩, ?_, ?_, ?_, ?_, ?_, ?_, ?_, ?_⟩ <;> decide

/-- C7 witness: with a single mutex, L = 0 is boosted by H = 2 while it holds the
mutex and has its stable priority 5 after the unlock. -/
theorem task_priority_stable_witness :
    ∃ k, run sample_cfg_single sample_init
        [.mutex_init 0, .mutex_lock 0, .dispatch 2, .mutex_lock 0, .dispatch 0, .mutex_unlock 0]
        = some k
      ∧ initial sample_init
      ∧ (∀ t, (k.tasks t).prior ≤ (sample_init.tasks t).prior)
      ∧ (k.mutexes 0).pHoldTask = some 2
      ∧ (k.tasks 0).prior = (sample_init.tasks 0).prior :=
  ⟨_, rfl, ⟨fun _ => rfl, rfl⟩,
    (task_priority_stable sample_cfg_single sample_init _
      [.mutex_init 0, .mutex_lock 0, .dispatch 2, .mutex_lock 0, .dispatch 0, .mutex_unlock 0]
      ⟨fun _ => rfl, rfl⟩ rfl).1,
    rfl,
    (task_priority_stable sample_cfg_single sample_init _
      [.mutex_init 0, .mutex_lock 0, .dispatch 2, .mutex_lock 0, .dispatch 0, .mutex_unlock 0]
      ⟨fun _ => rfl, rfl⟩ rfl).2 rfl 0 (by decide)⟩

/-- C7 counterexample: L = 0 of priority 5 locks mutex 0, is boosted to 1 by the
blocked H = 2, locks mutex 1 (which records the boosted priority 1), unlocks
mutex 0 and then mutex 1.  L then holds no mutex and its priority is 1, not its
stable priority 5. -/
theorem task_priority_stable_counterexample :
    ∃ k, run sample_cfg sample_init
        [.mutex_init 0, .mutex_init 0, .mutex_lock 0, .dispatch 2, .mutex_lock 0, .dispatch 0,
         .mutex_lock 1, .mutex_unlock 0, .mutex_unlock 1] = some k
      ∧ initial sample_init
      ∧ (∀ m, m < 3 → (k.mutexes m).pHoldTask ≠ some 0)
      ∧ (k.tasks 0).prior = 1 ∧ (sample_init.tasks 0).prior = 5
      ∧ (k.tasks 0).prior ≠ (sample_init.tasks 0).prior := by
  refine ⟨_, rfl, ⟨fun _ => rfl, rfl⟩, ?_, ?_, ?_, ?_⟩ <;> decide

/-! ### The window between a blocked lock call and the unlock -/

theorem quiet_effect_held (cfg : Config) (v v' : View) (m : Nat) (h : quiet_effect cfg v v')
    (hcs : (v.core m).1 = true) (hl : (v.core m).2.1 = true) :
    v'.core m = v.core m ∧ ∀ t, v'.prior t ≤ v.prior t := by
  cases h with
  | stay => exact ⟨rfl, fun _ => le_refl _⟩
  | create m' hm' hcs' =>
    have hne : m ≠ m' := by
      intro e; subst e; rw [hcs] at hcs'; exact Bool.noConfusion hcs'
    exact ⟨by simp [Function.update_noteq hne], fun _ => le_refl _⟩
  | acquire m' c hm' hcs' hfree =>
    have hne : m ≠ m' := by
      intro e; subst e; rw [hl] at hfree; exact Bool.noConfusion hfree
    exact ⟨by simp [Function.update_noteq hne], fun _ => le_refl _⟩
  | block m' c h hm' hcs' hlocked hhold =>
    refine ⟨rfl, ?_⟩
    intro t
    simp only [update_prior_apply]
    by_cases e : t = h
    · simp only [if_pos e]; subst e; exact min_le_left _ _
    · simp only [if_neg e]; exact le_refl _

/-- Over steps that are not unlock calls a locked mutex keeps its holder and its
recorded priority, and no priority rises. -/
theorem quiet_run_held (cfg : Config) (acts : List action) (k k' : Kernel) (m : Nat)
    (hq : ∀ a ∈ acts, a.is_unlock = false) (hrun : run cfg k acts = some k')
    (hexit : k.sch_exit_list = []) (hcs : (k.mutexes m).cs = true)
    (hl : (k.mutexes m).locked = true) :
    k'.sch_exit_list = [] ∧ mutex_core (k'.mutexes m) = mutex_core (k.mutexes m)
      ∧ ∀ t, (k'.tasks t).prior ≤ (k.tasks t).prior := by
  induction acts generalizing k with
  | nil =>
    simp only [run, Option.some.injEq] at hrun
    subst hrun
    exact ⟨hexit, rfl, fun _ => le_refl _⟩
  | cons a rest ih =>
    simp only [run] at hrun
    cases hs : step cfg k a with
    | none => simp [hs] at hrun
    | some k1 =>
      simp only [hs] at hrun
      obtain ⟨he, hqe, _⟩ := step_effect cfg k k1 a hs hexit
      have hqa := hqe (hq a (List.mem_cons_self _ _))
      have hheld := quiet_effect_held cfg (view k) (view k1) m hqa
        (by simp [view, mutex_core, hcs]) (by simp [view, mutex_core, hl])
      have hc1 : mutex_core (k1.mutexes m) = mutex_core (k.mutexes m) := hheld.1
      have hcs1 : (k1.mutexes m).cs = true := by
        have := congrArg Prod.fst hc1
        simp only [mutex_core] at this
        rw [this, hcs]
      have hl1 : (k1.mutexes m).locked = true := by
        have := congrArg (fun x => x.2.1) hc1
        simp only [mutex_core] at this
        rw [this, hl]
      obtain ⟨r1, r2, r3⟩ := ih k1 (fun a ha => hq a (List.mem_cons_of_mem _ ha)) hrun he hcs1 hl1
      exact ⟨r1, by rw [r2, hc1], fun t => le_trans (r3 t) (hheld.2 t)⟩

theorem mutex_lock_free_eq (cfg : Config) (k : Kernel) (m c : Nat)
    (hrun : k.pTask = some c) (hfree : (k.mutexes m).locked = false) :
    _mutex_lock_privilege_routine cfg k m
      = some (mutex_update k m (fun x =>
          { x with pHoldTask := some c, originalPriority := (k.tasks c).prior,
                   locked := true }), 0) := by
  simp [_mutex_lock_privilege_routine, hrun, hfree]

/-- A lock call from thread mode on a valid, initialised and free mutex. -/
theorem step_lock_acquire (cfg : Config) (k k' : Kernel) (m c : Nat)
    (hm : m < cfg.MUTEX_INSTANCE_SUPPORTED_NUMBER) (hcs : (k.mutexes m).cs = true)
    (hthread : k.inInterrupt = false) (hrun : k.pTask = some c)
    (hfree : (k.mutexes m).locked = false)
    (hs : step cfg k (.mutex_lock m) = some k') :
    mutex_core (k'.mutexes m) = (true, true, some c, (k.tasks c).prior)
      ∧ (∀ t, (k'.tasks t).prior = (k.tasks t).prior)
      ∧ k'.sch_exit_list = k.sch_exit_list := by
  simp only [step, _impl_mutex_lock, Option.map_eq_some'] at hs
  obtain ⟨res, hres, rfl⟩ := hs
  have h1 : _mutex_context_isInvalid cfg m = false := by simp [_mutex_context_isInvalid, hm]
  have h2 : _mutex_context_isInit k m = true := hcs
  have h3 : kernel_isInThreadMode k = true := by simp [kernel_isInThreadMode, hthread]
  simp only [h1, h2, h3, Bool.false_eq_true, if_false, Bool.not_true] at hres
  obtain ⟨b, b', res0, hr0, rfl⟩ := privilege_invoke_some _ _ _ _ hres
  rw [mutex_lock_free_eq cfg { k with inInterrupt := b } m c hrun hfree] at hr0
  simp only [Option.some.injEq] at hr0
  subst hr0
  refine ⟨?_, fun _ => rfl, rfl⟩
  simp [mutex_update, mutex_core, hcs]

/-- C4 (amended): L has just acquired a mutex (by a lock call on the free mutex
or by a hand-over), so the mutex records the priority L has at that moment, and
H, of numerically smaller priority, is later blocked by a lock call on it.
Right after that call the priority of L equals the priority of H; through any
further steps that are not unlock calls L stays the holder and its priority
stays numerically at most the priority of H (a better waiter may lower it
further); and the unlock of the mutex gives L the priority it had when it
acquired the mutex. -/
theorem mutex_inheritance_window (cfg : Config) (k1 k2 k3 k4 k5 : Kernel) (m L H : Nat)
    (as1 as2 : List action)
    (hexit : k1.sch_exit_list = []) (hm : m < cfg.MUTEX_INSTANCE_SUPPORTED_NUMBER)
    (hcs : (k1.mutexes m).cs = true) (hlocked : (k1.mutexes m).locked = true)
    (hhold : (k1.mutexes m).pHoldTask = some L)
    (horig : (k1.mutexes m).originalPriority = (k1.tasks L).prior)
    (hq1 : ∀ a ∈ as1, a.is_unlock = false) (hrun1 : run cfg k1 as1 = some k2)
    (hH : k2.pTask = some H) (hthread2 : k2.inInterrupt = false)
    (hlt : (k2.tasks H).prior < (k2.tasks L).prior)
    (hatt : step cfg k2 (.mutex_lock m) = some k3)
    (hq2 : ∀ a ∈ as2, a.is_unlock = false) (hrun2 : run cfg k3 as2 = some k4)
    (hunl : step cfg k4 (.mutex_unlock m) = some k5) :
    (k3.tasks L).prior = (k2.tasks H).prior
      ∧ (k4.tasks L).prior ≤ (k2.tasks H).prior
      ∧ (k4.mutexes m).locked = true ∧ (k4.mutexes m).pHoldTask = some L
      ∧ (k5.tasks L).prior = (k1.tasks L).prior := by
  obtain ⟨b1, b2, b3⟩ := quiet_run_held cfg as1 k1 k2 m hq1 hrun1 hexit hcs hlocked
  simp only [mutex_core, Prod.mk.injEq, hcs, hlocked, hhold, horig] at b2
  obtain ⟨c1, c2, c3, c4⟩ :=
    step_lock_blocked cfg k2 k3 m H L hm b2.1 hthread2 hH b2.2.1 b2.2.2.1 hatt
  simp only [mutex_core, Prod.mk.injEq, b2] at c4
  have e3 : k3.sch_exit_list = [] := (step_effect cfg k2 k3 _ hatt b1).1
  obtain ⟨d1, d2, d3⟩ := quiet_run_held cfg as2 k3 k4 m hq2 hrun2 e3 c4.1 c4.2.1
  simp only [mutex_core, Prod.mk.injEq, c4] at d2
  have hk3 : (k3.tasks L).prior = (k2.tasks H).prior := by
    rw [c1, min_eq_right (le_of_lt hlt)]
  refine ⟨hk3, ?_, d2.2.1, d2.2.2.1, ?_⟩
  · rw [← hk3]; exact d3 L
  · have hu := ((step_effect cfg k4 k5 _ hunl d1).2.2 m rfl).2 hm d2.1
    have hv : ∀ v5, unlock_effect cfg (view k4) m v5 →
        v5.prior L = (k4.mutexes m).originalPriority := by
      intro v5 hu
      cases hu with
      | release h _ _ hhold' =>
        have : h = L := by
          have e : (k4.mutexes m).pHoldTask = some h := hhold'
          rw [d2.2.2.1] at e
          exact (Option.some.inj e).symm
        subst this
        simp [view, mutex_core]
      | handoff h w _ _ hhold' =>
        have : h = L := by
          have e : (k4.mutexes m).pHoldTask = some h := hhold'
          rw [d2.2.2.1] at e
          exact (Option.some.inj e).symm
        subst this
        simp [view, mutex_core]
    have : (k5.tasks L).prior = (view k5).prior L := rfl
    rw [this, hv _ hu, d2.2.2.2]

/-- C4 witness: L = 0 acquires mutex 0, H = 2 is blocked on it, then M = 1 is
blocked on it too, and L unlocks. -/
theorem mutex_inheritance_window_witness :
    ∃ k1 k2 k3 k4 k5, run sample_cfg sample_init [.mutex_init 0, .mutex_lock 0] = some k1
      ∧ (k1.mutexes 0).pHoldTask = some 0
      ∧ (k1.mutexes 0).originalPriority = (k1.tasks 0).prior
      ∧ run sample_cfg k1 [.dispatch 2] = some k2
      ∧ (k2.tasks 2).prior < (k2.tasks 0).prior
      ∧ step sample_cfg k2 (.mutex_lock 0) = some k3
      ∧ run sample_cfg k3 [.dispatch 1, .mutex_lock 0, .dispatch 0] = some k4
      ∧ step sample_cfg k4 (.mutex_unlock 0) = some k5
      ∧ (k3.tasks 0).prior = (k2.tasks 2).prior
      ∧ (k4.tasks 0).prior ≤ (k2.tasks 2).prior
      ∧ (k4.mutexes 0).locked = true ∧ (k4.mutexes 0).pHoldTask = some 0
      ∧ (k5.tasks 0).prior = (k1.tasks 0).prior :=
  ⟨_, _, _, _, _, rfl, rfl, rfl, rfl, by decide, rfl, rfl, rfl,
    mutex_inheritance_window sample_cfg _ _ _ _ _ 0 0 2 [.dispatch 2]
      [.dispatch 1, .mutex_lock 0, .dispatch 0]
      rfl (by decide) rfl rfl rfl rfl (by decide) rfl rfl rfl (by decide) rfl (by decide)
      rfl rfl⟩

/-- C4 counterexample: L = 0 of priority 5 holds mutex 0, M = 1 of priority 3 is
blocked on it and L gets priority 3; then H = 2 of priority 1 is blocked on it
as well, and while the mutex is still locked by L the priority of L is 1, not
the priority 3 of M. -/
theorem mutex_inheritance_window_counterexample :
    ∃ k2 k3 k4, run sample_cfg sample_init [.mutex_init 0, .mutex_lock 0, .dispatch 1] = some k2
      ∧ step sample_cfg k2 (.mutex_lock 0) = some k3
      ∧ run sample_cfg k3 [.dispatch 2, .mutex_lock 0] = some k4
      ∧ (k2.mutexes 0).locked = true ∧ (k2.mutexes 0).pHoldTask = some 0
      ∧ k2.pTask = some 1 ∧ (k2.tasks 1).prior < (k2.tasks 0).prior
      ∧ (k3.tasks 0).prior = (k2.tasks 1).prior
      ∧ (k4.mutexes 0).locked = true ∧ (k4.mutexes 0).pHoldTask = some 0
      ∧ (k4.tasks 0).prior = 1 ∧ (k2.tasks 1).prior = 3
      ∧ (k4.tasks 0).prior ≠ (k2.tasks 1).prior := by
  refine ⟨_, _, _, rfl, rfl, rfl, ?_, ?_, ?_, ?_, ?_, ?_, ?_, ?_, ?_, ?_⟩ <;> decide

/-- C3 witness: mutex 0 is held by L = 0 and M = 1 is its only waiter. -/
theorem mutex_unlock_locked_witness :
    ∃ k' r, _mutex_unlock_privilege_routine sample_cfg sample_contended 0 = some (k', r)
      ∧ (∀ p, _mutex_unlock_privilege_routine sample_cfg (with_pTask sample_contended p) 0
          = some (with_pTask k' p, r))
      ∧ (k'.tasks 0).prior = (sample_contended.mutexes 0).originalPriority
      ∧ (∀ t, t ≠ 0 → (k'.tasks t).prior = (sample_contended.tasks t).prior)
      ∧ ((sample_contended.mutexes 0).q_list = [] →
          (k'.mutexes 0).locked = false ∧ (k'.mutexes 0).pHoldTask = none
          ∧ (k'.mutexes 0).originalPriority = sample_cfg.OS_PRIOTITY_INVALID_LEVEL
          ∧ r = 0 ∧ (∀ l, list_get k' l = list_get sample_contended l))
      ∧ (∀ w rest, (sample_contended.mutexes 0).q_list = w :: rest →
          (k'.mutexes 0).locked = true ∧ (k'.mutexes 0).pHoldTask = some w
          ∧ (k'.mutexes 0).originalPriority = (k'.tasks w).prior
          ∧ (w ≠ 0 → (k'.mutexes 0).originalPriority = (sample_contended.tasks w).prior)
          ∧ (k'.tasks w).exec.entry = { result := 0, func := none }
          ∧ (k'.tasks w).linker.pList = some .entry
          ∧ ((sample_contended.tasks w).linker.pList = some (.mutex 0) →
              (k'.mutexes 0).q_list = rest
              ∧ k'.sch_entry_list = sample_contended.sch_entry_list ++ [w]
              ∧ (∀ l, l ≠ .entry → l ≠ .mutex 0 → list_get k' l = list_get sample_contended l))) :=
  mutex_unlock_locked sample_cfg sample_contended 0 0 rfl rfl

/-- C8: the priority-inversion scenario on the code.  L = 0 of priority 5 holds
mutex 0, the ready list is H, M, L in priority order (priorities 1, 3, 5) and
H = 2 is running.  The lock call of H gives L the priority 1 and moves H into
the wait queue of the mutex, but leaves L behind M in the ready list; the
pend-switch that follows takes the head of the ready list and makes M, of
priority 3, the running task, while L has priority 1. -/
theorem priority_inversion_scenario :
    (sample_inversion.sch_pend_list, sample_inversion.pTask,
        (sample_inversion.mutexes 0).pHoldTask, (sample_inversion.tasks 0).prior,
        (sample_inversion.tasks 1).prior, (sample_inversion.tasks 2).prior)
        = ([2, 1, 0], some 2, some 0, 5, 3, 1)
      ∧ ∃ k1 r k2 cur next,
        _mutex_lock_privilege_routine sample_cfg sample_inversion 0 = some (k1, r)
      ∧ (k1.tasks 0).prior = 1 ∧ (k1.mutexes 0).q_list = [2] ∧ k1.sch_pend_list = [1, 0]
      ∧ kernel_scheduler_inPendSV_c sample_cfg k1 10 = some (k2, cur, next)
      ∧ k2.pTask = some 1 ∧ cur = 2 ∧ next = 1
      ∧ (k2.tasks 1).prior = 3 ∧ (k2.tasks 0).prior = 1 ∧ k2.sch_pend_list = [1, 0] := by
  refine ⟨by decide, _, _, _, _, _, rfl, ?_, ?_, ?_, rfl, ?_, ?_, ?_, ?_, ?_, ?_⟩ <;> decide

/-! ### Event set -/

theorem event_set_waiters_finished (cfg : Config) (val trigger : Nat) (l : List Nat) (k : Kernel)
    (reported : Nat) (postcode : Int) (hw : ∀ t ∈ l, (k.tasks t).pPendData ≠ none) :
    ∃ k1 r p, _event_set_waiters cfg val trigger l k reported postcode = .finished k1 r p := by
  induction l generalizing k reported postcode with
  | nil => exact ⟨k, reported, postcode, rfl⟩
  | cons t rest ih =>
    cases hd : (k.tasks t).pPendData with
    | none => exact absurd hd (hw t (List.mem_cons_self _ _))
    | some sche =>
      simp only [_event_set_waiters, hd]
      by_cases hr : trigger &&& sche.listen ≠ 0
      · rw [if_pos hr]
        split
        · exact ⟨_, _, _, rfl⟩
        · apply ih
          intro t' ht'
          by_cases e : t' = t
          · subst e
            rw [entry_trigger_task_self]
            simp [task_update]
          · rw [entry_trigger_task_other _ _ _ _ _ _ e, task_update_other _ _ _ _ e]
            exact hw t' (List.mem_cons_of_mem _ ht')
      · rw [if_neg hr]
        exact ih k reported postcode (fun t' ht' => hw t' (List.mem_cons_of_mem _ ht'))

/-- C9: event set on an event whose queued waiters all carry a waiter record
commits the value ((old and not clear) or set) xor toggle, for 32-bit
arguments: clear is applied first, then set, then toggle.  The changed bits from
which the trigger word is computed are that new value xor the old value. -/
theorem event_set_commits_value (cfg : Config) (k : Kernel) (e set clear toggle : Nat)
    (hset : set < 4294967296) (htoggle : toggle < 4294967296)
    (hw : ∀ t ∈ (k.events e).q_list, (k.tasks t).pPendData ≠ none) :
    ((_event_set_privilege_routine cfg k e set clear toggle).1.events e).value
        = (((k.events e).value &&& not32 clear) ||| set) ^^^ toggle
      ∧ _event_set_value (k.events e) set clear toggle
        = (((k.events e).value &&& not32 clear) ||| set) ^^^ toggle
      ∧ _event_set_trigger (k.events e) set clear toggle
        = event_trigger_bits (k.events e)
            ((((k.events e).value &&& not32 clear) ||| set) ^^^ toggle)
            (((((k.events e).value &&& not32 clear) ||| set) ^^^ toggle) ^^^ (k.events e).value)
          ||| (k.events e).triggered := by
  have hv : _event_set_value (k.events e) set clear toggle
      = (((k.events e).value &&& not32 clear) ||| set) ^^^ toggle := by
    simp only [_event_set_value, u32, Nat.mod_eq_of_lt hset, Nat.mod_eq_of_lt htoggle]
  refine ⟨?_, hv, ?_⟩
  · obtain ⟨k1, r, p, hfin⟩ := event_set_waiters_finished cfg
      (_event_set_value (k.events e) set clear toggle)
      (_event_set_trigger (k.events e) set clear toggle) (k.events e).q_list k 0 0 hw
    simp only [_event_set_privilege_routine, hfin, event_update, Function.update_same]
    exact hv
  · simp only [_event_set_trigger, hv]

/-- C9 witness: set bit 0 of the edge event on which task 1 waits. -/
theorem event_set_commits_value_witness :
    ((_event_set_privilege_routine sample_cfg sample_event_kernel 0 1 0 0).1.events 0).value
        = (((sample_event_kernel.events 0).value &&& not32 0) ||| 1) ^^^ 0
      ∧ _event_set_value (sample_event_kernel.events 0) 1 0 0
        = (((sample_event_kernel.events 0).value &&& not32 0) ||| 1) ^^^ 0
      ∧ _event_set_trigger (sample_event_kernel.events 0) 1 0 0
        = event_trigger_bits (sample_event_kernel.events 0)
            ((((sample_event_kernel.events 0).value &&& not32 0) ||| 1) ^^^ 0)
            (((((sample_event_kernel.events 0).value &&& not32 0) ||| 1) ^^^ 0)
              ^^^ (sample_event_kernel.events 0).value)
          ||| (sample_event_kernel.events 0).triggered :=
  event_set_commits_value sample_cfg sample_event_kernel 0 1 0 0 (by decide) (by decide)
    (by decide)

/-- C10: the trigger word of event set is
(any and changed) or (edge and new and dir and changed)
or (edge and not new and not dir and changed) or (level and new and dir and changed)
or (level and not new and not dir and changed) or the latched bits, with
edge = mode and not any, level = not mode and not any, new the new value and
changed = new xor old; with an empty wait queue this word is what event set
leaves in the latch. -/
theorem event_set_trigger_word (ev : event_context_t) (set clear toggle : Nat) :
    (_event_set_trigger ev set clear toggle
      = (ev.anyMask &&& (_event_set_value ev set clear toggle ^^^ ev.value))
        ||| ((ev.modeMask &&& not32 ev.anyMask) &&& _event_set_value ev set clear toggle
              &&& ev.dirMask &&& (_event_set_value ev set clear toggle ^^^ ev.value))
        ||| ((ev.modeMask &&& not32 ev.anyMask) &&& not32 (_event_set_value ev set clear toggle)
              &&& not32 ev.dirMask &&& (_event_set_value ev set clear toggle ^^^ ev.value))
        ||| ((not32 ev.modeMask &&& not32 ev.anyMask) &&& _event_set_value ev set clear toggle
              &&& ev.dirMask &&& (_event_set_value ev set clear toggle ^^^ ev.value))
        ||| ((not32 ev.modeMask &&& not32 ev.anyMask)
              &&& not32 (_event_set_value ev set clear toggle)
              &&& not32 ev.dirMask &&& (_event_set_value ev set clear toggle ^^^ ev.value))
        ||| ev.triggered)
    ∧ (∀ (cfg : Config) (k : Kernel) (e : Nat), k.events e = ev → ev.q_list = [] →
        ((_event_set_privilege_routine cfg k e set clear toggle).1.events e).triggered
          = not32 0 &&& _event_set_trigger ev set clear toggle) := by
  constructor
  · rfl
  · intro cfg k e hev hq
    simp only [_event_set_privilege_routine, hev, hq, _event_set_waiters, event_update,
      Function.update_same]

/-- C10 witness: the edge event with no waiter, bit 0 set. -/
theorem event_set_trigger_word_witness :
    ((_event_set_privilege_routine sample_cfg
        { sample_kernel with events := fun _ => sample_edge_event } 0 1 0 0).1.events 0).triggered
      = not32 0 &&& _event_set_trigger sample_edge_event 1 0 0 :=
  (event_set_trigger_word sample_edge_event 1 0 0).2 sample_cfg
    { sample_kernel with events := fun _ => sample_edge_event } 0 rfl rfl

/-! ### Words of 32 bits -/

theorem not32_lt (x : Nat) : not32 x < 4294967296 := Nat.mod_lt _ (by decide)

theorem u32_lt (x : Nat) : u32 x < 4294967296 := Nat.mod_lt _ (by decide)

theorem u32_of_lt (x : Nat) (h : x < 4294967296) : u32 x = x := Nat.mod_eq_of_lt h

theorem testBit_not32 (x i : Nat) :
    (not32 x).testBit i = (decide (i < 32) && !x.testBit i) := by
  have h1 : (4294967296 : Nat) = 2 ^ 32 := by norm_num
  have h2 : (4294967295 : Nat) = 2 ^ 32 - 1 := by norm_num
  unfold not32
  rw [h1, Nat.testBit_mod_two_pow, Nat.testBit_xor, h2, Nat.testBit_two_pow_sub_one]
  by_cases h : i < 32 <;> simp [h]

theorem testBit_u32 (x i : Nat) : (u32 x).testBit i = (decide (i < 32) && x.testBit i) := by
  have h1 : (4294967296 : Nat) = 2 ^ 32 := by norm_num
  unfold u32
  rw [h1, Nat.testBit_mod_two_pow]

theorem testBit_of_lt_u32 (x i : Nat) (h : x < 4294967296) (hi : x.testBit i = true) : i < 32 := by
  by_contra hc
  have h1 : (4294967296 : Nat) = 2 ^ 32 := by norm_num
  rw [h1] at h
  have : x < 2 ^ i := lt_of_lt_of_le h (Nat.pow_le_pow_right (by norm_num) (by omega))
  rw [Nat.testBit_lt_two_pow this] at hi
  exact Bool.noConfusion hi

theorem and_lt_u32_left (x y : Nat) (h : x < 4294967296) : x &&& y < 4294967296 :=
  lt_of_le_of_lt Nat.and_le_left h

theorem and_lt_u32_right (x y : Nat) (h : y < 4294967296) : x &&& y < 4294967296 :=
  lt_of_le_of_lt Nat.and_le_right h

theorem or_lt_u32 (x y : Nat) (hx : x < 4294967296) (hy : y < 4294967296) :
    x ||| y < 4294967296 := by
  have h1 : (4294967296 : Nat) = 2 ^ 32 := by norm_num
  rw [h1] at *
  exact Nat.or_lt_two_pow hx hy

theorem xor_lt_u32 (x y : Nat) (hx : x < 4294967296) (hy : y < 4294967296) :
    x ^^^ y < 4294967296 := by
  have h1 : (4294967296 : Nat) = 2 ^ 32 := by norm_num
  rw [h1] at *
  exact Nat.xor_lt_two_pow hx hy

theorem not32_zero_and (x : Nat) (h : x < 4294967296) : not32 0 &&& x = x := by
  apply Nat.eq_of_testBit_eq
  intro i
  rw [Nat.testBit_and, testBit_not32]
  by_cases hi : x.testBit i = true
  · have := testBit_of_lt_u32 x i h hi
    simp [this, hi]
  · simp [hi]

theorem and_not32_zero (x : Nat) (h : x < 4294967296) : x &&& not32 0 = x := by
  rw [Nat.and_comm]; exact not32_zero_and x h

/-- An and with a part of a word that has no bit in common with `y` has no bit
in common with `y`. -/
theorem and_zero_of_and_zero (x y z : Nat) (h : x &&& y = 0) : (x &&& z) &&& y = 0 := by
  apply Nat.eq_of_testBit_eq
  intro i
  have := congrArg (fun n => n.testBit i) h
  simp only [Nat.testBit_and, Nat.zero_testBit] at this ⊢
  cases hx : x.testBit i <;> cases hy : y.testBit i <;> simp_all

theorem and_zero_of_and_zero_left (x y z : Nat) (h : x &&& y = 0) : (z &&& x) &&& y = 0 := by
  rw [Nat.and_comm z x]; exact and_zero_of_and_zero x y z h

theorem or_and_zero_right (x y z : Nat) (h : (x ||| y) &&& z = 0) : y &&& z = 0 := by
  apply Nat.eq_of_testBit_eq
  intro i
  have := congrArg (fun n => n.testBit i) h
  simp only [Nat.testBit_and, Nat.testBit_or, Nat.zero_testBit] at this ⊢
  cases hx : x.testBit i <;> cases hy : y.testBit i <;> cases hz : z.testBit i <;> simp_all

theorem event_trigger_bits_zero (ev : event_context_t) (val : Nat) :
    event_trigger_bits ev val 0 = 0 := by
  simp [event_trigger_bits]

theorem event_trigger_bits_lt (ev : event_context_t) (val changed : Nat)
    (hany : ev.anyMask < 4294967296) : event_trigger_bits ev val changed < 4294967296 := by
  unfold event_trigger_bits
  simp only
  refine or_lt_u32 _ _ (or_lt_u32 _ _ (or_lt_u32 _ _ (or_lt_u32 _ _ ?_ ?_) ?_) ?_) ?_
  · exact and_lt_u32_left _ _ hany
  all_goals
    repeat' first
      | exact and_lt_u32_right _ _ (not32_lt _)
      | apply and_lt_u32_left

/-! ### Frame lemmas for the members of an event -/

theorem list_set_event_core (k : Kernel) (r : list_ref) (l : List Nat) (e : Nat) :
    event_core ((list_set k r l).events e) = event_core (k.events e) := by
  cases r <;> simp [list_set, mutex_update, event_update]
  rename_i e'
  by_cases h : e = e'
  · subst h; simp [event_core]
  · simp [Function.update_noteq h]

theorem linker_unlink_event_core (k : Kernel) (t e : Nat) :
    event_core ((linker_unlink k t).events e) = event_core (k.events e) := by
  unfold linker_unlink
  split
  · rfl
  · exact list_set_event_core _ _ _ _

theorem transaction_specific_event_core (k : Kernel) (t : Nat) (r : list_ref)
    (f : Kernel → Option Nat → Option Nat → Bool) (e : Nat) :
    event_core ((linker_list_transaction_specific k t r f).events e) = event_core (k.events e) := by
  simp only [linker_list_transaction_specific, linker_set_pList, task_update]
  rw [list_set_event_core, linker_unlink_event_core]

theorem transaction_common_event_core (k : Kernel) (t : Nat) (r : Option list_ref)
    (d : list_direction_t) (e : Nat) :
    event_core ((linker_list_transaction_common k t r d).events e) = event_core (k.events e) := by
  cases r with
  | none =>
    simp only [linker_list_transaction_common, linker_set_pList, task_update]
    rw [linker_unlink_event_core]
  | some r =>
    simp only [linker_list_transaction_common, linker_set_pList, task_update]
    rw [list_set_event_core, linker_unlink_event_core]

theorem schedule_request_events (cfg : Config) (k : Kernel) :
    (kernel_thread_schedule_request cfg k).1.events = k.events := by
  rw [schedule_request_fst]; split <;> rfl

theorem exit_trigger_event_core (cfg : Config) (k : Kernel) (t : Nat) (ctx : Option ctx_ref)
    (data : Option event_sch_t) (r : list_ref) (ms : Nat) (e : Nat) :
    event_core (((schedule_exit_trigger cfg k t ctx data (some r) ms true).1).events e)
      = event_core (k.events e) := by
  rw [exit_trigger_immediately, schedule_request_events, transaction_specific_event_core]
  rfl

theorem entry_trigger_event_core (cfg : Config) (k : Kernel) (t : Nat) (cb : Option callback)
    (res : Int) (e : Nat) :
    event_core (((schedule_entry_trigger cfg k t cb res).1).events e) = event_core (k.events e) := by
  rw [entry_trigger_fst, schedule_request_events, transaction_common_event_core]
  rfl

theorem event_core_triggered (x y : event_context_t) (h : event_core x = event_core y) :
    x.triggered = y.triggered := by
  simp only [event_core, Prod.mk.injEq] at h
  exact h.2.2.1

theorem event_core_value (x y : event_context_t) (h : event_core x = event_core y) :
    x.value = y.value := by
  simp only [event_core, Prod.mk.injEq] at h
  exact h.2.1

theorem event_core_cs (x y : event_context_t) (h : event_core x = event_core y) :
    x.cs = y.cs := by
  simp only [event_core, Prod.mk.injEq] at h
  exact h.1

/-- The postcode of a schedule request made in handler mode is 0. -/
theorem schedule_request_snd (cfg : Config) (k : Kernel) (h : k.inInterrupt = true) :
    (kernel_thread_schedule_request cfg k).2 = 0 := by
  simp [kernel_thread_schedule_request, h]

theorem schedule_request_inInterrupt (cfg : Config) (k : Kernel) :
    (kernel_thread_schedule_request cfg k).1.inInterrupt = k.inInterrupt := by
  rw [schedule_request_fst]; split <;> rfl

theorem list_set_inInterrupt (k : Kernel) (r : list_ref) (l : List Nat) :
    (list_set k r l).inInterrupt = k.inInterrupt := by
  cases r <;> rfl

theorem linker_unlink_inInterrupt (k : Kernel) (t : Nat) :
    (linker_unlink k t).inInterrupt = k.inInterrupt := by
  unfold linker_unlink
  split
  · rfl
  · exact list_set_inInterrupt _ _ _

theorem transaction_specific_inInterrupt (k : Kernel) (t : Nat) (r : list_ref)
    (f : Kernel → Option Nat → Option Nat → Bool) :
    (linker_list_transaction_specific k t r f).inInterrupt = k.inInterrupt := by
  simp only [linker_list_transaction_specific, linker_set_pList, task_update, list_set_inInterrupt,
    linker_unlink_inInterrupt]

theorem transaction_common_inInterrupt (k : Kernel) (t : Nat) (r : Option list_ref)
    (d : list_direction_t) : (linker_list_transaction_common k t r d).inInterrupt = k.inInterrupt := by
  cases r <;>
    simp only [linker_list_transaction_common, linker_set_pList, task_update, list_set_inInterrupt,
      linker_unlink_inInterrupt]

theorem exit_trigger_inInterrupt (cfg : Config) (k : Kernel) (t : Nat) (ctx : Option ctx_ref)
    (data : Option event_sch_t) (r : list_ref) (ms : Nat) :
    ((schedule_exit_trigger cfg k t ctx data (some r) ms true).1).inInterrupt = k.inInterrupt := by
  rw [exit_trigger_immediately, schedule_request_inInterrupt, transaction_specific_inInterrupt]
  rfl

theorem entry_trigger_inInterrupt (cfg : Config) (k : Kernel) (t : Nat) (cb : Option callback)
    (res : Int) : ((schedule_entry_trigger cfg k t cb res).1).inInterrupt = k.inInterrupt := by
  rw [entry_trigger_fst, schedule_request_inInterrupt, transaction_common_inInterrupt]
  rfl

theorem exit_trigger_snd (cfg : Config) (k : Kernel) (t : Nat) (ctx : Option ctx_ref)
    (data : Option event_sch_t) (r : list_ref) (ms : Nat) (h : k.inInterrupt = true) :
    (schedule_exit_trigger cfg k t ctx data (some r) ms true).2 = 0 := by
  have : schedule_exit_trigger cfg k t ctx data (some r) ms true
      = kernel_thread_schedule_request cfg
          (linker_list_transaction_specific
            (task_update k t (fun x => { x with pPendCtx := ctx, pPendData := data,
                                                expire := timeout_set cfg x.expire ms true }))
            t r _schedule_priority_node_order_compare_condition) := by
    simp [schedule_exit_trigger, _schedule_transfer_toTargetList, task_update]
  rw [this]
  apply schedule_request_snd
  rw [transaction_specific_inInterrupt]
  exact h

theorem entry_trigger_snd (cfg : Config) (k : Kernel) (t : Nat) (cb : Option callback)
    (res : Int) (h : k.inInterrupt = true) : (schedule_entry_trigger cfg k t cb res).2 = 0 := by
  unfold schedule_entry_trigger
  apply schedule_request_snd
  unfold _schedule_transfer_toEntryList
  rw [transaction_common_inInterrupt]
  exact h

/-- A privileged call from thread mode runs the routine in handler mode and
comes back to thread mode. -/
theorem privilege_invoke_thread {α : Type} (err : α) (f : Kernel → Option (Kernel × α))
    (k : Kernel) (h : k.inInterrupt = false) :
    kernel_privilege_invoke err (some f) k
      = (f { k with inInterrupt := true }).map
          (fun res => ({ res.1 with inInterrupt := false }, res.2)) := by
  unfold kernel_privilege_invoke kernel_svc_call
  simp only [h, Bool.not_false, if_true]
  cases f { k with inInterrupt := true } <;> rfl

theorem list_get_inInterrupt (k : Kernel) (b : Bool) (r : list_ref) :
    list_get { k with inInterrupt := b } r = list_get k r := by
  cases r <;> rfl

/-- The immediate path of `_event_wait_privilege_routine`. -/
theorem event_wait_routine_immediate (cfg : Config) (k : Kernel) (e : Nat) (sch : event_sch_t)
    (ms : Nat) (hrep : _event_wait_trigger (k.events e) sch.pEvtVal &&& sch.listen ≠ 0) :
    _event_wait_privilege_routine cfg k e sch ms
      = some (event_update k e (fun x =>
                { x with triggered := x.triggered
                    &&& not32 (_event_wait_trigger (k.events e) sch.pEvtVal &&& sch.listen) }),
              { value := (k.events e).value,
                trigger := _event_wait_trigger (k.events e) sch.pEvtVal }, 0) := by
  unfold _event_wait_privilege_routine
  simp only [if_pos hrep]

/-- The blocking path of `_event_wait_privilege_routine`. -/
theorem event_wait_routine_blocking (cfg : Config) (k : Kernel) (e c : Nat) (sch : event_sch_t)
    (ms : Nat) (hrun : k.pTask = some c)
    (hrep : _event_wait_trigger (k.events e) sch.pEvtVal &&& sch.listen = 0) :
    _event_wait_privilege_routine cfg k e sch ms
      = some ((schedule_exit_trigger cfg k c (some (.event e))
                (some { sch with pEvtVal := { sch.pEvtVal with value := (k.events e).value } })
                (some (.event e)) ms true).1,
              { sch.pEvtVal with value := (k.events e).value },
              if cfg.PC_PASS (schedule_exit_trigger cfg k c (some (.event e))
                (some { sch with pEvtVal := { sch.pEvtVal with value := (k.events e).value } })
                (some (.event e)) ms true).2
              then cfg.PC_OS_WAIT_UNAVAILABLE
              else (schedule_exit_trigger cfg k c (some (.event e))
                (some { sch with pEvtVal := { sch.pEvtVal with value := (k.events e).value } })
                (some (.event e)) ms true).2) := by
  unfold _event_wait_privilege_routine
  have h : ¬ (_event_wait_trigger (k.events e) sch.pEvtVal &&& sch.listen ≠ 0) := by
    simpa using hrep
  simp only [if_neg h, hrun]

/-- The checks of `_impl_event_wait` pass for a valid, initialised event, an
output record, a timeout other than 0 and a caller in thread mode. -/
theorem impl_event_wait_invoke_eq (cfg : Config) (k : Kernel) (e : Nat) (d : evt_val)
    (listen_mask timeout_ms : Nat) (hvalid : e < cfg.EVENT_INSTANCE_SUPPORTED_NUMBER)
    (hinit : (k.events e).cs = true) (htime : timeout_ms ≠ 0) (hthread : k.inInterrupt = false) :
    _impl_event_wait_invoke cfg k e (some d) listen_mask timeout_ms
      = (_event_wait_privilege_routine cfg { k with inInterrupt := true } e
          { listen := listen_mask, pEvtVal := d } timeout_ms).map
          (fun res => ({ res.1 with inInterrupt := false }, some res.2.1, res.2.2)) := by
  unfold _impl_event_wait_invoke
  simp only [_event_context_isInvalid, _event_context_isInit, kernel_isInThreadMode, hvalid, hinit,
    htime, hthread, decide_True, Bool.not_true, Bool.not_false, if_false, Bool.false_eq_true]
  rw [privilege_invoke_thread _ _ _ hthread, Option.map_map]
  rfl

/-- The rest of `_impl_event_wait` after a routine that answered 0. -/
theorem impl_event_wait_result_zero (cfg : Config) (k : Kernel)
    (hcode : cfg.PC_OS_WAIT_UNAVAILABLE ≠ 0) : _impl_event_wait_result cfg k 0 = some (k, 0) := by
  unfold _impl_event_wait_result
  have h : ¬ ((0 : Int) = cfg.PC_OS_WAIT_UNAVAILABLE) := fun h => hcode h.symm
  simp only [if_neg h, Option.map_some']
  by_cases hp : cfg.PC_PASS_INFO 0 = true
  · by_cases ht : (0 : Int) ≠ cfg.PC_OS_WAIT_TIMEOUT
    · simp [hp, ht]
    · simp [hp]
  · simp [hp]

theorem impl_event_wait_eq (cfg : Config) (k : Kernel) (e : Nat) (d : evt_val)
    (listen_mask timeout_ms : Nat) (hvalid : e < cfg.EVENT_INSTANCE_SUPPORTED_NUMBER)
    (hinit : (k.events e).cs = true) (htime : timeout_ms ≠ 0) (hthread : k.inInterrupt = false) :
    _impl_event_wait cfg k e (some d) listen_mask timeout_ms
      = match (_event_wait_privilege_routine cfg { k with inInterrupt := true } e
          { listen := listen_mask, pEvtVal := d } timeout_ms) with
        | none => none
        | some res =>
          (_impl_event_wait_result cfg { res.1 with inInterrupt := false } res.2.2).map
            (fun fin => (fin.1, some res.2.1, fin.2)) := by
  unfold _impl_event_wait
  simp only [_event_context_isInvalid, _event_context_isInit, kernel_isInThreadMode, hvalid, hinit,
    htime, hthread, decide_True, Bool.not_true, Bool.not_false, if_false, Bool.false_eq_true]
  rw [privilege_invoke_thread _ _ _ hthread]
  cases _event_wait_privilege_routine cfg { k with inInterrupt := true } e
      { listen := listen_mask, pEvtVal := d } timeout_ms <;> rfl

/-- C13: the immediate path of event wait.  The trigger word of a wait is
`_event_wait_trigger`: the bits computed from the current value, the masks and
the bits in which the value differs from the value in the output record of the
caller, or-ed with the triggered latch.  When it has a bit in common with the
listen mask, the wait returns 0 with out_value = the current value and
out_trigger = the trigger word, and the state differs from the state before
the call only in the latch of this event, which becomes
`triggered & ~(trigger & listen_mask)`: the value and the wait queue of the
event, every task and every list are as before. -/
theorem event_wait_immediate (cfg : Config) (k : Kernel) (e : Nat) (d : evt_val)
    (listen_mask timeout_ms : Nat) (hvalid : e < cfg.EVENT_INSTANCE_SUPPORTED_NUMBER)
    (hinit : (k.events e).cs = true) (htime : timeout_ms ≠ 0) (hthread : k.inInterrupt = false)
    (hcode : cfg.PC_OS_WAIT_UNAVAILABLE ≠ 0)
    (hrep : _event_wait_trigger (k.events e) d &&& listen_mask ≠ 0) :
    ∃ k', _impl_event_wait cfg k e (some d) listen_mask timeout_ms
        = some (k', some { value := (k.events e).value,
                           trigger := _event_wait_trigger (k.events e) d }, 0)
      ∧ k' = event_update k e (fun x =>
              { x with triggered := x.triggered
                  &&& not32 (_event_wait_trigger (k.events e) d &&& listen_mask) })
      ∧ (k'.events e).triggered
          = (k.events e).triggered &&& not32 (_event_wait_trigger (k.events e) d &&& listen_mask)
      ∧ (k'.events e).value = (k.events e).value
      ∧ (k'.events e).q_list = (k.events e).q_list
      ∧ k'.tasks = k.tasks
      ∧ (∀ r, list_get k' r = list_get k r)
      ∧ k'.pendSV = k.pendSV := by
  refine ⟨_, ?_, rfl, ?_, ?_, ?_, rfl, ?_, rfl⟩
  · rw [impl_event_wait_eq cfg k e d listen_mask timeout_ms hvalid hinit htime hthread,
      event_wait_routine_immediate cfg { k with inInterrupt := true } e
        { listen := listen_mask, pEvtVal := d } timeout_ms hrep]
    simp only [impl_event_wait_result_zero _ _ hcode, Option.map_some']
    have : k = { k with inInterrupt := false } := by rw [← hthread]
    conv_rhs => rw [this]
    rfl
  · simp [event_update]
  · simp [event_update]
  · simp [event_update]
  · intro r
    cases r <;> simp [list_get, event_update]
    rename_i e'
    by_cases h : e' = e
    · subst h; simp
    · simp [Function.update_noteq h]

/-- C13, witness: the edge event of the sample state with value 1 and bit 0
latched, a caller with an empty output record and listen mask 1. -/
theorem event_wait_immediate_witness :
    ∃ k', _impl_event_wait sample_cfg (sample_edge_kernel 1 1) 0 (some ⟨0, 0⟩) 1 100
        = some (k', some { value := 1, trigger := 1 }, 0)
      ∧ (k'.events 0).triggered = 0
      ∧ (k'.events 0).value = 1
      ∧ (k'.events 0).q_list = []
      ∧ k'.tasks = (sample_edge_kernel 1 1).tasks
      ∧ (∀ r, list_get k' r = list_get (sample_edge_kernel 1 1) r) := by
  obtain ⟨k', h1, _, h3, h4, h5, h6, h7, _⟩ :=
    event_wait_immediate sample_cfg (sample_edge_kernel 1 1) 0 ⟨0, 0⟩ 1 100 (by decide) rfl
      (by decide) rfl (by decide) (by decide)
  exact ⟨k', h1, h3, h4, h5, h6, h7⟩

theorem mem_sorted_insert_iff (pred : Nat → Nat → Bool) (new x : Nat) (l : List Nat) :
    x ∈ sorted_insert pred new l ↔ x = new ∨ x ∈ l := by
  obtain ⟨pre, post, h1, h2, _, _⟩ := sorted_insert_split pred new l
  rw [h2, h1]
  simp only [List.mem_append, List.mem_cons]
  tauto

theorem sorted_insert_perm (pred : Nat → Nat → Bool) (new : Nat) (l : List Nat) :
    (sorted_insert pred new l).Perm (new :: l) := by
  obtain ⟨pre, post, h1, h2, _, _⟩ := sorted_insert_split pred new l
  rw [h2, h1]
  exact List.perm_middle

theorem mem_erase_ne (l : List Nat) (x t : Nat) (h : x ≠ t) : x ∈ l.erase t ↔ x ∈ l :=
  List.mem_erase_of_ne h

/-- C14: the blocking path of event wait.  When the trigger word of the wait has
no bit in common with the listen mask (the timeout is not 0, the caller `c` is
the running task in thread mode), the call through the privilege gate leaves
the value, the latch and the masks of every event as they were, the caller is
in the wait queue of this event, put there by the sorted insert after leaving
the list its linker recorded, its linker records this queue, its pending
context is this event and its waiter record holds the listen mask and the
output record (with out_value = the current value of the event); every other
task is unchanged and is in exactly the lists it was in. -/
theorem event_wait_blocking (cfg : Config) (k : Kernel) (e c : Nat) (d : evt_val)
    (listen_mask timeout_ms : Nat) (hvalid : e < cfg.EVENT_INSTANCE_SUPPORTED_NUMBER)
    (hinit : (k.events e).cs = true) (htime : timeout_ms ≠ 0) (hthread : k.inInterrupt = false)
    (hrun : k.pTask = some c)
    (hrep : _event_wait_trigger (k.events e) d &&& listen_mask = 0) :
    ∃ k' pc, _impl_event_wait_invoke cfg k e (some d) listen_mask timeout_ms
        = some (k', some { d with value := (k.events e).value }, pc)
      ∧ (cfg.PC_PASS 0 = true → pc = cfg.PC_OS_WAIT_UNAVAILABLE)
      ∧ (∀ e', event_core (k'.events e') = event_core (k.events e'))
      ∧ c ∈ (k'.events e).q_list
      ∧ (k'.events e).q_list
          = sorted_insert (fun cur new => decide ((k.tasks new).prior < (k.tasks cur).prior)) c
              (if (k.tasks c).linker.pList = some (.event e) then (k.events e).q_list.erase c
               else (k.events e).q_list)
      ∧ k'.tasks c
          = { k.tasks c with
              pPendCtx := some (.event e),
              pPendData := some { listen := listen_mask,
                                  pEvtVal := { d with value := (k.events e).value } },
              expire := timeout_set cfg (k.tasks c).expire timeout_ms true,
              linker := { pList := some (.event e) } }
      ∧ (∀ t, t ≠ c → k'.tasks t = k.tasks t)
      ∧ (∀ t r, t ≠ c → (t ∈ list_get k' r ↔ t ∈ list_get k r)) := by
  have heq := impl_event_wait_invoke_eq cfg k e d listen_mask timeout_ms hvalid hinit htime hthread
  rw [event_wait_routine_blocking cfg { k with inInterrupt := true } e c
        { listen := listen_mask, pEvtVal := d } timeout_ms hrun hrep] at heq
  simp only [Option.map_some'] at heq
  rw [exit_trigger_snd cfg { k with inInterrupt := true } c _ _ _ _ rfl] at heq
  have htarget := exit_trigger_target cfg { k with inInterrupt := true } c (some (.event e))
    (some { listen := listen_mask, pEvtVal := { d with value := (k.events e).value } })
    (.event e) timeout_ms
  refine ⟨_, _, heq, ?_, ?_, ?_, ?_, ?_, ?_, ?_⟩
  · intro hp
    simp [hp]
  · intro e'
    exact exit_trigger_event_core cfg { k with inInterrupt := true } c _ _ _ _ e'
  · show c ∈ list_get (schedule_exit_trigger cfg { k with inInterrupt := true } c _ _ _ _ true).1
      (.event e)
    rw [htarget]
    exact mem_sorted_insert _ _ _
  · exact htarget
  · exact exit_trigger_task_self cfg { k with inInterrupt := true } c _ _ _ _
  · intro t ht
    exact exit_trigger_task_other cfg { k with inInterrupt := true } c _ _ _ _ t ht
  · intro t r ht
    rw [list_get_inInterrupt]
    by_cases hr : r = .event e
    · subst hr
      rw [htarget, mem_sorted_insert_iff]
      show t = c ∨ t ∈ (if (k.tasks c).linker.pList = some (.event e)
        then (list_get k (.event e)).erase c else list_get k (.event e)) ↔ _
      split
      · rw [mem_erase_ne _ _ _ ht]; simp [ht]
      · simp [ht]
    · rw [exit_trigger_other_list cfg { k with inInterrupt := true } c _ _ _ _ _ hr]
      show t ∈ (if (k.tasks c).linker.pList = some r
        then (list_get k r).erase c else list_get k r) ↔ _
      split
      · rw [mem_erase_ne _ _ _ ht]
      · rfl

/-- C14, witness: the level event of the sample state with value 1 and nothing
latched, and the running task 0 that has seen the value 1 and listens on bit 0. -/
theorem event_wait_blocking_witness :
    ∃ k' pc, _impl_event_wait_invoke sample_cfg (sample_level_kernel 1 0) 0 (some ⟨1, 0⟩) 1 100
        = some (k', some { value := 1, trigger := 0 }, pc)
      ∧ pc = 2
      ∧ (∀ e', event_core (k'.events e') = event_core ((sample_level_kernel 1 0).events e'))
      ∧ (k'.events 0).q_list = [0]
      ∧ (k'.tasks 0).pPendCtx = some (.event 0)
      ∧ (k'.tasks 0).pPendData = some { listen := 1, pEvtVal := { value := 1, trigger := 0 } }
      ∧ (∀ t, t ≠ 0 → k'.tasks t = (sample_level_kernel 1 0).tasks t)
      ∧ (∀ t r, t ≠ 0 → (t ∈ list_get k' r ↔ t ∈ list_get (sample_level_kernel 1 0) r)) := by
  obtain ⟨k', pc, h1, h2, h3, _, h5, h6, h7, h8⟩ :=
    event_wait_blocking sample_cfg (sample_level_kernel 1 0) 0 0 ⟨1, 0⟩ 1 100 (by decide) rfl
      (by decide) rfl rfl (by decide)
  refine ⟨k', pc, h1, h2 rfl, h3, ?_, ?_, ?_, h7, h8⟩
  · rw [h5]; rfl
  · rw [h6]
  · rw [h6]; rfl

/-! ### The waiter loop of event set -/

theorem event_wake_task_self (cfg : Config) (val trigger : Nat) (k : Kernel) (t : Nat) :
    (event_wake cfg val trigger k t).tasks t
      = { k.tasks t with
          pPendData := (k.tasks t).pPendData.map (fun d =>
            { d with pEvtVal := { value := val, trigger := trigger } }),
          exec := { (k.tasks t).exec with entry := { result := 0, func := some .event_schedule } },
          linker := { pList := some .entry } } := by
  unfold event_wake
  rw [entry_trigger_task_self, task_update_self]

theorem event_wake_task_other (cfg : Config) (val trigger : Nat) (k : Kernel) (t u : Nat)
    (h : u ≠ t) : (event_wake cfg val trigger k t).tasks u = k.tasks u := by
  unfold event_wake
  rw [entry_trigger_task_other _ _ _ _ _ _ h, task_update_other _ _ _ _ h]

theorem event_wake_entry_list (cfg : Config) (val trigger : Nat) (k : Kernel) (t : Nat) :
    list_get (event_wake cfg val trigger k t) .entry
      = (if (k.tasks t).linker.pList = some .entry then (list_get k .entry).erase t
          else list_get k .entry) ++ [t] := by
  unfold event_wake
  rw [entry_trigger_entry_list, task_update_self, list_get_task_update]

theorem event_wake_other_list (cfg : Config) (val trigger : Nat) (k : Kernel) (t : Nat)
    (r : list_ref) (h : r ≠ .entry) :
    list_get (event_wake cfg val trigger k t) r
      = if (k.tasks t).linker.pList = some r then (list_get k r).erase t else list_get k r := by
  unfold event_wake
  rw [entry_trigger_other_list _ _ _ _ _ _ h, task_update_self, list_get_task_update]

theorem event_wake_event_core (cfg : Config) (val trigger : Nat) (k : Kernel) (t e : Nat) :
    event_core ((event_wake cfg val trigger k t).events e) = event_core (k.events e) := by
  unfold event_wake
  rw [entry_trigger_event_core]
  rfl

theorem event_wake_mutex_core (cfg : Config) (val trigger : Nat) (k : Kernel) (t m : Nat) :
    mutex_core ((event_wake cfg val trigger k t).mutexes m) = mutex_core (k.mutexes m) := by
  unfold event_wake
  rw [entry_trigger_mutex_core]
  rfl

theorem event_wake_inInterrupt (cfg : Config) (val trigger : Nat) (k : Kernel) (t : Nat) :
    (event_wake cfg val trigger k t).inInterrupt = k.inInterrupt := by
  unfold event_wake
  rw [entry_trigger_inInterrupt]
  rfl

theorem event_wake_pTask (cfg : Config) (val trigger : Nat) (k : Kernel) (t : Nat) :
    (event_wake cfg val trigger k t).pTask = k.pTask := by
  unfold event_wake
  rw [entry_trigger_pTask]
  rfl

theorem event_listen_congr (k k' : Kernel) (t : Nat) (h : k'.tasks t = k.tasks t) :
    event_listen k' t = event_listen k t := by
  unfold event_listen
  rw [h]

theorem event_woken_congr (k k' : Kernel) (trigger : Nat) (l : List Nat)
    (h : ∀ t ∈ l, k'.tasks t = k.tasks t) :
    event_woken k' trigger l = event_woken k trigger l := by
  unfold event_woken
  apply List.filter_congr
  intro t ht
  rw [event_listen_congr k k' t (h t ht)]

theorem event_woken_cons (k : Kernel) (trigger t : Nat) (l : List Nat) :
    event_woken k trigger (t :: l)
      = if trigger &&& event_listen k t ≠ 0 then t :: event_woken k trigger l
        else event_woken k trigger l := by
  unfold event_woken
  by_cases h : trigger &&& event_listen k t ≠ 0
  · rw [if_pos h, List.filter_cons_of_pos (by simpa using h)]
  · rw [if_neg h, List.filter_cons_of_neg (by simpa using h)]

theorem event_woken_sublist (k : Kernel) (trigger : Nat) (l : List Nat) :
    (event_woken k trigger l).Sublist l := List.filter_sublist _

theorem mem_event_woken (k : Kernel) (trigger : Nat) (l : List Nat) (t : Nat) :
    t ∈ event_woken k trigger l ↔ t ∈ l ∧ trigger &&& event_listen k t ≠ 0 := by
  unfold event_woken
  simp [List.mem_filter]

/-- The union of the reported bits over a list of waiters, from a start value. -/
theorem reported_foldl_congr (k k' : Kernel) (trigger : Nat) (l : List Nat) (r : Nat)
    (h : ∀ t ∈ l, k'.tasks t = k.tasks t) :
    l.foldl (fun reported t => reported ||| (trigger &&& event_listen k' t)) r
      = l.foldl (fun reported t => reported ||| (trigger &&& event_listen k t)) r := by
  induction l generalizing r with
  | nil => rfl
  | cons t rest ih =>
    simp only [List.foldl_cons]
    rw [event_listen_congr k k' t (h t (List.mem_cons_self _ _))]
    exact ih _ (fun u hu => h u (List.mem_cons_of_mem _ hu))

/-- In handler mode, with a success postcode that is no error, the waiter loop
of event set wakes the waiters whose listen mask meets the trigger word, one
after the other in queue order, and collects their reported bits. -/
theorem event_set_waiters_eq (cfg : Config) (hpc : cfg.PC_ERROR 0 = false) (val trigger : Nat)
    (l : List Nat) (k : Kernel) (reported : Nat) (postcode : Int)
    (hmode : k.inInterrupt = true) (hnd : l.Nodup)
    (hrec : ∀ t ∈ l, (k.tasks t).pPendData ≠ none) :
    _event_set_waiters cfg val trigger l k reported postcode
      = .finished ((event_woken k trigger l).foldl (event_wake cfg val trigger) k)
          ((event_woken k trigger l).foldl
            (fun reported t => reported ||| (trigger &&& event_listen k t)) reported)
          (if event_woken k trigger l = [] then postcode else 0) := by
  induction l generalizing k reported postcode with
  | nil => rfl
  | cons t rest ih =>
    have hnd' : rest.Nodup := (List.nodup_cons.mp hnd).2
    have ht : t ∉ rest := (List.nodup_cons.mp hnd).1
    cases hd : (k.tasks t).pPendData with
    | none => exact absurd hd (hrec t (List.mem_cons_self _ _))
    | some sche =>
      have hl : event_listen k t = sche.listen := by simp [event_listen, hd]
      rw [event_woken_cons, hl]
      simp only [_event_set_waiters, hd]
      by_cases hr : trigger &&& sche.listen ≠ 0
      · rw [if_pos hr, if_pos hr]
        have hk1 : schedule_entry_trigger cfg
            (task_update k t (fun x =>
              { x with pPendData := some { sche with
                  pEvtVal := { value := val, trigger := trigger } } }))
            t (some .event_schedule) 0
            = (event_wake cfg val trigger k t, 0) := by
          have hsnd := entry_trigger_snd cfg
            (task_update k t (fun x =>
              { x with pPendData := some { sche with
                  pEvtVal := { value := val, trigger := trigger } } }))
            t (some .event_schedule) 0 hmode
          have hfst : (schedule_entry_trigger cfg
            (task_update k t (fun x =>
              { x with pPendData := some { sche with
                  pEvtVal := { value := val, trigger := trigger } } }))
            t (some .event_schedule) 0).1 = event_wake cfg val trigger k t := by
            unfold event_wake
            congr 1
            simp only [task_update, hd, Option.map_some']
          exact Prod.ext hfst hsnd
        simp only [hk1, hpc, Bool.false_eq_true, if_false]
        have hother : ∀ u ∈ rest, (event_wake cfg val trigger k t).tasks u = k.tasks u := by
          intro u hu
          exact event_wake_task_other cfg val trigger k t u (fun e => ht (e ▸ hu))
        rw [ih (event_wake cfg val trigger k t) _ _
          (by rw [event_wake_inInterrupt]; exact hmode) hnd'
          (fun u hu => by rw [hother u hu]; exact hrec u (List.mem_cons_of_mem _ hu))]
        rw [event_woken_congr k _ trigger rest hother]
        simp only [List.foldl_cons, hl, List.cons_ne_nil, if_false]
        congr 1
        · exact reported_foldl_congr k _ trigger _ _
            (fun u hu => hother u ((event_woken_sublist k trigger rest).subset hu))
        · split <;> rfl
      · rw [if_neg hr, if_neg hr]
        exact ih k reported postcode hmode hnd'
          (fun u hu => hrec u (List.mem_cons_of_mem _ hu))

theorem wake_fold_task_other (cfg : Config) (val trigger : Nat) (W : List Nat) (k : Kernel)
    (u : Nat) (hu : u ∉ W) :
    (W.foldl (event_wake cfg val trigger) k).tasks u = k.tasks u := by
  induction W generalizing k with
  | nil => rfl
  | cons t rest ih =>
    simp only [List.foldl_cons]
    rw [ih _ (fun h => hu (List.mem_cons_of_mem _ h))]
    exact event_wake_task_other cfg val trigger k t u (fun e => hu (e ▸ List.mem_cons_self _ _))

theorem wake_fold_task_self (cfg : Config) (val trigger : Nat) (W : List Nat) (k : Kernel)
    (hnd : W.Nodup) (u : Nat) (hu : u ∈ W) :
    (W.foldl (event_wake cfg val trigger) k).tasks u
      = { k.tasks u with
          pPendData := (k.tasks u).pPendData.map (fun d =>
            { d with pEvtVal := { value := val, trigger := trigger } }),
          exec := { (k.tasks u).exec with entry := { result := 0, func := some .event_schedule } },
          linker := { pList := some .entry } } := by
  induction W generalizing k with
  | nil => exact absurd hu (List.not_mem_nil _)
  | cons t rest ih =>
    simp only [List.foldl_cons]
    have hnd' : rest.Nodup := (List.nodup_cons.mp hnd).2
    have ht : t ∉ rest := (List.nodup_cons.mp hnd).1
    rcases List.mem_cons.mp hu with rfl | hu'
    · rw [wake_fold_task_other _ _ _ _ _ _ ht, event_wake_task_self]
    · have hne : u ≠ t := fun e => ht (e ▸ hu')
      rw [ih _ hnd' hu', event_wake_task_other _ _ _ _ _ _ hne]

theorem wake_fold_entry_list (cfg : Config) (val trigger : Nat) (W : List Nat) (k : Kernel)
    (hnd : W.Nodup) (hlink : ∀ t ∈ W, (k.tasks t).linker.pList ≠ some .entry) :
    list_get (W.foldl (event_wake cfg val trigger) k) .entry = list_get k .entry ++ W := by
  induction W generalizing k with
  | nil => simp
  | cons t rest ih =>
    simp only [List.foldl_cons]
    have hnd' : rest.Nodup := (List.nodup_cons.mp hnd).2
    have ht : t ∉ rest := (List.nodup_cons.mp hnd).1
    rw [ih _ hnd', event_wake_entry_list, if_neg (hlink t (List.mem_cons_self _ _))]
    · simp
    · intro u hu
      rw [event_wake_task_other cfg val trigger k t u (fun (h : u = t) => ht (h ▸ hu))]
      exact hlink u (List.mem_cons_of_mem _ hu)

theorem wake_fold_queue (cfg : Config) (val trigger : Nat) (W : List Nat) (k : Kernel) (e : Nat)
    (hnd : W.Nodup) (hlink : ∀ t ∈ W, (k.tasks t).linker.pList = some (.event e)) :
    list_get (W.foldl (event_wake cfg val trigger) k) (.event e)
      = (list_get k (.event e)).diff W := by
  induction W generalizing k with
  | nil => simp
  | cons t rest ih =>
    simp only [List.foldl_cons]
    have hnd' : rest.Nodup := (List.nodup_cons.mp hnd).2
    have ht : t ∉ rest := (List.nodup_cons.mp hnd).1
    rw [ih _ hnd', event_wake_other_list _ _ _ _ _ _ (by simp),
      if_pos (hlink t (List.mem_cons_self _ _)), List.diff_cons]
    intro u hu
    rw [event_wake_task_other cfg val trigger k t u (fun (h : u = t) => ht (h ▸ hu))]
    exact hlink u (List.mem_cons_of_mem _ hu)

theorem wake_fold_other_list (cfg : Config) (val trigger : Nat) (W : List Nat) (k : Kernel)
    (r : list_ref) (hr : r ≠ .entry) (hnd : W.Nodup)
    (hlink : ∀ t ∈ W, (k.tasks t).linker.pList ≠ some r) :
    list_get (W.foldl (event_wake cfg val trigger) k) r = list_get k r := by
  induction W generalizing k with
  | nil => simp
  | cons t rest ih =>
    simp only [List.foldl_cons]
    have hnd' : rest.Nodup := (List.nodup_cons.mp hnd).2
    have ht : t ∉ rest := (List.nodup_cons.mp hnd).1
    rw [ih _ hnd', event_wake_other_list _ _ _ _ _ _ hr,
      if_neg (hlink t (List.mem_cons_self _ _))]
    intro u hu
    rw [event_wake_task_other cfg val trigger k t u (fun (h : u = t) => ht (h ▸ hu))]
    exact hlink u (List.mem_cons_of_mem _ hu)

theorem wake_fold_event_core (cfg : Config) (val trigger : Nat) (W : List Nat) (k : Kernel)
    (e : Nat) :
    event_core ((W.foldl (event_wake cfg val trigger) k).events e) = event_core (k.events e) := by
  induction W generalizing k with
  | nil => rfl
  | cons t rest ih =>
    simp only [List.foldl_cons]
    rw [ih, event_wake_event_core]

theorem wake_fold_mutex_core (cfg : Config) (val trigger : Nat) (W : List Nat) (k : Kernel)
    (m : Nat) :
    mutex_core ((W.foldl (event_wake cfg val trigger) k).mutexes m) = mutex_core (k.mutexes m) := by
  induction W generalizing k with
  | nil => rfl
  | cons t rest ih =>
    simp only [List.foldl_cons]
    rw [ih, event_wake_mutex_core]

theorem wake_fold_pTask (cfg : Config) (val trigger : Nat) (W : List Nat) (k : Kernel) :
    (W.foldl (event_wake cfg val trigger) k).pTask = k.pTask := by
  induction W generalizing k with
  | nil => rfl
  | cons t rest ih =>
    simp only [List.foldl_cons]
    rw [ih, event_wake_pTask]

theorem wake_fold_inInterrupt (cfg : Config) (val trigger : Nat) (W : List Nat) (k : Kernel) :
    (W.foldl (event_wake cfg val trigger) k).inInterrupt = k.inInterrupt := by
  induction W generalizing k with
  | nil => rfl
  | cons t rest ih =>
    simp only [List.foldl_cons]
    rw [ih, event_wake_inInterrupt]

/-- The state and the postcode of `_event_set_privilege_routine` in handler
mode, for a wait queue without duplicates whose waiters carry a record. -/
theorem event_set_routine_eq (cfg : Config) (hpc : cfg.PC_ERROR 0 = false) (k : Kernel)
    (e set clear toggle : Nat) (hmode : k.inInterrupt = true) (hnd : (k.events e).q_list.Nodup)
    (hrec : ∀ t ∈ (k.events e).q_list, (k.tasks t).pPendData ≠ none) :
    _event_set_privilege_routine cfg k e set clear toggle
      = (event_update
          ((event_woken k (_event_set_trigger (k.events e) set clear toggle)
              (k.events e).q_list).foldl
            (event_wake cfg (_event_set_value (k.events e) set clear toggle)
              (_event_set_trigger (k.events e) set clear toggle)) k)
          e (fun x =>
            { x with
              triggered := not32 (event_reported k (_event_set_trigger (k.events e) set clear toggle)
                  (event_woken k (_event_set_trigger (k.events e) set clear toggle)
                    (k.events e).q_list))
                &&& _event_set_trigger (k.events e) set clear toggle,
              value := _event_set_value (k.events e) set clear toggle }),
         if event_woken k (_event_set_trigger (k.events e) set clear toggle)
              (k.events e).q_list = [] then 0 else 0) := by
  unfold _event_set_privilege_routine
  simp only [event_set_waiters_eq cfg hpc _ _ _ k 0 0 hmode hnd hrec]
  rfl

theorem diff_filter_eq (l : List Nat) (p : Nat → Bool) (hnd : l.Nodup) :
    l.diff (l.filter p) = l.filter (fun t => !p t) := by
  rw [List.Nodup.diff_eq_filter hnd]
  apply List.filter_congr
  intro x hx
  by_cases hp : p x = true
  · simp [List.mem_filter, hx, hp]
  · simp [List.mem_filter, hx, hp]

/-- A bit is in the union of the reported bits of a list of waiters exactly when
it is in `trigger & listen` of one of them (or in the start value). -/
theorem reported_foldl_testBit (k : Kernel) (trigger : Nat) (l : List Nat) (r i : Nat) :
    (l.foldl (fun reported t => reported ||| (trigger &&& event_listen k t)) r).testBit i = true
      ↔ r.testBit i = true ∨ ∃ t ∈ l, (trigger &&& event_listen k t).testBit i = true := by
  induction l generalizing r with
  | nil => simp
  | cons t rest ih =>
    simp only [List.foldl_cons]
    rw [ih, Nat.testBit_or, Bool.or_eq_true]
    simp only [List.mem_cons, exists_eq_or_imp]
    tauto

theorem event_reported_testBit (k : Kernel) (trigger : Nat) (l : List Nat) (i : Nat) :
    (event_reported k trigger l).testBit i = true
      ↔ ∃ t ∈ l, (trigger &&& event_listen k t).testBit i = true := by
  unfold event_reported
  rw [reported_foldl_testBit]
  simp

theorem event_set_trigger_lt (ev : event_context_t) (set clear toggle : Nat)
    (hany : ev.anyMask < 4294967296) (htrig : ev.triggered < 4294967296) :
    _event_set_trigger ev set clear toggle < 4294967296 :=
  or_lt_u32 _ _ (event_trigger_bits_lt ev _ _ hany) htrig

/-- C11: event set, executed in handler mode on an event whose wait queue has no
duplicates and whose waiters carry a waiter record and are linked in this queue
(0 being no error postcode).  With val the new value, trigger the trigger word
and woken the waiters of the queue, in queue order, whose listen mask has a bit
in common with trigger: every woken waiter has out_value = val and
out_trigger = trigger in its record, entry result 0 with the callback
`_event_schedule`, and is linked in the entry list; the entry list is the old
entry list followed by woken; the wait queue keeps exactly the other waiters in
their order; every task that is not woken is unchanged; and the routine
returns 0. -/
theorem event_set_wakes (cfg : Config) (k : Kernel) (e set clear toggle : Nat)
    (hpc : cfg.PC_ERROR 0 = false) (hmode : k.inInterrupt = true)
    (hnd : (k.events e).q_list.Nodup)
    (hrec : ∀ t ∈ (k.events e).q_list,
      (k.tasks t).pPendData ≠ none ∧ (k.tasks t).linker.pList = some (.event e)) :
    (∀ t, t ∈ event_woken k (_event_set_trigger (k.events e) set clear toggle) (k.events e).q_list
        ↔ t ∈ (k.events e).q_list
          ∧ _event_set_trigger (k.events e) set clear toggle &&& event_listen k t ≠ 0)
      ∧ (∀ t ∈ event_woken k (_event_set_trigger (k.events e) set clear toggle)
            (k.events e).q_list,
          ((_event_set_privilege_routine cfg k e set clear toggle).1.tasks t).pPendData
              = some { listen := event_listen k t,
                       pEvtVal := { value := _event_set_value (k.events e) set clear toggle,
                                    trigger := _event_set_trigger (k.events e) set clear toggle } }
            ∧ ((_event_set_privilege_routine cfg k e set clear toggle).1.tasks t).exec.entry
                = { result := 0, func := some .event_schedule }
            ∧ ((_event_set_privilege_routine cfg k e set clear toggle).1.tasks t).linker.pList
                = some .entry)
      ∧ (_event_set_privilege_routine cfg k e set clear toggle).1.sch_entry_list
          = k.sch_entry_list
            ++ event_woken k (_event_set_trigger (k.events e) set clear toggle) (k.events e).q_list
      ∧ ((_event_set_privilege_routine cfg k e set clear toggle).1.events e).q_list
          = (k.events e).q_list.filter (fun t =>
              decide (_event_set_trigger (k.events e) set clear toggle &&& event_listen k t = 0))
      ∧ (∀ t, t ∉ event_woken k (_event_set_trigger (k.events e) set clear toggle)
            (k.events e).q_list →
          (_event_set_privilege_routine cfg k e set clear toggle).1.tasks t = k.tasks t)
      ∧ (_event_set_privilege_routine cfg k e set clear toggle).2 = 0 := by
  have hW : (event_woken k (_event_set_trigger (k.events e) set clear toggle)
      (k.events e).q_list).Nodup := hnd.sublist (event_woken_sublist _ _ _)
  have hsub := (event_woken_sublist k (_event_set_trigger (k.events e) set clear toggle)
      (k.events e).q_list).subset
  rw [event_set_routine_eq cfg hpc k e set clear toggle hmode hnd (fun t ht => (hrec t ht).1)]
  refine ⟨fun t => mem_event_woken _ _ _ _, ?_, ?_, ?_, ?_, ?_⟩
  · intro t ht
    show ((List.foldl _ k _).tasks t).pPendData = _ ∧ ((List.foldl _ k _).tasks t).exec.entry = _
      ∧ ((List.foldl _ k _).tasks t).linker.pList = _
    rw [wake_fold_task_self _ _ _ _ _ hW t ht]
    refine ⟨?_, rfl, rfl⟩
    cases hd : (k.tasks t).pPendData with
    | none => exact absurd hd (hrec t (hsub ht)).1
    | some d => simp [event_listen, hd]
  · show list_get (List.foldl _ k _) .entry = _
    rw [wake_fold_entry_list _ _ _ _ _ hW]
    · rfl
    · intro t ht
      rw [(hrec t (hsub ht)).2]
      simp
  · simp only [event_update, Function.update_same]
    show list_get (List.foldl _ k _) (.event e) = _
    rw [wake_fold_queue _ _ _ _ _ e hW (fun t ht => (hrec t (hsub ht)).2)]
    show (k.events e).q_list.diff (List.filter _ _) = _
    rw [diff_filter_eq _ _ hnd]
    apply List.filter_congr
    intro x _
    by_cases hx : _event_set_trigger (k.events e) set clear toggle &&& event_listen k x = 0
    · simp [hx]
    · simp [hx]
  · intro t ht
    exact wake_fold_task_other _ _ _ _ _ t ht
  · simp

/-- C11, witness: bit 0 of the sample event with two waiters is set; task 1
listens on bit 0 and is woken, task 2 listens on bit 1 and stays queued. -/
theorem event_set_wakes_witness :
    event_woken sample_two_waiters 1 [1, 2] = [1]
      ∧ ((_event_set_privilege_routine sample_cfg sample_two_waiters 0 1 0 0).1.tasks 1).pPendData
          = some { listen := 1, pEvtVal := { value := 1, trigger := 1 } }
      ∧ ((_event_set_privilege_routine sample_cfg sample_two_waiters 0 1 0 0).1.tasks 1).exec.entry
          = { result := 0, func := some .event_schedule }
      ∧ (_event_set_privilege_routine sample_cfg sample_two_waiters 0 1 0 0).1.sch_entry_list = [1]
      ∧ ((_event_set_privilege_routine sample_cfg sample_two_waiters 0 1 0 0).1.events 0).q_list
          = [2]
      ∧ (_event_set_privilege_routine sample_cfg sample_two_waiters 0 1 0 0).1.tasks 2
          = sample_two_waiters.tasks 2
      ∧ (_event_set_privilege_routine sample_cfg sample_two_waiters 0 1 0 0).2 = 0 := by
  have h := event_set_wakes sample_cfg sample_two_waiters 0 1 0 0 rfl rfl (by decide)
    (by decide)
  refine ⟨by decide, (h.2.1 1 (by decide)).1, (h.2.1 1 (by decide)).2.1, h.2.2.1, h.2.2.2.1,
    h.2.2.2.2.1 2 (by decide), h.2.2.2.2.2⟩

/-- C12: after event set (in handler mode, on a wait queue without duplicates
whose waiters carry a record, 0 being no error postcode) the triggered latch is
`trigger & ~reported`, where trigger is the trigger word of this set, latched
bits included, and reported is the union of `trigger & listen` over the woken
waiters: a bit is in reported exactly when it is in `trigger & listen` of a
woken waiter.  With an empty wait queue the latch is the whole trigger word
(the any-mask and the old latch being 32-bit words). -/
theorem event_set_latch (cfg : Config) (k : Kernel) (e set clear toggle : Nat)
    (hpc : cfg.PC_ERROR 0 = false) (hmode : k.inInterrupt = true)
    (hnd : (k.events e).q_list.Nodup)
    (hrec : ∀ t ∈ (k.events e).q_list, (k.tasks t).pPendData ≠ none) :
    ((_event_set_privilege_routine cfg k e set clear toggle).1.events e).triggered
        = _event_set_trigger (k.events e) set clear toggle
          &&& not32 (event_reported k (_event_set_trigger (k.events e) set clear toggle)
              (event_woken k (_event_set_trigger (k.events e) set clear toggle)
                (k.events e).q_list))
      ∧ (∀ i, (event_reported k (_event_set_trigger (k.events e) set clear toggle)
              (event_woken k (_event_set_trigger (k.events e) set clear toggle)
                (k.events e).q_list)).testBit i = true
          ↔ ∃ t ∈ event_woken k (_event_set_trigger (k.events e) set clear toggle)
                (k.events e).q_list,
              (_event_set_trigger (k.events e) set clear toggle &&& event_listen k t).testBit i
                = true)
      ∧ ((k.events e).q_list = [] → (k.events e).anyMask < 4294967296 →
          (k.events e).triggered < 4294967296 →
          ((_event_set_privilege_routine cfg k e set clear toggle).1.events e).triggered
            = _event_set_trigger (k.events e) set clear toggle) := by
  rw [event_set_routine_eq cfg hpc k e set clear toggle hmode hnd hrec]
  have h1 : ∀ (K : Kernel) (x y : Nat),
      ((event_update K e (fun ev => { ev with triggered := x, value := y })).events e).triggered
        = x := by
    intro K x y
    simp [event_update]
  refine ⟨?_, fun i => event_reported_testBit _ _ _ i, ?_⟩
  · rw [h1, Nat.and_comm]
  · intro hq hany htrig
    rw [h1, hq]
    exact not32_zero_and _ (event_set_trigger_lt _ _ _ _ hany htrig)

/-- C12, witness: the sample event with two waiters, bit 0 and bit 1 set while
bit 2 is latched; both waiters are woken, bits 0 and 1 are reported and bit 2
stays latched. -/
theorem event_set_latch_witness :
    ((_event_set_privilege_routine sample_cfg
        (event_update sample_two_waiters 0 (fun x => { x with triggered := 4 })) 0 3 0 0).1.events
        0).triggered = 4
      ∧ _event_set_trigger
          ((event_update sample_two_waiters 0 (fun x => { x with triggered := 4 })).events 0) 3 0 0
          = 7 := by
  have h := event_set_latch sample_cfg
    (event_update sample_two_waiters 0 (fun x => { x with triggered := 4 })) 0 3 0 0 rfl rfl
    (by decide) (by decide)
  refine ⟨?_, by decide⟩
  rw [h.1]
  decide

/-! ### Invariants of the lists and of the waiter records -/

/-- Under `linked`, the list a transaction unlinks the task from is the only one
it is in: erasing it from a list it is not recorded in changes nothing. -/
theorem linked_erase_eq (k : Kernel) (hl : linked k) (t : Nat) (r : list_ref) :
    (if (k.tasks t).linker.pList = some r then (list_get k r).erase t else list_get k r)
      = (list_get k r).erase t := by
  split
  · rfl
  · rename_i h
    rw [List.erase_of_not_mem]
    intro hmem
    exact h (hl.2 r t hmem)

/-- A task moved to the list `r`: the other tasks keep their records, the
target list is the old one without the task plus the task, every other list
loses the task, the latches stay, and a task moved to an event queue has a
record whose listen mask avoids the latch. -/
theorem good_move (k k' : Kernel) (t : Nat) (r : list_ref)
    (hl : linked k) (hw : waiters_unlatched k)
    (htask : ∀ u, u ≠ t → k'.tasks u = k.tasks u)
    (hself : (k'.tasks t).linker.pList = some r)
    (htarget : (list_get k' r).Perm (t :: (list_get k r).erase t))
    (hother : ∀ r', r' ≠ r → list_get k' r' = (list_get k r').erase t)
    (htrig : ∀ e, (k'.events e).triggered = (k.events e).triggered)
    (hdata : ∀ e, r = .event e →
      ∃ d, (k'.tasks t).pPendData = some d ∧ (k.events e).triggered &&& d.listen = 0) :
    linked k' ∧ waiters_unlatched k' := by
  have hmem : ∀ r' u, u ∈ list_get k' r' → u = t ∧ r' = r ∨ u ≠ t ∧ u ∈ list_get k r' := by
    intro r' u hu
    by_cases hr : r' = r
    · subst hr
      rcases List.mem_cons.mp (htarget.mem_iff.mp hu) with h | h
      · exact Or.inl ⟨h, rfl⟩
      · exact Or.inr ((List.Nodup.mem_erase_iff (hl.1 r')).mp h)
    · rw [hother r' hr] at hu
      exact Or.inr ((List.Nodup.mem_erase_iff (hl.1 r')).mp hu)
  refine ⟨⟨?_, ?_⟩, ?_⟩
  · intro r'
    by_cases hr : r' = r
    · subst hr
      rw [htarget.nodup_iff]
      exact List.nodup_cons.mpr
        ⟨fun h => ((List.Nodup.mem_erase_iff (hl.1 r')).mp h).1 rfl, (hl.1 r').erase t⟩
    · rw [hother r' hr]
      exact (hl.1 r').erase t
  · intro r' u hu
    rcases hmem r' u hu with ⟨rfl, rfl⟩ | ⟨hne, hin⟩
    · exact hself
    · rw [htask u hne]
      exact hl.2 r' u hin
  · intro e u hu
    rcases hmem (.event e) u hu with ⟨rfl, hr⟩ | ⟨hne, hin⟩
    · obtain ⟨d, hd, hz⟩ := hdata e hr.symm
      exact ⟨d, hd, by rw [htrig]; exact hz⟩
    · obtain ⟨d, hd, hz⟩ := hw e u hin
      exact ⟨d, by rw [htask u hne]; exact hd, by rw [htrig]; exact hz⟩

/-- A step that moves no task: every list is a sublist of what it was, the
linkers stay, waiter records keep their listen mask and latches only lose bits. -/
theorem good_same (k k' : Kernel)
    (hl : linked k) (hw : waiters_unlatched k)
    (hlist : ∀ r, (list_get k' r).Sublist (list_get k r))
    (hlink : ∀ t, (k'.tasks t).linker = (k.tasks t).linker)
    (hdata : ∀ t d, (k.tasks t).pPendData = some d →
      ∃ d', (k'.tasks t).pPendData = some d' ∧ d'.listen = d.listen)
    (htrig : ∀ e x, (k.events e).triggered &&& x = 0 → (k'.events e).triggered &&& x = 0) :
    linked k' ∧ waiters_unlatched k' := by
  refine ⟨⟨fun r => (hl.1 r).sublist (hlist r), ?_⟩, ?_⟩
  · intro r t ht
    rw [hlink t]
    exact hl.2 r t ((hlist r).subset ht)
  · intro e t ht
    obtain ⟨d, hd, hz⟩ := hw e t ((hlist (.event e)).subset ht)
    obtain ⟨d', hd', hlisten⟩ := hdata t d hd
    exact ⟨d', hd', by rw [hlisten]; exact htrig e _ hz⟩

theorem good_entry_trigger (cfg : Config) (k : Kernel) (t : Nat) (cb : Option callback)
    (res : Int) (hl : linked k) (hw : waiters_unlatched k) :
    linked (schedule_entry_trigger cfg k t cb res).1
      ∧ waiters_unlatched (schedule_entry_trigger cfg k t cb res).1 := by
  apply good_move k _ t .entry hl hw
  · intro u hu
    exact entry_trigger_task_other cfg k t cb res u hu
  · rw [entry_trigger_task_self]
  · rw [entry_trigger_entry_list, linked_erase_eq k hl]
    exact List.perm_append_singleton _ _
  · intro r' hr
    rw [entry_trigger_other_list cfg k t cb res r' hr, linked_erase_eq k hl]
  · intro e
    exact event_core_triggered _ _ (entry_trigger_event_core cfg k t cb res e)
  · intro e he
    exact absurd he (by simp)

theorem good_exit_trigger (cfg : Config) (k : Kernel) (t : Nat) (ctx : Option ctx_ref)
    (data : Option event_sch_t) (r : list_ref) (ms : Nat) (hl : linked k)
    (hw : waiters_unlatched k)
    (hdata : ∀ e, r = .event e →
      ∃ d, data = some d ∧ (k.events e).triggered &&& d.listen = 0) :
    linked (schedule_exit_trigger cfg k t ctx data (some r) ms true).1
      ∧ waiters_unlatched (schedule_exit_trigger cfg k t ctx data (some r) ms true).1 := by
  apply good_move k _ t r hl hw
  · intro u hu
    exact exit_trigger_task_other cfg k t ctx data r ms u hu
  · rw [exit_trigger_task_self]
  · rw [exit_trigger_target, linked_erase_eq k hl]
    exact sorted_insert_perm _ _ _
  · intro r' hr
    rw [exit_trigger_other_list cfg k t ctx data r r' ms hr, linked_erase_eq k hl]
  · intro e
    exact event_core_triggered _ _ (exit_trigger_event_core cfg k t ctx data r ms e)
  · intro e he
    obtain ⟨d, hd, hz⟩ := hdata e he
    exact ⟨d, by rw [exit_trigger_task_self, hd], hz⟩

theorem good_toPendList (k : Kernel) (t : Nat) (hl : linked k) (hw : waiters_unlatched k) :
    linked (_schedule_transfer_toPendList k t)
      ∧ waiters_unlatched (_schedule_transfer_toPendList k t) := by
  unfold _schedule_transfer_toPendList
  apply good_move k _ t .pend hl hw
  · intro u hu
    rw [transaction_specific_task, Function.update_noteq hu]
  · rw [transaction_specific_task, Function.update_same]
  · rw [transaction_specific_target, linker_unlink_list_get, linked_erase_eq k hl]
    exact sorted_insert_perm _ _ _
  · intro r' hr
    rw [transaction_specific_other _ _ _ _ _ hr, linker_unlink_list_get, linked_erase_eq k hl]
  · intro e
    exact event_core_triggered _ _ (transaction_specific_event_core k t .pend _ e)
  · intro e he
    exact absurd he (by simp)

theorem good_task_update (k : Kernel) (t : Nat) (f : schedule_task → schedule_task)
    (hl : linked k) (hw : waiters_unlatched k)
    (hlink : (f (k.tasks t)).linker = (k.tasks t).linker)
    (hdata : ∀ d, (k.tasks t).pPendData = some d →
      ∃ d', (f (k.tasks t)).pPendData = some d' ∧ d'.listen = d.listen) :
    linked (task_update k t f) ∧ waiters_unlatched (task_update k t f) := by
  apply good_same k _ hl hw
  · intro r
    rw [list_get_task_update]
  · intro u
    by_cases hu : u = t
    · subst hu; rw [task_update_self]; exact hlink
    · rw [task_update_other _ _ _ _ hu]
  · intro u d hd
    by_cases hu : u = t
    · subst hu; rw [task_update_self]; exact hdata d hd
    · rw [task_update_other _ _ _ _ hu]; exact ⟨d, hd, rfl⟩
  · intro e x hx
    exact hx

theorem list_get_event_update (k : Kernel) (e : Nat) (f : event_context_t → event_context_t)
    (hq : (f (k.events e)).q_list = (k.events e).q_list) (r : list_ref) :
    list_get (event_update k e f) r = list_get k r := by
  cases r <;> simp [list_get, event_update]
  rename_i e'
  by_cases h : e' = e
  · subst h; simp [hq]
  · simp [Function.update_noteq h]

theorem event_update_self (k : Kernel) (e : Nat) (f : event_context_t → event_context_t) :
    (event_update k e f).events e = f (k.events e) := by
  simp [event_update]

theorem event_update_other (k : Kernel) (e e' : Nat) (f : event_context_t → event_context_t)
    (h : e' ≠ e) : (event_update k e f).events e' = k.events e' := by
  simp [event_update, Function.update_noteq h]

/-- An update of an event that keeps its queue and takes bits out of its latch. -/
theorem good_event_shrink (k : Kernel) (e : Nat) (f : event_context_t → event_context_t)
    (hl : linked k) (hw : waiters_unlatched k)
    (hq : (f (k.events e)).q_list = (k.events e).q_list)
    (hshrink : ∃ y, (f (k.events e)).triggered = (k.events e).triggered &&& y) :
    linked (event_update k e f) ∧ waiters_unlatched (event_update k e f) := by
  apply good_same k _ hl hw
  · intro r
    rw [list_get_event_update k e f hq]
  · intro t; rfl
  · intro t d hd; exact ⟨d, hd, rfl⟩
  · intro e' x hx
    by_cases h : e' = e
    · subst h
      obtain ⟨y, hy⟩ := hshrink
      rw [event_update_self, hy]
      exact and_zero_of_and_zero _ _ _ hx
    · rw [event_update_other _ _ _ _ h]; exact hx

/-! ### Steps that keep the invariants -/

theorem latch_shrunk_refl (x : event_context_t) : latch_shrunk x x :=
  ⟨rfl, rfl, rfl, rfl, rfl, x.triggered, (Nat.and_self _).symm⟩

theorem latch_shrunk_of_core (x x' : event_context_t) (h : event_core x' = event_core x) :
    latch_shrunk x x' := by
  simp only [event_core, Prod.mk.injEq] at h
  obtain ⟨h1, h2, h3, h4, h5, h6⟩ := h
  exact ⟨h1, h2, h4, h5, h6, x.triggered, by rw [h3, Nat.and_self]⟩

theorem latch_shrunk_trans (x y z : event_context_t) (h1 : latch_shrunk x y)
    (h2 : latch_shrunk y z) : latch_shrunk x z := by
  obtain ⟨a1, a2, a3, a4, a5, y1, a6⟩ := h1
  obtain ⟨b1, b2, b3, b4, b5, y2, b6⟩ := h2
  exact ⟨b1.trans a1, b2.trans a2, b3.trans a3, b4.trans a4, b5.trans a5, y1 &&& y2,
    by rw [b6, a6, Nat.and_assoc]⟩

theorem keeps_refl (k : Kernel) : keeps k k :=
  ⟨fun hl hw => ⟨hl, hw⟩, fun _ => latch_shrunk_refl _⟩

theorem keeps_trans (k1 k2 k3 : Kernel) (h1 : keeps k1 k2) (h2 : keeps k2 k3) : keeps k1 k3 :=
  ⟨fun hl hw => h2.1 (h1.1 hl hw).1 (h1.1 hl hw).2,
   fun e => latch_shrunk_trans _ _ _ (h1.2 e) (h2.2 e)⟩

/-- A change that touches no task, no event and no list. -/
theorem keeps_of_eq (k k' : Kernel) (ht : k'.tasks = k.tasks) (he : k'.events = k.events)
    (hlist : ∀ r, list_get k' r = list_get k r) : keeps k k' := by
  refine ⟨fun hl hw => ?_, fun e => by rw [he]; exact latch_shrunk_refl _⟩
  apply good_same k k' hl hw
  · intro r; rw [hlist r]
  · intro t; rw [ht]
  · intro t d hd; exact ⟨d, by rw [ht]; exact hd, rfl⟩
  · intro e x hx; rw [he]; exact hx

theorem keeps_inInterrupt (k : Kernel) (b : Bool) : keeps k { k with inInterrupt := b } :=
  keeps_of_eq _ _ rfl rfl (fun r => list_get_inInterrupt k b r)

theorem keeps_entry_trigger (cfg : Config) (k : Kernel) (t : Nat) (cb : Option callback)
    (res : Int) : keeps k (schedule_entry_trigger cfg k t cb res).1 :=
  ⟨fun hl hw => good_entry_trigger cfg k t cb res hl hw,
   fun e => latch_shrunk_of_core _ _ (entry_trigger_event_core cfg k t cb res e)⟩

theorem keeps_exit_trigger (cfg : Config) (k : Kernel) (t : Nat) (ctx : Option ctx_ref)
    (data : Option event_sch_t) (r : list_ref) (ms : Nat)
    (hdata : ∀ e, r = .event e →
      ∃ d, data = some d ∧ (k.events e).triggered &&& d.listen = 0) :
    keeps k (schedule_exit_trigger cfg k t ctx data (some r) ms true).1 :=
  ⟨fun hl hw => good_exit_trigger cfg k t ctx data r ms hl hw hdata,
   fun e => latch_shrunk_of_core _ _ (exit_trigger_event_core cfg k t ctx data r ms e)⟩

theorem keeps_toPendList (k : Kernel) (t : Nat) : keeps k (_schedule_transfer_toPendList k t) :=
  ⟨fun hl hw => good_toPendList k t hl hw,
   fun e => latch_shrunk_of_core _ _ (transaction_specific_event_core k t .pend _ e)⟩

theorem keeps_task_update (k : Kernel) (t : Nat) (f : schedule_task → schedule_task)
    (hlink : (f (k.tasks t)).linker = (k.tasks t).linker)
    (hdata : ∀ d, (k.tasks t).pPendData = some d →
      ∃ d', (f (k.tasks t)).pPendData = some d' ∧ d'.listen = d.listen) :
    keeps k (task_update k t f) :=
  ⟨fun hl hw => good_task_update k t f hl hw hlink hdata, fun _ => latch_shrunk_refl _⟩

theorem keeps_event_shrink (k : Kernel) (e : Nat) (f : event_context_t → event_context_t)
    (h : latch_shrunk (k.events e) (f (k.events e)))
    (hq : (f (k.events e)).q_list = (k.events e).q_list) :
    keeps k (event_update k e f) := by
  refine ⟨fun hl hw => good_event_shrink k e f hl hw hq h.2.2.2.2.2, fun e' => ?_⟩
  by_cases he : e' = e
  · subst he; rw [event_update_self]; exact h
  · rw [event_update_other _ _ _ _ he]; exact latch_shrunk_refl _

theorem list_get_mutex_update (k : Kernel) (m : Nat) (f : mutex_context_t → mutex_context_t)
    (r : list_ref) :
    list_get (mutex_update k m f) r
      = if r = .mutex m then (f (k.mutexes m)).q_list else list_get k r := by
  cases r <;> simp [list_get, mutex_update]
  rename_i m'
  by_cases h : m' = m
  · subst h; simp
  · simp [Function.update_noteq h, h]

/-- An update of a mutex that keeps its queue or takes waiters out of it. -/
theorem keeps_mutex_update (k : Kernel) (m : Nat) (f : mutex_context_t → mutex_context_t)
    (hq : (f (k.mutexes m)).q_list.Sublist (k.mutexes m).q_list) :
    keeps k (mutex_update k m f) := by
  refine ⟨fun hl hw => ?_, fun e => latch_shrunk_refl _⟩
  apply good_same k _ hl hw
  · intro r
    rw [list_get_mutex_update]
    split
    · rename_i h; subst h; exact hq
    · exact List.Sublist.refl _
  · intro t; rfl
  · intro t d hd; exact ⟨d, hd, rfl⟩
  · intro e x hx; exact hx

theorem keeps_event_wake (cfg : Config) (val trigger : Nat) (k : Kernel) (t : Nat) :
    keeps k (event_wake cfg val trigger k t) := by
  unfold event_wake
  apply keeps_trans _ _ _ _ (keeps_entry_trigger _ _ _ _ _)
  apply keeps_task_update
  · rfl
  · intro d hd
    exact ⟨{ d with pEvtVal := { value := val, trigger := trigger } },
      by simp only [hd, Option.map_some'], rfl⟩

theorem keeps_wake_fold (cfg : Config) (val trigger : Nat) (W : List Nat) (k : Kernel) :
    keeps k (W.foldl (event_wake cfg val trigger) k) := by
  induction W generalizing k with
  | nil => exact keeps_refl k
  | cons t rest ih =>
    simp only [List.foldl_cons]
    exact keeps_trans _ _ _ (keeps_event_wake cfg val trigger k t) (ih _)

theorem keeps_ite (k a b : Kernel) (c : Prop) [Decidable c] (ha : keeps k a) (hb : keeps k b) :
    keeps k (if c then a else b) := by
  split
  · exact ha
  · exact hb

theorem keeps_event_schedule (k : Kernel) (t : Nat) (k' : Kernel)
    (h : _event_schedule k t = some k') : keeps k k' := by
  unfold _event_schedule at h
  simp only [task_update_self] at h
  have h0 : keeps k (task_update k t (fun x => { x with expire := timeout_remove x.expire true })) :=
    keeps_task_update _ _ _ rfl (fun d hd => ⟨d, hd, rfl⟩)
  cases hd : (k.tasks t).pPendData with
  | none =>
    simp only [hd, Option.some.injEq] at h
    subst h
    exact h0
  | some sche =>
    simp only [hd] at h
    cases hc : (k.tasks t).pPendCtx with
    | none => simp [hc] at h
    | some c =>
      cases c with
      | mutex m => simp [hc] at h
      | event e =>
        simp only [hc, Option.some.injEq] at h
        subst h
        refine keeps_trans _ _ _ h0 ?_
        refine keeps_trans _ _ _ ?_ (keeps_task_update _ _ _ rfl (fun d hd => ⟨d, hd, rfl⟩))
        have hK2 : ∀ out : evt_val,
            keeps (task_update k t (fun x => { x with expire := timeout_remove x.expire true }))
              (task_update
                (task_update k t (fun x => { x with expire := timeout_remove x.expire true })) t
                (fun x => { x with pPendData := some { sche with pEvtVal := out } })) := by
          intro out
          apply keeps_task_update
          · rfl
          · intro d hd'
            rw [task_update_self] at hd'
            simp only [hd, Option.some.injEq] at hd'
            exact ⟨_, rfl, by rw [← hd']⟩
        apply keeps_ite
        · refine keeps_trans _ _ _ ?_ (keeps_event_shrink _ _ _ ?_ ?_)
          · exact hK2 _
          · exact ⟨rfl, rfl, rfl, rfl, rfl, _, rfl⟩
          · rfl
        · exact hK2 _

theorem keeps_schedule_entry_task (k : Kernel) (ms t : Nat) (k' : Kernel)
    (h : _schedule_entry_task k ms t = some k') : keeps k k' := by
  unfold _schedule_entry_task at h
  simp only [Option.map_eq_some'] at h
  obtain ⟨k1, hcalled, hk'⟩ := h
  have h1 : keeps k k1 := by
    cases hf : (k.tasks t).exec.entry.func with
    | none =>
      simp only [hf, Option.some.injEq] at hcalled
      subst hcalled
      exact keeps_refl k
    | some cb =>
      cases cb
      simp only [hf, Option.map_eq_some'] at hcalled
      obtain ⟨k0, hk0, hk1⟩ := hcalled
      subst hk1
      exact keeps_trans _ _ _ (keeps_event_schedule k t k0 hk0)
        (keeps_task_update _ _ _ rfl (fun d hd => ⟨d, hd, rfl⟩))
  subst hk'
  exact keeps_trans _ _ _ h1
    (keeps_trans _ _ _ (keeps_task_update _ _ _ rfl (fun d hd => ⟨d, hd, rfl⟩))
      (keeps_toPendList _ _))

theorem keeps_schedule_entry_loop (ms : Nat) (l : List Nat) (k k' : Kernel)
    (h : _schedule_entry_loop ms l k = some k') : keeps k k' := by
  induction l generalizing k with
  | nil =>
    simp only [_schedule_entry_loop, Option.some.injEq] at h
    subst h
    exact keeps_refl k
  | cons t rest ih =>
    simp only [_schedule_entry_loop] at h
    cases h1 : _schedule_entry_task k ms t with
    | none => simp [h1] at h
    | some k1 =>
      simp only [h1] at h
      exact keeps_trans _ _ _ (keeps_schedule_entry_task k ms t k1 h1) (ih k1 h)

theorem keeps_mutex_lock_routine (cfg : Config) (k : Kernel) (m : Nat) (res : Kernel × Int)
    (h : _mutex_lock_privilege_routine cfg k m = some res) : keeps k res.1 := by
  unfold _mutex_lock_privilege_routine at h
  cases hrun : k.pTask with
  | none => simp [hrun] at h
  | some c =>
    simp only [hrun] at h
    by_cases hl : (k.mutexes m).locked = true
    · rw [if_pos hl] at h
      cases hh : (k.mutexes m).pHoldTask with
      | none => simp [hh] at h
      | some hd =>
        simp only [hh, Option.some.injEq] at h
        subst h
        refine keeps_trans _ _ _ ?_ (keeps_exit_trigger _ _ _ _ _ _ _ ?_)
        · apply keeps_ite
          · exact keeps_task_update _ _ _ rfl (fun d hd => ⟨d, hd, rfl⟩)
          · exact keeps_refl k
        · intro e he
          exact absurd he (by simp)
    · rw [if_neg hl] at h
      simp only [Option.some.injEq] at h
      subst h
      exact keeps_mutex_update _ _ _ (List.Sublist.refl _)

theorem keeps_mutex_unlock_routine (cfg : Config) (k : Kernel) (m : Nat) (res : Kernel × Int)
    (h : _mutex_unlock_privilege_routine cfg k m = some res) : keeps k res.1 := by
  unfold _mutex_unlock_privilege_routine at h
  simp only at h
  cases hh : (k.mutexes m).pHoldTask with
  | none => simp [hh] at h
  | some hd =>
    simp only [hh] at h
    have h1 : keeps k (task_update k hd (fun x => { x with prior := (k.mutexes m).originalPriority })) :=
      keeps_task_update _ _ _ rfl (fun d hd => ⟨d, hd, rfl⟩)
    cases hq : list_head (k.mutexes m).q_list with
    | none =>
      simp only [hq, Option.some.injEq] at h
      subst h
      exact keeps_trans _ _ _ h1 (keeps_mutex_update _ _ _ (List.Sublist.refl _))
    | some w =>
      simp only [hq, Option.some.injEq] at h
      subst h
      exact keeps_trans _ _ _ h1
        (keeps_trans _ _ _ (keeps_mutex_update _ _ _ (List.Sublist.refl _))
          (keeps_entry_trigger _ _ _ _ _))

theorem keeps_mutex_init_routine (cfg : Config) (k : Kernel) (pName : Nat) :
    keeps k (_mutex_init_privilege_routine cfg k pName).1 := by
  unfold _mutex_init_privilege_routine
  split
  · exact keeps_refl k
  · exact keeps_mutex_update _ _ _ (List.nil_sublist _)

theorem keeps_time_analyze (k : Kernel) (a b ms : Nat) :
    keeps k (_schedule_time_analyze k a b ms) := by
  unfold _schedule_time_analyze
  exact keeps_trans _ _ _
    (keeps_trans _ _ _ (keeps_task_update _ _ _ rfl (fun d hd => ⟨d, hd, rfl⟩))
      (keeps_task_update _ _ _ rfl (fun d hd => ⟨d, hd, rfl⟩)))
    (keeps_task_update _ _ _ rfl (fun d hd => ⟨d, hd, rfl⟩))

theorem keeps_pendsv (cfg : Config) (k : Kernel) (ms : Nat) (res : Kernel × Nat × Nat)
    (h : kernel_scheduler_inPendSV_c cfg k ms = some res) (hexit : k.sch_exit_list = []) :
    keeps k res.1 := by
  unfold kernel_scheduler_inPendSV_c at h
  rw [schedule_exit_nil cfg k ms hexit] at h
  cases h1 : _schedule_entry k ms with
  | none => simp [h1] at h
  | some k1 =>
    simp only [h1] at h
    have f1 : keeps k k1 := keeps_schedule_entry_loop ms k.sch_entry_list k k1 h1
    by_cases hp : _schedule_can_preempt cfg k1 k1.pTask = true
    · rw [if_pos hp] at h
      cases hc : k1.pTask with
      | none => simp [hc] at h
      | some c =>
        cases hn : _schedule_nextTaskGet k1 with
        | none => simp [hc, hn] at h
        | some n =>
          simp only [hc, hn, Option.some.injEq] at h
          subst h
          refine keeps_trans _ _ _ f1 (keeps_trans _ _ _ (keeps_time_analyze k1 c n ms) ?_)
          exact keeps_of_eq _ _ rfl rfl (fun r => by cases r <;> rfl)
    · rw [if_neg hp] at h
      cases hc : k1.pTask with
      | none => simp [hc] at h
      | some c =>
        simp only [hc, Option.some.injEq] at h
        subst h
        exact f1

/-- What a privileged call returns: the routine has run in handler mode. -/
theorem privilege_invoke_handler {α : Type} (err : α) (f : Kernel → Option (Kernel × α))
    (k : Kernel) (res : Kernel × α) (h : kernel_privilege_invoke err (some f) k = some res) :
    ∃ b' res0, f { k with inInterrupt := true } = some res0
      ∧ res = ({ res0.1 with inInterrupt := b' }, res0.2) := by
  unfold kernel_privilege_invoke at h
  by_cases hi : k.inInterrupt = true
  · have h1 : ¬ ((!k.inInterrupt) = true) := by simp [hi]
    simp only [if_neg h1] at h
    have hk : { k with inInterrupt := true } = k := by rw [← hi]
    rw [hk]
    exact ⟨res.1.inInterrupt, res, h, rfl⟩
  · have h1 : (!k.inInterrupt) = true := by simpa using hi
    simp only [if_pos h1, kernel_svc_call] at h
    cases hf : f { k with inInterrupt := true } with
    | none => simp [hf] at h
    | some res0 =>
      simp only [hf, Option.some.injEq] at h
      exact ⟨k.inInterrupt, res0, rfl, h.symm⟩

/-- A privileged call keeps what its routine keeps. -/
theorem keeps_privilege_invoke {α : Type} (err : α) (f : Kernel → Option (Kernel × α))
    (k : Kernel) (res : Kernel × α) (h : kernel_privilege_invoke err (some f) k = some res)
    (hf : ∀ k0 res0, f k0 = some res0 → keeps k0 res0.1) : keeps k res.1 := by
  obtain ⟨b', res0, h0, rfl⟩ := privilege_invoke_handler err f k res h
  exact keeps_trans _ _ _ (keeps_inInterrupt k true)
    (keeps_trans _ _ _ (hf _ _ h0) (keeps_inInterrupt res0.1 b'))

theorem keeps_step (cfg : Config) (k k' : Kernel) (a : action)
    (h : step cfg k a = some k') (hexit : k.sch_exit_list = []) : keeps k k' := by
  cases a with
  | mutex_init pName =>
    simp only [step, _impl_mutex_init, Option.map_eq_some'] at h
    obtain ⟨res, hres, rfl⟩ := h
    apply keeps_privilege_invoke _ _ _ _ hres
    intro k0 res0 h0
    simp only [Option.some.injEq] at h0
    subst h0
    exact keeps_mutex_init_routine cfg k0 pName
  | mutex_lock m =>
    simp only [step, _impl_mutex_lock, Option.map_eq_some'] at h
    obtain ⟨res, hres, rfl⟩ := h
    split at hres
    · simp only [Option.some.injEq] at hres; subst hres; exact keeps_refl k
    · split at hres
      · simp only [Option.some.injEq] at hres; subst hres; exact keeps_refl k
      · split at hres
        · simp only [Option.some.injEq] at hres; subst hres; exact keeps_refl k
        · apply keeps_privilege_invoke _ _ _ _ hres
          intro k0 res0 h0
          exact keeps_mutex_lock_routine cfg k0 m res0 h0
  | mutex_unlock m =>
    simp only [step, _impl_mutex_unlock, Option.map_eq_some'] at h
    obtain ⟨res, hres, rfl⟩ := h
    split at hres
    · simp only [Option.some.injEq] at hres; subst hres; exact keeps_refl k
    · split at hres
      · simp only [Option.some.injEq] at hres; subst hres; exact keeps_refl k
      · apply keeps_privilege_invoke _ _ _ _ hres
        intro k0 res0 h0
        exact keeps_mutex_unlock_routine cfg k0 m res0 h0
  | pendsv ms =>
    simp only [step, Option.map_eq_some'] at h
    obtain ⟨res, hres, rfl⟩ := h
    exact keeps_pendsv cfg k ms res hres hexit
  | timeout t =>
    simp only [step, Option.some.injEq] at h
    subst h
    exact keeps_entry_trigger _ _ _ _ _
  | dispatch t =>
    simp only [step, Option.some.injEq] at h
    subst h
    exact keeps_of_eq _ _ rfl rfl (fun r => by cases r <;> rfl)
  | irq b =>
    simp only [step, Option.some.injEq] at h
    subst h
    exact keeps_inInterrupt k b

theorem keeps_event_wait_routine (cfg : Config) (k : Kernel) (e : Nat) (sch : event_sch_t)
    (ms : Nat) (res : Kernel × evt_val × Int)
    (h : _event_wait_privilege_routine cfg k e sch ms = some res) : keeps k res.1 := by
  by_cases hrep : _event_wait_trigger (k.events e) sch.pEvtVal &&& sch.listen ≠ 0
  · rw [event_wait_routine_immediate cfg k e sch ms hrep] at h
    simp only [Option.some.injEq] at h
    subst h
    apply keeps_event_shrink
    · exact ⟨rfl, rfl, rfl, rfl, rfl, _, rfl⟩
    · rfl
  · have hz : _event_wait_trigger (k.events e) sch.pEvtVal &&& sch.listen = 0 := by
      simpa using hrep
    cases hrun : k.pTask with
    | none =>
      unfold _event_wait_privilege_routine at h
      simp [hz, hrun] at h
    | some c =>
      rw [event_wait_routine_blocking cfg k e c sch ms hrun hz] at h
      simp only [Option.some.injEq] at h
      subst h
      apply keeps_exit_trigger
      intro e' he'
      simp only [list_ref.event.injEq] at he'
      subst he'
      exact ⟨_, rfl, or_and_zero_right _ _ _ hz⟩

theorem keeps_event_wait_invoke (cfg : Config) (k : Kernel) (e : Nat) (pEvtData : Option evt_val)
    (listen_mask timeout_ms : Nat) (res : Kernel × Option evt_val × Int)
    (h : _impl_event_wait_invoke cfg k e pEvtData listen_mask timeout_ms = some res) :
    keeps k res.1 := by
  unfold _impl_event_wait_invoke at h
  split at h
  · simp only [Option.some.injEq] at h; subst h; exact keeps_refl k
  · split at h
    · simp only [Option.some.injEq] at h; subst h; exact keeps_refl k
    · split at h
      · simp only [Option.some.injEq] at h; subst h; exact keeps_refl k
      · split at h
        · simp only [Option.some.injEq] at h; subst h; exact keeps_refl k
        · split at h
          · simp only [Option.some.injEq] at h; subst h; exact keeps_refl k
          · simp only [Option.map_eq_some'] at h
            obtain ⟨res1, hres1, rfl⟩ := h
            apply keeps_privilege_invoke _ _ _ _ hres1
            intro k0 res0 h0
            exact keeps_event_wait_routine cfg k0 e _ timeout_ms res0 h0

theorem keeps_result_take (cfg : Config) (k : Kernel) (res : Kernel × Int)
    (h : kernel_schedule_result_take cfg k = some res) : keeps k res.1 := by
  unfold kernel_schedule_result_take at h
  cases hrun : k.pTask with
  | none => simp [hrun] at h
  | some c =>
    simp only [hrun, Option.some.injEq] at h
    subst h
    exact keeps_task_update _ _ _ rfl (fun d hd => ⟨d, hd, rfl⟩)

/-! ### The invariant of the event model -/

theorem events_u32_of_shrunk (k k' : Kernel) (hu : events_u32 k)
    (h : ∀ e, latch_shrunk (k.events e) (k'.events e)) : events_u32 k' := by
  intro e hcs
  obtain ⟨h1, h2, _, _, _, y, h6⟩ := h e
  rw [h1] at hcs
  refine ⟨by rw [h2]; exact (hu e hcs).1, ?_⟩
  rw [h6]
  exact and_lt_u32_left _ _ (hu e hcs).2

theorem event_set_value_lt (ev : event_context_t) (set clear toggle : Nat)
    (h : ev.value < 4294967296) : _event_set_value ev set clear toggle < 4294967296 := by
  unfold _event_set_value
  exact xor_lt_u32 _ _ (or_lt_u32 _ _ (and_lt_u32_left _ _ h) (u32_lt _)) (u32_lt _)

theorem event_wake_exit_list (cfg : Config) (val trigger : Nat) (k : Kernel) (t : Nat)
    (h : k.sch_exit_list = []) : (event_wake cfg val trigger k t).sch_exit_list = [] := by
  unfold event_wake
  exact entry_trigger_exit_list _ _ _ _ _ h

theorem wake_fold_exit_list (cfg : Config) (val trigger : Nat) (W : List Nat) (k : Kernel)
    (h : k.sch_exit_list = []) :
    (W.foldl (event_wake cfg val trigger) k).sch_exit_list = [] := by
  induction W generalizing k with
  | nil => exact h
  | cons t rest ih =>
    simp only [List.foldl_cons]
    exact ih _ (event_wake_exit_list cfg val trigger k t h)

theorem exit_trigger_exit_list_event (cfg : Config) (k : Kernel) (t : Nat) (ctx : Option ctx_ref)
    (data : Option event_sch_t) (e : Nat) (ms : Nat) (h : k.sch_exit_list = []) :
    (schedule_exit_trigger cfg k t ctx data (some (.event e)) ms true).1.sch_exit_list = [] := by
  have e1 := exit_trigger_other_list cfg k t ctx data (.event e) .exit ms (by simp)
  have e' : list_get k .exit = [] := h
  rw [e'] at e1
  have : list_get (schedule_exit_trigger cfg k t ctx data (some (.event e)) ms true).1 .exit
      = [] := by
    rw [e1]; split <;> simp
  exact this

theorem event_inv_of_keeps (k k' : Kernel) (hi : event_inv k) (hk : keeps k k')
    (hexit : k'.sch_exit_list = []) : event_inv k' :=
  ⟨(hk.1 hi.1 hi.2.1).1, (hk.1 hi.1 hi.2.1).2, events_u32_of_shrunk k k' hi.2.2.1 hk.2, hexit⟩

/-- Event set in handler mode maintains the invariant. -/
theorem event_inv_set_routine (cfg : Config) (hpc : cfg.PC_ERROR 0 = false) (k : Kernel)
    (e set clear toggle : Nat) (hmode : k.inInterrupt = true) (hi : event_inv k)
    (hcs : (k.events e).cs = true) :
    event_inv (_event_set_privilege_routine cfg k e set clear toggle).1 := by
  obtain ⟨hl, hw, hu, hexit⟩ := hi
  have hnd : (k.events e).q_list.Nodup := hl.1 (.event e)
  have hrec : ∀ t ∈ (k.events e).q_list, (k.tasks t).pPendData ≠ none := by
    intro t ht
    obtain ⟨d, hd, _⟩ := hw e t ht
    rw [hd]; simp
  have hlink : ∀ t ∈ (k.events e).q_list, (k.tasks t).linker.pList = some (.event e) :=
    fun t ht => hl.2 (.event e) t ht
  have hW : (event_woken k (_event_set_trigger (k.events e) set clear toggle)
      (k.events e).q_list).Nodup := hnd.sublist (event_woken_sublist _ _ _)
  have hsub := (event_woken_sublist k (_event_set_trigger (k.events e) set clear toggle)
      (k.events e).q_list).subset
  rw [event_set_routine_eq cfg hpc k e set clear toggle hmode hnd hrec]
  change event_inv (event_update _ e _)
  have hK := keeps_wake_fold cfg (_event_set_value (k.events e) set clear toggle)
    (_event_set_trigger (k.events e) set clear toggle)
    (event_woken k (_event_set_trigger (k.events e) set clear toggle) (k.events e).q_list) k
  obtain ⟨hlK, hwK⟩ := hK.1 hl hw
  have hlists : ∀ (K : Kernel) (x y : Nat) (r : list_ref),
      list_get (event_update K e (fun ev => { ev with triggered := x, value := y })) r
        = list_get K r := fun K x y r => list_get_event_update K e _ rfl r
  refine ⟨⟨?_, ?_⟩, ?_, ?_, ?_⟩
  · intro r
    rw [hlists]
    exact hlK.1 r
  · intro r t ht
    rw [hlists] at ht
    exact hlK.2 r t ht
  · intro e' t ht
    by_cases he : e' = e
    · subst he
      have ht' : t ∈ list_get (event_update _ e' _) (.event e') := ht
      rw [hlists, wake_fold_queue _ _ _ _ _ e' hW (fun u hu => hlink u (hsub hu))] at ht'
      have ht'' : t ∈ (k.events e').q_list.diff
          (event_woken k (_event_set_trigger (k.events e') set clear toggle)
            (k.events e').q_list) := ht'
      unfold event_woken at ht''
      rw [diff_filter_eq _ _ hnd, List.mem_filter] at ht''
      obtain ⟨htq, hz⟩ := ht''
      have hz' : _event_set_trigger (k.events e') set clear toggle &&& event_listen k t = 0 := by
        simpa using hz
      obtain ⟨d, hd, _⟩ := hw e' t htq
      have hnot : t ∉ event_woken k (_event_set_trigger (k.events e') set clear toggle)
          (k.events e').q_list := by
        rw [mem_event_woken]
        intro hc
        exact hc.2 hz'
      refine ⟨d, ?_, ?_⟩
      · show ((List.foldl _ k _).tasks t).pPendData = some d
        rw [wake_fold_task_other _ _ _ _ _ t hnot]
        exact hd
      · rw [event_update_self]
        show (not32 _ &&& _event_set_trigger (k.events e') set clear toggle) &&& d.listen = 0
        apply and_zero_of_and_zero_left
        have : event_listen k t = d.listen := by simp [event_listen, hd]
        rw [← this]
        exact hz'
    · rw [event_update_other _ _ _ _ he] at ht
      obtain ⟨d, hd, hz⟩ := hwK e' t ht
      exact ⟨d, hd, by rw [event_update_other _ _ _ _ he]; exact hz⟩
  · intro e' hcs'
    by_cases he : e' = e
    · subst he
      rw [event_update_self]
      exact ⟨event_set_value_lt _ _ _ _ (hu e' hcs).1, and_lt_u32_left _ _ (not32_lt _)⟩
    · rw [event_update_other _ _ _ _ he] at hcs' ⊢
      exact events_u32_of_shrunk k _ hu hK.2 e' hcs'
  · exact wake_fold_exit_list _ _ _ _ _ hexit

theorem event_inv_inInterrupt (k : Kernel) (b : Bool) (hi : event_inv k) :
    event_inv { k with inInterrupt := b } :=
  event_inv_of_keeps k _ hi (keeps_inInterrupt k b) hi.2.2.2

/-- Event create maintains the invariant. -/
theorem event_inv_init_routine (cfg : Config) (k : Kernel)
    (anyMask modeMask dirMask init pName : Nat) (hi : event_inv k) :
    event_inv (_event_init_privilege_routine cfg k anyMask modeMask dirMask init pName).1 := by
  unfold _event_init_privilege_routine
  split
  · exact hi
  · rename_i e hfind
    have hfree : (k.events e).cs = false := by
      have := List.find?_some hfind
      simpa [_event_context_isInit] using this
    obtain ⟨hl, hw, hu, hexit⟩ := hi
    have hlist : ∀ r, (list_get (event_update k e (fun _ =>
        ({ cs := true, pName := pName, q_list := [], value := u32 init, triggered := 0,
           anyMask := u32 anyMask, modeMask := u32 modeMask, dirMask := u32 dirMask,
           pEvtCallEntry := none } : event_context_t))) r).Sublist (list_get k r) := by
      intro r
      cases r <;> try exact List.Sublist.refl _
      rename_i e'
      show ((event_update k e _).events e').q_list.Sublist (k.events e').q_list
      by_cases he : e' = e
      · subst he; rw [event_update_self]; exact List.nil_sublist _
      · rw [event_update_other _ _ _ _ he]
    refine ⟨⟨fun r => (hl.1 r).sublist (hlist r), fun r t ht => hl.2 r t ((hlist r).subset ht)⟩,
      ?_, ?_, hexit⟩
    · intro e' t ht
      by_cases he : e' = e
      · subst he
        rw [event_update_self] at ht
        exact absurd ht (List.not_mem_nil _)
      · rw [event_update_other _ _ _ _ he] at ht ⊢
        exact hw e' t ht
    · intro e' hcs'
      by_cases he : e' = e
      · subst he
        rw [event_update_self]
        exact ⟨u32_lt _, show (0 : Nat) < 4294967296 by decide⟩
      · rw [event_update_other _ _ _ _ he] at hcs' ⊢
        exact hu e' hcs'

theorem event_wait_routine_exit_list (cfg : Config) (k : Kernel) (e : Nat) (sch : event_sch_t)
    (ms : Nat) (res : Kernel × evt_val × Int)
    (h : _event_wait_privilege_routine cfg k e sch ms = some res)
    (hexit : k.sch_exit_list = []) : res.1.sch_exit_list = [] := by
  by_cases hrep : _event_wait_trigger (k.events e) sch.pEvtVal &&& sch.listen ≠ 0
  · rw [event_wait_routine_immediate cfg k e sch ms hrep] at h
    simp only [Option.some.injEq] at h
    subst h
    exact hexit
  · have hz : _event_wait_trigger (k.events e) sch.pEvtVal &&& sch.listen = 0 := by
      simpa using hrep
    cases hrun : k.pTask with
    | none =>
      unfold _event_wait_privilege_routine at h
      simp [hz, hrun] at h
    | some c =>
      rw [event_wait_routine_blocking cfg k e c sch ms hrun hz] at h
      simp only [Option.some.injEq] at h
      subst h
      exact exit_trigger_exit_list_event _ _ _ _ _ _ _ hexit

/-- Every step of the event model maintains the invariant. -/
theorem event_inv_step (cfg : Config) (hpc : cfg.PC_ERROR 0 = false) (k k' : Kernel)
    (a : event_action) (hi : event_inv k) (h : event_step cfg k a = some k') : event_inv k' := by
  cases a with
  | kernel a =>
    exact event_inv_of_keeps k k' hi (keeps_step cfg k k' a h hi.2.2.2)
      (step_effect cfg k k' a h hi.2.2.2).1
  | event_init anyMask modeMask dirMask init pName =>
    simp only [event_step, _impl_event_init, Option.map_eq_some'] at h
    obtain ⟨res, hres, rfl⟩ := h
    obtain ⟨b', res0, h0, rfl⟩ := privilege_invoke_handler _ _ _ _ hres
    simp only [Option.some.injEq] at h0
    subst h0
    exact event_inv_inInterrupt _ _
      (event_inv_init_routine cfg _ _ _ _ _ _ (event_inv_inInterrupt k true hi))
  | event_set e set clear toggle =>
    simp only [event_step, _impl_event_set, Option.map_eq_some'] at h
    obtain ⟨res, hres, rfl⟩ := h
    split at hres
    · simp only [Option.some.injEq] at hres; subst hres; exact hi
    · split at hres
      · simp only [Option.some.injEq] at hres; subst hres; exact hi
      · rename_i hv hcs
        have hcs' : (k.events e).cs = true := by simpa [_event_context_isInit] using hcs
        obtain ⟨b', res0, h0, rfl⟩ := privilege_invoke_handler _ _ _ _ hres
        simp only [Option.some.injEq] at h0
        subst h0
        exact event_inv_inInterrupt _ _
          (event_inv_set_routine cfg hpc _ e set clear toggle rfl
            (event_inv_inInterrupt k true hi) hcs')
  | event_wait e pEvtData listen_mask timeout_ms =>
    simp only [event_step, Option.map_eq_some'] at h
    obtain ⟨res, hres, rfl⟩ := h
    refine event_inv_of_keeps k _ hi (keeps_event_wait_invoke cfg k e _ _ _ res hres) ?_
    unfold _impl_event_wait_invoke at hres
    split at hres
    · simp only [Option.some.injEq] at hres; subst hres; exact hi.2.2.2
    · split at hres
      · simp only [Option.some.injEq] at hres; subst hres; exact hi.2.2.2
      · split at hres
        · simp only [Option.some.injEq] at hres; subst hres; exact hi.2.2.2
        · split at hres
          · simp only [Option.some.injEq] at hres; subst hres; exact hi.2.2.2
          · split at hres
            · simp only [Option.some.injEq] at hres; subst hres; exact hi.2.2.2
            · simp only [Option.map_eq_some'] at hres
              obtain ⟨res1, hres1, rfl⟩ := hres
              obtain ⟨b', res0, h0, rfl⟩ := privilege_invoke_handler _ _ _ _ hres1
              exact event_wait_routine_exit_list cfg _ e _ timeout_ms res0 h0 hi.2.2.2
  | result_take =>
    simp only [event_step, Option.map_eq_some'] at h
    obtain ⟨res, hres, rfl⟩ := h
    refine event_inv_of_keeps k _ hi (keeps_result_take cfg k res hres) ?_
    unfold kernel_schedule_result_take at hres
    cases hrun : k.pTask with
    | none => simp [hrun] at hres
    | some c =>
      simp only [hrun, Option.some.injEq] at hres
      subst hres
      exact hi.2.2.2

theorem event_inv_boot (k : Kernel) (h : boot k) : event_inv k := by
  obtain ⟨hev, hmu, hentry, hexit, hwait, hnd, hpend⟩ := h
  refine ⟨⟨?_, ?_⟩, ?_, ?_, hexit⟩
  · intro r
    cases r with
    | pend => exact hnd
    | entry => show k.sch_entry_list.Nodup; rw [hentry]; exact List.nodup_nil
    | exit => show k.sch_exit_list.Nodup; rw [hexit]; exact List.nodup_nil
    | wait => show k.sch_wait_list.Nodup; rw [hwait]; exact List.nodup_nil
    | mutex m => show (k.mutexes m).q_list.Nodup; rw [(hmu m).2]; exact List.nodup_nil
    | event e => show (k.events e).q_list.Nodup; rw [(hev e).2]; exact List.nodup_nil
  · intro r t ht
    cases r with
    | pend => exact hpend t ht
    | entry => exact absurd (show t ∈ k.sch_entry_list from ht) (by rw [hentry]; simp)
    | exit => exact absurd (show t ∈ k.sch_exit_list from ht) (by rw [hexit]; simp)
    | wait => exact absurd (show t ∈ k.sch_wait_list from ht) (by rw [hwait]; simp)
    | mutex m => exact absurd (show t ∈ (k.mutexes m).q_list from ht) (by rw [(hmu m).2]; simp)
    | event e => exact absurd (show t ∈ (k.events e).q_list from ht) (by rw [(hev e).2]; simp)
  · intro e t ht
    rw [(hev e).2] at ht
    exact absurd ht (List.not_mem_nil _)
  · intro e hcs
    rw [(hev e).1] at hcs
    exact Bool.noConfusion hcs

/-- The invariant holds in every state reached from a start-up state. -/
theorem event_run_inv (cfg : Config) (hpc : cfg.PC_ERROR 0 = false) (acts : List event_action)
    (k0 k : Kernel) (h0 : event_inv k0) (hrun : event_run cfg k0 acts = some k) : event_inv k := by
  induction acts generalizing k0 with
  | nil =>
    simp only [event_run, Option.some.injEq] at hrun
    subst hrun; exact h0
  | cons a rest ih =>
    simp only [event_run] at hrun
    cases hs : event_step cfg k0 a with
    | none => simp [hs] at hrun
    | some k1 =>
      simp only [hs] at hrun
      exact ih k1 (event_inv_step cfg hpc k0 k1 a h0 hs) hrun

/-! ### Event set with nothing to set -/

theorem event_with_eq (x : event_context_t) (T V : Nat) (hT : T = x.triggered)
    (hV : V = x.value) : { x with triggered := T, value := V } = x := by
  subst hT hV
  rfl

theorem event_update_eq_self (k : Kernel) (e : Nat) (f : event_context_t → event_context_t)
    (h : f (k.events e) = k.events e) : event_update k e f = k := by
  unfold event_update
  rw [h, Function.update_eq_self]

theorem event_set_value_zero (ev : event_context_t) (h : ev.value < 4294967296) :
    _event_set_value ev 0 0 0 = ev.value := by
  unfold _event_set_value
  simp only [u32, Nat.zero_mod, Nat.or_zero, Nat.xor_zero]
  exact and_not32_zero _ h

theorem event_set_trigger_zero (ev : event_context_t) (h : ev.value < 4294967296) :
    _event_set_trigger ev 0 0 0 = ev.triggered := by
  unfold _event_set_trigger
  simp only [event_set_value_zero ev h, Nat.xor_self, event_trigger_bits_zero, Nat.zero_or]

/-- In a state that satisfies the invariant, event set with set = clear =
toggle = 0 in handler mode changes nothing and returns 0. -/
theorem event_set_zero_routine (cfg : Config) (hpc : cfg.PC_ERROR 0 = false) (k : Kernel)
    (e : Nat) (hmode : k.inInterrupt = true) (hi : event_inv k) (hcs : (k.events e).cs = true) :
    _event_set_privilege_routine cfg k e 0 0 0 = (k, 0) := by
  obtain ⟨hl, hw, hu, _⟩ := hi
  have hnd : (k.events e).q_list.Nodup := hl.1 (.event e)
  have hrec : ∀ t ∈ (k.events e).q_list, (k.tasks t).pPendData ≠ none := by
    intro t ht
    obtain ⟨d, hd, _⟩ := hw e t ht
    rw [hd]; simp
  have hval := event_set_value_zero (k.events e) (hu e hcs).1
  have htrig := event_set_trigger_zero (k.events e) (hu e hcs).1
  have hW : event_woken k (k.events e).triggered (k.events e).q_list = [] := by
    unfold event_woken
    rw [List.filter_eq_nil_iff]
    intro t ht
    obtain ⟨d, hd, hz⟩ := hw e t ht
    simp [event_listen, hd, hz]
  rw [event_set_routine_eq cfg hpc k e 0 0 0 hmode hnd hrec, htrig, hval, hW]
  simp only [List.foldl_nil, if_true]
  congr 1
  apply event_update_eq_self
  apply event_with_eq
  · show not32 (event_reported k (k.events e).triggered []) &&& (k.events e).triggered
      = (k.events e).triggered
    exact not32_zero_and _ (hu e hcs).2
  · rfl

theorem impl_event_set_zero (cfg : Config) (hpc : cfg.PC_ERROR 0 = false) (k : Kernel) (e : Nat)
    (hi : event_inv k) (hv : e < cfg.EVENT_INSTANCE_SUPPORTED_NUMBER)
    (hcs : (k.events e).cs = true) : _impl_event_set cfg k e 0 0 0 = some (k, 0) := by
  unfold _impl_event_set
  simp only [_event_context_isInvalid, _event_context_isInit, hv, hcs, decide_True, Bool.not_true,
    Bool.false_eq_true, if_false]
  unfold kernel_privilege_invoke
  by_cases hm : k.inInterrupt = true
  · simp only [hm, Bool.not_true, Bool.false_eq_true, if_false]
    rw [event_set_zero_routine cfg hpc k e hm hi hcs]
  · have hm' : k.inInterrupt = false := by simpa using hm
    simp only [hm', Bool.not_false, if_true, kernel_svc_call]
    rw [event_set_zero_routine cfg hpc { k with inInterrupt := true } e rfl
      (event_inv_inInterrupt k true hi) hcs]
    have hk : ({ k with inInterrupt := false } : Kernel) = k := by rw [← hm']
    show some (({ k with inInterrupt := false } : Kernel), (0 : Int)) = some (k, 0)
    rw [hk]

theorem impl_event_set_zero_state (cfg : Config) (hpc : cfg.PC_ERROR 0 = false) (k : Kernel)
    (e : Nat) (hi : event_inv k) : ∃ pc, _impl_event_set cfg k e 0 0 0 = some (k, pc) := by
  by_cases hv : e < cfg.EVENT_INSTANCE_SUPPORTED_NUMBER
  · by_cases hcs : (k.events e).cs = true
    · exact ⟨0, impl_event_set_zero cfg hpc k e hi hv hcs⟩
    · refine ⟨cfg.PC_EOR_EVENT, ?_⟩
      unfold _impl_event_set
      simp [_event_context_isInvalid, _event_context_isInit, hv, hcs]
  · refine ⟨cfg.PC_EOR_EVENT, ?_⟩
    unfold _impl_event_set
    simp [_event_context_isInvalid, hv]

/-- C15: event idempotence.  In every state reached from a start-up state by
steps of the kernel and calls of event create, set and wait (0 being no error
postcode), a set call with set = 0, clear = 0 and toggle = 0 returns with the
whole state as it was: the value, the latch and the wait queue of the event are
unchanged and no task is moved, so no waiter is woken; any number of such calls
leaves the state as it was. -/
theorem event_set_idempotent (cfg : Config) (k0 k : Kernel) (acts : List event_action)
    (hpc : cfg.PC_ERROR 0 = false) (h0 : boot k0) (hrun : event_run cfg k0 acts = some k)
    (e : Nat) :
    (∃ pc, _impl_event_set cfg k e 0 0 0 = some (k, pc)
        ∧ (e < cfg.EVENT_INSTANCE_SUPPORTED_NUMBER → (k.events e).cs = true → pc = 0))
      ∧ ∀ n, event_run cfg k (List.replicate n (.event_set e 0 0 0)) = some k := by
  have hi : event_inv k := event_run_inv cfg hpc acts k0 k (event_inv_boot k0 h0) hrun
  obtain ⟨pc, hset⟩ := impl_event_set_zero_state cfg hpc k e hi
  refine ⟨⟨pc, hset, ?_⟩, ?_⟩
  · intro hv hcs
    have h1 := impl_event_set_zero cfg hpc k e hi hv hcs
    rw [hset] at h1
    simp only [Option.some.injEq, Prod.mk.injEq, true_and] at h1
    exact h1
  · intro n
    induction n with
    | zero => rfl
    | succ n ih =>
      simp only [List.replicate_succ, event_run, event_step, hset, Option.map_some']
      exact ih

/-- C15, witness: task 1 waits on bit 0 of an edge event while bit 1 is latched;
a set call with nothing to set leaves that state as it is. -/
theorem event_set_idempotent_witness :
    ∃ k, event_run sample_cfg sample_init
        [.event_init 0 15 15 0 0, .event_set 0 2 0 0, .kernel (.dispatch 1),
         .event_wait 0 (some ⟨2, 0⟩) 1 100] = some k
      ∧ (k.events 0).triggered = 2 ∧ (k.events 0).q_list = [1]
      ∧ _impl_event_set sample_cfg k 0 0 0 0 = some (k, 0)
      ∧ event_run sample_cfg k (List.replicate 3 (.event_set 0 0 0 0)) = some k := by
  refine ⟨_, rfl, by decide, by decide, ?_⟩
  have h := event_set_idempotent sample_cfg sample_init _
    [.event_init 0 15 15 0 0, .event_set 0 2 0 0, .kernel (.dispatch 1),
     .event_wait 0 (some ⟨2, 0⟩) 1 100] rfl
    ⟨fun _ => ⟨rfl, rfl⟩, fun _ => ⟨rfl, rfl⟩, rfl, rfl, rfl, by decide, by decide⟩ rfl 0
  obtain ⟨⟨pc, h1, h2⟩, h3⟩ := h
  have hpc0 := h2 (by decide) (by decide)
  subst hpc0
  exact ⟨h1, h3 3⟩

/-! ### The bits of a trigger word -/

/-- A bit is in the trigger bits exactly when it changed and is either an
any-mode bit or a bit of the low 32 whose value is the one its dir_mask bit
asks for; the mode_mask plays no part. -/
theorem event_trigger_bits_testBit (ev : event_context_t) (val changed i : Nat) :
    (event_trigger_bits ev val changed).testBit i = true
      ↔ changed.testBit i = true
        ∧ (ev.anyMask.testBit i = true ∨ (i < 32 ∧ val.testBit i = ev.dirMask.testBit i)) := by
  unfold event_trigger_bits
  simp only [Nat.testBit_or, Nat.testBit_and, testBit_not32]
  by_cases hi : i < 32
  · cases changed.testBit i <;> cases ev.anyMask.testBit i <;> cases ev.modeMask.testBit i <;>
      cases val.testBit i <;> cases ev.dirMask.testBit i <;> simp [hi]
  · cases changed.testBit i <;> cases ev.anyMask.testBit i <;> cases ev.modeMask.testBit i <;>
      cases val.testBit i <;> cases ev.dirMask.testBit i <;> simp [hi]

theorem event_set_trigger_testBit (ev : event_context_t) (set clear toggle i : Nat) :
    (_event_set_trigger ev set clear toggle).testBit i = true
      ↔ (event_trigger_bits ev (_event_set_value ev set clear toggle)
            (_event_set_value ev set clear toggle ^^^ ev.value)).testBit i = true
        ∨ ev.triggered.testBit i = true := by
  unfold _event_set_trigger
  simp only [Nat.testBit_or, Bool.or_eq_true]

theorem event_wait_trigger_testBit (ev : event_context_t) (d : evt_val) (i : Nat) :
    (_event_wait_trigger ev d).testBit i = true
      ↔ (event_trigger_bits ev ev.value (d.value ^^^ ev.value)).testBit i = true
        ∨ ev.triggered.testBit i = true := by
  unfold _event_wait_trigger
  by_cases hc : d.value ^^^ ev.value ≠ 0
  · simp only [if_pos hc, Nat.testBit_or, Bool.or_eq_true]
  · have hz : d.value ^^^ ev.value = 0 := by simpa using hc
    simp [hz, event_trigger_bits_zero]

theorem ne_zero_of_testBit (x i : Nat) (h : x.testBit i = true) : x ≠ 0 := by
  intro hx
  rw [hx, Nat.zero_testBit] at h
  exact Bool.noConfusion h

theorem and_eq_zero_testBit (x y i : Nat) (h : x &&& y = 0) (hx : x.testBit i = true) :
    y.testBit i = false := by
  have := congrArg (fun n => n.testBit i) h
  simp only [Nat.testBit_and, Nat.zero_testBit, hx, Bool.true_and] at this
  exact this

/-! ### Where latched bits come from -/

theorem event_set_routine_fst (cfg : Config) (hpc : cfg.PC_ERROR 0 = false) (k : Kernel)
    (e set clear toggle : Nat) (hmode : k.inInterrupt = true) (hnd : (k.events e).q_list.Nodup)
    (hrec : ∀ t ∈ (k.events e).q_list, (k.tasks t).pPendData ≠ none) :
    (_event_set_privilege_routine cfg k e set clear toggle).1
      = event_update
          ((event_woken k (_event_set_trigger (k.events e) set clear toggle)
              (k.events e).q_list).foldl
            (event_wake cfg (_event_set_value (k.events e) set clear toggle)
              (_event_set_trigger (k.events e) set clear toggle)) k)
          e (fun x =>
            { x with
              triggered := not32 (event_reported k (_event_set_trigger (k.events e) set clear toggle)
                  (event_woken k (_event_set_trigger (k.events e) set clear toggle)
                    (k.events e).q_list))
                &&& _event_set_trigger (k.events e) set clear toggle,
              value := _event_set_value (k.events e) set clear toggle }) := by
  rw [event_set_routine_eq cfg hpc k e set clear toggle hmode hnd hrec]

/-- The events after event set in handler mode, in a state that satisfies the
invariant. -/
theorem event_set_routine_events (cfg : Config) (hpc : cfg.PC_ERROR 0 = false) (k : Kernel)
    (e0 set clear toggle : Nat) (hmode : k.inInterrupt = true) (hi : event_inv k) (e : Nat) :
    (e ≠ e0 →
        event_core ((_event_set_privilege_routine cfg k e0 set clear toggle).1.events e)
          = event_core (k.events e))
      ∧ ((_event_set_privilege_routine cfg k e0 set clear toggle).1.events e0).cs
          = (k.events e0).cs
      ∧ ((_event_set_privilege_routine cfg k e0 set clear toggle).1.events e0).triggered
          = not32 (event_reported k (_event_set_trigger (k.events e0) set clear toggle)
                (event_woken k (_event_set_trigger (k.events e0) set clear toggle)
                  (k.events e0).q_list))
            &&& _event_set_trigger (k.events e0) set clear toggle
      ∧ ((_event_set_privilege_routine cfg k e0 set clear toggle).1.events e0).value
          = _event_set_value (k.events e0) set clear toggle := by
  have hnd : (k.events e0).q_list.Nodup := hi.1.1 (.event e0)
  have hrec : ∀ t ∈ (k.events e0).q_list, (k.tasks t).pPendData ≠ none := by
    intro t ht
    obtain ⟨d, hd, _⟩ := hi.2.1 e0 t ht
    rw [hd]; simp
  rw [event_set_routine_fst cfg hpc k e0 set clear toggle hmode hnd hrec]
  refine ⟨fun he => ?_, ?_, ?_, ?_⟩
  · rw [event_update_other _ _ _ _ he]
    exact wake_fold_event_core _ _ _ _ _ e
  · rw [event_update_self]
    exact event_core_cs ((List.foldl _ k _).events e0) _ (wake_fold_event_core _ _ _ _ _ e0)
  · rw [event_update_self]
  · rw [event_update_self]

theorem boot_sample_init : boot sample_init :=
  ⟨fun _ => ⟨rfl, rfl⟩, fun _ => ⟨rfl, rfl⟩, rfl, rfl, rfl, by decide, by decide⟩

theorem testBit_two_pow_self (i : Nat) : (2 ^ i).testBit i = true := by
  rw [Nat.testBit_two_pow]; simp

theorem and_two_pow_eq_zero (x i : Nat) (h : x.testBit i = false) : x &&& 2 ^ i = 0 := by
  apply Nat.eq_of_testBit_eq
  intro j
  rw [Nat.testBit_and, Nat.testBit_two_pow, Nat.zero_testBit]
  by_cases hj : i = j
  · subst hj; simp [h]
  · simp [hj]

theorem and_ne_zero_of_testBit (x y i : Nat) (hx : x.testBit i = true) (hy : y.testBit i = true) :
    x &&& y ≠ 0 :=
  ne_zero_of_testBit _ i (by rw [Nat.testBit_and, hx, hy]; rfl)

/-- A wait whose trigger word meets the listen mask, called from thread mode. -/
theorem impl_event_wait_immediate (cfg : Config) (k : Kernel) (e : Nat) (d : evt_val)
    (listen_mask timeout_ms : Nat) (hvalid : e < cfg.EVENT_INSTANCE_SUPPORTED_NUMBER)
    (hinit : (k.events e).cs = true) (htime : timeout_ms ≠ 0) (hthread : k.inInterrupt = false)
    (hcode : cfg.PC_OS_WAIT_UNAVAILABLE ≠ 0)
    (hrep : _event_wait_trigger (k.events e) d &&& listen_mask ≠ 0) :
    _impl_event_wait cfg k e (some d) listen_mask timeout_ms
      = some (event_update k e (fun x =>
                { x with triggered := x.triggered
                    &&& not32 (_event_wait_trigger (k.events e) d &&& listen_mask) }),
              some { value := (k.events e).value, trigger := _event_wait_trigger (k.events e) d },
              0) := by
  rw [impl_event_wait_eq cfg k e d listen_mask timeout_ms hvalid hinit htime hthread,
    event_wait_routine_immediate cfg { k with inInterrupt := true } e
      { listen := listen_mask, pEvtVal := d } timeout_ms hrep]
  simp only [impl_event_wait_result_zero _ _ hcode, Option.map_some']
  have : k = { k with inInterrupt := false } := by rw [← hthread]
  conv_rhs => rw [this]
  rfl

/-- A wait whose trigger word misses the listen mask, called from thread mode by
the running task `c`: the caller is queued. -/
theorem impl_event_wait_blocking (cfg : Config) (k : Kernel) (e c : Nat) (d : evt_val)
    (listen_mask timeout_ms : Nat) (hvalid : e < cfg.EVENT_INSTANCE_SUPPORTED_NUMBER)
    (hinit : (k.events e).cs = true) (htime : timeout_ms ≠ 0) (hthread : k.inInterrupt = false)
    (hrun : k.pTask = some c)
    (hrep : _event_wait_trigger (k.events e) d &&& listen_mask = 0) :
    ∃ k', _impl_event_wait_invoke cfg k e (some d) listen_mask timeout_ms
        = some (k', some { d with value := (k.events e).value },
                if cfg.PC_PASS 0 then cfg.PC_OS_WAIT_UNAVAILABLE else 0)
      ∧ c ∈ (k'.events e).q_list
      ∧ (k'.tasks c).linker.pList = some (.event e)
      ∧ (k'.tasks c).pPendCtx = some (.event e)
      ∧ (k'.tasks c).pPendData
          = some { listen := listen_mask, pEvtVal := { d with value := (k.events e).value } } := by
  have heq := impl_event_wait_invoke_eq cfg k e d listen_mask timeout_ms hvalid hinit htime hthread
  rw [event_wait_routine_blocking cfg { k with inInterrupt := true } e c
        { listen := listen_mask, pEvtVal := d } timeout_ms hrun hrep] at heq
  simp only [Option.map_some'] at heq
  rw [exit_trigger_snd cfg { k with inInterrupt := true } c _ _ _ _ rfl] at heq
  have htarget := exit_trigger_target cfg { k with inInterrupt := true } c (some (.event e))
    (some { listen := listen_mask, pEvtVal := { d with value := (k.events e).value } })
    (.event e) timeout_ms
  have hself := exit_trigger_task_self cfg { k with inInterrupt := true } c (some (.event e))
    (some { listen := listen_mask, pEvtVal := { d with value := (k.events e).value } })
    (.event e) timeout_ms
  refine ⟨_, heq, ?_, ?_, ?_, ?_⟩
  · show c ∈ list_get (schedule_exit_trigger cfg { k with inInterrupt := true } c _ _ _ _ true).1
      (.event e)
    rw [htarget]
    exact mem_sorted_insert _ _ _
  · show ((schedule_exit_trigger cfg { k with inInterrupt := true } c _ _ _ _ true).1.tasks
      c).linker.pList = _
    rw [hself]
  · show ((schedule_exit_trigger cfg { k with inInterrupt := true } c _ _ _ _ true).1.tasks
      c).pPendCtx = _
    rw [hself]
  · show ((schedule_exit_trigger cfg { k with inInterrupt := true } c _ _ _ _ true).1.tasks
      c).pPendData = _
    rw [hself]

/-- Event set on an event without waiters, called from thread mode. -/
theorem impl_event_set_no_waiter (cfg : Config) (k : Kernel) (e set clear toggle : Nat)
    (hvalid : e < cfg.EVENT_INSTANCE_SUPPORTED_NUMBER) (hinit : (k.events e).cs = true)
    (hq : (k.events e).q_list = []) (hthread : k.inInterrupt = false) :
    _impl_event_set cfg k e set clear toggle
      = some (event_update k e (fun x =>
                { x with triggered := not32 0 &&& _event_set_trigger (k.events e) set clear toggle,
                         value := _event_set_value (k.events e) set clear toggle }), 0) := by
  unfold _impl_event_set
  simp only [_event_context_isInvalid, _event_context_isInit, hvalid, hinit, decide_True,
    Bool.not_true, Bool.false_eq_true, if_false]
  rw [privilege_invoke_thread _ _ _ hthread]
  simp only [Option.map_some', _event_set_privilege_routine, hq, _event_set_waiters]
  have : k = { k with inInterrupt := false } := by rw [← hthread]
  conv_rhs => rw [this]
  rfl

theorem event_set_value_testBit (ev : event_context_t) (set clear toggle j : Nat) :
    (_event_set_value ev set clear toggle).testBit j
      = xor ((ev.value.testBit j && (decide (j < 32) && !clear.testBit j))
              || (decide (j < 32) && set.testBit j))
            (decide (j < 32) && toggle.testBit j) := by
  unfold _event_set_value
  simp only [Nat.testBit_xor, Nat.testBit_or, Nat.testBit_and, testBit_u32, testBit_not32]

/-- Setting a bit that is clear: the bit is set in the new value. -/
theorem event_set_value_raise (ev : event_context_t) (i : Nat) (hi : i < 32) :
    (_event_set_value ev (2 ^ i) 0 0).testBit i = true := by
  rw [event_set_value_testBit]
  simp [hi, testBit_two_pow_self]

/-- Clearing a bit: the bit is clear in the new value. -/
theorem event_set_value_lower (ev : event_context_t) (i : Nat) (hi : i < 32) :
    (_event_set_value ev 0 (2 ^ i) 0).testBit i = false := by
  rw [event_set_value_testBit]
  simp [hi, testBit_two_pow_self]

/-- C18: the level-event scenario, for every bit i of the low 32 that is no
any-mode bit and has high polarity (its mode bit plays no part), on an
initialised event without waiters in which the bit is clear.  A set call with
set = 2^i raises the bit; a wait whose listen mask contains the bit then
returns 0 at once with the bit in out_value and without queueing the caller,
whatever the output record held; after a set call with clear = 2^i the bit is
clear, and a wait with listen mask 2^i queues the running task, whatever its
output record holds. -/
theorem level_event_scenario (cfg : Config) (k : Kernel) (e c i : Nat) (d1 d2 : evt_val)
    (listen1 ms1 ms2 : Nat) (hvalid : e < cfg.EVENT_INSTANCE_SUPPORTED_NUMBER)
    (hinit : (k.events e).cs = true) (hq : (k.events e).q_list = [])
    (hthread : k.inInterrupt = false) (hrun : k.pTask = some c)
    (hcode : cfg.PC_OS_WAIT_UNAVAILABLE ≠ 0) (hi : i < 32)
    (hany : (k.events e).anyMask.testBit i = false)
    (hdir : (k.events e).dirMask.testBit i = true)
    (hclear : (k.events e).value.testBit i = false)
    (hl1 : listen1.testBit i = true) (hms1 : ms1 ≠ 0) (hms2 : ms2 ≠ 0) :
    ∃ k1 k2 out1 k3 k4 out2,
      _impl_event_set cfg k e (2 ^ i) 0 0 = some (k1, 0)
      ∧ (k1.events e).value.testBit i = true
      ∧ _impl_event_wait cfg k1 e (some d1) listen1 ms1 = some (k2, some out1, 0)
      ∧ out1.value.testBit i = true
      ∧ k2.tasks = k1.tasks
      ∧ (∀ r, list_get k2 r = list_get k1 r)
      ∧ _impl_event_set cfg k2 e 0 (2 ^ i) 0 = some (k3, 0)
      ∧ (k3.events e).value.testBit i = false
      ∧ _impl_event_wait_invoke cfg k3 e (some d2) (2 ^ i) ms2
          = some (k4, some out2, if cfg.PC_PASS 0 then cfg.PC_OS_WAIT_UNAVAILABLE else 0)
      ∧ c ∈ (k4.events e).q_list
      ∧ (k4.tasks c).linker.pList = some (.event e) := by
  -- the first set call
  have h1 := impl_event_set_no_waiter cfg k e (2 ^ i) 0 0 hvalid hinit hq hthread
  generalize hk1 : event_update k e (fun x =>
    { x with triggered := not32 0 &&& _event_set_trigger (k.events e) (2 ^ i) 0 0,
             value := _event_set_value (k.events e) (2 ^ i) 0 0 }) = k1 at h1
  have hev1 : k1.events e
      = { k.events e with
          triggered := not32 0 &&& _event_set_trigger (k.events e) (2 ^ i) 0 0,
          value := _event_set_value (k.events e) (2 ^ i) 0 0 } := by
    rw [← hk1, event_update_self]
  have hv1 : (k1.events e).value.testBit i = true := by
    rw [hev1]; exact event_set_value_raise _ i hi
  have ht1 : (k1.events e).triggered.testBit i = true := by
    rw [hev1]
    show (not32 0 &&& _event_set_trigger (k.events e) (2 ^ i) 0 0).testBit i = true
    rw [Nat.testBit_and, testBit_not32, event_set_trigger_testBit _ _ _ _ i |>.mpr]
    · simp [hi]
    · left
      rw [event_trigger_bits_testBit]
      refine ⟨?_, Or.inr ⟨hi, ?_⟩⟩
      · rw [Nat.testBit_xor, event_set_value_raise _ i hi, hclear]; rfl
      · rw [event_set_value_raise _ i hi, hdir]
  have hcs1 : (k1.events e).cs = true := by rw [hev1]; exact hinit
  have hq1 : (k1.events e).q_list = [] := by rw [hev1]; exact hq
  have hthread1 : k1.inInterrupt = false := by rw [← hk1]; exact hthread
  have hrun1 : k1.pTask = some c := by rw [← hk1]; exact hrun
  -- the first wait
  have hrep1 : _event_wait_trigger (k1.events e) d1 &&& listen1 ≠ 0 :=
    and_ne_zero_of_testBit _ _ i ((event_wait_trigger_testBit _ _ _).mpr (Or.inr ht1)) hl1
  have h2 := impl_event_wait_immediate cfg k1 e d1 listen1 ms1 hvalid hcs1 hms1 hthread1 hcode
    hrep1
  generalize hk2 : event_update k1 e (fun x =>
    { x with triggered := x.triggered
        &&& not32 (_event_wait_trigger (k1.events e) d1 &&& listen1) }) = k2 at h2
  have hev2 : k2.events e
      = { k1.events e with
          triggered := (k1.events e).triggered
            &&& not32 (_event_wait_trigger (k1.events e) d1 &&& listen1) } := by
    rw [← hk2, event_update_self]
  have hv2 : (k2.events e).value = (k1.events e).value := by rw [hev2]
  have ht2 : (k2.events e).triggered.testBit i = false := by
    rw [hev2]
    show ((k1.events e).triggered
      &&& not32 (_event_wait_trigger (k1.events e) d1 &&& listen1)).testBit i = false
    rw [Nat.testBit_and, testBit_not32, Nat.testBit_and,
      (event_wait_trigger_testBit _ _ _).mpr (Or.inr ht1), hl1]
    simp
  have hcs2 : (k2.events e).cs = true := by rw [hev2]; exact hcs1
  have hq2 : (k2.events e).q_list = [] := by rw [hev2]; exact hq1
  have hthread2 : k2.inInterrupt = false := by rw [← hk2]; exact hthread1
  have hrun2 : k2.pTask = some c := by rw [← hk2]; exact hrun1
  have hlists2 : ∀ r, list_get k2 r = list_get k1 r := by
    intro r; rw [← hk2]; exact list_get_event_update k1 e _ rfl r
  have htasks2 : k2.tasks = k1.tasks := by rw [← hk2]; rfl
  -- the second set call
  have h3 := impl_event_set_no_waiter cfg k2 e 0 (2 ^ i) 0 hvalid hcs2 hq2 hthread2
  generalize hk3 : event_update k2 e (fun x =>
    { x with triggered := not32 0 &&& _event_set_trigger (k2.events e) 0 (2 ^ i) 0,
             value := _event_set_value (k2.events e) 0 (2 ^ i) 0 }) = k3 at h3
  have hev3 : k3.events e
      = { k2.events e with
          triggered := not32 0 &&& _event_set_trigger (k2.events e) 0 (2 ^ i) 0,
          value := _event_set_value (k2.events e) 0 (2 ^ i) 0 } := by
    rw [← hk3, event_update_self]
  have hv3 : (k3.events e).value.testBit i = false := by
    rw [hev3]; exact event_set_value_lower _ i hi
  have hany3 : (k3.events e).anyMask.testBit i = false := by
    rw [hev3]
    show (k2.events e).anyMask.testBit i = false
    rw [hev2]
    show (k1.events e).anyMask.testBit i = false
    rw [hev1]; exact hany
  have hdir3 : (k3.events e).dirMask.testBit i = true := by
    rw [hev3]
    show (k2.events e).dirMask.testBit i = true
    rw [hev2]
    show (k1.events e).dirMask.testBit i = true
    rw [hev1]; exact hdir
  have hany2 : (k2.events e).anyMask.testBit i = false := by
    rw [hev2]
    show (k1.events e).anyMask.testBit i = false
    rw [hev1]; exact hany
  have hdir2 : (k2.events e).dirMask.testBit i = true := by
    rw [hev2]
    show (k1.events e).dirMask.testBit i = true
    rw [hev1]; exact hdir
  have ht3 : (k3.events e).triggered.testBit i = false := by
    rw [hev3]
    show (not32 0 &&& _event_set_trigger (k2.events e) 0 (2 ^ i) 0).testBit i = false
    rw [Nat.testBit_and]
    have : (_event_set_trigger (k2.events e) 0 (2 ^ i) 0).testBit i = false := by
      rw [Bool.eq_false_iff]
      intro hb
      rcases (event_set_trigger_testBit _ _ _ _ _).mp hb with hb | hb
      · rw [event_trigger_bits_testBit] at hb
        rcases hb.2 with ha | ⟨_, hd⟩
        · rw [hany2] at ha; exact Bool.noConfusion ha
        · rw [event_set_value_lower _ i hi, hdir2] at hd; exact Bool.noConfusion hd
      · rw [ht2] at hb; exact Bool.noConfusion hb
    rw [this, Bool.and_false]
  have hcs3 : (k3.events e).cs = true := by rw [hev3]; exact hcs2
  have hthread3 : k3.inInterrupt = false := by rw [← hk3]; exact hthread2
  have hrun3 : k3.pTask = some c := by rw [← hk3]; exact hrun2
  -- the second wait
  have hrep3 : _event_wait_trigger (k3.events e) d2 &&& 2 ^ i = 0 := by
    apply and_two_pow_eq_zero
    rw [Bool.eq_false_iff]
    intro hb
    rcases (event_wait_trigger_testBit _ _ _).mp hb with hb | hb
    · rw [event_trigger_bits_testBit] at hb
      rcases hb.2 with ha | ⟨_, hd⟩
      · rw [hany3] at ha; exact Bool.noConfusion ha
      · rw [hv3, hdir3] at hd; exact Bool.noConfusion hd
    · rw [ht3] at hb; exact Bool.noConfusion hb
  obtain ⟨k4, h4, hmem, hlink, _, _⟩ := impl_event_wait_blocking cfg k3 e c d2 (2 ^ i) ms2 hvalid
    hcs3 hms2 hthread3 hrun3 hrep3
  exact ⟨k1, k2, _, k3, k4, _, h1, hv1, h2, hv1, htasks2, hlists2, h3, hv3, h4, hmem, hlink⟩

/-- C18, witness: any = 0, mode = 0, dir = 0xF, value 0 and bit 0 (b = 1), with
task 0 running; the first caller has an empty output record, the second one a
record that holds the value 1. -/
theorem level_event_scenario_witness :
    ∃ k1 k2 out1 k3 k4 out2,
      _impl_event_set sample_cfg (sample_level_kernel 0 0) 0 (2 ^ 0) 0 0 = some (k1, 0)
      ∧ (k1.events 0).value.testBit 0 = true
      ∧ _impl_event_wait sample_cfg k1 0 (some ⟨0, 0⟩) 1 100 = some (k2, some out1, 0)
      ∧ out1.value.testBit 0 = true
      ∧ k2.tasks = k1.tasks
      ∧ (∀ r, list_get k2 r = list_get k1 r)
      ∧ _impl_event_set sample_cfg k2 0 0 (2 ^ 0) 0 = some (k3, 0)
      ∧ (k3.events 0).value.testBit 0 = false
      ∧ _impl_event_wait_invoke sample_cfg k3 0 (some ⟨1, 1⟩) (2 ^ 0) 100
          = some (k4, some out2,
              if sample_cfg.PC_PASS 0 then sample_cfg.PC_OS_WAIT_UNAVAILABLE else 0)
      ∧ 0 ∈ (k4.events 0).q_list
      ∧ (k4.tasks 0).linker.pList = some (.event 0) :=
  level_event_scenario sample_cfg (sample_level_kernel 0 0) 0 0 0 ⟨0, 0⟩ ⟨1, 1⟩ 1 100 100
    (by decide) rfl rfl rfl rfl (by decide) (by decide) (by decide) (by decide) (by decide)
    (by decide) (by decide) (by decide)

/-! ### Latched bits -/

/-- After event set in handler mode (in a state that satisfies the invariant), a
bit of the low 32 is latched exactly when it is in the trigger word and no
queued waiter listens on it. -/
theorem event_set_routine_latch_bit (cfg : Config) (hpc : cfg.PC_ERROR 0 = false) (k : Kernel)
    (e set clear toggle i : Nat) (hmode : k.inInterrupt = true) (hi : event_inv k)
    (hi32 : i < 32) :
    ((_event_set_privilege_routine cfg k e set clear toggle).1.events e).triggered.testBit i = true
      ↔ (_event_set_trigger (k.events e) set clear toggle).testBit i = true
        ∧ ∀ w ∈ (k.events e).q_list, (event_listen k w).testBit i = false := by
  rw [(event_set_routine_events cfg hpc k e set clear toggle hmode hi e).2.2.1,
    Nat.testBit_and, Bool.and_eq_true, testBit_not32]
  constructor
  · rintro ⟨hnot, htrig⟩
    refine ⟨htrig, fun w hw => ?_⟩
    rw [Bool.eq_false_iff]
    intro hl
    have hbit : (_event_set_trigger (k.events e) set clear toggle &&& event_listen k w).testBit i
        = true := by rw [Nat.testBit_and, htrig, hl]; rfl
    have hwoken : w ∈ event_woken k (_event_set_trigger (k.events e) set clear toggle)
        (k.events e).q_list :=
      (mem_event_woken _ _ _ _).mpr ⟨hw, ne_zero_of_testBit _ i hbit⟩
    have hrep := (event_reported_testBit k _ _ i).mpr ⟨w, hwoken, hbit⟩
    rw [hrep] at hnot
    simp at hnot
  · rintro ⟨htrig, hno⟩
    refine ⟨?_, htrig⟩
    have hrep : (event_reported k (_event_set_trigger (k.events e) set clear toggle)
        (event_woken k (_event_set_trigger (k.events e) set clear toggle)
          (k.events e).q_list)).testBit i = false := by
      rw [Bool.eq_false_iff]
      intro hr
      obtain ⟨w, hw, hbit⟩ := (event_reported_testBit k _ _ i).mp hr
      rw [Nat.testBit_and, Bool.and_eq_true] at hbit
      have := hno w ((mem_event_woken _ _ _ _).mp hw).1
      rw [this] at hbit
      exact Bool.noConfusion hbit.2
    simp [hi32, hrep]

/-- The same for the public call. -/
theorem impl_event_set_latch_bit (cfg : Config) (hpc : cfg.PC_ERROR 0 = false) (k : Kernel)
    (e set clear toggle i : Nat) (hi : event_inv k)
    (hvalid : e < cfg.EVENT_INSTANCE_SUPPORTED_NUMBER) (hcs : (k.events e).cs = true)
    (hi32 : i < 32) (res : Kernel × Int) (h : _impl_event_set cfg k e set clear toggle = some res) :
    (res.1.events e).triggered.testBit i = true
      ↔ (_event_set_trigger (k.events e) set clear toggle).testBit i = true
        ∧ ∀ w ∈ (k.events e).q_list, (event_listen k w).testBit i = false := by
  unfold _impl_event_set at h
  simp only [_event_context_isInvalid, _event_context_isInit, hvalid, hcs, decide_True,
    Bool.not_true, Bool.false_eq_true, if_false] at h
  obtain ⟨b', res0, h0, hres0⟩ := privilege_invoke_handler _ _ _ _ h
  simp only [Option.some.injEq] at h0
  have hev : res.1.events e
      = (_event_set_privilege_routine cfg { k with inInterrupt := true } e set clear
          toggle).1.events e := by
    rw [hres0, ← h0]
  rw [hev]
  exact event_set_routine_latch_bit cfg hpc { k with inInterrupt := true } e set clear toggle i rfl
    (event_inv_inInterrupt k true hi) hi32

/-- A wait whose listen mask lacks a bit leaves that bit in the latch. -/
theorem impl_event_wait_keeps_bit (cfg : Config) (k : Kernel) (e i : Nat)
    (pEvtData : Option evt_val) (listen_mask timeout_ms : Nat)
    (res : Kernel × Option evt_val × Int)
    (h : _impl_event_wait_invoke cfg k e pEvtData listen_mask timeout_ms = some res)
    (hl : listen_mask.testBit i = false) (hi32 : i < 32)
    (hbit : (k.events e).triggered.testBit i = true) :
    (res.1.events e).triggered.testBit i = true := by
  unfold _impl_event_wait_invoke at h
  split at h
  · simp only [Option.some.injEq] at h; subst h; exact hbit
  · split at h
    · simp only [Option.some.injEq] at h; subst h; exact hbit
    · split at h
      · simp only [Option.some.injEq] at h; subst h; exact hbit
      · split at h
        · simp only [Option.some.injEq] at h; subst h; exact hbit
        · split at h
          · simp only [Option.some.injEq] at h; subst h; exact hbit
          · simp only [Option.map_eq_some'] at h
            obtain ⟨res1, hres1, hres⟩ := h
            obtain ⟨b', res0, h0, hres0⟩ := privilege_invoke_handler _ _ _ _ hres1
            have hev : res.1.events e = res0.1.events e := by rw [← hres, hres0]
            rw [hev]
            rename_i d _ _
            by_cases hrep : _event_wait_trigger (k.events e) d &&& listen_mask ≠ 0
            · rw [event_wait_routine_immediate cfg _ e _ timeout_ms hrep] at h0
              simp only [Option.some.injEq] at h0
              rw [← h0]
              simp only [event_update_self]
              rw [Nat.testBit_and, testBit_not32, Nat.testBit_and, hl]
              simp [hi32]
              exact hbit
            · have hz : _event_wait_trigger (k.events e) d &&& listen_mask = 0 := by
                simpa using hrep
              cases hrun : k.pTask with
              | none =>
                unfold _event_wait_privilege_routine at h0
                simp [hz, hrun] at h0
              | some c =>
                rw [event_wait_routine_blocking cfg { k with inInterrupt := true } e c
                  { listen := listen_mask, pEvtVal := d } timeout_ms hrun hz] at h0
                simp only [Option.some.injEq] at h0
                rw [← h0]
                have hcore := exit_trigger_event_core cfg { k with inInterrupt := true } c
                  (some (.event e))
                  (some { listen := listen_mask, pEvtVal := { d with value := (k.events e).value } })
                  (.event e) timeout_ms e
                rw [event_core_triggered _ _ hcore]
                exact hbit

/-- C20 (amended): latched bits.  In every state reached from a start-up state
(0 being no error postcode), for an initialised event and a bit i of the low 32:
a set call whose trigger word has the bit latches it when no queued waiter
listens on it; once latched, the bit stays latched through every further set
call on the event and through every wait whose listen mask lacks it; a wait
from thread mode whose listen mask has it returns 0 at once with the bit in
out_trigger and the bit leaves the latch; and after that a wait of the running
task with listen mask 2^i queues the caller provided the value in its output
record agrees with the current value of the event in that bit (as it does for a
caller that passes the record of the wait before). -/
theorem event_latched_bit (cfg : Config) (k0 k : Kernel) (acts : List event_action) (e i : Nat)
    (hpc : cfg.PC_ERROR 0 = false) (hcode : cfg.PC_OS_WAIT_UNAVAILABLE ≠ 0) (h0 : boot k0)
    (hrun : event_run cfg k0 acts = some k) (hvalid : e < cfg.EVENT_INSTANCE_SUPPORTED_NUMBER)
    (hcs : (k.events e).cs = true) (hi32 : i < 32) :
    (∀ set clear toggle res, _impl_event_set cfg k e set clear toggle = some res →
        (_event_set_trigger (k.events e) set clear toggle).testBit i = true →
        (∀ w ∈ (k.events e).q_list, (event_listen k w).testBit i = false) →
        (res.1.events e).triggered.testBit i = true)
      ∧ ((k.events e).triggered.testBit i = true →
          (∀ set clear toggle res, _impl_event_set cfg k e set clear toggle = some res →
              (res.1.events e).triggered.testBit i = true)
          ∧ (∀ d listen_mask ms res, listen_mask.testBit i = false →
              _impl_event_wait_invoke cfg k e d listen_mask ms = some res →
              (res.1.events e).triggered.testBit i = true)
          ∧ (∀ d listen_mask ms, k.inInterrupt = false → ms ≠ 0 →
              listen_mask.testBit i = true →
              ∃ k2 out, _impl_event_wait cfg k e (some d) listen_mask ms = some (k2, some out, 0)
                ∧ out.value = (k.events e).value
                ∧ out.trigger.testBit i = true
                ∧ (k2.events e).triggered.testBit i = false
                ∧ (k2.events e).value = (k.events e).value
                ∧ ∀ c d2 ms2, k2.pTask = some c → ms2 ≠ 0 →
                    d2.value.testBit i = (k2.events e).value.testBit i →
                    ∃ k3 out2, _impl_event_wait_invoke cfg k2 e (some d2) (2 ^ i) ms2
                        = some (k3, some out2,
                            if cfg.PC_PASS 0 then cfg.PC_OS_WAIT_UNAVAILABLE else 0)
                      ∧ c ∈ (k3.events e).q_list
                      ∧ (k3.tasks c).linker.pList = some (.event e))) := by
  have hi : event_inv k := event_run_inv cfg hpc acts k0 k (event_inv_boot k0 h0) hrun
  refine ⟨fun set clear toggle res hres htrig hno =>
    (impl_event_set_latch_bit cfg hpc k e set clear toggle i hi hvalid hcs hi32 res hres).mpr
      ⟨htrig, hno⟩, fun hbit => ⟨?_, ?_, ?_⟩⟩
  · intro set clear toggle res hres
    refine (impl_event_set_latch_bit cfg hpc k e set clear toggle i hi hvalid hcs hi32 res
      hres).mpr ⟨(event_set_trigger_testBit _ _ _ _ _).mpr (Or.inr hbit), fun w hw => ?_⟩
    obtain ⟨d, hd, hz⟩ := hi.2.1 e w hw
    have : event_listen k w = d.listen := by simp [event_listen, hd]
    rw [this]
    exact and_eq_zero_testBit _ _ i hz hbit
  · intro d listen_mask ms res hl hres
    exact impl_event_wait_keeps_bit cfg k e i d listen_mask ms res hres hl hi32 hbit
  · intro d listen_mask ms hthread hms hl
    have htrig : (_event_wait_trigger (k.events e) d).testBit i = true :=
      (event_wait_trigger_testBit _ _ _).mpr (Or.inr hbit)
    have hrep : _event_wait_trigger (k.events e) d &&& listen_mask ≠ 0 :=
      and_ne_zero_of_testBit _ _ i htrig hl
    have h2 := impl_event_wait_immediate cfg k e d listen_mask ms hvalid hcs hms hthread hcode hrep
    generalize hk2 : event_update k e (fun x =>
      { x with triggered := x.triggered
          &&& not32 (_event_wait_trigger (k.events e) d &&& listen_mask) }) = k2 at h2
    have hev2 : k2.events e
        = { k.events e with
            triggered := (k.events e).triggered
              &&& not32 (_event_wait_trigger (k.events e) d &&& listen_mask) } := by
      rw [← hk2, event_update_self]
    have ht2 : (k2.events e).triggered.testBit i = false := by
      rw [hev2]
      show ((k.events e).triggered
        &&& not32 (_event_wait_trigger (k.events e) d &&& listen_mask)).testBit i = false
      rw [Nat.testBit_and, testBit_not32, Nat.testBit_and, htrig, hl]
      simp
    have hv2 : (k2.events e).value = (k.events e).value := by rw [hev2]
    have hcs2 : (k2.events e).cs = true := by rw [hev2]; exact hcs
    have hthread2 : k2.inInterrupt = false := by rw [← hk2]; exact hthread
    refine ⟨k2, _, h2, rfl, htrig, ht2, hv2, ?_⟩
    intro c d2 ms2 hrun2 hms2 hagree
    have hrep2 : _event_wait_trigger (k2.events e) d2 &&& 2 ^ i = 0 := by
      apply and_two_pow_eq_zero
      rw [Bool.eq_false_iff]
      intro hb
      rcases (event_wait_trigger_testBit _ _ _).mp hb with hb | hb
      · rw [event_trigger_bits_testBit, Nat.testBit_xor, hagree] at hb
        simp at hb
      · rw [ht2] at hb; exact Bool.noConfusion hb
    obtain ⟨k3, h3, hmem, hlink, _, _⟩ := impl_event_wait_blocking cfg k2 e c d2 (2 ^ i) ms2
      hvalid hcs2 hms2 hthread2 hrun2 hrep2
    exact ⟨k3, _, h3, hmem, hlink⟩

/-- C20, witness: bit 0 of an edge event is set while nobody waits; the running
task 0 then waits on bit 0 with an empty output record. -/
theorem event_latched_bit_witness :
    ∃ k, event_run sample_cfg sample_init [.event_init 0 15 15 0 0, .event_set 0 1 0 0] = some k
      ∧ (k.events 0).triggered.testBit 0 = true
      ∧ ∃ k2 out, _impl_event_wait sample_cfg k 0 (some ⟨0, 0⟩) 1 100 = some (k2, some out, 0)
          ∧ out.value = (k.events 0).value
          ∧ out.trigger.testBit 0 = true
          ∧ (k2.events 0).triggered.testBit 0 = false
          ∧ (k2.events 0).value = (k.events 0).value
          ∧ ∀ c d2 ms2, k2.pTask = some c → ms2 ≠ 0 →
              d2.value.testBit 0 = (k2.events 0).value.testBit 0 →
              ∃ k3 out2, _impl_event_wait_invoke sample_cfg k2 0 (some d2) (2 ^ 0) ms2
                  = some (k3, some out2,
                      if sample_cfg.PC_PASS 0 then sample_cfg.PC_OS_WAIT_UNAVAILABLE else 0)
                ∧ c ∈ (k3.events 0).q_list
                ∧ (k3.tasks c).linker.pList = some (.event 0) :=
  ⟨_, rfl, by decide,
    ((event_latched_bit sample_cfg sample_init _
      [.event_init 0 15 15 0 0, .event_set 0 1 0 0] 0 0 rfl (by decide) boot_sample_init rfl
      (by decide) (by decide) (by decide)).2 (by decide)).2.2 ⟨0, 0⟩ 1 100 rfl (by decide)
      (by decide)⟩

/-- C20, counterexample: bit 0 of an edge event (rising direction) is set while
nobody waits and is latched; task 0 waits on bit 0 and gets it at once, which
takes the bit out of the latch; then, with no set call in between, task 1 waits
on bit 0 alone with an empty output record: it is not queued, its wait returns 0
at once and reports bit 0 again. -/
theorem event_latched_bit_counterexample :
    ∃ k k1 k2 out1 out2,
      event_run sample_cfg sample_init [.event_init 0 15 15 0 0, .event_set 0 1 0 0] = some k
      ∧ (k.events 0).triggered = 1
      ∧ (k.events 0).q_list = []
      ∧ _impl_event_wait sample_cfg k 0 (some ⟨0, 0⟩) 1 100 = some (k1, some out1, 0)
      ∧ out1 = ⟨1, 1⟩
      ∧ (k1.events 0).triggered = 0
      ∧ _impl_event_wait sample_cfg (with_pTask k1 (some 1)) 0 (some ⟨0, 0⟩) 1 100
          = some (k2, some out2, 0)
      ∧ out2 = ⟨1, 1⟩
      ∧ (k2.events 0).q_list = []
      ∧ (k2.tasks 1).linker.pList = some .pend :=
  ⟨_, _, _, _, _, rfl, by decide, by decide, rfl, by decide, by decide, rfl, by decide, by decide,
    by decide⟩

/-! ### The edge-event scenario -/

theorem task_update_task_update (k : Kernel) (t : Nat) (f g : schedule_task → schedule_task) :
    task_update (task_update k t f) t g = task_update k t (fun x => g (f x)) := by
  simp [task_update, Function.update_idem]

/-- The entry callback of a waiter whose record holds nothing new to report:
the deadline is removed, out_value is the current value, the entry result is 0
and nothing else changes. -/
theorem event_schedule_quiet (k : Kernel) (t : Nat) (sche : event_sch_t) (e : Nat)
    (hd : (k.tasks t).pPendData = some sche) (hc : (k.tasks t).pPendCtx = some (.event e))
    (hrep : _event_wait_trigger (k.events e) sche.pEvtVal &&& sche.listen = 0) :
    _event_schedule k t
      = some (task_update k t (fun x =>
          { x with
            expire := timeout_remove x.expire true,
            pPendData := some { sche with pEvtVal := { sche.pEvtVal with value := (k.events e).value } },
            exec := { x.exec with entry := { x.exec.entry with result := 0 } } })) := by
  have hrep' : ¬ ((if sche.pEvtVal.value ^^^ (k.events e).value ≠ 0
        then event_trigger_bits (k.events e) (k.events e).value
          (sche.pEvtVal.value ^^^ (k.events e).value)
        else 0) ||| (k.events e).triggered) &&& sche.listen ≠ 0 := by
    have h := hrep
    unfold _event_wait_trigger at h
    simpa using h
  unfold _event_schedule
  simp only [task_update_self, hd, hc]
  have hev : (task_update k t (fun x => { x with expire := timeout_remove x.expire true })).events
      = k.events := rfl
  simp only [hev, if_neg hrep', task_update_task_update]

theorem task_update_keep (K : Kernel) (x : Nat) (f : schedule_task → schedule_task) (u : Nat)
    (hf : ∀ y, (f y).pPendData = y.pPendData ∧ (f y).exec.entry = y.exec.entry
      ∧ (f y).linker = y.linker) :
    ((task_update K x f).tasks u).pPendData = (K.tasks u).pPendData
      ∧ ((task_update K x f).tasks u).exec.entry = (K.tasks u).exec.entry
      ∧ ((task_update K x f).tasks u).linker = (K.tasks u).linker := by
  by_cases hu : u = x
  · subst hu; rw [task_update_self]; exact hf _
  · rw [task_update_other _ _ _ _ hu]; exact ⟨rfl, rfl, rfl⟩

theorem time_analyze_task (k : Kernel) (a b ms u : Nat) :
    ((_schedule_time_analyze k a b ms).tasks u).pPendData = (k.tasks u).pPendData
      ∧ ((_schedule_time_analyze k a b ms).tasks u).exec.entry = (k.tasks u).exec.entry
      ∧ ((_schedule_time_analyze k a b ms).tasks u).linker = (k.tasks u).linker := by
  have h1 := task_update_keep k a (fun x =>
    { x with exec := { x.exec with analyze := { x.exec.analyze with
        last_run_ms := u32 (ms + (4294967296 - u32 x.exec.analyze.last_active_ms)) } } }) u
    (fun _ => ⟨rfl, rfl, rfl⟩)
  have h2 := task_update_keep
    (task_update k a (fun x =>
      { x with exec := { x.exec with analyze := { x.exec.analyze with
          last_run_ms := u32 (ms + (4294967296 - u32 x.exec.analyze.last_active_ms)) } } }))
    a (fun x =>
    { x with exec := { x.exec with analyze := { x.exec.analyze with
        total_run_ms := u32 (x.exec.analyze.total_run_ms + x.exec.analyze.last_run_ms) } } }) u
    (fun _ => ⟨rfl, rfl, rfl⟩)
  have h3 := task_update_keep
    (task_update
      (task_update k a (fun x =>
        { x with exec := { x.exec with analyze := { x.exec.analyze with
            last_run_ms := u32 (ms + (4294967296 - u32 x.exec.analyze.last_active_ms)) } } }))
      a (fun x =>
      { x with exec := { x.exec with analyze := { x.exec.analyze with
          total_run_ms := u32 (x.exec.analyze.total_run_ms + x.exec.analyze.last_run_ms) } } }))
    b (fun x =>
    { x with exec := { x.exec with analyze := { x.exec.analyze with last_active_ms := ms } } }) u
    (fun _ => ⟨rfl, rfl, rfl⟩)
  exact ⟨h3.1.trans (h2.1.trans h1.1), h3.2.1.trans (h2.2.1.trans h1.2.1),
    h3.2.2.trans (h2.2.2.trans h1.2.2)⟩

/-- A pend-switch in a state whose entry list holds one woken event waiter with
nothing new to report, and whose exit list is empty: the waiter is in the ready
list with entry result 0 and out_value = the value of the event, and the events
are untouched. -/
theorem pendsv_one_waiter (cfg : Config) (k : Kernel) (t c e ms : Nat) (sche : event_sch_t)
    (hentry : k.sch_entry_list = [t]) (hexit : k.sch_exit_list = [])
    (hfunc : (k.tasks t).exec.entry.func = some .event_schedule)
    (hd : (k.tasks t).pPendData = some sche) (hc : (k.tasks t).pPendCtx = some (.event e))
    (hrep : _event_wait_trigger (k.events e) sche.pEvtVal &&& sche.listen = 0)
    (hrun : k.pTask = some c) :
    ∃ k2 cur next, kernel_scheduler_inPendSV_c cfg k ms = some (k2, cur, next)
      ∧ t ∈ k2.sch_pend_list
      ∧ (k2.tasks t).linker.pList = some .pend
      ∧ (k2.tasks t).exec.entry.result = 0
      ∧ (k2.tasks t).pPendData
          = some { sche with pEvtVal := { sche.pEvtVal with value := (k.events e).value } }
      ∧ (∀ e', event_core (k2.events e') = event_core (k.events e'))
      ∧ (∀ e', (k2.events e').q_list = (k.events e').q_list.erase t
              ∨ (k2.events e').q_list = (k.events e').q_list) := by
  have hentry_task : _schedule_entry_task k ms t
      = some (_schedule_transfer_toPendList
          (task_update k t (fun x =>
            { x with
              expire := timeout_remove x.expire true,
              pPendData := some { sche with
                pEvtVal := { sche.pEvtVal with value := (k.events e).value } },
              pPendCtx := none,
              exec := { x.exec with
                entry := { result := 0, func := none },
                analyze := { x.exec.analyze with last_pend_ms := ms } } })) t) := by
    unfold _schedule_entry_task
    simp only [hfunc, event_schedule_quiet k t sche e hd hc hrep, Option.map_some',
      task_update_task_update]
  generalize hK : _schedule_transfer_toPendList
          (task_update k t (fun x =>
            { x with
              expire := timeout_remove x.expire true,
              pPendData := some { sche with
                pEvtVal := { sche.pEvtVal with value := (k.events e).value } },
              pPendCtx := none,
              exec := { x.exec with
                entry := { result := 0, func := none },
                analyze := { x.exec.analyze with last_pend_ms := ms } } })) t = K at hentry_task
  have hKtask : K.tasks t
      = { k.tasks t with
          expire := timeout_remove (k.tasks t).expire true,
          pPendData := some { sche with
            pEvtVal := { sche.pEvtVal with value := (k.events e).value } },
          pPendCtx := none,
          exec := { (k.tasks t).exec with
            entry := { result := 0, func := none },
            analyze := { (k.tasks t).exec.analyze with last_pend_ms := ms } },
          linker := { pList := some .pend } } := by
    rw [← hK]
    unfold _schedule_transfer_toPendList
    rw [transaction_specific_task, Function.update_same, task_update_self]
  have hKpend : t ∈ K.sch_pend_list := by
    rw [← hK]
    unfold _schedule_transfer_toPendList
    show t ∈ list_get (linker_list_transaction_specific _ t .pend _) .pend
    rw [transaction_specific_target]
    exact mem_sorted_insert _ _ _
  have hKcore : ∀ e', event_core (K.events e') = event_core (k.events e') := by
    intro e'
    rw [← hK]
    unfold _schedule_transfer_toPendList
    rw [transaction_specific_event_core]
    rfl
  have hKq : ∀ e', (K.events e').q_list = (k.events e').q_list.erase t
      ∨ (K.events e').q_list = (k.events e').q_list := by
    intro e'
    have : list_get K (.event e')
        = if (k.tasks t).linker.pList = some (.event e') then (list_get k (.event e')).erase t
          else list_get k (.event e') := by
      rw [← hK]
      unfold _schedule_transfer_toPendList
      rw [transaction_specific_other _ _ _ _ _ (by simp), linker_unlink_list_get,
        task_update_self, list_get_task_update]
    by_cases hl : (k.tasks t).linker.pList = some (.event e')
    · rw [if_pos hl] at this; exact Or.inl this
    · rw [if_neg hl] at this; exact Or.inr this
  have hKrun : K.pTask = some c := by
    rw [← hK]
    unfold _schedule_transfer_toPendList
    rw [transaction_specific_pTask]
    exact hrun
  have hsched : _schedule_entry (_schedule_exit cfg k ms) ms = some K := by
    rw [schedule_exit_nil cfg k ms hexit]
    unfold _schedule_entry
    rw [hentry]
    simp only [_schedule_entry_loop, hentry_task]
  obtain ⟨n, hn⟩ : ∃ n, _schedule_nextTaskGet K = some n := by
    unfold _schedule_nextTaskGet
    cases hp : K.sch_pend_list with
    | nil => rw [hp] at hKpend; exact absurd hKpend (List.not_mem_nil _)
    | cons a rest => exact ⟨a, rfl⟩
  unfold kernel_scheduler_inPendSV_c
  simp only [hsched, hKrun, hn]
  by_cases hp : _schedule_can_preempt cfg K (some c) = true
  · rw [if_pos hp]
    refine ⟨_, c, n, rfl, hKpend, ?_, ?_, ?_, hKcore, hKq⟩
    · show ((_schedule_time_analyze K c n ms).tasks t).linker.pList = _
      rw [(time_analyze_task K c n ms t).2.2, hKtask]
    · show ((_schedule_time_analyze K c n ms).tasks t).exec.entry.result = _
      rw [(time_analyze_task K c n ms t).2.1, hKtask]
    · show ((_schedule_time_analyze K c n ms).tasks t).pPendData = _
      rw [(time_analyze_task K c n ms t).1, hKtask]
  · rw [if_neg hp]
    refine ⟨K, c, c, rfl, hKpend, ?_, ?_, ?_, hKcore, hKq⟩
    · rw [hKtask]
    · rw [hKtask]
    · rw [hKtask]

/-- C17: the edge-event scenario, for every bit i of the low 32 that has rising
direction and is clear (so for every edge-mode bit of that kind; the mode bit
and the any-mode bit play no part).  Task t is the one waiter of the event, blocked with listen mask 2^i; nothing is
staged in the entry and exit lists and some task is running.  A set call with
set = 2^i (in handler mode, 0 being no error postcode) returns 0, and the
pend-switch that follows completes with t in the ready list and out of the
wait queue, entry result 0, out_value = the new value of the event, in which
the bit is set, the bit in out_trigger, and the bit not in the latch. -/
theorem edge_event_scenario (cfg : Config) (k : Kernel) (e t c i ms : Nat) (out : evt_val)
    (hpc : cfg.PC_ERROR 0 = false) (hmode : k.inInterrupt = true) (hi : i < 32)
    (hdir : (k.events e).dirMask.testBit i = true)
    (hclear : (k.events e).value.testBit i = false)
    (hq : (k.events e).q_list = [t])
    (hdata : (k.tasks t).pPendData = some { listen := 2 ^ i, pEvtVal := out })
    (hctx : (k.tasks t).pPendCtx = some (.event e))
    (hlink : (k.tasks t).linker.pList = some (.event e))
    (hentry : k.sch_entry_list = []) (hexit : k.sch_exit_list = [])
    (hrun : k.pTask = some c) :
    (_event_set_privilege_routine cfg k e (2 ^ i) 0 0).2 = 0
      ∧ ∃ k2 cur next,
          kernel_scheduler_inPendSV_c cfg (_event_set_privilege_routine cfg k e (2 ^ i) 0 0).1 ms
            = some (k2, cur, next)
          ∧ t ∈ k2.sch_pend_list
          ∧ (k2.tasks t).linker.pList = some .pend
          ∧ t ∉ (k2.events e).q_list
          ∧ (k2.tasks t).exec.entry.result = 0
          ∧ (∃ d, (k2.tasks t).pPendData = some d
              ∧ d.pEvtVal.value = (k2.events e).value
              ∧ d.pEvtVal.trigger.testBit i = true)
          ∧ (k2.events e).value.testBit i = true
          ∧ (k2.events e).triggered.testBit i = false := by
  have hnd : (k.events e).q_list.Nodup := by rw [hq]; exact List.nodup_singleton t
  have hrec : ∀ u ∈ (k.events e).q_list, (k.tasks u).pPendData ≠ none := by
    intro u hu
    rw [hq, List.mem_singleton] at hu
    subst hu
    rw [hdata]; simp
  have hlisten : event_listen k t = 2 ^ i := by simp [event_listen, hdata]
  have hval : (_event_set_value (k.events e) (2 ^ i) 0 0).testBit i = true :=
    event_set_value_raise _ i hi
  have htrig : (_event_set_trigger (k.events e) (2 ^ i) 0 0).testBit i = true := by
    rw [event_set_trigger_testBit]
    left
    rw [event_trigger_bits_testBit]
    refine ⟨?_, Or.inr ⟨hi, ?_⟩⟩
    · rw [Nat.testBit_xor, hval, hclear]; rfl
    · rw [hval, hdir]
  have hwoken : event_woken k (_event_set_trigger (k.events e) (2 ^ i) 0 0) (k.events e).q_list
      = [t] := by
    rw [hq]
    unfold event_woken
    rw [List.filter_cons_of_pos]
    · rfl
    · rw [hlisten]
      simpa using and_ne_zero_of_testBit _ _ i htrig (testBit_two_pow_self i)
  have hfst := event_set_routine_fst cfg hpc k e (2 ^ i) 0 0 hmode hnd hrec
  have hsnd : (_event_set_privilege_routine cfg k e (2 ^ i) 0 0).2 = 0 := by
    rw [event_set_routine_eq cfg hpc k e (2 ^ i) 0 0 hmode hnd hrec]
    simp
  rw [hwoken] at hfst
  simp only [List.foldl_cons, List.foldl_nil] at hfst
  generalize _event_set_privilege_routine cfg k e (2 ^ i) 0 0 = res at hfst hsnd ⊢
  obtain ⟨k1, pc⟩ := res
  simp only at hfst hsnd ⊢
  have hk1tasks : k1.tasks t
      = { k.tasks t with
          pPendData := (some ⟨2 ^ i, ⟨_event_set_value (k.events e) (2 ^ i) 0 0,
            _event_set_trigger (k.events e) (2 ^ i) 0 0⟩⟩),
          exec := { (k.tasks t).exec with entry := { result := 0, func := some .event_schedule } },
          linker := { pList := some .entry } } := by
    rw [hfst]
    show (event_wake cfg _ _ k t).tasks t = _
    rw [event_wake_task_self, hdata]
    rfl
  have hk1ev : k1.events e
      = { (event_wake cfg (_event_set_value (k.events e) (2 ^ i) 0 0)
            (_event_set_trigger (k.events e) (2 ^ i) 0 0) k t).events e with
          triggered := not32 (event_reported k (_event_set_trigger (k.events e) (2 ^ i) 0 0) [t])
            &&& _event_set_trigger (k.events e) (2 ^ i) 0 0,
          value := _event_set_value (k.events e) (2 ^ i) 0 0 } := by
    rw [hfst, event_update_self]
  have hk1value : (k1.events e).value = _event_set_value (k.events e) (2 ^ i) 0 0 := by
    rw [hk1ev]
  have hk1trig : (k1.events e).triggered.testBit i = false := by
    rw [hk1ev]
    show (not32 (event_reported k (_event_set_trigger (k.events e) (2 ^ i) 0 0) [t])
      &&& _event_set_trigger (k.events e) (2 ^ i) 0 0).testBit i = false
    rw [Nat.testBit_and, testBit_not32]
    have : (event_reported k (_event_set_trigger (k.events e) (2 ^ i) 0 0) [t]).testBit i
        = true := by
      rw [event_reported_testBit]
      exact ⟨t, List.mem_singleton.mpr rfl, by
        rw [hlisten, Nat.testBit_and, htrig, testBit_two_pow_self]; rfl⟩
    rw [this]
    simp
  have hk1q : (k1.events e).q_list = [] := by
    rw [hk1ev]
    show ((event_wake cfg _ _ k t).events e).q_list = []
    have := event_wake_other_list cfg (_event_set_value (k.events e) (2 ^ i) 0 0)
      (_event_set_trigger (k.events e) (2 ^ i) 0 0) k t (.event e) (by simp)
    rw [if_pos hlink] at this
    show list_get (event_wake cfg _ _ k t) (.event e) = []
    rw [this]
    show (k.events e).q_list.erase t = []
    rw [hq]
    simp
  have hk1entry : k1.sch_entry_list = [t] := by
    have h1 : list_get k1 .entry = list_get (event_wake cfg
        (_event_set_value (k.events e) (2 ^ i) 0 0)
        (_event_set_trigger (k.events e) (2 ^ i) 0 0) k t) .entry := by
      rw [hfst]; exact list_get_event_update _ e _ rfl .entry
    have h2 := event_wake_entry_list cfg (_event_set_value (k.events e) (2 ^ i) 0 0)
      (_event_set_trigger (k.events e) (2 ^ i) 0 0) k t
    rw [if_neg (by rw [hlink]; simp)] at h2
    have h3 : list_get k .entry = [] := hentry
    rw [h3] at h2
    exact h1.trans h2
  have hk1exit : k1.sch_exit_list = [] := by
    rw [hfst]
    exact event_wake_exit_list cfg _ _ k t hexit
  have hk1run : k1.pTask = some c := by
    rw [hfst]
    show (event_wake cfg _ _ k t).pTask = some c
    rw [event_wake_pTask]; exact hrun
  have hrep : _event_wait_trigger (k1.events e)
      (⟨2 ^ i, ⟨_event_set_value (k.events e) (2 ^ i) 0 0,
        _event_set_trigger (k.events e) (2 ^ i) 0 0⟩⟩ : event_sch_t).pEvtVal
      &&& (⟨2 ^ i, ⟨_event_set_value (k.events e) (2 ^ i) 0 0,
        _event_set_trigger (k.events e) (2 ^ i) 0 0⟩⟩ : event_sch_t).listen = 0 := by
    apply and_two_pow_eq_zero
    rw [Bool.eq_false_iff]
    intro hb
    rcases (event_wait_trigger_testBit _ _ _).mp hb with hb | hb
    · rw [event_trigger_bits_testBit, hk1value] at hb
      simp at hb
    · rw [hk1trig] at hb; exact Bool.noConfusion hb
  obtain ⟨k2, cur, next, hsv, hpend, hlinker, hres, hpd, hcore, hqs⟩ :=
    pendsv_one_waiter cfg k1 t c e ms _ hk1entry hk1exit (by rw [hk1tasks]) (by rw [hk1tasks])
      (by rw [hk1tasks]; exact hctx) hrep hk1run
  have hv2 : (k2.events e).value = (k1.events e).value := event_core_value _ _ (hcore e)
  have ht2 : (k2.events e).triggered = (k1.events e).triggered :=
    event_core_triggered _ _ (hcore e)
  refine ⟨hsnd, k2, cur, next, hsv, hpend, hlinker, ?_, hres, ⟨_, hpd, ?_, htrig⟩, ?_, ?_⟩
  · rcases hqs e with h | h
    · rw [h, hk1q]; simp
    · rw [h, hk1q]; simp
  · rw [hv2]
  · rw [hv2, hk1value]; exact hval
  · rw [ht2]; exact hk1trig

/-- C17, witness: any = 0, mode = 0xF, dir = 0xF, value 0; task 1 waits with
listen = 1 and bit 0 is set: out_value = 1, out_trigger = 1, triggered = 0. -/
theorem edge_event_scenario_witness :
    (_event_set_privilege_routine sample_cfg sample_event_kernel 0 (2 ^ 0) 0 0).2 = 0
      ∧ ∃ k2 cur next,
          kernel_scheduler_inPendSV_c sample_cfg
              (_event_set_privilege_routine sample_cfg sample_event_kernel 0 (2 ^ 0) 0 0).1 10
            = some (k2, cur, next)
          ∧ 1 ∈ k2.sch_pend_list
          ∧ (k2.tasks 1).linker.pList = some .pend
          ∧ 1 ∉ (k2.events 0).q_list
          ∧ (k2.tasks 1).exec.entry.result = 0
          ∧ (∃ d, (k2.tasks 1).pPendData = some d
              ∧ d.pEvtVal.value = (k2.events 0).value
              ∧ d.pEvtVal.trigger.testBit 0 = true)
          ∧ (k2.events 0).value.testBit 0 = true
          ∧ (k2.events 0).triggered.testBit 0 = false :=
  edge_event_scenario sample_cfg sample_event_kernel 0 1 0 0 10 ⟨0, 0⟩ rfl rfl (by decide)
    (by decide) (by decide) rfl rfl rfl rfl rfl rfl rfl

/-! ### Argument checks of the public calls -/

theorem impl_event_wait_zero_timeout (cfg : Config) (k : Kernel) (ctx : Nat) (pEvtData : Option evt_val)
    (listen_mask : Nat) :
    _impl_event_wait cfg k ctx pEvtData listen_mask 0 = some (k, pEvtData, cfg.PC_EOR_EVENT)
      ∧ _impl_event_wait_invoke cfg k ctx pEvtData listen_mask 0
          = some (k, pEvtData, cfg.PC_EOR_EVENT) := by
  unfold _impl_event_wait _impl_event_wait_invoke
  constructor <;>
  · split
    · rfl
    · split
      · rfl
      · cases pEvtData with
        | none => rfl
        | some d => simp

/-- C22: event wait does not accept timeout 0 as a poll.  With timeout 0 the
call returns `PC_EOR` for every descriptor, output pointer, listen mask, state
and CPU mode; the state (so the latch of the event and every wait queue) and
the output record of the caller are as before the call. -/
theorem event_wait_poll (cfg : Config) (k : Kernel) (ctx : Nat) (pEvtData : Option evt_val)
    (listen_mask : Nat) :
    _impl_event_wait cfg k ctx pEvtData listen_mask 0 = some (k, pEvtData, cfg.PC_EOR_EVENT)
      ∧ _impl_event_wait_invoke cfg k ctx pEvtData listen_mask 0
          = some (k, pEvtData, cfg.PC_EOR_EVENT) :=
  impl_event_wait_zero_timeout cfg k ctx pEvtData listen_mask

/-- C22, counterexample: bit 0 of the edge-mode event 0 is latched and the
caller listens on it, so a wait with a timeout of 5 ms returns 0 with
out_trigger = 1 and takes the bit from the latch; the same wait with timeout 0
returns the error postcode -3, leaves the output record as it was and the bit
in the latch. -/
theorem event_wait_poll_counterexample :
    _event_wait_trigger ((sample_edge_kernel 1 1).events 0) ⟨0, 0⟩ &&& 1 ≠ 0
      ∧ (_impl_event_wait sample_cfg (sample_edge_kernel 1 1) 0 (some ⟨0, 0⟩) 1 5).map
          (fun r => ((r.1.events 0).triggered, r.2)) = some (0, some ⟨1, 1⟩, 0)
      ∧ (_impl_event_wait sample_cfg (sample_edge_kernel 1 1) 0 (some ⟨0, 0⟩) 1 0).map
          (fun r => ((r.1.events 0).triggered, r.2)) = some (1, some ⟨0, 0⟩, -3)
      ∧ sample_cfg.PC_ERROR (-3) = true := by
  decide

theorem impl_mutex_lock_rejected (cfg : Config) (k : Kernel) (m : Nat)
    (h : _mutex_context_isInvalid cfg m = true ∨ (k.mutexes m).cs = false
      ∨ kernel_isInThreadMode k = false) :
    _impl_mutex_lock cfg k m = some (k, cfg.PC_EOR_MUTEX) := by
  unfold _impl_mutex_lock
  by_cases h1 : _mutex_context_isInvalid cfg m = true
  · rw [if_pos h1]
  · rw [if_neg h1]
    by_cases h2 : (!_mutex_context_isInit k m) = true
    · rw [if_pos h2]
    · rw [if_neg h2]
      by_cases h3 : (!kernel_isInThreadMode k) = true
      · rw [if_pos h3]
      · exfalso
        rcases h with h | h | h
        · exact h1 h
        · exact h2 (by simp [_mutex_context_isInit, h])
        · exact h3 (by simp [h])

theorem impl_mutex_unlock_rejected (cfg : Config) (k : Kernel) (m : Nat)
    (h : _mutex_context_isInvalid cfg m = true ∨ (k.mutexes m).cs = false) :
    _impl_mutex_unlock cfg k m = some (k, cfg.PC_EOR_MUTEX) := by
  unfold _impl_mutex_unlock
  by_cases h1 : _mutex_context_isInvalid cfg m = true
  · rw [if_pos h1]
  · rw [if_neg h1]
    by_cases h2 : (!_mutex_context_isInit k m) = true
    · rw [if_pos h2]
    · exfalso
      rcases h with h | h
      · exact h1 h
      · exact h2 (by simp [_mutex_context_isInit, h])

theorem impl_event_set_rejected (cfg : Config) (k : Kernel) (e set clear toggle : Nat)
    (h : _event_context_isInvalid cfg e = true ∨ (k.events e).cs = false) :
    _impl_event_set cfg k e set clear toggle = some (k, cfg.PC_EOR_EVENT) := by
  unfold _impl_event_set
  by_cases h1 : _event_context_isInvalid cfg e = true
  · rw [if_pos h1]
  · rw [if_neg h1]
    by_cases h2 : (!_event_context_isInit k e) = true
    · rw [if_pos h2]
    · exfalso
      rcases h with h | h
      · exact h1 h
      · exact h2 (by simp [_event_context_isInit, h])

theorem impl_event_value_get_rejected (cfg : Config) (k : Kernel) (e : Nat) (pValue : Option Nat)
    (h : _event_context_isInvalid cfg e = true ∨ (k.events e).cs = false) :
    _impl_event_value_get cfg k e pValue = some (k, pValue, cfg.PC_EOR_EVENT) := by
  unfold _impl_event_value_get
  by_cases h1 : _event_context_isInvalid cfg e = true
  · rw [if_pos h1]
  · rw [if_neg h1]
    by_cases h2 : (!_event_context_isInit k e) = true
    · rw [if_pos h2]
    · exfalso
      rcases h with h | h
      · exact h1 h
      · exact h2 (by simp [_event_context_isInit, h])

theorem impl_event_wait_rejected (cfg : Config) (k : Kernel) (e : Nat) (pEvtData : Option evt_val)
    (listen_mask timeout_ms : Nat)
    (h : _event_context_isInvalid cfg e = true ∨ (k.events e).cs = false ∨ pEvtData = none
      ∨ kernel_isInThreadMode k = false) :
    _impl_event_wait cfg k e pEvtData listen_mask timeout_ms
      = some (k, pEvtData, cfg.PC_EOR_EVENT) := by
  unfold _impl_event_wait
  by_cases h1 : _event_context_isInvalid cfg e = true
  · rw [if_pos h1]
  · rw [if_neg h1]
    by_cases h2 : (!_event_context_isInit k e) = true
    · rw [if_pos h2]
    · rw [if_neg h2]
      cases pEvtData with
      | none => rfl
      | some d =>
        simp only
        by_cases h3 : timeout_ms = 0
        · rw [if_pos h3]
        · rw [if_neg h3]
          by_cases h4 : (!kernel_isInThreadMode k) = true
          · rw [if_pos h4]
          · exfalso
            rcases h with h | h | h | h
            · exact h1 h
            · exact h2 (by simp [_event_context_isInit, h])
            · exact Option.noConfusion h
            · exact h4 (by simp [h])

/-- C23: the argument checks of the public calls.  When the mutex descriptor is
outside the descriptor range or its init marker is clear, mutex lock and mutex
unlock return `PC_EOR`, the error postcode of mutex.c, and the state is the
state before the call; when the event descriptor is outside the range or its
init marker is clear, event set, event read and event wait return `PC_EOR` of
event.c with the state and the output of the caller as before.  Outside thread
mode mutex lock and event wait do so for every descriptor, and event wait does
so for a null output pointer. -/
theorem validation_rejects (cfg : Config) (k : Kernel)
    (m e set clear toggle listen_mask timeout_ms : Nat) (pValue : Option Nat)
    (pEvtData : Option evt_val)
    (hm : _mutex_context_isInvalid cfg m = true ∨ (k.mutexes m).cs = false)
    (he : _event_context_isInvalid cfg e = true ∨ (k.events e).cs = false) :
    _impl_mutex_lock cfg k m = some (k, cfg.PC_EOR_MUTEX)
      ∧ _impl_mutex_unlock cfg k m = some (k, cfg.PC_EOR_MUTEX)
      ∧ _impl_event_set cfg k e set clear toggle = some (k, cfg.PC_EOR_EVENT)
      ∧ _impl_event_value_get cfg k e pValue = some (k, pValue, cfg.PC_EOR_EVENT)
      ∧ _impl_event_wait cfg k e pEvtData listen_mask timeout_ms
          = some (k, pEvtData, cfg.PC_EOR_EVENT)
      ∧ (∀ m' e', kernel_isInThreadMode k = false →
          _impl_mutex_lock cfg k m' = some (k, cfg.PC_EOR_MUTEX)
          ∧ _impl_event_wait cfg k e' pEvtData listen_mask timeout_ms
              = some (k, pEvtData, cfg.PC_EOR_EVENT))
      ∧ (∀ e', _impl_event_wait cfg k e' none listen_mask timeout_ms
          = some (k, none, cfg.PC_EOR_EVENT)) := by
  refine ⟨impl_mutex_lock_rejected cfg k m ?_, impl_mutex_unlock_rejected cfg k m hm,
    impl_event_set_rejected cfg k e set clear toggle he,
    impl_event_value_get_rejected cfg k e pValue he,
    impl_event_wait_rejected cfg k e pEvtData listen_mask timeout_ms ?_, ?_, ?_⟩
  · rcases hm with h | h
    · exact Or.inl h
    · exact Or.inr (Or.inl h)
  · rcases he with h | h
    · exact Or.inl h
    · exact Or.inr (Or.inl h)
  · intro m' e' hmode
    exact ⟨impl_mutex_lock_rejected cfg k m' (Or.inr (Or.inr hmode)),
      impl_event_wait_rejected cfg k e' pEvtData listen_mask timeout_ms
        (Or.inr (Or.inr (Or.inr hmode)))⟩
  · intro e'
    exact impl_event_wait_rejected cfg k e' none listen_mask timeout_ms (Or.inr (Or.inr (Or.inl rfl)))

/-- C23, witness: in the start state no mutex and no event descriptor is
initialised, so the calls on mutex 0 and event 0 are rejected. -/
theorem validation_rejects_witness :
    (sample_init.mutexes 0).cs = false ∧ (sample_init.events 0).cs = false
      ∧ _impl_mutex_lock sample_cfg sample_init 0 = some (sample_init, -2)
      ∧ _impl_mutex_unlock sample_cfg sample_init 0 = some (sample_init, -2)
      ∧ _impl_event_set sample_cfg sample_init 0 1 0 0 = some (sample_init, -3)
      ∧ _impl_event_value_get sample_cfg sample_init 0 (some 7) = some (sample_init, some 7, -3)
      ∧ _impl_event_wait sample_cfg sample_init 0 (some ⟨0, 0⟩) 1 5
          = some (sample_init, some ⟨0, 0⟩, -3) :=
  have h := validation_rejects sample_cfg sample_init 0 0 1 0 0 1 5 (some 7) (some ⟨0, 0⟩)
    (Or.inr rfl) (Or.inr rfl)
  ⟨rfl, rfl, h.1, h.2.1, h.2.2.1, h.2.2.2.1, h.2.2.2.2.1⟩

/-! ### Mutex unlock in handler mode -/

theorem impl_mutex_unlock_handler (cfg : Config) (k : Kernel) (m : Nat)
    (hvalid : m < cfg.MUTEX_INSTANCE_SUPPORTED_NUMBER) (hinit : (k.mutexes m).cs = true)
    (hmode : k.inInterrupt = true) :
    _impl_mutex_unlock cfg k m = _mutex_unlock_privilege_routine cfg k m := by
  unfold _impl_mutex_unlock
  simp [_mutex_context_isInvalid, hvalid, _mutex_context_isInit, hinit, kernel_privilege_invoke,
    hmode]

/-- C24: mutex unlock makes no test of the CPU mode.  Called in handler mode on
a valid, initialised and locked mutex it carries the unlock out: the call
returns what the privileged routine returns, the holder gets the recorded
priority back, and the mutex is released (result 0) when nobody waits, or
handed to the head waiter, which is staged in the entry list with result 0. -/
theorem mutex_unlock_from_handler (cfg : Config) (k : Kernel) (m h : Nat)
    (hvalid : m < cfg.MUTEX_INSTANCE_SUPPORTED_NUMBER) (hinit : (k.mutexes m).cs = true)
    (hmode : kernel_isInThreadMode k = false)
    (hlocked : (k.mutexes m).locked = true) (hhold : (k.mutexes m).pHoldTask = some h) :
    ∃ k' r, _impl_mutex_unlock cfg k m = some (k', r)
      ∧ (k'.tasks h).prior = (k.mutexes m).originalPriority
      ∧ ((k.mutexes m).q_list = [] →
          (k'.mutexes m).locked = false ∧ (k'.mutexes m).pHoldTask = none ∧ r = 0)
      ∧ (∀ w rest, (k.mutexes m).q_list = w :: rest →
          (k'.mutexes m).pHoldTask = some w
          ∧ (k'.mutexes m).originalPriority = (k'.tasks w).prior
          ∧ (k'.tasks w).exec.entry = { result := 0, func := none }
          ∧ (k'.tasks w).linker.pList = some .entry
          ∧ ((k.tasks w).linker.pList = some (.mutex m) →
              (k'.mutexes m).q_list = rest ∧ k'.sch_entry_list = k.sch_entry_list ++ [w])) := by
  have hmode' : k.inInterrupt = true := by
    simpa [kernel_isInThreadMode] using hmode
  obtain ⟨k', r, hr, _, hprior, _, hempty, hqueue⟩ := unlock_locked_effect cfg k m h hlocked hhold
  refine ⟨k', r, ?_, hprior, ?_, ?_⟩
  · rw [impl_mutex_unlock_handler cfg k m hvalid hinit hmode', hr]
  · intro hq
    obtain ⟨h1, h2, _, h4, _⟩ := hempty hq
    exact ⟨h1, h2, h4⟩
  · intro w rest hq
    obtain ⟨_, h2, h3, _, h5, h6, h7⟩ := hqueue w rest hq
    refine ⟨h2, h3, h5, h6, ?_⟩
    intro hl
    obtain ⟨h8, h9, _⟩ := h7 hl
    exact ⟨h8, h9⟩

/-- C24, witness: L = 0 holds mutex 0 with the inherited priority 1 and H = 2
waits; the unlock is called in handler mode. -/
theorem mutex_unlock_from_handler_witness :
    kernel_isInThreadMode sample_inversion_unlock = false
      ∧ ∃ k' r, _impl_mutex_unlock sample_cfg sample_inversion_unlock 0 = some (k', r)
          ∧ (k'.tasks 0).prior = 5 ∧ (k'.mutexes 0).pHoldTask = some 2
          ∧ (k'.mutexes 0).q_list = [] :=
  have h := mutex_unlock_from_handler sample_cfg sample_inversion_unlock 0 0 (by decide) rfl rfl
    rfl rfl
  ⟨rfl, h.choose, h.choose_spec.choose, h.choose_spec.choose_spec.1,
    h.choose_spec.choose_spec.2.1,
    (h.choose_spec.choose_spec.2.2.2 2 [] rfl).1,
    ((h.choose_spec.choose_spec.2.2.2 2 [] rfl).2.2.2.2 rfl).1⟩

/-- C24, counterexample: mutex 0 is valid, initialised and held by L = 0 with
the inherited priority 1, H = 2 waits for it, and the CPU is in handler mode.
The unlock returns 0, which is no error postcode; the priority of L is 5 again,
the mutex belongs to H and its wait queue is empty. -/
theorem mutex_unlock_from_handler_counterexample :
    kernel_isInThreadMode sample_inversion_unlock = false
      ∧ _mutex_context_isInvalid sample_cfg 0 = false
      ∧ ((sample_inversion_unlock.mutexes 0).cs, (sample_inversion_unlock.mutexes 0).pHoldTask,
          (sample_inversion_unlock.mutexes 0).q_list, (sample_inversion_unlock.tasks 0).prior)
          = (true, some 0, [2], 1)
      ∧ (_impl_mutex_unlock sample_cfg sample_inversion_unlock 0).map
          (fun res => (res.2, (res.1.mutexes 0).pHoldTask, (res.1.mutexes 0).q_list,
            (res.1.tasks 0).prior)) = some (0, some 2, [], 5)
      ∧ sample_cfg.PC_ERROR 0 = false := by
  decide

/-! ### Creation -/

theorem find_range_first (p : Nat → Bool) (n e : Nat) (he : e < n) (hp : p e = true)
    (hfirst : ∀ x, x < e → p x = false) : (List.range n).find? p = some e := by
  induction n with
  | zero => exact absurd he (Nat.not_lt_zero _)
  | succ n ih =>
    rw [List.range_succ, List.find?_append]
    by_cases hlt : e < n
    · rw [ih hlt]; rfl
    · have heq : e = n := by omega
      subst heq
      have hnone : (List.range e).find? p = none := by
        rw [List.find?_eq_none]
        intro x hx
        rw [List.mem_range] at hx
        simp [hfirst x hx]
      rw [hnone]
      simp [hp]

theorem find_range_none (p : Nat → Bool) (n : Nat) (h : ∀ x, x < n → p x = false) :
    (List.range n).find? p = none := by
  rw [List.find?_eq_none]
  intro x hx
  rw [List.mem_range] at hx
  simp [h x hx]

theorem impl_event_init_eq (cfg : Config) (k : Kernel) (anyMask modeMask dirMask init pName : Nat) :
    _impl_event_init cfg k anyMask modeMask dirMask init pName
      = match (List.range cfg.EVENT_INSTANCE_SUPPORTED_NUMBER).find?
            (fun e => !(k.events e).cs) with
        | none => some (k, none)
        | some e =>
          some (event_update k e (fun _ =>
            { cs := true, pName := pName, q_list := [], value := u32 init, triggered := 0,
              anyMask := u32 anyMask, modeMask := u32 modeMask, dirMask := u32 dirMask,
              pEvtCallEntry := none }), some e) := by
  unfold _impl_event_init kernel_privilege_invoke kernel_svc_call _event_init_privilege_routine
  cases hk : k.inInterrupt
  · simp only [Bool.not_false, if_true, _event_context_isInit]
    cases (List.range cfg.EVENT_INSTANCE_SUPPORTED_NUMBER).find? (fun e => !(k.events e).cs) with
    | none => simp only; rw [← hk]
    | some e => simp only; rw [← hk]; rfl
  · simp only [Bool.not_true, _event_context_isInit]
    cases (List.range cfg.EVENT_INSTANCE_SUPPORTED_NUMBER).find? (fun e => !(k.events e).cs) with
    | none => rfl
    | some e => rfl

theorem impl_mutex_init_eq (cfg : Config) (k : Kernel) (pName : Nat) :
    _impl_mutex_init cfg k pName
      = match (List.range cfg.MUTEX_INSTANCE_SUPPORTED_NUMBER).find?
            (fun m => !(k.mutexes m).cs) with
        | none => some (k, none)
        | some m =>
          some (mutex_update k m (fun _ =>
            { cs := true, pName := pName, q_list := [], locked := false, pHoldTask := none,
              originalPriority := cfg.OS_PRIOTITY_INVALID_LEVEL }), some m) := by
  unfold _impl_mutex_init kernel_privilege_invoke kernel_svc_call _mutex_init_privilege_routine
  cases hk : k.inInterrupt
  · simp only [Bool.not_false, if_true, _mutex_context_isInit]
    cases (List.range cfg.MUTEX_INSTANCE_SUPPORTED_NUMBER).find? (fun m => !(k.mutexes m).cs) with
    | none => simp only; rw [← hk]
    | some m => simp only; rw [← hk]; rfl
  · simp only [Bool.not_true, _mutex_context_isInit]
    cases (List.range cfg.MUTEX_INSTANCE_SUPPORTED_NUMBER).find? (fun m => !(k.mutexes m).cs) with
    | none => rfl
    | some m => rfl

/-- C25: event create and mutex create claim the first descriptor of the range
whose init marker is clear.  For every state: when slot e of the event range
has a clear marker and every slot below it is initialised, event create returns
that slot and the state differs from the state before only in that descriptor,
which is initialised with the requested state (the value `init`, an empty
latch, the three masks, all taken as `u32_t`, and an empty wait queue); when
every slot of the event range is initialised, event create returns 0 (null) and
the state is the state before.  The same holds, independently of the events,
for mutex create and the mutex range, the new descriptor being unlocked, with
no holder and the invalid level as original priority.  Either call returns in
every state. -/
theorem create_claims_first_clear (cfg : Config) (k : Kernel)
    (anyMask modeMask dirMask init pName : Nat) :
    (∀ e, e < cfg.EVENT_INSTANCE_SUPPORTED_NUMBER → (k.events e).cs = false →
        (∀ x, x < e → (k.events x).cs = true) →
        _impl_event_init cfg k anyMask modeMask dirMask init pName
          = some ({ k with events := (Function.update k.events e
              { cs := true, pName := pName, q_list := [], value := u32 init, triggered := 0,
                anyMask := u32 anyMask, modeMask := u32 modeMask, dirMask := u32 dirMask,
                pEvtCallEntry := none }) }, some e))
      ∧ ((∀ x, x < cfg.EVENT_INSTANCE_SUPPORTED_NUMBER → (k.events x).cs = true) →
          _impl_event_init cfg k anyMask modeMask dirMask init pName = some (k, none))
      ∧ (∀ m, m < cfg.MUTEX_INSTANCE_SUPPORTED_NUMBER → (k.mutexes m).cs = false →
        (∀ x, x < m → (k.mutexes x).cs = true) →
        _impl_mutex_init cfg k pName
          = some ({ k with mutexes := (Function.update k.mutexes m
              { cs := true, pName := pName, q_list := [], locked := false, pHoldTask := none,
                originalPriority := cfg.OS_PRIOTITY_INVALID_LEVEL }) }, some m))
      ∧ ((∀ x, x < cfg.MUTEX_INSTANCE_SUPPORTED_NUMBER → (k.mutexes x).cs = true) →
          _impl_mutex_init cfg k pName = some (k, none))
      ∧ (init < 4294967296 → u32 init = init)
      ∧ (∃ res, _impl_event_init cfg k anyMask modeMask dirMask init pName = some res)
      ∧ (∃ res, _impl_mutex_init cfg k pName = some res) := by
  refine ⟨?_, ?_, ?_, ?_, u32_of_lt init, ?_, ?_⟩
  · intro e he hecs hefirst
    rw [impl_event_init_eq, find_range_first (fun e => !(k.events e).cs) _ e he (by simp [hecs])
      (fun x hx => by simp [hefirst x hx])]
    rfl
  · intro hall
    rw [impl_event_init_eq, find_range_none (fun e => !(k.events e).cs) _
      (fun x hx => by simp [hall x hx])]
  · intro m hm hmcs hmfirst
    rw [impl_mutex_init_eq, find_range_first (fun m => !(k.mutexes m).cs) _ m hm (by simp [hmcs])
      (fun x hx => by simp [hmfirst x hx])]
    rfl
  · intro hall
    rw [impl_mutex_init_eq, find_range_none (fun m => !(k.mutexes m).cs) _
      (fun x hx => by simp [hall x hx])]
  · rw [impl_event_init_eq]
    cases (List.range cfg.EVENT_INSTANCE_SUPPORTED_NUMBER).find? (fun e => !(k.events e).cs) with
    | none => exact ⟨_, rfl⟩
    | some e => exact ⟨_, rfl⟩
  · rw [impl_mutex_init_eq]
    cases (List.range cfg.MUTEX_INSTANCE_SUPPORTED_NUMBER).find? (fun m => !(k.mutexes m).cs) with
    | none => exact ⟨_, rfl⟩
    | some m => exact ⟨_, rfl⟩

/-- C25, witness: in the sample state every mutex descriptor is initialised and
no event descriptor is, so event create claims slot 0 while mutex create
returns null; with mutex 0 and mutex 1 initialised and mutex 2 not, mutex
create claims slot 2. -/
theorem create_claims_first_clear_witness :
    (_impl_event_init sample_cfg sample_kernel 0 15 15 1 7).map
        (fun res => (res.2, res.1.events 0, (res.1.events 1).cs))
        = some (some 0, (⟨true, 7, [], 1, 0, 0, 15, 15, none⟩ : event_context_t), false)
      ∧ _impl_mutex_init sample_cfg sample_kernel 7 = some (sample_kernel, none)
      ∧ (_impl_mutex_init sample_cfg
          { sample_kernel with
            mutexes := fun m => if m = 2 then { sample_mutex with cs := false } else sample_mutex }
          7).map (fun res => (res.2, res.1.mutexes 2, (res.1.mutexes 1).cs))
        = some (some 2, (⟨true, 7, [], false, none, 255⟩ : mutex_context_t), true) :=
  have h := create_claims_first_clear sample_cfg sample_kernel 0 15 15 1 7
  have h2 := create_claims_first_clear sample_cfg
    { sample_kernel with
      mutexes := fun m => if m = 2 then { sample_mutex with cs := false } else sample_mutex }
    0 15 15 1 7
  ⟨by rw [h.1 0 (by decide) rfl (fun x hx => absurd hx (Nat.not_lt_zero x))]; decide,
    h.2.2.2.1 (fun _ _ => rfl),
    by
      rw [h2.2.2.1 2 (by decide) rfl (fun x hx => by
        have hx2 : x ≠ 2 := by omega
        show (if x = 2 then { sample_mutex with cs := false } else sample_mutex).cs = true
        rw [if_neg hx2]; rfl)]
      decide⟩

/-! ### The order built by the sorted insert -/

theorem compare_condition_prior (k : Kernel) :
    (fun cur n => _schedule_priority_node_order_compare_condition k (some cur) (some n))
      = (fun cur n => decide ((k.tasks n).prior < (k.tasks cur).prior)) := by
  funext cur n
  exact compare_condition_eq k cur n

theorem sorted_insert_eq_spec (prior : Nat → Int) (new : Nat) (l : List Nat) :
    sorted_insert (fun cur n => decide (prior n < prior cur)) new l
      = spec_priority_insert prior new l := by
  induction l with
  | nil => rfl
  | cons cur rest ih =>
    by_cases hc : prior cur ≤ prior new
    · have hn : ¬ prior new < prior cur := not_lt.mpr hc
      simp only [sorted_insert, spec_priority_insert, hn, decide_False, Bool.false_eq_true,
        if_false, hc, if_true, ih]
    · have hn : prior new < prior cur := not_le.mp hc
      simp only [sorted_insert, spec_priority_insert, hn, decide_True, if_true, hc, if_false]

/-- C26 (amended): the order that the sorted insert builds with the comparison
function of the scheduler.  The function returns true for (cur, new) exactly
when the priority of new is numerically below that of cur, and the walk from
the head stops at the first cur for which it returns true.  A list in
non-decreasing numeric priority stays in non-decreasing numeric priority, and
the new task stands behind every task already present with a numerically
smaller or equal priority and before every task of numerically greater
priority; the result is the order of the spec, lower numeric priority first
and the newer after the older among equals.  The same holds for the list into
which `_schedule_transfer_toTargetList` puts a task. -/
theorem sorted_insert_order (k : Kernel) (new : Nat) (l : List Nat) (r : list_ref)
    (hs : l.Pairwise (fun a b => (k.tasks a).prior ≤ (k.tasks b).prior))
    (hr : (list_get k r).Pairwise (fun a b => (k.tasks a).prior ≤ (k.tasks b).prior)) :
    (sorted_insert
        (fun cur n => _schedule_priority_node_order_compare_condition k (some cur) (some n))
        new l).Pairwise (fun a b => (k.tasks a).prior ≤ (k.tasks b).prior)
      ∧ (∃ pre post, l = pre ++ post
          ∧ sorted_insert
              (fun cur n => _schedule_priority_node_order_compare_condition k (some cur) (some n))
              new l = pre ++ new :: post
          ∧ (∀ x ∈ pre, (k.tasks x).prior ≤ (k.tasks new).prior)
          ∧ (∀ x ∈ post, (k.tasks new).prior < (k.tasks x).prior))
      ∧ sorted_insert
          (fun cur n => _schedule_priority_node_order_compare_condition k (some cur) (some n))
          new l = spec_priority_insert (fun t => (k.tasks t).prior) new l
      ∧ (list_get (_schedule_transfer_toTargetList k new (some r)) r).Pairwise
          (fun a b => ((_schedule_transfer_toTargetList k new (some r)).tasks a).prior
            ≤ ((_schedule_transfer_toTargetList k new (some r)).tasks b).prior) := by
  rw [compare_condition_prior]
  obtain ⟨pre, post, h1, h2, h3, h4, h5⟩ :=
    sorted_insert_asc (fun t => (k.tasks t).prior) new l hs
  refine ⟨?_, ⟨pre, post, h1, h2, h3, h4⟩, sorted_insert_eq_spec _ new l, ?_⟩
  · rw [h2]; exact h5
  · have hprior : ∀ x, ((_schedule_transfer_toTargetList k new (some r)).tasks x).prior
        = (k.tasks x).prior := by
      intro x
      exact transaction_specific_prior k new r _ x
    simp only [hprior]
    show (list_get (linker_list_transaction_specific k new r _) r).Pairwise _
    rw [transaction_specific_target, compare_condition_prior]
    have htasks : (linker_unlink k new).tasks = k.tasks := linker_unlink_tasks k new
    rw [htasks]
    have hsub : (list_get (linker_unlink k new) r).Pairwise
        (fun a b => (k.tasks a).prior ≤ (k.tasks b).prior) := by
      rw [linker_unlink_list_get]
      split
      · exact hr.sublist (List.erase_sublist _ _)
      · exact hr
    obtain ⟨pre', post', _, h2', _, _, h5'⟩ :=
      sorted_insert_asc (fun t => (k.tasks t).prior) new _ hsub
    rw [h2']; exact h5'

/-- C26, witness: the tasks 0, 1 and 2 of the sample state have the priorities
5, 3 and 1; task 1 enters the list [2, 0] between the two. -/
theorem sorted_insert_order_witness :
    sorted_insert
        (fun cur n => _schedule_priority_node_order_compare_condition sample_kernel (some cur)
          (some n)) 1 [2, 0] = [2, 1, 0]
      ∧ (sorted_insert
        (fun cur n => _schedule_priority_node_order_compare_condition sample_kernel (some cur)
          (some n)) 1 [2, 0]).Pairwise
          (fun a b => (sample_kernel.tasks a).prior ≤ (sample_kernel.tasks b).prior) :=
  ⟨by decide, (sorted_insert_order sample_kernel 1 [2, 0] .wait (by decide) (by decide)).1⟩

/-- C26, counterexample: the rule taken by its letter, insertion before the
first cur for which the comparison function of the scheduler returns false.
The list [2, 0] of the priorities 1 and 5 is in non-decreasing numeric
priority; the function returns false for (task 2, task 1) because 1 ≤ 3, so
task 1 of priority 3 is put at the head, which gives the priorities 3, 1, 5.
With every task at priority 3 the function returns false for (task 0, task 1),
so task 1 enters the list [0] before the task of its own priority. -/
theorem sorted_insert_order_counterexample :
    ([2, 0] : List Nat).Pairwise
        (fun a b => (sample_kernel.tasks a).prior ≤ (sample_kernel.tasks b).prior)
      ∧ _schedule_priority_node_order_compare_condition sample_kernel (some 2) (some 1) = false
      ∧ spec_rule_insert
          (fun cur n => _schedule_priority_node_order_compare_condition sample_kernel (some cur)
            (some n)) 1 [2, 0] = [1, 2, 0]
      ∧ ([1, 2, 0] : List Nat).map (fun t => (sample_kernel.tasks t).prior) = [3, 1, 5]
      ∧ spec_rule_insert
          (fun cur n => _schedule_priority_node_order_compare_condition
            { sample_kernel with tasks := fun _ => sample_task 3 } (some cur) (some n)) 1 [0]
          = [1, 0] := by
  decide

/-! ### The drains of the pend-switch -/

theorem event_update_tasks (k : Kernel) (e : Nat) (f : event_context_t → event_context_t) :
    (event_update k e f).tasks = k.tasks := rfl

theorem event_update_pTask (k : Kernel) (e : Nat) (f : event_context_t → event_context_t) :
    (event_update k e f).pTask = k.pTask := rfl

theorem task_update_pTask (k : Kernel) (t : Nat) (f : schedule_task → schedule_task) :
    (task_update k t f).pTask = k.pTask := rfl

theorem task_update_events (k : Kernel) (t : Nat) (f : schedule_task → schedule_task) :
    (task_update k t f).events = k.events := rfl

/-- The entry callback `_event_schedule` changes the record of its task and the
latch of the event only: no list, no other task and not the running task. -/
theorem event_schedule_spec (k : Kernel) (t : Nat) (ke : Kernel)
    (h : _event_schedule k t = some ke) :
    (∀ u, u ≠ t → ke.tasks u = k.tasks u)
      ∧ (ke.tasks t).linker = (k.tasks t).linker
      ∧ (ke.tasks t).exec.exit = (k.tasks t).exec.exit
      ∧ (ke.tasks t).exec.analyze = (k.tasks t).exec.analyze
      ∧ (ke.tasks t).exec.entry.func = (k.tasks t).exec.entry.func
      ∧ (ke.tasks t).prior = (k.tasks t).prior
      ∧ (ke.tasks t).exec.entry.result
          = (if (k.tasks t).pPendData ≠ none then 0 else (k.tasks t).exec.entry.result)
      ∧ (ke.tasks t).expire.linked = false
      ∧ (∀ r, list_get ke r = list_get k r)
      ∧ ke.pTask = k.pTask := by
  unfold _event_schedule at h
  simp only [task_update_self] at h
  cases hd : (k.tasks t).pPendData with
  | none =>
    rw [hd] at h
    simp only [Option.some.injEq] at h
    subst h
    refine ⟨fun u hu => task_update_other _ _ _ _ hu, ?_, ?_, ?_, ?_, ?_, ?_, ?_,
      fun r => list_get_task_update _ _ _ r, rfl⟩ <;>
      simp [task_update_self, timeout_remove]
  | some sche =>
    rw [hd] at h
    simp only at h
    cases hc : (k.tasks t).pPendCtx with
    | none => rw [hc] at h; exact Option.noConfusion h
    | some c =>
      cases c with
      | mutex m => rw [hc] at h; exact Option.noConfusion h
      | event e =>
        rw [hc] at h
        simp only [task_update_events] at h
        simp only [ne_eq, reduceCtorEq, not_false_eq_true, if_true]
        split_ifs at h <;>
        · simp only [Option.some.injEq] at h
          subst h
          refine ⟨?_, ?_, ?_, ?_, ?_, ?_, ?_, ?_, ?_, rfl⟩
          · intro u hu
            simp [task_update_other _ _ _ _ hu, event_update_tasks]
          all_goals first
            | (intro r
               simp [list_get_task_update, list_get_event_update])
            | simp [task_update_self, event_update_tasks, timeout_remove]

theorem event_schedule_some (k : Kernel) (t : Nat)
    (h : (k.tasks t).pPendData = none ∨ ∃ e, (k.tasks t).pPendCtx = some (.event e)) :
    ∃ ke, _event_schedule k t = some ke := by
  unfold _event_schedule
  simp only [task_update_self]
  cases hd : (k.tasks t).pPendData with
  | none => exact ⟨_, rfl⟩
  | some sche =>
    rcases h with h | ⟨e, he⟩
    · rw [hd] at h; exact Option.noConfusion h
    · simp only [he]
      exact ⟨_, rfl⟩

/-- The second half of the body of the loop of `_schedule_entry`, for a task
that its linker records in the entry list. -/
theorem entry_tail_spec (K : Kernel) (ms t : Nat)
    (hlink : (K.tasks t).linker.pList = some .entry) (k1 : Kernel)
    (hk1 : k1 = _schedule_transfer_toPendList
      (task_update K t (fun x =>
        { x with pPendCtx := none,
                 exec := { x.exec with analyze := { x.exec.analyze with last_pend_ms := ms } } }))
      t) :
    (∀ u, u ≠ t → k1.tasks u = K.tasks u)
      ∧ k1.tasks t
          = { K.tasks t with
              pPendCtx := none,
              exec := { (K.tasks t).exec with
                analyze := { (K.tasks t).exec.analyze with last_pend_ms := ms } },
              linker := { pList := some .pend } }
      ∧ (list_get k1 .pend).Perm (t :: list_get K .pend)
      ∧ list_get k1 .entry = (list_get K .entry).erase t
      ∧ (∀ r, r ≠ .pend → r ≠ .entry → list_get k1 r = list_get K r)
      ∧ k1.pTask = K.pTask
      ∧ (∀ e, event_core (k1.events e) = event_core (K.events e)) := by
  subst hk1
  unfold _schedule_transfer_toPendList
  refine ⟨?_, ?_, ?_, ?_, ?_, ?_, ?_⟩
  · intro u hu
    rw [transaction_specific_task, Function.update_noteq hu, task_update_other _ _ _ _ hu]
  · rw [transaction_specific_task, Function.update_same, task_update_self]
  · rw [transaction_specific_target]
    refine (sorted_insert_perm _ _ _).trans ?_
    rw [linker_unlink_list_get, task_update_self, list_get_task_update]
    rw [if_neg (by rw [hlink]; simp)]
  · rw [transaction_specific_other _ _ _ _ _ (by simp), linker_unlink_list_get, task_update_self,
      list_get_task_update]
    rw [if_pos hlink]
  · intro r hr1 hr2
    rw [transaction_specific_other _ _ _ _ _ hr1, linker_unlink_list_get, task_update_self,
      list_get_task_update]
    rw [if_neg (by rw [hlink]; intro h; exact hr2 (Option.some.inj h).symm)]
  · rw [transaction_specific_pTask]; rfl
  · intro e
    rw [transaction_specific_event_core]; rfl

/-- The body of the loop of `_schedule_entry` for a task that its linker records
in the entry list. -/
theorem schedule_entry_task_spec (k : Kernel) (ms t : Nat) (k1 : Kernel)
    (h : _schedule_entry_task k ms t = some k1)
    (hlink : (k.tasks t).linker.pList = some .entry) :
    (∀ u, u ≠ t → k1.tasks u = k.tasks u)
      ∧ entry_drained ms (k.tasks t) (k1.tasks t)
      ∧ (list_get k1 .pend).Perm (t :: list_get k .pend)
      ∧ list_get k1 .entry = (list_get k .entry).erase t
      ∧ (∀ r, r ≠ .pend → r ≠ .entry → list_get k1 r = list_get k r)
      ∧ k1.pTask = k.pTask
      ∧ ((k.tasks t).exec.entry.func = none →
          ∀ e, event_core (k1.events e) = event_core (k.events e)) := by
  unfold _schedule_entry_task at h
  cases hf : (k.tasks t).exec.entry.func with
  | none =>
    rw [hf] at h
    simp only [Option.map_some', Option.some.injEq] at h
    obtain ⟨h1, h2, h3, h4, h5, h6, h7⟩ := entry_tail_spec k ms t hlink k1 h.symm
    refine ⟨h1, ?_, h3, h4, h5, h6, fun _ => h7⟩
    rw [h2]
    unfold entry_drained
    simp [hf]
  | some cb =>
    cases cb
    rw [hf] at h
    cases hes : _event_schedule k t with
    | none => rw [hes] at h; exact Option.noConfusion h
    | some ke =>
      rw [hes] at h
      simp only [Option.map_some', Option.some.injEq] at h
      obtain ⟨e1, e2, e3, e4, e5, e6, e7, e8, e9, e10⟩ := event_schedule_spec k t ke hes
      have hlinkK : ((task_update ke t (fun x =>
          { x with exec := { x.exec with entry := { x.exec.entry with func := none } } })).tasks
            t).linker.pList = some .entry := by
        rw [task_update_self]
        show (ke.tasks t).linker.pList = _
        rw [e2]; exact hlink
      obtain ⟨h1, h2, h3, h4, h5, h6, _⟩ := entry_tail_spec _ ms t hlinkK k1 h.symm
      refine ⟨?_, ?_, ?_, ?_, ?_, ?_, ?_⟩
      · intro u hu
        rw [h1 u hu, task_update_other _ _ _ _ hu, e1 u hu]
      · rw [h2, task_update_self]
        unfold entry_drained
        refine ⟨rfl, rfl, rfl, rfl, ?_, ?_, ?_, ?_, ?_⟩
        · show (ke.tasks t).exec.entry.result = _
          rw [e7, hf]
          by_cases hd : (k.tasks t).pPendData = none
          · simp [hd]
          · simp [hd]
        · intro _
          exact e8
        · intro hcontra
          rw [hf] at hcontra
          exact Option.noConfusion hcontra
        · exact e6
        · exact e3
      · rw [list_get_task_update, e9] at h3
        exact h3
      · rw [h4, list_get_task_update, e9]
      · intro r hr1 hr2
        rw [h5 r hr1 hr2, list_get_task_update, e9]
      · rw [h6, task_update_pTask, e10]
      · intro hcontra
        exact Option.noConfusion hcontra

theorem schedule_entry_task_some (k : Kernel) (ms t : Nat)
    (hcb : (k.tasks t).exec.entry.func = some .event_schedule →
      (k.tasks t).pPendData = none ∨ ∃ e, (k.tasks t).pPendCtx = some (.event e)) :
    ∃ k1, _schedule_entry_task k ms t = some k1 := by
  unfold _schedule_entry_task
  cases hf : (k.tasks t).exec.entry.func with
  | none => exact ⟨_, rfl⟩
  | some cb =>
    cases cb
    obtain ⟨ke, hke⟩ := event_schedule_some k t (hcb hf)
    simp only [hke, Option.map_some']
    exact ⟨_, rfl⟩

theorem diff_self_nil (l : List Nat) : l.diff l = [] := by
  induction l with
  | nil => rfl
  | cons a l ih => rw [List.diff_cons, List.erase_cons_head]; exact ih

/-- The loop of `_schedule_entry` over tasks that their linkers record in the
entry list. -/
theorem schedule_entry_loop_spec (ms : Nat) (l : List Nat) :
    ∀ (k k' : Kernel), l.Nodup → (∀ t ∈ l, (k.tasks t).linker.pList = some .entry) →
      _schedule_entry_loop ms l k = some k' →
      (∀ u, u ∉ l → k'.tasks u = k.tasks u)
        ∧ (∀ t ∈ l, entry_drained ms (k.tasks t) (k'.tasks t))
        ∧ (list_get k' .pend).Perm (l ++ list_get k .pend)
        ∧ list_get k' .entry = (list_get k .entry).diff l
        ∧ (∀ r, r ≠ .pend → r ≠ .entry → list_get k' r = list_get k r)
        ∧ k'.pTask = k.pTask
        ∧ ((∀ t ∈ l, (k.tasks t).exec.entry.func = none) →
            ∀ e, event_core (k'.events e) = event_core (k.events e)) := by
  induction l with
  | nil =>
    intro k k' _ _ h
    simp only [_schedule_entry_loop, Option.some.injEq] at h
    subst h
    exact ⟨fun _ _ => rfl, fun t ht => absurd ht (List.not_mem_nil _), by simp, by simp,
      fun _ _ _ => rfl, rfl, fun _ _ => rfl⟩
  | cons t rest ih =>
    intro k k' hnd hlink h
    rw [List.nodup_cons] at hnd
    obtain ⟨htrest, hndrest⟩ := hnd
    simp only [_schedule_entry_loop] at h
    cases hstep : _schedule_entry_task k ms t with
    | none => rw [hstep] at h; exact Option.noConfusion h
    | some k1 =>
      rw [hstep] at h
      simp only at h
      obtain ⟨s1, s2, s3, s4, s5, s6, s7⟩ :=
        schedule_entry_task_spec k ms t k1 hstep (hlink t (List.mem_cons_self _ _))
      have hne : ∀ u ∈ rest, u ≠ t := fun u hu h => htrest (h ▸ hu)
      have hlink1 : ∀ u ∈ rest, (k1.tasks u).linker.pList = some .entry := by
        intro u hu
        rw [s1 u (hne u hu)]
        exact hlink u (List.mem_cons_of_mem _ hu)
      obtain ⟨i1, i2, i3, i4, i5, i6, i7⟩ := ih k1 k' hndrest hlink1 h
      refine ⟨?_, ?_, ?_, ?_, ?_, ?_, ?_⟩
      · intro u hu
        rw [List.mem_cons, not_or] at hu
        rw [i1 u hu.2, s1 u hu.1]
      · intro u hu
        rcases List.mem_cons.mp hu with h | h
        · subst h
          rw [i1 u htrest]
          exact s2
        · have := i2 u h
          rw [s1 u (hne u h)] at this
          exact this
      · refine i3.trans ?_
        refine (List.Perm.append_left rest s3).trans ?_
        exact List.perm_middle
      · rw [i4, s4, List.diff_cons]
      · intro r hr1 hr2
        rw [i5 r hr1 hr2, s5 r hr1 hr2]
      · rw [i6, s6]
      · intro hall e
        rw [i7 (fun u hu => by rw [s1 u (hne u hu)]; exact hall u (List.mem_cons_of_mem _ hu)) e,
          s7 (hall t (List.mem_cons_self _ _)) e]

theorem schedule_entry_loop_some (ms : Nat) (l : List Nat) :
    ∀ (k : Kernel), l.Nodup → (∀ t ∈ l, (k.tasks t).linker.pList = some .entry) →
      (∀ t ∈ l, (k.tasks t).exec.entry.func = some .event_schedule →
        (k.tasks t).pPendData = none ∨ ∃ e, (k.tasks t).pPendCtx = some (.event e)) →
      ∃ k', _schedule_entry_loop ms l k = some k' := by
  induction l with
  | nil => intro k _ _ _; exact ⟨k, rfl⟩
  | cons t rest ih =>
    intro k hnd hlink hcb
    rw [List.nodup_cons] at hnd
    obtain ⟨htrest, hndrest⟩ := hnd
    obtain ⟨k1, hk1⟩ := schedule_entry_task_some k ms t (hcb t (List.mem_cons_self _ _))
    obtain ⟨s1, _⟩ := schedule_entry_task_spec k ms t k1 hk1 (hlink t (List.mem_cons_self _ _))
    have hne : ∀ u ∈ rest, u ≠ t := fun u hu h => htrest (h ▸ hu)
    obtain ⟨k', hk'⟩ := ih k1 hndrest
      (fun u hu => by rw [s1 u (hne u hu)]; exact hlink u (List.mem_cons_of_mem _ hu))
      (fun u hu => by rw [s1 u (hne u hu)]; exact hcb u (List.mem_cons_of_mem _ hu))
    refine ⟨k', ?_⟩
    simp only [_schedule_entry_loop, hk1]
    exact hk'

theorem list_get_transfer_toNullList (k : Kernel) (x : Nat) (r : list_ref) :
    list_get (_schedule_transfer_toNullList k x) r
      = if (k.tasks x).linker.pList = some r then (list_get k r).erase x else list_get k r := by
  unfold _schedule_transfer_toNullList linker_list_transaction_common linker_set_pList
  simp only [list_get_task_update]
  exact linker_unlink_list_get k x r

theorem transfer_toNullList_tasks (k : Kernel) (x u : Nat) (hu : u ≠ x) :
    (_schedule_transfer_toNullList k x).tasks u = k.tasks u := by
  unfold _schedule_transfer_toNullList
  rw [transaction_common_tasks, Function.update_noteq hu]

/-- The body of the loop of `_schedule_exit` for a task that its linker records
in the exit list and whose target is not the exit list. -/
theorem schedule_exit_task_spec (cfg : Config) (k : Kernel) (x : Nat)
    (hlink : (k.tasks x).linker.pList = some .exit)
    (hne : (k.tasks x).exec.exit.pToList ≠ some .exit) :
    (∀ u, u ≠ x → (_schedule_exit_task cfg k x).tasks u = k.tasks u)
      ∧ (∀ r, (k.tasks x).exec.exit.pToList = some r →
          exit_drained cfg r (k.tasks x) ((_schedule_exit_task cfg k x).tasks x)
          ∧ (list_get (_schedule_exit_task cfg k x) r).Perm (x :: list_get k r))
      ∧ list_get (_schedule_exit_task cfg k x) .exit = (list_get k .exit).erase x
      ∧ (∀ r, r ≠ .exit → (k.tasks x).exec.exit.pToList ≠ some r →
          list_get (_schedule_exit_task cfg k x) r = list_get k r)
      ∧ (_schedule_exit_task cfg k x).pTask = k.pTask
      ∧ (∀ e, event_core ((_schedule_exit_task cfg k x).events e) = event_core (k.events e)) := by
  unfold _schedule_exit_task
  simp only
  generalize hK1 : (if (k.tasks x).exec.exit.timeout_ms ≠ 0 then
      task_update k x (fun y =>
        { y with expire := timeout_set cfg y.expire (k.tasks x).exec.exit.timeout_ms false })
    else k) = K1
  have hK1other : ∀ u, u ≠ x → K1.tasks u = k.tasks u := by
    intro u hu
    rw [← hK1]
    split
    · exact task_update_other _ _ _ _ hu
    · rfl
  have hK1self : (K1.tasks x).linker = (k.tasks x).linker ∧ (K1.tasks x).exec = (k.tasks x).exec
      ∧ (K1.tasks x).pPendCtx = (k.tasks x).pPendCtx
      ∧ (K1.tasks x).pPendData = (k.tasks x).pPendData
      ∧ (K1.tasks x).prior = (k.tasks x).prior := by
    rw [← hK1]
    split
    · rw [task_update_self]; exact ⟨rfl, rfl, rfl, rfl, rfl⟩
    · exact ⟨rfl, rfl, rfl, rfl, rfl⟩
  have hK1list : ∀ r, list_get K1 r = list_get k r := by
    intro r
    rw [← hK1]
    split
    · exact list_get_task_update _ _ _ r
    · rfl
  have hK1run : K1.pTask = k.pTask := by
    rw [← hK1]
    split <;> rfl
  have hK1ev : K1.events = k.events := by
    rw [← hK1]
    split <;> rfl
  have hK1link : (K1.tasks x).linker.pList = some .exit := by rw [hK1self.1]; exact hlink
  cases hto : (k.tasks x).exec.exit.pToList with
  | none =>
    simp only
    refine ⟨?_, ?_, ?_, ?_, ?_, ?_⟩
    · intro u hu
      rw [task_update_other _ _ _ _ hu, task_update_other _ _ _ _ hu,
        transfer_toNullList_tasks _ _ _ hu, hK1other u hu]
    · intro r hr
      exact Option.noConfusion hr
    · rw [list_get_task_update, list_get_task_update, list_get_transfer_toNullList,
        if_pos hK1link, hK1list]
    · intro r hr _
      rw [list_get_task_update, list_get_task_update, list_get_transfer_toNullList,
        if_neg (by rw [hK1link]; intro h; exact hr (Option.some.inj h).symm), hK1list]
    · show (_schedule_transfer_toNullList K1 x).pTask = _
      unfold _schedule_transfer_toNullList
      rw [transaction_common_pTask, hK1run]
    · intro e
      show event_core ((_schedule_transfer_toNullList K1 x).events e) = _
      unfold _schedule_transfer_toNullList
      rw [transaction_common_event_core, hK1ev]
  | some r =>
    simp only
    have hrne : r ≠ .exit := by
      intro h
      rw [hto, h] at hne
      exact hne rfl
    unfold _schedule_transfer_toTargetList
    simp only
    refine ⟨?_, ?_, ?_, ?_, ?_, ?_⟩
    · intro u hu
      rw [task_update_other _ _ _ _ hu, transaction_specific_task, Function.update_noteq hu,
        hK1other u hu]
    · intro r' hr'
      have hrr : r' = r := (Option.some.inj hr').symm
      subst hrr
      constructor
      · rw [task_update_self, transaction_specific_task, Function.update_same]
        unfold exit_drained
        refine ⟨rfl, rfl, rfl, ?_, hK1self.2.2.1, hK1self.2.2.2.1, hK1self.2.2.2.2⟩
        show (K1.tasks x).exec.entry.func = _
        rw [hK1self.2.1]
      · rw [list_get_task_update, transaction_specific_target]
        refine (sorted_insert_perm _ _ _).trans ?_
        rw [linker_unlink_list_get, if_neg (by rw [hK1link]; intro h; exact hrne (Option.some.inj h).symm),
          hK1list]
    · rw [list_get_task_update, transaction_specific_other _ _ _ _ _ (Ne.symm hrne),
        linker_unlink_list_get, if_pos hK1link, hK1list]
    · intro r' hr1 hr2
      have hr3 : r' ≠ r := fun h => hr2 (by rw [h])
      rw [list_get_task_update, transaction_specific_other _ _ _ _ _ hr3,
        linker_unlink_list_get,
        if_neg (by rw [hK1link]; intro h; exact hr1 (Option.some.inj h).symm), hK1list]
    · show (linker_list_transaction_specific K1 x r _).pTask = _
      rw [transaction_specific_pTask, hK1run]
    · intro e
      show event_core ((linker_list_transaction_specific K1 x r _).events e) = _
      rw [transaction_specific_event_core, hK1ev]

/-- The loop of `_schedule_exit` over tasks that their linkers record in the
exit list and whose targets are not the exit list. -/
theorem schedule_exit_fold_spec (cfg : Config) (l : List Nat) :
    ∀ (k : Kernel), l.Nodup → (∀ x ∈ l, (k.tasks x).linker.pList = some .exit) →
      (∀ x ∈ l, (k.tasks x).exec.exit.pToList ≠ some .exit) →
      (∀ u, u ∉ l → (l.foldl (_schedule_exit_task cfg) k).tasks u = k.tasks u)
        ∧ (∀ x ∈ l, ∀ r, (k.tasks x).exec.exit.pToList = some r →
            exit_drained cfg r (k.tasks x) ((l.foldl (_schedule_exit_task cfg) k).tasks x)
            ∧ x ∈ list_get (l.foldl (_schedule_exit_task cfg) k) r)
        ∧ list_get (l.foldl (_schedule_exit_task cfg) k) .exit = (list_get k .exit).diff l
        ∧ (∀ r, r ≠ .exit → (∀ x ∈ l, (k.tasks x).exec.exit.pToList ≠ some r) →
            list_get (l.foldl (_schedule_exit_task cfg) k) r = list_get k r)
        ∧ (∀ r, r ≠ .exit → ∀ y ∈ list_get k r, y ∈ list_get (l.foldl (_schedule_exit_task cfg) k) r)
        ∧ (l.foldl (_schedule_exit_task cfg) k).pTask = k.pTask
        ∧ (∀ e, event_core ((l.foldl (_schedule_exit_task cfg) k).events e)
            = event_core (k.events e)) := by
  induction l with
  | nil =>
    intro k _ _ _
    exact ⟨fun _ _ => rfl, fun x hx => absurd hx (List.not_mem_nil _), by simp,
      fun _ _ _ => rfl, fun _ _ _ hy => hy, rfl, fun _ => rfl⟩
  | cons x rest ih =>
    intro k hnd hlink hne
    rw [List.nodup_cons] at hnd
    obtain ⟨hxrest, hndrest⟩ := hnd
    obtain ⟨s1, s2, s3, s4, s5, s6⟩ := schedule_exit_task_spec cfg k x
      (hlink x (List.mem_cons_self _ _)) (hne x (List.mem_cons_self _ _))
    have hneq : ∀ u ∈ rest, u ≠ x := fun u hu h => hxrest (h ▸ hu)
    have hgrow : ∀ r, r ≠ .exit → ∀ y ∈ list_get k r, y ∈ list_get (_schedule_exit_task cfg k x) r := by
      intro r hr y hy
      by_cases hto : (k.tasks x).exec.exit.pToList = some r
      · exact ((s2 r hto).2.mem_iff).mpr (List.mem_cons_of_mem _ hy)
      · rw [s4 r hr hto]; exact hy
    obtain ⟨i1, i2, i3, i4, i5, i6, i7⟩ := ih (_schedule_exit_task cfg k x) hndrest
      (fun u hu => by rw [s1 u (hneq u hu)]; exact hlink u (List.mem_cons_of_mem _ hu))
      (fun u hu => by rw [s1 u (hneq u hu)]; exact hne u (List.mem_cons_of_mem _ hu))
    simp only [List.foldl_cons]
    refine ⟨?_, ?_, ?_, ?_, ?_, ?_, ?_⟩
    · intro u hu
      rw [List.mem_cons, not_or] at hu
      rw [i1 u hu.2, s1 u hu.1]
    · intro u hu r hr
      rcases List.mem_cons.mp hu with h | h
      · subst h
        have hrne : r ≠ .exit := by
          intro h
          rw [h] at hr
          exact hne u (List.mem_cons_self _ _) hr
        refine ⟨?_, ?_⟩
        · rw [i1 u hxrest]; exact (s2 r hr).1
        · exact i5 r hrne u (((s2 r hr).2.mem_iff).mpr (List.mem_cons_self _ _))
      · have := i2 u h r (by rw [s1 u (hneq u h)]; exact hr)
        rw [s1 u (hneq u h)] at this
        exact this
    · rw [i3, s3, List.diff_cons]
    · intro r hr hall
      rw [i4 r hr (fun u hu => by
          rw [s1 u (hneq u hu)]; exact hall u (List.mem_cons_of_mem _ hu)),
        s4 r hr (hall x (List.mem_cons_self _ _))]
    · intro r hr y hy
      exact i5 r hr y (hgrow r hr y hy)
    · rw [i6, s5]
    · intro e
      rw [i7 e, s6 e]

theorem task_update_proj {α : Type} (P : schedule_task → α) (K : Kernel) (x : Nat)
    (f : schedule_task → schedule_task) (u : Nat) (hf : ∀ y, P (f y) = P y) :
    P ((task_update K x f).tasks u) = P (K.tasks u) := by
  by_cases hu : u = x
  · subst hu; rw [task_update_self]; exact hf _
  · rw [task_update_other _ _ _ _ hu]

/-- The function `_schedule_time_analyze` changes `last_run_ms`, `total_run_ms`
and `last_active_ms` only. -/
theorem time_analyze_proj {α : Type} (P : schedule_task → α)
    (h1 : ∀ (y : schedule_task) (v : Nat),
      P { y with exec := { y.exec with analyze := { y.exec.analyze with last_run_ms := v } } }
        = P y)
    (h2 : ∀ (y : schedule_task) (v : Nat),
      P { y with exec := { y.exec with analyze := { y.exec.analyze with total_run_ms := v } } }
        = P y)
    (h3 : ∀ (y : schedule_task) (v : Nat),
      P { y with exec := { y.exec with analyze := { y.exec.analyze with last_active_ms := v } } }
        = P y)
    (k : Kernel) (a b ms u : Nat) :
    P ((_schedule_time_analyze k a b ms).tasks u) = P (k.tasks u) := by
  unfold _schedule_time_analyze
  simp only
  rw [task_update_proj P _ b _ u (fun y => h3 y ms),
    task_update_proj P _ a _ u (fun y => h2 y _),
    task_update_proj P _ a _ u (fun y => h1 y _)]

theorem list_get_time_analyze (k : Kernel) (a b ms : Nat) (r : list_ref) :
    list_get (_schedule_time_analyze k a b ms) r = list_get k r := by
  unfold _schedule_time_analyze
  simp only [list_get_task_update]

theorem list_get_switch (k : Kernel) (p : Option Nat) (ms : Nat) (r : list_ref) :
    list_get { k with pTask := p, pendsv_ms := ms } r = list_get k r := by
  cases r <;> rfl

theorem time_analyze_drained (k : Kernel) (a b ms u : Nat) :
    (∀ ms0 x, entry_drained ms0 x (k.tasks u) →
        entry_drained ms0 x ((_schedule_time_analyze k a b ms).tasks u))
      ∧ (∀ cfg r x, exit_drained cfg r x (k.tasks u) →
        exit_drained cfg r x ((_schedule_time_analyze k a b ms).tasks u)) := by
  have hP := time_analyze_proj
    (fun y => (y.pPendCtx, y.pPendData, y.exec.entry, y.exec.exit, y.exec.analyze.last_pend_ms,
      y.expire, y.linker, y.prior))
    (fun _ _ => rfl) (fun _ _ => rfl) (fun _ _ => rfl) k a b ms u
  simp only [Prod.mk.injEq] at hP
  obtain ⟨p1, p2, p3, p4, p5, p6, p7, p8⟩ := hP
  constructor
  · intro ms0 x h
    unfold entry_drained at h ⊢
    rw [p1, p2, p3, p4, p5, p6, p7, p8]
    exact h
  · intro cfg r x h
    unfold exit_drained at h ⊢
    rw [p1, p2, p3, p4, p7, p8]
    exact h

/-- The pend-switch in a state whose lists agree with the linkers: it completes
when a task is running, the ready list or the entry list holds a task, and the
callback of every entry-staged task finds its event; it empties both staging
lists, puts every exit-staged task with a target into that list and every
entry-staged task into the ready list. -/
theorem pendsv_spec (cfg : Config) (k : Kernel) (ms c : Nat) (hl : linked k)
    (htarget : ∀ x ∈ k.sch_exit_list, (k.tasks x).exec.exit.pToList ≠ some .exit
      ∧ (k.tasks x).exec.exit.pToList ≠ some .entry)
    (hcb : ∀ t ∈ k.sch_entry_list, (k.tasks t).exec.entry.func = some .event_schedule →
      (k.tasks t).pPendData = none ∨ ∃ e, (k.tasks t).pPendCtx = some (.event e))
    (hrun : k.pTask = some c)
    (hready : k.sch_pend_list ≠ [] ∨ k.sch_entry_list ≠ []) :
    ∃ k2 k' cur next,
      _schedule_entry (_schedule_exit cfg k ms) ms = some k2
        ∧ kernel_scheduler_inPendSV_c cfg k ms = some (k', cur, next)
        ∧ (∀ r, list_get k' r = list_get k2 r)
        ∧ k'.sch_exit_list = [] ∧ k'.sch_entry_list = []
        ∧ (∀ x ∈ k.sch_exit_list, ∀ r, (k.tasks x).exec.exit.pToList = some r →
            x ∈ list_get k' r ∧ exit_drained cfg r (k.tasks x) (k'.tasks x))
        ∧ (∀ t ∈ k.sch_entry_list,
            t ∈ k'.sch_pend_list ∧ entry_drained ms (k.tasks t) (k'.tasks t))
        ∧ (∀ r, r ≠ .pend → r ≠ .entry → r ≠ .exit →
            (∀ x ∈ k.sch_exit_list, (k.tasks x).exec.exit.pToList ≠ some r) →
            list_get k' r = list_get k r)
        ∧ (∀ y ∈ k.sch_pend_list, y ∈ k'.sch_pend_list)
        ∧ ((∀ t ∈ k.sch_entry_list, (k.tasks t).exec.entry.func = none) →
            ∀ e, event_core (k'.events e) = event_core (k.events e))
        ∧ (∀ u, (k'.tasks u).prior = (k2.tasks u).prior)
        ∧ k2.pTask = some c
        ∧ ((_schedule_can_preempt cfg k2 (some c) = true ∧ k'.pTask = k2.sch_pend_list.head?)
            ∨ (_schedule_can_preempt cfg k2 (some c) = false ∧ k'.pTask = some c)) := by
  have hxnd : k.sch_exit_list.Nodup := hl.1 .exit
  have hend : k.sch_entry_list.Nodup := hl.1 .entry
  have hxlink : ∀ x ∈ k.sch_exit_list, (k.tasks x).linker.pList = some .exit :=
    fun x hx => hl.2 .exit x hx
  have helink : ∀ t ∈ k.sch_entry_list, (k.tasks t).linker.pList = some .entry :=
    fun t ht => hl.2 .entry t ht
  have hdisj : ∀ t ∈ k.sch_entry_list, t ∉ k.sch_exit_list := by
    intro t ht hx
    have h1 := helink t ht
    rw [hxlink t hx] at h1
    exact absurd (Option.some.inj h1) (by simp)
  obtain ⟨f1, f2, f3, f4, f5, f6, f7⟩ := schedule_exit_fold_spec cfg k.sch_exit_list k hxnd hxlink
    (fun x hx => (htarget x hx).1)
  have hk1 : _schedule_exit cfg k ms = k.sch_exit_list.foldl (_schedule_exit_task cfg) k := rfl
  rw [← hk1] at f1 f2 f3 f4 f5 f6 f7
  clear hk1
  obtain ⟨k1, hk1e⟩ : ∃ k1, k1 = _schedule_exit cfg k ms := ⟨_, rfl⟩
  rw [← hk1e] at f1 f2 f3 f4 f5 f6 f7
  have hk1entry : k1.sch_entry_list = k.sch_entry_list :=
    f4 .entry (by simp) (fun x hx => (htarget x hx).2)
  have hk1exit : k1.sch_exit_list = [] := by
    have : list_get k1 .exit = (list_get k .exit).diff k.sch_exit_list := f3
    exact this.trans (diff_self_nil _)
  have hk1task : ∀ t ∈ k.sch_entry_list, k1.tasks t = k.tasks t :=
    fun t ht => f1 t (hdisj t ht)
  obtain ⟨k2, hk2⟩ := schedule_entry_loop_some ms k1.sch_entry_list k1 (by rw [hk1entry]; exact hend)
    (fun t ht => by
      rw [hk1entry] at ht
      rw [hk1task t ht]; exact helink t ht)
    (fun t ht => by
      rw [hk1entry] at ht
      rw [hk1task t ht]; exact hcb t ht)
  obtain ⟨g1, g2, g3, g4, g5, g6, g7⟩ := schedule_entry_loop_spec ms k1.sch_entry_list k1 k2
    (by rw [hk1entry]; exact hend)
    (fun t ht => by
      rw [hk1entry] at ht
      rw [hk1task t ht]; exact helink t ht) hk2
  rw [hk1entry] at g1 g2 g3 g4 g7
  have hsched : _schedule_entry k1 ms = some k2 := hk2
  have hk2entry : k2.sch_entry_list = [] := by
    have h1 : list_get k2 .entry = (list_get k1 .entry).diff k.sch_entry_list := g4
    have h2 : list_get k1 .entry = k.sch_entry_list := hk1entry
    rw [h2] at h1
    exact h1.trans (diff_self_nil _)
  have hk2exit : k2.sch_exit_list = [] := by
    have h1 : list_get k2 .exit = list_get k1 .exit := g5 .exit (by simp) (by simp)
    exact h1.trans hk1exit
  have hk2run : k2.pTask = some c := by rw [g6, f6]; exact hrun
  have hpendmem : ∀ y, y ∈ k.sch_entry_list ∨ y ∈ k1.sch_pend_list → y ∈ k2.sch_pend_list := by
    intro y hy
    have : y ∈ list_get k2 .pend := (g3.mem_iff).mpr (List.mem_append.mpr hy)
    exact this
  have hexit2 : ∀ x ∈ k.sch_exit_list, ∀ r, (k.tasks x).exec.exit.pToList = some r →
      x ∈ list_get k2 r ∧ exit_drained cfg r (k.tasks x) (k2.tasks x) := by
    intro x hx r hr
    obtain ⟨hd, hmem⟩ := f2 x hx r hr
    have hxe : x ∉ k.sch_entry_list := fun h => hdisj x h hx
    rw [g1 x hxe]
    refine ⟨?_, hd⟩
    by_cases hp : r = .pend
    · subst hp
      exact hpendmem x (Or.inr hmem)
    · have hrentry : r ≠ .entry := by
        intro h
        rw [h] at hr
        exact (htarget x hx).2 hr
      rw [g5 r hp hrentry]
      exact hmem
  have hentry2 : ∀ t ∈ k.sch_entry_list,
      t ∈ k2.sch_pend_list ∧ entry_drained ms (k.tasks t) (k2.tasks t) := by
    intro t ht
    refine ⟨hpendmem t (Or.inl ht), ?_⟩
    have := g2 t ht
    rw [hk1task t ht] at this
    exact this
  have hother2 : ∀ r, r ≠ .pend → r ≠ .entry → r ≠ .exit →
      (∀ x ∈ k.sch_exit_list, (k.tasks x).exec.exit.pToList ≠ some r) →
      list_get k2 r = list_get k r := by
    intro r h1 h2 h3 h4
    rw [g5 r h1 h2, f4 r h3 h4]
  have hgrow2 : ∀ y ∈ k.sch_pend_list, y ∈ k2.sch_pend_list :=
    fun y hy => hpendmem y (Or.inr (f5 .pend (by simp) y hy))
  have hcore2 : (∀ t ∈ k.sch_entry_list, (k.tasks t).exec.entry.func = none) →
      ∀ e, event_core (k2.events e) = event_core (k.events e) := by
    intro hall e
    rw [g7 (fun t ht => by rw [hk1task t ht]; exact hall t ht) e, f7 e]
  obtain ⟨n, hn⟩ : ∃ n, _schedule_nextTaskGet k2 = some n := by
    unfold _schedule_nextTaskGet
    cases hp : k2.sch_pend_list with
    | nil =>
      exfalso
      rcases hready with h | h
      · cases hq : k.sch_pend_list with
        | nil => exact h hq
        | cons a rest =>
          have := hgrow2 a (by rw [hq]; exact List.mem_cons_self _ _)
          rw [hp] at this
          exact List.not_mem_nil _ this
      · cases hq : k.sch_entry_list with
        | nil => exact h hq
        | cons a rest =>
          have := (hentry2 a (by rw [hq]; exact List.mem_cons_self _ _)).1
          rw [hp] at this
          exact List.not_mem_nil _ this
    | cons a rest => exact ⟨a, rfl⟩
  have hhead : k2.sch_pend_list.head? = some n := hn
  unfold kernel_scheduler_inPendSV_c
  rw [← hk1e]
  simp only [hsched, hk2run, hn]
  by_cases hp : _schedule_can_preempt cfg k2 (some c) = true
  · rw [if_pos hp]
    refine ⟨k2, _, c, n, rfl, rfl, ?_, ?_, ?_, ?_, ?_, ?_, ?_, ?_, ?_, hk2run, Or.inl ⟨hp, ?_⟩⟩
    · intro r
      rw [list_get_switch, list_get_time_analyze]
    · have : list_get { _schedule_time_analyze k2 c n ms with pTask := some n, pendsv_ms := ms } .exit
          = list_get k2 .exit := by rw [list_get_switch, list_get_time_analyze]
      exact this.trans hk2exit
    · have : list_get { _schedule_time_analyze k2 c n ms with pTask := some n, pendsv_ms := ms } .entry
          = list_get k2 .entry := by rw [list_get_switch, list_get_time_analyze]
      exact this.trans hk2entry
    · intro x hx r hr
      obtain ⟨h1, h2⟩ := hexit2 x hx r hr
      refine ⟨?_, (time_analyze_drained k2 c n ms x).2 cfg r _ h2⟩
      rw [list_get_switch, list_get_time_analyze]
      exact h1
    · intro t ht
      obtain ⟨h1, h2⟩ := hentry2 t ht
      refine ⟨?_, (time_analyze_drained k2 c n ms t).1 ms _ h2⟩
      have : list_get { _schedule_time_analyze k2 c n ms with pTask := some n, pendsv_ms := ms } .pend
          = list_get k2 .pend := by rw [list_get_switch, list_get_time_analyze]
      have h3 : t ∈ list_get
          { _schedule_time_analyze k2 c n ms with pTask := some n, pendsv_ms := ms } .pend := by
        rw [this]; exact h1
      exact h3
    · intro r h1 h2 h3 h4
      rw [list_get_switch, list_get_time_analyze]
      exact hother2 r h1 h2 h3 h4
    · intro y hy
      have : list_get { _schedule_time_analyze k2 c n ms with pTask := some n, pendsv_ms := ms } .pend
          = list_get k2 .pend := by rw [list_get_switch, list_get_time_analyze]
      have h3 : y ∈ list_get
          { _schedule_time_analyze k2 c n ms with pTask := some n, pendsv_ms := ms } .pend := by
        rw [this]; exact hgrow2 y hy
      exact h3
    · intro hall e
      exact hcore2 hall e
    · intro u
      exact time_analyze_proj (fun y => y.prior) (fun _ _ => rfl) (fun _ _ => rfl)
        (fun _ _ => rfl) k2 c n ms u
    · exact hhead.symm
  · rw [if_neg hp]
    refine ⟨k2, k2, c, c, rfl, rfl, fun _ => rfl, hk2exit, hk2entry, hexit2, hentry2, hother2,
      hgrow2, hcore2, fun _ => rfl, hk2run, Or.inr ⟨?_, hk2run⟩⟩
    simpa using hp

/-- A task moved to the list `r` in a state whose lists agree with the linkers:
the lists of the new state agree with the linkers. -/
theorem linked_move (k k' : Kernel) (t : Nat) (r : list_ref) (hl : linked k)
    (htask : ∀ u, u ≠ t → (k'.tasks u).linker = (k.tasks u).linker)
    (hself : (k'.tasks t).linker.pList = some r)
    (htarget : (list_get k' r).Perm (t :: (list_get k r).erase t))
    (hother : ∀ r', r' ≠ r → list_get k' r' = (list_get k r').erase t) :
    linked k' := by
  have hmem : ∀ r' u, u ∈ list_get k' r' → u = t ∧ r' = r ∨ u ≠ t ∧ u ∈ list_get k r' := by
    intro r' u hu
    by_cases hr : r' = r
    · subst hr
      rcases List.mem_cons.mp (htarget.mem_iff.mp hu) with h | h
      · exact Or.inl ⟨h, rfl⟩
      · exact Or.inr ((List.Nodup.mem_erase_iff (hl.1 r')).mp h)
    · rw [hother r' hr] at hu
      exact Or.inr ((List.Nodup.mem_erase_iff (hl.1 r')).mp hu)
  refine ⟨?_, ?_⟩
  · intro r'
    by_cases hr : r' = r
    · subst hr
      rw [htarget.nodup_iff]
      exact List.nodup_cons.mpr
        ⟨fun h => ((List.Nodup.mem_erase_iff (hl.1 r')).mp h).1 rfl, (hl.1 r').erase t⟩
    · rw [hother r' hr]
      exact (hl.1 r').erase t
  · intro r' u hu
    rcases hmem r' u hu with ⟨rfl, rfl⟩ | ⟨hne, hin⟩
    · exact hself
    · rw [htask u hne]
      exact hl.2 r' u hin

theorem linked_entry_trigger (cfg : Config) (k : Kernel) (t : Nat) (cb : Option callback)
    (res : Int) (hl : linked k) : linked (schedule_entry_trigger cfg k t cb res).1 := by
  apply linked_move k _ t .entry hl
  · intro u hu
    rw [entry_trigger_task_other cfg k t cb res u hu]
  · rw [entry_trigger_task_self]
  · rw [entry_trigger_entry_list, linked_erase_eq k hl]
    exact List.perm_append_singleton _ _
  · intro r' hr
    rw [entry_trigger_other_list cfg k t cb res r' hr, linked_erase_eq k hl]

/-- A task is woken by `schedule_entry_trigger` in a state with empty staging
lists and the pend-switch runs: the switch completes, the task is in the ready
list and out of every other list, and its record is what the entry drain makes
of the record the wake-up left. -/
theorem pendsv_after_wake (cfg : Config) (k : Kernel) (t c ms : Nat) (cb : Option callback)
    (res : Int) (hl : linked k) (hentry : k.sch_entry_list = []) (hexit : k.sch_exit_list = [])
    (hrun : k.pTask = some c)
    (hcb : cb = some .event_schedule →
      (k.tasks t).pPendData = none ∨ ∃ e, (k.tasks t).pPendCtx = some (.event e)) :
    ∃ k' cur next,
      kernel_scheduler_inPendSV_c cfg (schedule_entry_trigger cfg k t cb res).1 ms
          = some (k', cur, next)
        ∧ t ∈ k'.sch_pend_list
        ∧ entry_drained ms
            { k.tasks t with
              exec := { (k.tasks t).exec with entry := { result := res, func := cb } },
              linker := { pList := some .entry } } (k'.tasks t)
        ∧ (∀ r, r ≠ .pend → r ≠ .entry → r ≠ .exit → list_get k' r = (list_get k r).erase t)
        ∧ (cb = none → ∀ e, event_core (k'.events e) = event_core (k.events e))
        ∧ k'.sch_entry_list = [] ∧ k'.sch_exit_list = [] := by
  have hl1 := linked_entry_trigger cfg k t cb res hl
  have hself := entry_trigger_task_self cfg k t cb res
  have hentry1 : (schedule_entry_trigger cfg k t cb res).1.sch_entry_list = [t] := by
    have h := entry_trigger_entry_list cfg k t cb res
    rw [linked_erase_eq k hl] at h
    have h0 : list_get k .entry = [] := hentry
    rw [h0] at h
    exact h
  have hexit1 : (schedule_entry_trigger cfg k t cb res).1.sch_exit_list = [] := by
    have h := entry_trigger_other_list cfg k t cb res .exit (by simp)
    rw [linked_erase_eq k hl] at h
    have h0 : list_get k .exit = [] := hexit
    rw [h0] at h
    exact h
  obtain ⟨k2, k', cur, next, _, hsv, _, hx, he, _, hent, hoth, _, hcore, _, _, _⟩ :=
    pendsv_spec cfg (schedule_entry_trigger cfg k t cb res).1 ms c hl1
      (fun x hx => by rw [hexit1] at hx; exact absurd hx (List.not_mem_nil _))
      (fun u hu hf => by
        rw [hentry1, List.mem_singleton] at hu
        subst hu
        rw [hself] at hf ⊢
        exact hcb hf)
      (by rw [entry_trigger_pTask]; exact hrun)
      (Or.inr (by rw [hentry1]; simp))
  refine ⟨k', cur, next, hsv, ?_, ?_, ?_, ?_, he, hx⟩
  · exact (hent t (by rw [hentry1]; exact List.mem_singleton.mpr rfl)).1
  · have := (hent t (by rw [hentry1]; exact List.mem_singleton.mpr rfl)).2
    rw [hself] at this
    exact this
  · intro r h1 h2 h3
    rw [hoth r h1 h2 h3 (fun x hx => by rw [hexit1] at hx; exact absurd hx (List.not_mem_nil _)),
      entry_trigger_other_list cfg k t cb res r h2, linked_erase_eq k hl]
  · intro hnone e
    rw [hcore (fun u hu => by
        rw [hentry1, List.mem_singleton] at hu
        subst hu
        rw [hself]
        exact hnone) e,
      entry_trigger_event_core]

theorem linked_sample_staged : linked sample_staged := by
  constructor
  · intro r
    cases r with
    | mutex m => exact List.nodup_nil
    | event e =>
      show ((if e = 0 then sample_edge_event else sample_event).q_list).Nodup
      split <;> exact List.nodup_nil
    | pend => exact List.nodup_singleton 0
    | entry => exact List.nodup_singleton 2
    | exit => exact List.nodup_singleton 1
    | wait => exact List.nodup_nil
  · intro r t ht
    cases r with
    | mutex m => exact absurd ht (List.not_mem_nil _)
    | event e =>
      have : (list_get sample_staged (.event e)) = [] := by
        show ((if e = 0 then sample_edge_event else sample_event).q_list) = []
        split <;> rfl
      rw [this] at ht
      exact absurd ht (List.not_mem_nil _)
    | pend => rw [List.mem_singleton.mp ht]; rfl
    | entry => rw [List.mem_singleton.mp ht]; rfl
    | exit => rw [List.mem_singleton.mp ht]; rfl
    | wait => exact absurd ht (List.not_mem_nil _)

/-! ### Waking by the deadline and the delivery of the result -/

theorem result_take_eq (cfg : Config) (k : Kernel) (c : Nat) (hrun : k.pTask = some c) :
    kernel_schedule_result_take cfg k
      = some (task_update k c (fun x =>
          { x with exec := { x.exec with
              entry := { x.exec.entry with result := cfg.PC_EOR_KERNEL } } }),
          (k.tasks c).exec.entry.result) := by
  unfold kernel_schedule_result_take
  rw [hrun]

theorem impl_event_wait_result_timeout (cfg : Config) (k : Kernel) (t : Nat)
    (hrun : k.pTask = some t)
    (hres : (k.tasks t).exec.entry.result = cfg.PC_OS_WAIT_TIMEOUT) :
    _impl_event_wait_result cfg k cfg.PC_OS_WAIT_UNAVAILABLE
      = some (task_update k t (fun x =>
          { x with exec := { x.exec with
              entry := { x.exec.entry with result := cfg.PC_EOR_KERNEL } } }),
          cfg.PC_OS_WAIT_TIMEOUT) := by
  unfold _impl_event_wait_result
  simp only [if_true, result_take_eq cfg k t hrun, Option.map_some', hres]
  by_cases h : cfg.PC_PASS_INFO cfg.PC_OS_WAIT_TIMEOUT = true
  · simp [h]
  · simp [h]

/-- C21: an event wait ended by its timeout.  Task t stands in the wait queue of
event e with the waiter record d, the lists agree with the linkers, nothing is
staged and some task is running.  The deadline fires
(`schedule_callback_fromTimeOut`) and the pend-switch runs: the switch
completes, t has left the wait queue and stands in the ready list, its entry
result is `PC_OS_WAIT_TIMEOUT`, every event has the value, latch and masks it
had, and the waiter record (out_value and out_trigger) is d as before.  When t
runs on, the rest of `_impl_event_wait` returns `PC_OS_WAIT_TIMEOUT` and
changes no event and not the waiter record. -/
theorem event_wait_timeout (cfg : Config) (k : Kernel) (e t c ms : Nat) (d : event_sch_t)
    (hl : linked k) (hq : t ∈ (k.events e).q_list) (hdata : (k.tasks t).pPendData = some d)
    (hentry : k.sch_entry_list = []) (hexit : k.sch_exit_list = [])
    (hrun : k.pTask = some c) :
    ∃ k' cur next,
      kernel_scheduler_inPendSV_c cfg (schedule_callback_fromTimeOut cfg k t) ms
          = some (k', cur, next)
        ∧ (k'.events e).q_list = (k.events e).q_list.erase t
        ∧ (k'.events e).q_list.length + 1 = (k.events e).q_list.length
        ∧ t ∉ (k'.events e).q_list
        ∧ t ∈ k'.sch_pend_list
        ∧ (k'.tasks t).linker.pList = some .pend
        ∧ (k'.tasks t).exec.entry.result = cfg.PC_OS_WAIT_TIMEOUT
        ∧ (∀ e', event_core (k'.events e') = event_core (k.events e'))
        ∧ (k'.tasks t).pPendData = some d
        ∧ ∃ kf, _impl_event_wait_result cfg (with_pTask k' (some t)) cfg.PC_OS_WAIT_UNAVAILABLE
              = some (kf, cfg.PC_OS_WAIT_TIMEOUT)
            ∧ kf.events = k'.events
            ∧ (kf.tasks t).pPendData = some d := by
  obtain ⟨k', cur, next, hsv, hpend, hdr, hoth, hcore, _, _⟩ :=
    pendsv_after_wake cfg k t c ms none cfg.PC_OS_WAIT_TIMEOUT hl hentry hexit hrun
      (fun h => Option.noConfusion h)
  unfold entry_drained at hdr
  obtain ⟨_, _, _, d4, d5, _, d7, _, _⟩ := hdr
  have hres : (k'.tasks t).exec.entry.result = cfg.PC_OS_WAIT_TIMEOUT := by
    rw [d5]; simp
  have hpd : (k'.tasks t).pPendData = some d := by
    rw [(d7 rfl).1]; exact hdata
  have hqueue : (k'.events e).q_list = (k.events e).q_list.erase t :=
    hoth (.event e) (by simp) (by simp) (by simp)
  refine ⟨k', cur, next, hsv, hqueue, ?_, ?_, hpend, d4, hres, hcore rfl, hpd, ?_⟩
  · rw [hqueue, List.length_erase_of_mem hq]
    have : 0 < (k.events e).q_list.length := List.length_pos_of_mem hq
    omega
  · rw [hqueue]
    intro h
    exact ((List.Nodup.mem_erase_iff (hl.1 (.event e))).mp h).1 rfl
  · refine ⟨_, impl_event_wait_result_timeout cfg (with_pTask k' (some t)) t rfl hres, rfl, ?_⟩
    rw [task_update_self]
    exact hpd

theorem linked_sample_event_kernel : linked sample_event_kernel := by
  constructor
  · intro r
    cases r with
    | mutex m => exact List.nodup_nil
    | event e =>
      show ((if e = 0 then { sample_edge_event with q_list := [1] } else sample_event).q_list).Nodup
      split
      · exact List.nodup_singleton 1
      · exact List.nodup_nil
    | pend => show ([2, 0] : List Nat).Nodup; decide
    | entry => exact List.nodup_nil
    | exit => exact List.nodup_nil
    | wait => exact List.nodup_nil
  · intro r t ht
    cases r with
    | mutex m => exact absurd ht (List.not_mem_nil _)
    | event e =>
      have hlist : list_get sample_event_kernel (.event e) = if e = 0 then [1] else [] := by
        show ((if e = 0 then { sample_edge_event with q_list := [1] } else sample_event).q_list) = _
        split <;> rfl
      rw [hlist] at ht
      by_cases he : e = 0
      · subst he
        rw [if_pos rfl] at ht
        rw [List.mem_singleton.mp ht]; rfl
      · rw [if_neg he] at ht
        exact absurd ht (List.not_mem_nil _)
    | pend =>
      have ht' : t ∈ ([2, 0] : List Nat) := ht
      simp only [List.mem_cons, List.mem_singleton, List.not_mem_nil, or_false] at ht'
      rcases ht' with h | h <;> (rw [h]; rfl)
    | entry => exact absurd ht (List.not_mem_nil _)
    | exit => exact absurd ht (List.not_mem_nil _)
    | wait => exact absurd ht (List.not_mem_nil _)

/-- C21, witness: task 1 waits on event 0 with listen mask 1; its deadline fires
and the pend-switch runs at time 10. -/
theorem event_wait_timeout_witness :
    ∃ k' cur next,
      kernel_scheduler_inPendSV_c sample_cfg
          (schedule_callback_fromTimeOut sample_cfg sample_event_kernel 1) 10
          = some (k', cur, next)
        ∧ (k'.events 0).q_list = []
        ∧ 1 ∈ k'.sch_pend_list
        ∧ (k'.tasks 1).exec.entry.result = 1
        ∧ event_core (k'.events 0) = event_core (sample_event_kernel.events 0)
        ∧ (k'.tasks 1).pPendData = some ⟨1, ⟨0, 0⟩⟩
        ∧ ∃ kf, _impl_event_wait_result sample_cfg (with_pTask k' (some 1)) 2 = some (kf, 1) := by
  obtain ⟨k', cur, next, h1, h2, _, _, h4, _, h6, h7, h8, kf, h9, _⟩ :=
    event_wait_timeout sample_cfg sample_event_kernel 0 1 0 10 ⟨1, ⟨0, 0⟩⟩
      linked_sample_event_kernel (by decide) rfl rfl rfl rfl
  exact ⟨k', cur, next, h1, h2, h4, h6, h7 0, h8, kf, h9⟩

/-- C29: the delivery of the result.  With a running task c,
`kernel_schedule_result_take` returns the entry result stored for c and stores
`PC_EOR` in its place; nothing else changes, so a second call returns `PC_EOR`.
In a state whose lists agree with the linkers and with nothing staged: a task
woken by `schedule_entry_trigger` with result 0 (with any callback that finds
its event) reads 0 once the pend-switch has run and it is the running task, and
a task woken by its deadline reads `PC_OS_WAIT_TIMEOUT`. -/
theorem result_take_delivers (cfg : Config) (k : Kernel) (c t ms : Nat) (cb : Option callback)
    (hrun : k.pTask = some c) (hl : linked k) (hentry : k.sch_entry_list = [])
    (hexit : k.sch_exit_list = [])
    (hcb : cb = some .event_schedule →
      (k.tasks t).pPendData = none ∨ ∃ e, (k.tasks t).pPendCtx = some (.event e)) :
    (∃ k1, kernel_schedule_result_take cfg k = some (k1, (k.tasks c).exec.entry.result)
        ∧ k1 = task_update k c (fun x =>
            { x with exec := { x.exec with
                entry := { x.exec.entry with result := cfg.PC_EOR_KERNEL } } })
        ∧ (∀ u, u ≠ c → k1.tasks u = k.tasks u)
        ∧ (∀ r, list_get k1 r = list_get k r)
        ∧ k1.events = k.events ∧ k1.mutexes = k.mutexes ∧ k1.pTask = k.pTask
        ∧ ∃ k2, kernel_schedule_result_take cfg k1 = some (k2, cfg.PC_EOR_KERNEL))
      ∧ (∃ k' cur next,
          kernel_scheduler_inPendSV_c cfg (schedule_entry_trigger cfg k t cb 0).1 ms
              = some (k', cur, next)
            ∧ ∃ kf, kernel_schedule_result_take cfg (with_pTask k' (some t)) = some (kf, 0))
      ∧ (∃ k' cur next,
          kernel_scheduler_inPendSV_c cfg (schedule_callback_fromTimeOut cfg k t) ms
              = some (k', cur, next)
            ∧ ∃ kf, kernel_schedule_result_take cfg (with_pTask k' (some t))
                = some (kf, cfg.PC_OS_WAIT_TIMEOUT)) := by
  refine ⟨⟨_, result_take_eq cfg k c hrun, rfl, ?_, ?_, rfl, rfl, rfl, ?_⟩, ?_, ?_⟩
  · intro u hu
    exact task_update_other _ _ _ _ hu
  · intro r
    exact list_get_task_update _ _ _ r
  · have h2 := result_take_eq cfg (task_update k c (fun x =>
        { x with exec := { x.exec with
            entry := { x.exec.entry with result := cfg.PC_EOR_KERNEL } } })) c hrun
    rw [task_update_self] at h2
    exact ⟨_, h2⟩
  · obtain ⟨k', cur, next, hsv, _, hdr, _⟩ :=
      pendsv_after_wake cfg k t c ms cb 0 hl hentry hexit hrun hcb
    unfold entry_drained at hdr
    have hres : (k'.tasks t).exec.entry.result = 0 := by
      rw [hdr.2.2.2.2.1]
      split <;> rfl
    have h := result_take_eq cfg (with_pTask k' (some t)) t rfl
    rw [show ((with_pTask k' (some t)).tasks t).exec.entry.result = 0 from hres] at h
    exact ⟨k', cur, next, hsv, _, h⟩
  · obtain ⟨k', cur, next, hsv, _, hdr, _⟩ :=
      pendsv_after_wake cfg k t c ms none cfg.PC_OS_WAIT_TIMEOUT hl hentry hexit hrun
        (fun h => Option.noConfusion h)
    unfold entry_drained at hdr
    have hres : (k'.tasks t).exec.entry.result = cfg.PC_OS_WAIT_TIMEOUT := by
      rw [hdr.2.2.2.2.1]; simp
    have h := result_take_eq cfg (with_pTask k' (some t)) t rfl
    rw [show ((with_pTask k' (some t)).tasks t).exec.entry.result = cfg.PC_OS_WAIT_TIMEOUT
      from hres] at h
    exact ⟨k', cur, next, hsv, _, h⟩

/-- C29, witness: task 0 runs with the stored result 0; task 1, a waiter of
event 0, is woken with result 0 and by its deadline. -/
theorem result_take_delivers_witness :
    (∃ k1, kernel_schedule_result_take sample_cfg sample_event_kernel = some (k1, 0)
        ∧ ∃ k2, kernel_schedule_result_take sample_cfg k1 = some (k2, -1))
      ∧ (∃ k' cur next,
          kernel_scheduler_inPendSV_c sample_cfg
              (schedule_entry_trigger sample_cfg sample_event_kernel 1 (some .event_schedule) 0).1
              10 = some (k', cur, next)
            ∧ ∃ kf, kernel_schedule_result_take sample_cfg (with_pTask k' (some 1))
                = some (kf, 0))
      ∧ (∃ k' cur next,
          kernel_scheduler_inPendSV_c sample_cfg
              (schedule_callback_fromTimeOut sample_cfg sample_event_kernel 1) 10
              = some (k', cur, next)
            ∧ ∃ kf, kernel_schedule_result_take sample_cfg (with_pTask k' (some 1))
                = some (kf, 1)) := by
  obtain ⟨⟨k1, h1, _, _, _, _, _, _, k2, h2⟩, h3, h4⟩ :=
    result_take_delivers sample_cfg sample_event_kernel 0 1 10 (some .event_schedule) rfl
      linked_sample_event_kernel rfl rfl (fun _ => Or.inr ⟨0, rfl⟩)
  exact ⟨⟨k1, h1, k2, h2⟩, h3, h4⟩

/-! ### The preempt gate -/

/-- The loop of `_schedule_can_preempt` returns false only when it meets the
running task behind tasks of negative priority other than the highest level,
the running task having a negative priority itself. -/
theorem can_preempt_loop_false (cfg : Config) (k : Kernel) (c : Nat) (l : List Nat)
    (h : _schedule_can_preempt_loop cfg k (some c) l = false) :
    ∃ pre post, l = pre ++ c :: post
      ∧ (∀ x ∈ pre, (k.tasks x).prior < 0 ∧ (k.tasks x).prior ≠ cfg.OS_PRIOTITY_HIGHEST_LEVEL)
      ∧ (k.tasks c).prior < 0 := by
  induction l with
  | nil => simp [_schedule_can_preempt_loop] at h
  | cons t rest ih =>
    unfold _schedule_can_preempt_loop at h
    by_cases h1 : (k.tasks t).prior ≥ 0
    · rw [if_pos h1] at h; exact Bool.noConfusion h
    · rw [if_neg h1] at h
      by_cases h2 : some t = some c
      · have htc : t = c := Option.some.inj h2
        subst htc
        exact ⟨[], rest, rfl, by simp, not_le.mp h1⟩
      · rw [if_neg h2] at h
        by_cases h3 : (k.tasks t).prior = cfg.OS_PRIOTITY_HIGHEST_LEVEL
        · rw [if_pos h3] at h; exact Bool.noConfusion h
        · rw [if_neg h3] at h
          obtain ⟨pre, post, hl, hpre, hc⟩ := ih h
          refine ⟨t :: pre, post, by rw [hl]; rfl, ?_, hc⟩
          intro x hx
          rcases List.mem_cons.mp hx with hx | hx
          · rw [hx]; exact ⟨not_le.mp h1, h3⟩
          · exact hpre x hx

/-- What a completed pend-switch leaves: either the head of the ready list is
the running task, or the gate kept the running task, which then stands in the
ready list behind tasks of negative priority other than the highest level and
has a negative priority itself. -/
theorem pendsv_gate (cfg : Config) (k : Kernel) (ms : Nat) (k' : Kernel) (cur next : Nat)
    (h : kernel_scheduler_inPendSV_c cfg k ms = some (k', cur, next)) :
    (k'.pTask = some next ∧ k'.sch_pend_list.head? = some next)
      ∨ (k'.pTask = some cur ∧ next = cur
          ∧ ∃ pre post, k'.sch_pend_list = pre ++ cur :: post
            ∧ (∀ x ∈ pre, (k'.tasks x).prior < 0
                ∧ (k'.tasks x).prior ≠ cfg.OS_PRIOTITY_HIGHEST_LEVEL)
            ∧ (k'.tasks cur).prior < 0) := by
  unfold kernel_scheduler_inPendSV_c at h
  cases hk1 : _schedule_entry (_schedule_exit cfg k ms) ms with
  | none => rw [hk1] at h; exact Option.noConfusion h
  | some k1 =>
    rw [hk1] at h
    simp only at h
    by_cases hp : _schedule_can_preempt cfg k1 k1.pTask = true
    · rw [if_pos hp] at h
      cases hc : k1.pTask with
      | none => rw [hc] at h; exact Option.noConfusion h
      | some c =>
        cases hn : _schedule_nextTaskGet k1 with
        | none => rw [hc, hn] at h; exact Option.noConfusion h
        | some n =>
          rw [hc, hn] at h
          simp only [Option.some.injEq, Prod.mk.injEq] at h
          obtain ⟨hk', _, hnext⟩ := h
          subst hk' hnext
          left
          refine ⟨rfl, ?_⟩
          have : list_get { _schedule_time_analyze k1 c n ms with pTask := some n, pendsv_ms := ms }
              .pend = list_get k1 .pend := by rw [list_get_switch, list_get_time_analyze]
          show (list_get { _schedule_time_analyze k1 c n ms with pTask := some n, pendsv_ms := ms }
              .pend).head? = some n
          rw [this]
          exact hn
    · rw [if_neg hp] at h
      cases hc : k1.pTask with
      | none => rw [hc] at h; exact Option.noConfusion h
      | some c =>
        rw [hc] at h
        simp only [Option.some.injEq, Prod.mk.injEq] at h
        obtain ⟨hk', hcur, hnext⟩ := h
        subst hk' hcur hnext
        right
        refine ⟨hc, rfl, ?_⟩
        rw [hc] at hp
        exact can_preempt_loop_false cfg k1 c k1.sch_pend_list (by simpa [_schedule_can_preempt] using hp)

/-! ### One list per task, one running task -/

theorem carries_refl (k : Kernel) : carries k k := ⟨id, rfl⟩

theorem carries_trans (k1 k2 k3 : Kernel) (h1 : carries k1 k2) (h2 : carries k2 k3) :
    carries k1 k3 :=
  ⟨fun h => h2.1 (h1.1 h), h2.2.trans h1.2⟩

theorem carries_of_eq (k k1 k2 : Kernel) (h : k1 = k2) (hc : carries k k1) : carries k k2 :=
  h ▸ hc

/-- No list gains a task and the linkers of the listed tasks stay. -/
theorem linked_of_frame (k k' : Kernel) (hl : linked k)
    (hlist : ∀ r, (list_get k' r).Sublist (list_get k r))
    (hlink : ∀ r t, t ∈ list_get k' r → (k'.tasks t).linker = (k.tasks t).linker) :
    linked k' :=
  ⟨fun r => (hl.1 r).sublist (hlist r),
   fun r t ht => by rw [hlink r t ht]; exact hl.2 r t ((hlist r).subset ht)⟩

/-- A task that leaves every list. -/
theorem linked_remove (k k' : Kernel) (t : Nat) (hl : linked k)
    (htask : ∀ u, u ≠ t → (k'.tasks u).linker = (k.tasks u).linker)
    (hlists : ∀ r, list_get k' r = (list_get k r).erase t) : linked k' := by
  refine ⟨fun r => by rw [hlists r]; exact (hl.1 r).erase t, ?_⟩
  intro r u hu
  rw [hlists r] at hu
  obtain ⟨hne, hin⟩ := (List.Nodup.mem_erase_iff (hl.1 r)).mp hu
  rw [htask u hne]
  exact hl.2 r u hin

theorem carries_task_update (k : Kernel) (t : Nat) (f : schedule_task → schedule_task)
    (hf : (f (k.tasks t)).linker = (k.tasks t).linker) : carries k (task_update k t f) := by
  refine ⟨fun hl => linked_of_frame k _ hl (fun r => by rw [list_get_task_update]) ?_, rfl⟩
  intro r u _
  by_cases hu : u = t
  · subst hu; rw [task_update_self]; exact hf
  · rw [task_update_other _ _ _ _ hu]

theorem carries_event_update (k : Kernel) (e : Nat) (f : event_context_t → event_context_t)
    (hf : ((f (k.events e)).q_list).Sublist (k.events e).q_list) :
    carries k (event_update k e f) := by
  refine ⟨fun hl => linked_of_frame k _ hl ?_ (fun _ _ _ => rfl), rfl⟩
  intro r
  cases r with
  | event e' =>
    show ((event_update k e f).events e').q_list.Sublist (k.events e').q_list
    by_cases he : e' = e
    · subst he; rw [event_update_self]; exact hf
    · rw [event_update_other _ _ _ _ he]
  | _ => exact List.Sublist.refl _

theorem carries_mutex_update (k : Kernel) (m : Nat) (f : mutex_context_t → mutex_context_t)
    (hf : ((f (k.mutexes m)).q_list).Sublist (k.mutexes m).q_list) :
    carries k (mutex_update k m f) := by
  refine ⟨fun hl => linked_of_frame k _ hl ?_ (fun _ _ _ => rfl), rfl⟩
  intro r
  rw [list_get_mutex_update]
  split
  · rename_i h
    rw [h]
    exact hf
  · exact List.Sublist.refl _

theorem carries_inInterrupt (k : Kernel) (b : Bool) : carries k { k with inInterrupt := b } :=
  ⟨fun hl => linked_of_frame k _ hl (fun r => by rw [list_get_inInterrupt]) (fun _ _ _ => rfl),
   rfl⟩

theorem carries_request (cfg : Config) (k : Kernel) :
    carries k (kernel_thread_schedule_request cfg k).1 := by
  unfold kernel_thread_schedule_request
  split
  · exact carries_refl k
  · refine ⟨fun hl => linked_of_frame k _ hl (fun r => ?_) (fun _ _ _ => rfl), rfl⟩
    cases r <;> exact List.Sublist.refl _

theorem carries_transaction_specific (k : Kernel) (t : Nat) (r : list_ref)
    (f : Kernel → Option Nat → Option Nat → Bool) :
    carries k (linker_list_transaction_specific k t r f) := by
  refine ⟨fun hl => linked_move k _ t r hl ?_ ?_ ?_ ?_, transaction_specific_pTask k t r f⟩
  · intro u hu
    rw [transaction_specific_task, Function.update_noteq hu]
  · rw [transaction_specific_task, Function.update_same]
  · rw [transaction_specific_target, linker_unlink_list_get, linked_erase_eq k hl]
    exact sorted_insert_perm _ _ _
  · intro r' hr
    rw [transaction_specific_other _ _ _ _ _ hr, linker_unlink_list_get, linked_erase_eq k hl]

theorem carries_toNullList (k : Kernel) (x : Nat) :
    carries k (_schedule_transfer_toNullList k x) := by
  refine ⟨fun hl => linked_remove k _ x hl ?_ ?_, ?_⟩
  · intro u hu
    rw [transfer_toNullList_tasks k x u hu]
  · intro r
    rw [list_get_transfer_toNullList, linked_erase_eq k hl]
  · unfold _schedule_transfer_toNullList
    exact transaction_common_pTask _ _ _ _

theorem carries_toTargetList (k : Kernel) (t : Nat) (r : Option list_ref) :
    carries k (_schedule_transfer_toTargetList k t r) := by
  unfold _schedule_transfer_toTargetList
  cases r with
  | none => exact carries_refl k
  | some r => exact carries_transaction_specific k t r _

theorem carries_entry_trigger (cfg : Config) (k : Kernel) (t : Nat) (cb : Option callback)
    (res : Int) : carries k (schedule_entry_trigger cfg k t cb res).1 :=
  ⟨fun hl => linked_entry_trigger cfg k t cb res hl, entry_trigger_pTask cfg k t cb res⟩

theorem carries_exit_trigger (cfg : Config) (k : Kernel) (t : Nat) (ctx : Option ctx_ref)
    (data : Option event_sch_t) (r : Option list_ref) (ms : Nat) (b : Bool) :
    carries k (schedule_exit_trigger cfg k t ctx data r ms b).1 := by
  unfold schedule_exit_trigger
  simp only
  refine carries_trans _ _ _ ?_ (carries_request cfg _)
  refine carries_trans _ _ _
    (carries_task_update k t (fun x => { x with pPendCtx := ctx, pPendData := data }) rfl) ?_
  cases b with
  | true =>
    simp only [if_true]
    exact carries_trans _ _ _
      (carries_task_update _ t (fun x => { x with expire := timeout_set cfg x.expire ms true }) rfl)
      (carries_toTargetList _ t r)
  | false =>
    simp only [Bool.false_eq_true, if_false]
    exact carries_trans _ _ _
      (carries_task_update _ t (fun x =>
        { x with exec := { x.exec with exit := { pToList := r, timeout_ms := ms } } }) rfl)
      (carries_transaction_specific _ t .exit _)

theorem carries_mutex_lock_routine (cfg : Config) (k : Kernel) (m : Nat) (res : Kernel × Int)
    (h : _mutex_lock_privilege_routine cfg k m = some res) : carries k res.1 := by
  unfold _mutex_lock_privilege_routine at h
  cases hp : k.pTask with
  | none => rw [hp] at h; exact Option.noConfusion h
  | some c =>
    rw [hp] at h
    simp only at h
    by_cases hlk : (k.mutexes m).locked = true
    · rw [if_pos hlk] at h
      cases hh : (k.mutexes m).pHoldTask with
      | none => rw [hh] at h; exact Option.noConfusion h
      | some hd =>
        rw [hh] at h
        simp only [Option.some.injEq] at h
        subst h
        refine carries_trans _ _ _ ?_ (carries_exit_trigger cfg _ c _ _ _ 0 true)
        split
        · exact carries_task_update k hd (fun x => { x with prior := (k.tasks c).prior }) rfl
        · exact carries_refl k
    · rw [if_neg hlk] at h
      simp only [Option.some.injEq] at h
      subst h
      exact carries_mutex_update k m _ (List.Sublist.refl _)

theorem carries_mutex_unlock_routine (cfg : Config) (k : Kernel) (m : Nat) (res : Kernel × Int)
    (h : _mutex_unlock_privilege_routine cfg k m = some res) : carries k res.1 := by
  unfold _mutex_unlock_privilege_routine at h
  simp only at h
  cases hh : (k.mutexes m).pHoldTask with
  | none => rw [hh] at h; exact Option.noConfusion h
  | some hd =>
    rw [hh] at h
    simp only at h
    have h1 : carries k (task_update k hd (fun x => { x with prior := (k.mutexes m).originalPriority })) :=
      carries_task_update k hd (fun x => { x with prior := (k.mutexes m).originalPriority }) rfl
    cases hq : list_head (k.mutexes m).q_list with
    | none =>
      rw [hq] at h
      simp only [Option.some.injEq] at h
      subst h
      exact carries_trans _ _ _ h1 (carries_mutex_update _ m _ (List.Sublist.refl _))
    | some w =>
      rw [hq] at h
      simp only [Option.some.injEq] at h
      subst h
      exact carries_trans _ _ _ h1
        (carries_trans _ _ _ (carries_mutex_update _ m _ (List.Sublist.refl _))
          (carries_entry_trigger cfg _ w none 0))

theorem carries_mutex_init_routine (cfg : Config) (k : Kernel) (pName : Nat) :
    carries k (_mutex_init_privilege_routine cfg k pName).1 := by
  unfold _mutex_init_privilege_routine
  split
  · exact carries_refl k
  · exact carries_mutex_update k _ _ (List.nil_sublist _)

theorem carries_event_init_routine (cfg : Config) (k : Kernel)
    (anyMask modeMask dirMask init pName : Nat) :
    carries k (_event_init_privilege_routine cfg k anyMask modeMask dirMask init pName).1 := by
  unfold _event_init_privilege_routine
  split
  · exact carries_refl k
  · exact carries_event_update k _ _ (List.nil_sublist _)

/-- A routine run through the privilege gate keeps what it keeps when it is
called directly. -/
theorem carries_privilege_invoke {α : Type} (err : α) (f : Kernel → Option (Kernel × α))
    (k : Kernel) (res : Kernel × α)
    (hf : ∀ K res0, f K = some res0 → carries K res0.1)
    (h : kernel_privilege_invoke err (some f) k = some res) : carries k res.1 := by
  obtain ⟨b', res0, hres0, hres⟩ := privilege_invoke_handler err f k res h
  rw [hres]
  exact carries_trans _ _ _ (carries_inInterrupt k true)
    (carries_trans _ _ _ (hf _ res0 hres0) (carries_inInterrupt res0.1 b'))

theorem carries_event_schedule (k : Kernel) (t : Nat) (ke : Kernel)
    (h : _event_schedule k t = some ke) : carries k ke := by
  obtain ⟨e1, e2, _, _, _, _, _, _, e9, e10⟩ := event_schedule_spec k t ke h
  refine ⟨fun hl => linked_of_frame k ke hl (fun r => by rw [e9 r]) ?_, e10⟩
  intro r u _
  by_cases hu : u = t
  · subst hu; exact e2
  · rw [e1 u hu]

theorem carries_schedule_entry_task (k : Kernel) (ms t : Nat) (k1 : Kernel)
    (h : _schedule_entry_task k ms t = some k1) : carries k k1 := by
  unfold _schedule_entry_task at h
  have htail : ∀ K : Kernel, carries K (_schedule_transfer_toPendList
      (task_update K t (fun x =>
        { x with pPendCtx := none,
                 exec := { x.exec with analyze := { x.exec.analyze with last_pend_ms := ms } } }))
      t) := by
    intro K
    exact carries_trans _ _ _
      (carries_task_update K t (fun x =>
        { x with pPendCtx := none,
                 exec := { x.exec with analyze := { x.exec.analyze with last_pend_ms := ms } } })
        rfl)
      (carries_transaction_specific _ t .pend _)
  cases hf : (k.tasks t).exec.entry.func with
  | none =>
    rw [hf] at h
    simp only [Option.map_some', Option.some.injEq] at h
    subst h
    exact htail k
  | some cb =>
    cases cb
    rw [hf] at h
    cases hes : _event_schedule k t with
    | none => rw [hes] at h; exact Option.noConfusion h
    | some ke =>
      rw [hes] at h
      simp only [Option.map_some', Option.some.injEq] at h
      subst h
      exact carries_trans _ _ _ (carries_event_schedule k t ke hes)
        (carries_trans _ _ _
          (carries_task_update ke t (fun x =>
            { x with exec := { x.exec with entry := { x.exec.entry with func := none } } }) rfl)
          (htail _))

theorem carries_schedule_entry_loop (ms : Nat) (l : List Nat) :
    ∀ (k k' : Kernel), _schedule_entry_loop ms l k = some k' → carries k k' := by
  induction l with
  | nil =>
    intro k k' h
    simp only [_schedule_entry_loop, Option.some.injEq] at h
    subst h
    exact carries_refl k
  | cons t rest ih =>
    intro k k' h
    simp only [_schedule_entry_loop] at h
    cases hstep : _schedule_entry_task k ms t with
    | none => rw [hstep] at h; exact Option.noConfusion h
    | some k1 =>
      rw [hstep] at h
      exact carries_trans _ _ _ (carries_schedule_entry_task k ms t k1 hstep) (ih k1 k' h)

theorem carries_schedule_exit_task (cfg : Config) (k : Kernel) (x : Nat) :
    carries k (_schedule_exit_task cfg k x) := by
  unfold _schedule_exit_task
  simp only
  have h1 : carries k (if (k.tasks x).exec.exit.timeout_ms ≠ 0 then
      task_update k x (fun y =>
        { y with expire := timeout_set cfg y.expire (k.tasks x).exec.exit.timeout_ms false })
    else k) := by
    split
    · exact carries_task_update k x (fun y =>
        { y with expire := timeout_set cfg y.expire (k.tasks x).exec.exit.timeout_ms false }) rfl
    · exact carries_refl k
  generalize (if (k.tasks x).exec.exit.timeout_ms ≠ 0 then
      task_update k x (fun y =>
        { y with expire := timeout_set cfg y.expire (k.tasks x).exec.exit.timeout_ms false })
    else k) = K1 at h1 ⊢
  refine carries_trans _ _ _ h1 ?_
  cases (k.tasks x).exec.exit.pToList with
  | none =>
    simp only
    refine carries_trans _ _ _ (carries_toNullList K1 x) ?_
    refine carries_trans _ _ _
      (carries_task_update _ x (fun _ => schedule_task.zero) ?_)
      (carries_task_update _ x (fun y =>
        { y with exec := { y.exec with exit := { pToList := none, timeout_ms := 0 },
                                       entry := { y.exec.entry with result := cfg.PC_EOR_KERNEL } } })
        rfl)
    unfold _schedule_transfer_toNullList
    rw [transaction_common_tasks, Function.update_same]
    rfl
  | some r =>
    simp only
    exact carries_trans _ _ _ (carries_toTargetList K1 x (some r))
      (carries_task_update _ x (fun y =>
        { y with exec := { y.exec with exit := { pToList := none, timeout_ms := 0 },
                                       entry := { y.exec.entry with result := cfg.PC_EOR_KERNEL } } })
        rfl)

theorem carries_schedule_exit (cfg : Config) (l : List Nat) :
    ∀ k : Kernel, carries k (l.foldl (_schedule_exit_task cfg) k) := by
  induction l with
  | nil => intro k; exact carries_refl k
  | cons x rest ih =>
    intro k
    exact carries_trans _ _ _ (carries_schedule_exit_task cfg k x) (ih _)

theorem carries_time_analyze (k : Kernel) (a b ms : Nat) :
    carries k (_schedule_time_analyze k a b ms) := by
  refine ⟨fun hl => linked_of_frame k _ hl (fun r => by rw [list_get_time_analyze]) ?_, rfl⟩
  intro r u _
  exact time_analyze_proj (fun y => y.linker) (fun _ _ => rfl) (fun _ _ => rfl) (fun _ _ => rfl)
    k a b ms u

/-- The pend-switch keeps the lists in agreement with the linkers, and a task is
running afterwards when one was running before. -/
theorem linked_pendsv (cfg : Config) (k : Kernel) (ms : Nat) (res : Kernel × Nat × Nat)
    (h : kernel_scheduler_inPendSV_c cfg k ms = some res) :
    (linked k → linked res.1) ∧ ∃ c, res.1.pTask = some c := by
  unfold kernel_scheduler_inPendSV_c at h
  cases hk1 : _schedule_entry (_schedule_exit cfg k ms) ms with
  | none => rw [hk1] at h; exact Option.noConfusion h
  | some k1 =>
    rw [hk1] at h
    simp only at h
    have hc1 : carries k k1 :=
      carries_trans _ _ _ (carries_schedule_exit cfg k.sch_exit_list k)
        (carries_schedule_entry_loop ms _ _ k1 hk1)
    by_cases hp : _schedule_can_preempt cfg k1 k1.pTask = true
    · rw [if_pos hp] at h
      cases hc : k1.pTask with
      | none => rw [hc] at h; exact Option.noConfusion h
      | some c =>
        cases hn : _schedule_nextTaskGet k1 with
        | none => rw [hc, hn] at h; exact Option.noConfusion h
        | some n =>
          rw [hc, hn] at h
          simp only [Option.some.injEq] at h
          subst h
          refine ⟨fun hl => ?_, n, rfl⟩
          have hl2 := (carries_time_analyze k1 c n ms).1 (hc1.1 hl)
          exact linked_of_frame _ _ hl2 (fun r => by rw [list_get_switch]) (fun _ _ _ => rfl)
    · rw [if_neg hp] at h
      cases hc : k1.pTask with
      | none => rw [hc] at h; exact Option.noConfusion h
      | some c =>
        rw [hc] at h
        simp only [Option.some.injEq] at h
        subst h
        exact ⟨hc1.1, c, hc⟩

theorem carries_event_set_waiters (cfg : Config) (val trigger : Nat) (l : List Nat) :
    ∀ (k : Kernel) (reported : Nat) (postcode : Int) (k1 : Kernel),
      ((∃ pc, _event_set_waiters cfg val trigger l k reported postcode = .returned k1 pc)
        ∨ (∃ rep pc, _event_set_waiters cfg val trigger l k reported postcode
            = .finished k1 rep pc)) → carries k k1 := by
  induction l with
  | nil =>
    intro k reported postcode k1 h
    simp only [_event_set_waiters] at h
    rcases h with ⟨pc, h⟩ | ⟨rep, pc, h⟩
    · exact event_set_loop.noConfusion h
    · injection h with h1 _ _
      subst h1
      exact carries_refl k
  | cons t rest ih =>
    intro k reported postcode k1 h
    unfold _event_set_waiters at h
    cases hd : (k.tasks t).pPendData with
    | none =>
      rw [hd] at h
      simp only at h
      rcases h with ⟨pc, h⟩ | ⟨rep, pc, h⟩
      · injection h with h1 _
        subst h1
        exact carries_refl k
      · exact event_set_loop.noConfusion h
    | some sche =>
      rw [hd] at h
      simp only at h
      by_cases hrep : trigger &&& sche.listen ≠ 0
      · rw [if_pos hrep] at h
        have hstep : carries k (schedule_entry_trigger cfg
            (task_update k t (fun x =>
              { x with pPendData := some { sche with
                  pEvtVal := { value := val, trigger := trigger } } }))
            t (some .event_schedule) 0).1 :=
          carries_trans _ _ _
            (carries_task_update k t (fun x =>
              { x with pPendData := some { sche with
                  pEvtVal := { value := val, trigger := trigger } } }) rfl)
            (carries_entry_trigger cfg _ t (some .event_schedule) 0)
        by_cases hpc : cfg.PC_ERROR (schedule_entry_trigger cfg
            (task_update k t (fun x =>
              { x with pPendData := some { sche with
                  pEvtVal := { value := val, trigger := trigger } } }))
            t (some .event_schedule) 0).2 = true
        · rw [if_pos hpc] at h
          rcases h with ⟨pc, h⟩ | ⟨rep, pc, h⟩
          · exact event_set_loop.noConfusion h
          · injection h with h1 _ _
            subst h1
            exact hstep
        · rw [if_neg hpc] at h
          exact carries_trans _ _ _ hstep (ih _ _ _ k1 h)
      · rw [if_neg hrep] at h
        exact ih k reported postcode k1 h

theorem carries_event_set_routine (cfg : Config) (k : Kernel) (e set clear toggle : Nat) :
    carries k (_event_set_privilege_routine cfg k e set clear toggle).1 := by
  unfold _event_set_privilege_routine
  simp only
  cases hW : _event_set_waiters cfg (_event_set_value (k.events e) set clear toggle)
    (_event_set_trigger (k.events e) set clear toggle) (k.events e).q_list k 0 0 with
  | returned k1 pc =>
    simp only
    exact carries_event_set_waiters cfg _ _ _ k 0 0 k1 (Or.inl ⟨pc, hW⟩)
  | finished k1 rep pc =>
    simp only
    exact carries_trans _ _ _
      (carries_event_set_waiters cfg _ _ _ k 0 0 k1 (Or.inr ⟨rep, pc, hW⟩))
      (carries_event_update k1 e (fun x =>
        { x with triggered := not32 rep &&& _event_set_trigger (k.events e) set clear toggle,
                 value := _event_set_value (k.events e) set clear toggle })
        (List.Sublist.refl _))

theorem carries_event_wait_routine (cfg : Config) (k : Kernel) (e : Nat) (sch : event_sch_t)
    (timeout_ms : Nat) (res : Kernel × evt_val × Int)
    (h : _event_wait_privilege_routine cfg k e sch timeout_ms = some res) : carries k res.1 := by
  unfold _event_wait_privilege_routine at h
  simp only at h
  split at h
  · simp only [Option.some.injEq] at h
    subst h
    exact carries_event_update k e _ (List.Sublist.refl _)
  · cases hp : k.pTask with
    | none => rw [hp] at h; exact Option.noConfusion h
    | some c =>
      rw [hp] at h
      simp only [Option.some.injEq] at h
      subst h
      exact carries_exit_trigger cfg k c _ _ _ timeout_ms true

theorem carries_result_take (cfg : Config) (k : Kernel) (res : Kernel × Int)
    (h : kernel_schedule_result_take cfg k = some res) : carries k res.1 := by
  unfold kernel_schedule_result_take at h
  cases hp : k.pTask with
  | none => rw [hp] at h; exact Option.noConfusion h
  | some c =>
    rw [hp] at h
    simp only [Option.some.injEq] at h
    subst h
    exact carries_task_update k c (fun x =>
      { x with exec := { x.exec with
          entry := { x.exec.entry with result := cfg.PC_EOR_KERNEL } } }) rfl

theorem carries_impl_mutex_init (cfg : Config) (k : Kernel) (pName : Nat)
    (res : Kernel × Option Nat) (h : _impl_mutex_init cfg k pName = some res) :
    carries k res.1 := by
  unfold _impl_mutex_init at h
  refine carries_privilege_invoke _ _ k res ?_ h
  intro K res0 h0
  simp only [Option.some.injEq] at h0
  subst h0
  exact carries_mutex_init_routine cfg K pName

theorem carries_impl_mutex_lock (cfg : Config) (k : Kernel) (m : Nat) (res : Kernel × Int)
    (h : _impl_mutex_lock cfg k m = some res) : carries k res.1 := by
  unfold _impl_mutex_lock at h
  split at h
  · simp only [Option.some.injEq] at h; subst h; exact carries_refl k
  · split at h
    · simp only [Option.some.injEq] at h; subst h; exact carries_refl k
    · split at h
      · simp only [Option.some.injEq] at h; subst h; exact carries_refl k
      · exact carries_privilege_invoke _ _ k res
          (fun K res0 h0 => carries_mutex_lock_routine cfg K m res0 h0) h

theorem carries_impl_mutex_unlock (cfg : Config) (k : Kernel) (m : Nat) (res : Kernel × Int)
    (h : _impl_mutex_unlock cfg k m = some res) : carries k res.1 := by
  unfold _impl_mutex_unlock at h
  split at h
  · simp only [Option.some.injEq] at h; subst h; exact carries_refl k
  · split at h
    · simp only [Option.some.injEq] at h; subst h; exact carries_refl k
    · exact carries_privilege_invoke _ _ k res
        (fun K res0 h0 => carries_mutex_unlock_routine cfg K m res0 h0) h

theorem carries_impl_event_init (cfg : Config) (k : Kernel)
    (anyMask modeMask dirMask init pName : Nat) (res : Kernel × Option Nat)
    (h : _impl_event_init cfg k anyMask modeMask dirMask init pName = some res) :
    carries k res.1 := by
  unfold _impl_event_init at h
  refine carries_privilege_invoke _ _ k res ?_ h
  intro K res0 h0
  simp only [Option.some.injEq] at h0
  subst h0
  exact carries_event_init_routine cfg K anyMask modeMask dirMask init pName

theorem carries_impl_event_set (cfg : Config) (k : Kernel) (e set clear toggle : Nat)
    (res : Kernel × Int) (h : _impl_event_set cfg k e set clear toggle = some res) :
    carries k res.1 := by
  unfold _impl_event_set at h
  split at h
  · simp only [Option.some.injEq] at h; subst h; exact carries_refl k
  · split at h
    · simp only [Option.some.injEq] at h; subst h; exact carries_refl k
    · refine carries_privilege_invoke _ _ k res ?_ h
      intro K res0 h0
      simp only [Option.some.injEq] at h0
      subst h0
      exact carries_event_set_routine cfg K e set clear toggle

theorem carries_impl_event_wait_invoke (cfg : Config) (k : Kernel) (e : Nat)
    (pEvtData : Option evt_val) (listen_mask timeout_ms : Nat)
    (res : Kernel × Option evt_val × Int)
    (h : _impl_event_wait_invoke cfg k e pEvtData listen_mask timeout_ms = some res) :
    carries k res.1 := by
  unfold _impl_event_wait_invoke at h
  split at h
  · simp only [Option.some.injEq] at h; subst h; exact carries_refl k
  · split at h
    · simp only [Option.some.injEq] at h; subst h; exact carries_refl k
    · cases pEvtData with
      | none => simp only [Option.some.injEq] at h; subst h; exact carries_refl k
      | some d =>
        simp only at h
        split at h
        · simp only [Option.some.injEq] at h; subst h; exact carries_refl k
        · split at h
          · simp only [Option.some.injEq] at h; subst h; exact carries_refl k
          · obtain ⟨res0, h0, hres⟩ := Option.map_eq_some'.mp h
            subst hres
            exact carries_privilege_invoke _ _ k res0
              (fun K r0 hr0 => carries_event_wait_routine cfg K e _ timeout_ms r0 hr0) h0

/-- Every step of the kernel keeps the lists in agreement with the linkers and
leaves a task running when one was running. -/
theorem linked_step (cfg : Config) (k k' : Kernel) (a : action) (h : step cfg k a = some k') :
    (linked k → linked k') ∧ (k.pTask ≠ none → k'.pTask ≠ none) := by
  have hcar : ∀ K : Kernel, carries k K → (linked k → linked K) ∧ (k.pTask ≠ none → K.pTask ≠ none) :=
    fun K hc => ⟨hc.1, fun hp => by rw [hc.2]; exact hp⟩
  cases a with
  | mutex_init pName =>
    obtain ⟨res, h0, hres⟩ := Option.map_eq_some'.mp h
    subst hres
    exact hcar _ (carries_impl_mutex_init cfg k pName res h0)
  | mutex_lock m =>
    obtain ⟨res, h0, hres⟩ := Option.map_eq_some'.mp h
    subst hres
    exact hcar _ (carries_impl_mutex_lock cfg k m res h0)
  | mutex_unlock m =>
    obtain ⟨res, h0, hres⟩ := Option.map_eq_some'.mp h
    subst hres
    exact hcar _ (carries_impl_mutex_unlock cfg k m res h0)
  | pendsv ms =>
    obtain ⟨res, h0, hres⟩ := Option.map_eq_some'.mp h
    subst hres
    obtain ⟨h1, c, hc⟩ := linked_pendsv cfg k ms res h0
    exact ⟨h1, fun _ => by rw [hc]; simp⟩
  | timeout t =>
    simp only [step, Option.some.injEq] at h
    subst h
    exact hcar _ (carries_entry_trigger cfg k t none cfg.PC_OS_WAIT_TIMEOUT)
  | dispatch t =>
    simp only [step, Option.some.injEq] at h
    subst h
    refine ⟨fun hl => linked_of_frame k _ hl (fun r => ?_) (fun _ _ _ => rfl), fun _ => ?_⟩
    · cases r <;> exact List.Sublist.refl _
    · simp [with_pTask]
  | irq b =>
    simp only [step, Option.some.injEq] at h
    subst h
    exact hcar _ (carries_inInterrupt k b)

/-- Every step of the kernel with the event calls keeps the lists in agreement
with the linkers and leaves a task running when one was running. -/
theorem linked_event_step (cfg : Config) (k k' : Kernel) (a : event_action)
    (h : event_step cfg k a = some k') :
    (linked k → linked k') ∧ (k.pTask ≠ none → k'.pTask ≠ none) := by
  have hcar : ∀ K : Kernel, carries k K → (linked k → linked K) ∧ (k.pTask ≠ none → K.pTask ≠ none) :=
    fun K hc => ⟨hc.1, fun hp => by rw [hc.2]; exact hp⟩
  cases a with
  | kernel a => exact linked_step cfg k k' a h
  | event_init anyMask modeMask dirMask init pName =>
    obtain ⟨res, h0, hres⟩ := Option.map_eq_some'.mp h
    subst hres
    exact hcar _ (carries_impl_event_init cfg k anyMask modeMask dirMask init pName res h0)
  | event_set e set clear toggle =>
    obtain ⟨res, h0, hres⟩ := Option.map_eq_some'.mp h
    subst hres
    exact hcar _ (carries_impl_event_set cfg k e set clear toggle res h0)
  | event_wait e pEvtData listen_mask timeout_ms =>
    obtain ⟨res, h0, hres⟩ := Option.map_eq_some'.mp h
    subst hres
    exact hcar _ (carries_impl_event_wait_invoke cfg k e pEvtData listen_mask timeout_ms res h0)
  | result_take =>
    obtain ⟨res, h0, hres⟩ := Option.map_eq_some'.mp h
    subst hres
    exact hcar _ (carries_result_take cfg k res h0)

theorem linked_event_run (cfg : Config) (acts : List event_action) :
    ∀ (k0 k : Kernel), linked k0 → k0.pTask ≠ none → event_run cfg k0 acts = some k →
      linked k ∧ k.pTask ≠ none := by
  induction acts with
  | nil =>
    intro k0 k hl hp h
    simp only [event_run, Option.some.injEq] at h
    subst h
    exact ⟨hl, hp⟩
  | cons a rest ih =>
    intro k0 k hl hp h
    simp only [event_run] at h
    cases hs : event_step cfg k0 a with
    | none => rw [hs] at h; exact Option.noConfusion h
    | some k1 =>
      rw [hs] at h
      obtain ⟨h1, h2⟩ := linked_event_step cfg k0 k1 a hs
      exact ih k1 k (h1 hl) (h2 hp) h

/-- In a state whose lists agree with the linkers no task stands in two lists. -/
theorem linked_one_list (k : Kernel) (hl : linked k) (t : Nat) (r r' : list_ref)
    (h : t ∈ list_get k r) (h' : t ∈ list_get k r') : r = r' := by
  have h1 := hl.2 r t h
  rw [hl.2 r' t h'] at h1
  exact (Option.some.inj h1).symm

theorem linked_boot (k : Kernel) (h : boot k) : linked k := (event_inv_boot k h).1

/-- C27: one running task, one list per task.  In every state reached from a
start-up state with a running task by mutex create, lock and unlock, event
create, set and wait, the taking of a result, the timeout callback, the
pend-switch and changes of the running task and of the CPU mode, there is
exactly one running task, no list holds a task twice and no task stands in two
lists (ready list, a wait queue of a mutex or an event, entry list, exit list,
wait list).  Every one of these steps keeps that: from any state in which the
lists agree with the linkers and a task is running, the step leads to a state
of the same kind. -/
theorem one_list_per_task (cfg : Config) (k0 k : Kernel) (acts : List event_action)
    (h0 : boot k0) (hrun0 : k0.pTask ≠ none) (hrun : event_run cfg k0 acts = some k) :
    (∃! c, k.pTask = some c)
      ∧ (∀ r, (list_get k r).Nodup)
      ∧ (∀ t r r', t ∈ list_get k r → t ∈ list_get k r' → r = r')
      ∧ (∀ (k1 k2 : Kernel) (a : event_action), linked k1 → k1.pTask ≠ none →
          event_step cfg k1 a = some k2 →
          linked k2 ∧ (∃! c, k2.pTask = some c)
            ∧ (∀ r, (list_get k2 r).Nodup)
            ∧ (∀ t r r', t ∈ list_get k2 r → t ∈ list_get k2 r' → r = r')) := by
  have hone : ∀ K : Kernel, K.pTask ≠ none → ∃! c, K.pTask = some c := by
    intro K hK
    cases hp : K.pTask with
    | none => exact absurd hp hK
    | some c => exact ⟨c, rfl, fun y hy => (Option.some.inj hy).symm⟩
  obtain ⟨hl, hp⟩ := linked_event_run cfg acts k0 k (linked_boot k0 h0) hrun0 hrun
  refine ⟨hone k hp, hl.1, linked_one_list k hl, ?_⟩
  intro k1 k2 a hl1 hp1 hs
  obtain ⟨h1, h2⟩ := linked_event_step cfg k1 k2 a hs
  exact ⟨h1 hl1, hone k2 (h2 hp1), (h1 hl1).1, linked_one_list k2 (h1 hl1)⟩

/-- C27, witness: from the start state, an event is created and task 0 waits on
it with nothing to report, which queues it on the event. -/
theorem one_list_per_task_witness :
    ∃ k, event_run sample_cfg sample_init
          [.event_init 0 15 15 0 0, .event_wait 0 (some ⟨0, 0⟩) 1 5] = some k
      ∧ (∃! c, k.pTask = some c)
      ∧ (∀ r, (list_get k r).Nodup)
      ∧ (∀ t r r', t ∈ list_get k r → t ∈ list_get k r' → r = r') := by
  have hsome : (event_run sample_cfg sample_init
      [.event_init 0 15 15 0 0, .event_wait 0 (some ⟨0, 0⟩) 1 5]).isSome = true := by decide
  obtain ⟨k, h⟩ := Option.isSome_iff_exists.mp hsome
  have hw := one_list_per_task sample_cfg sample_init k _ boot_sample_init (by decide) h
  exact ⟨k, h, hw.1, hw.2.1, hw.2.2.1⟩

/-! ### The trigger word of event set and the mode mask -/

/-- C37: the trigger word computed by event set does not depend on the mode
mask.  Two events that differ only in the mode mask obtain the same trigger
word, and this word is `(changed & any) | (changed & ~any & ~(new ^ dir)) |
triggered`, where `new` is the value after clear, set and toggle, `changed` is
`new ^ value` and `~` is the complement on 32 bits. -/
theorem event_set_trigger_formula (ev : event_context_t) (m set clear toggle : Nat) :
    _event_set_trigger { ev with modeMask := m } set clear toggle
        = _event_set_trigger ev set clear toggle
      ∧ _event_set_trigger ev set clear toggle
        = ((_event_set_value ev set clear toggle ^^^ ev.value) &&& ev.anyMask)
          ||| ((_event_set_value ev set clear toggle ^^^ ev.value) &&& not32 ev.anyMask
                &&& not32 (_event_set_value ev set clear toggle ^^^ ev.dirMask))
          ||| ev.triggered := by
  constructor
  · apply Nat.eq_of_testBit_eq
    intro i
    rw [Bool.eq_iff_iff, event_set_trigger_testBit, event_set_trigger_testBit,
      event_trigger_bits_testBit, event_trigger_bits_testBit]
    rfl
  · apply Nat.eq_of_testBit_eq
    intro i
    rw [Bool.eq_iff_iff, event_set_trigger_testBit, event_trigger_bits_testBit]
    simp only [Nat.testBit_or, Nat.testBit_and, Nat.testBit_xor, testBit_not32]
    by_cases hi : i < 32
    · cases (_event_set_value ev set clear toggle).testBit i <;> cases ev.value.testBit i <;>
        cases ev.anyMask.testBit i <;> cases ev.dirMask.testBit i <;>
        cases ev.triggered.testBit i <;> simp [hi]
    · cases (_event_set_value ev set clear toggle).testBit i <;> cases ev.value.testBit i <;>
        cases ev.anyMask.testBit i <;> cases ev.dirMask.testBit i <;>
        cases ev.triggered.testBit i <;> simp [hi]

/-! ### Unlock of a mutex that nobody holds -/

/-- C39: unlocking a valid, initialised mutex that has no holder does not
return: `_mutex_unlock_privilege_routine` takes the holder pointer of the mutex
and writes the recorded priority through it before any test, so with the null
holder of an unlocked mutex the write goes through a null pointer, whatever the
CPU mode of the caller and whatever the wait queue holds. -/
theorem mutex_unlock_unheld (cfg : Config) (k : Kernel) (m : Nat)
    (hvalid : m < cfg.MUTEX_INSTANCE_SUPPORTED_NUMBER) (hinit : (k.mutexes m).cs = true)
    (hnone : (k.mutexes m).pHoldTask = none) :
    _mutex_unlock_privilege_routine cfg k m = none ∧ _impl_mutex_unlock cfg k m = none := by
  have hr : ∀ k0 : Kernel, (k0.mutexes m).pHoldTask = none →
      _mutex_unlock_privilege_routine cfg k0 m = none := by
    intro k0 h0
    simp [_mutex_unlock_privilege_routine, h0]
  refine ⟨hr k hnone, ?_⟩
  unfold _impl_mutex_unlock
  have h1 : _mutex_context_isInvalid cfg m = false := by simp [_mutex_context_isInvalid, hvalid]
  have h2 : _mutex_context_isInit k m = true := hinit
  simp only [h1, h2, Bool.false_eq_true, if_false, Bool.not_true]
  by_cases hi : k.inInterrupt = true
  · simp [kernel_privilege_invoke, hi, hr k hnone]
  · have hi' : k.inInterrupt = false := by simpa using hi
    rw [privilege_invoke_thread _ _ _ hi', hr { k with inInterrupt := true } hnone]
    rfl

/-- C39, witness: mutex 0 of the sample state is initialised, not locked and has
no holder; the unlock call on it yields no result.  The same happens from the
start state through the public calls: mutex 0 is created, which succeeds, and
the unlock that follows yields no result. -/
theorem mutex_unlock_unheld_witness :
    ((sample_kernel.mutexes 0).cs, (sample_kernel.mutexes 0).locked,
        (sample_kernel.mutexes 0).pHoldTask) = (true, false, none)
      ∧ (_mutex_unlock_privilege_routine sample_cfg sample_kernel 0 = none
        ∧ _impl_mutex_unlock sample_cfg sample_kernel 0 = none)
      ∧ (run sample_cfg sample_init [.mutex_init 0]).map
          (fun s => ((s.mutexes 0).cs, (s.mutexes 0).locked, (s.mutexes 0).pHoldTask))
          = some (true, false, none)
      ∧ (run sample_cfg sample_init [.mutex_init 0, .mutex_unlock 0]).isNone = true :=
  ⟨rfl, mutex_unlock_unheld sample_cfg sample_kernel 0 (by decide) rfl rfl, by decide, by decide⟩

/-! ### The privilege gate -/

/-- C35: the privilege gate.  With a null routine the gate returns the error
value and leaves the state alone.  Otherwise it agrees with the gate of the
spec: in privileged context the result and the state are those of the routine
called directly; from thread context they are those of the trap handler run in
handler mode with the kernel-invoke number, the CPU being back in thread mode.
The handler writes a result into the first slot of the stacked frame exactly
when the trap number is the kernel-invoke number and the routine returns, and
with another number it leaves the state and the slot alone. -/
theorem privilege_gate_equivalence {α : Type} (cfg : Config) (err : α)
    (fn : Kernel → Option (Kernel × α)) (k : Kernel) (n : Nat) :
    kernel_privilege_invoke err none k = some (k, err)
      ∧ kernel_privilege_invoke err (some fn) k = spec_privilege_invoke fn k
      ∧ kernel_privilege_invoke err (some fn) { k with inInterrupt := true }
          = fn { k with inInterrupt := true }
      ∧ kernel_privilege_invoke err (some fn) { k with inInterrupt := false }
          = (kernel_privilege_call_inSVC_c cfg cfg.SVC_KERNEL_INVOKE_NUMBER fn
              { k with inInterrupt := true }).bind
              (fun res => res.2.map (fun r => ({ res.1 with inInterrupt := false }, r)))
      ∧ kernel_privilege_call_inSVC_c cfg cfg.SVC_KERNEL_INVOKE_NUMBER fn k
          = (fn k).map (fun res => (res.1, some res.2))
      ∧ ((∃ k' r, kernel_privilege_call_inSVC_c cfg n fn k = some (k', some r))
          ↔ n = cfg.SVC_KERNEL_INVOKE_NUMBER ∧ (fn k).isSome = true)
      ∧ (kernel_privilege_call_inSVC_c cfg n fn k = some (k, none)
          ↔ n ≠ cfg.SVC_KERNEL_INVOKE_NUMBER) := by
  have hsvc : kernel_privilege_call_inSVC_c cfg cfg.SVC_KERNEL_INVOKE_NUMBER fn
      { k with inInterrupt := true }
        = (fn { k with inInterrupt := true }).map (fun res => (res.1, some res.2)) := by
    simp [kernel_privilege_call_inSVC_c]
  refine ⟨rfl, ?_, ?_, ?_, ?_, ?_, ?_⟩
  · unfold spec_privilege_invoke
    by_cases hi : k.inInterrupt = true
    · simp [kernel_privilege_invoke, hi]
    · have hi' : k.inInterrupt = false := by simpa using hi
      rw [privilege_invoke_thread err fn k hi']
      simp [hi']
  · simp [kernel_privilege_invoke]
  · rw [privilege_invoke_thread err fn { k with inInterrupt := false } rfl, hsvc]
    cases fn { k with inInterrupt := true } <;> rfl
  · simp [kernel_privilege_call_inSVC_c]
  · unfold kernel_privilege_call_inSVC_c
    by_cases hn : n = cfg.SVC_KERNEL_INVOKE_NUMBER
    · rw [if_pos hn]
      cases hf : fn k with
      | none => simp
      | some res => simp [hn]
    · rw [if_neg hn]
      simp [hn]
  · unfold kernel_privilege_call_inSVC_c
    by_cases hn : n = cfg.SVC_KERNEL_INVOKE_NUMBER
    · rw [if_pos hn]
      cases hf : fn k with
      | none => simp [hn]
      | some res => simp [hn]
    · rw [if_neg hn]
      simp [hn]

/-! ### Lock by the holder -/

/-- C40: the mutex is not recursive.  When the running task, in thread mode,
calls lock on a valid, initialised mutex that it holds itself, the call returns
0 and the task is inserted into the wait queue of that very mutex: it is in the
queue, its linker and its pending context record the mutex, while the mutex
stays locked with the task as holder and the same recorded original priority,
and no priority (so not that of the task either) and no other list changes. -/
theorem mutex_lock_by_holder (cfg : Config) (k : Kernel) (m c : Nat)
    (hvalid : m < cfg.MUTEX_INSTANCE_SUPPORTED_NUMBER) (hinit : (k.mutexes m).cs = true)
    (hthread : k.inInterrupt = false) (hrun : k.pTask = some c)
    (hlocked : (k.mutexes m).locked = true) (hhold : (k.mutexes m).pHoldTask = some c) :
    ∃ k', _impl_mutex_lock cfg k m = some (k', 0)
      ∧ c ∈ (k'.mutexes m).q_list
      ∧ (k'.mutexes m).q_list
          = sorted_insert (fun cur new => decide ((k.tasks new).prior < (k.tasks cur).prior)) c
              (if (k.tasks c).linker.pList = some (.mutex m) then (k.mutexes m).q_list.erase c
               else (k.mutexes m).q_list)
      ∧ (k'.tasks c).linker.pList = some (.mutex m)
      ∧ (k'.tasks c).pPendCtx = some (.mutex m)
      ∧ (k'.mutexes m).locked = true
      ∧ (k'.mutexes m).pHoldTask = some c
      ∧ (k'.mutexes m).originalPriority = (k.mutexes m).originalPriority
      ∧ (∀ t, (k'.tasks t).prior = (k.tasks t).prior)
      ∧ k'.pTask = some c := by
  unfold _impl_mutex_lock
  have h1 : _mutex_context_isInvalid cfg m = false := by simp [_mutex_context_isInvalid, hvalid]
  have h2 : _mutex_context_isInit k m = true := hinit
  have h3 : kernel_isInThreadMode k = true := by simp [kernel_isInThreadMode, hthread]
  simp only [h1, h2, h3, Bool.false_eq_true, if_false, Bool.not_true]
  rw [privilege_invoke_thread _ _ _ hthread]
  have heq : _mutex_lock_privilege_routine cfg { k with inInterrupt := true } m
      = some (schedule_exit_trigger cfg { k with inInterrupt := true } c (some (.mutex m)) none
          (some (.mutex m)) 0 true) := by
    simp [_mutex_lock_privilege_routine, hrun, hlocked, hhold]
  rw [heq]
  have hsnd := exit_trigger_snd cfg { k with inInterrupt := true } c (some (.mutex m)) none
    (.mutex m) 0 rfl
  have hT := exit_trigger_target cfg { k with inInterrupt := true } c (some (.mutex m)) none
    (.mutex m) 0
  have hS := exit_trigger_task_self cfg { k with inInterrupt := true } c (some (.mutex m)) none
    (.mutex m) 0
  have hC := exit_trigger_mutex_core cfg { k with inInterrupt := true } c (some (.mutex m)) none
    (.mutex m) 0 m
  have hP := exit_trigger_prior cfg { k with inInterrupt := true } c (some (.mutex m)) none
    (.mutex m) 0
  have hR := exit_trigger_pTask cfg { k with inInterrupt := true } c (some (.mutex m)) none
    (.mutex m) 0
  have hcore : mutex_core (((schedule_exit_trigger cfg { k with inInterrupt := true } c
      (some (.mutex m)) none (some (.mutex m)) 0 true).1).mutexes m)
        = (true, true, some c, (k.mutexes m).originalPriority) := by
    rw [hC]
    show ((k.mutexes m).cs, (k.mutexes m).locked, (k.mutexes m).pHoldTask,
      (k.mutexes m).originalPriority) = _
    rw [hinit, hlocked, hhold]
  simp only [mutex_core, Prod.mk.injEq] at hcore
  refine ⟨{ (schedule_exit_trigger cfg { k with inInterrupt := true } c (some (.mutex m)) none
      (some (.mutex m)) 0 true).1 with inInterrupt := false }, ?_, ?_, hT, ?_, ?_, hcore.2.1,
    hcore.2.2.1, hcore.2.2.2, ?_, ?_⟩
  · simp only [Option.map_some']
    rw [hsnd]
  · show c ∈ list_get (schedule_exit_trigger cfg { k with inInterrupt := true } c
      (some (.mutex m)) none (some (.mutex m)) 0 true).1 (.mutex m)
    rw [hT]
    exact mem_sorted_insert _ _ _
  · show ((((schedule_exit_trigger cfg { k with inInterrupt := true } c
      (some (.mutex m)) none (some (.mutex m)) 0 true).1).tasks c).linker.pList) = _
    rw [hS]
  · show ((((schedule_exit_trigger cfg { k with inInterrupt := true } c
      (some (.mutex m)) none (some (.mutex m)) 0 true).1).tasks c).pPendCtx) = _
    rw [hS]
  · intro t
    show ((((schedule_exit_trigger cfg { k with inInterrupt := true } c
      (some (.mutex m)) none (some (.mutex m)) 0 true).1).tasks t).prior) = _
    rw [hP]
  · show ((schedule_exit_trigger cfg { k with inInterrupt := true } c
      (some (.mutex m)) none (some (.mutex m)) 0 true).1).pTask = _
    rw [hR]
    exact hrun

/-- C40, witness: task 0 holds mutex 0, whose recorded original priority is 5,
and calls lock on it from thread mode. -/
theorem mutex_lock_by_holder_witness :
    ∃ k', _impl_mutex_lock sample_cfg sample_relock 0 = some (k', 0)
      ∧ (k'.mutexes 0).q_list = [0]
      ∧ (k'.tasks 0).linker.pList = some (.mutex 0)
      ∧ (k'.mutexes 0).pHoldTask = some 0
      ∧ (k'.mutexes 0).originalPriority = 5
      ∧ (k'.tasks 0).prior = 5 :=
  have h := mutex_lock_by_holder sample_cfg sample_relock 0 0 (by decide) rfl rfl rfl rfl rfl
  ⟨h.choose, h.choose_spec.1, h.choose_spec.2.2.1.trans (by decide), h.choose_spec.2.2.2.1,
    h.choose_spec.2.2.2.2.2.2.1, h.choose_spec.2.2.2.2.2.2.2.1,
    (h.choose_spec.2.2.2.2.2.2.2.2.1 0).trans rfl⟩

/-! ### When the preempt gate refuses -/

theorem can_preempt_loop_false_iff (cfg : Config) (k : Kernel) (c : Nat) (l : List Nat) :
    _schedule_can_preempt_loop cfg k (some c) l = false
      ↔ c ∈ l ∧ (k.tasks c).prior < 0
        ∧ ∀ x ∈ l.takeWhile (fun x => decide (x ≠ c)),
            (k.tasks x).prior < 0 ∧ (k.tasks x).prior ≠ cfg.OS_PRIOTITY_HIGHEST_LEVEL := by
  induction l with
  | nil => simp [_schedule_can_preempt_loop]
  | cons t rest ih =>
    unfold _schedule_can_preempt_loop
    by_cases hge : (k.tasks t).prior ≥ 0
    · rw [if_pos hge]
      constructor
      · intro h; exact absurd h (by simp)
      · rintro ⟨_, hneg, hpre⟩
        by_cases htc : t = c
        · subst htc; omega
        · have := (hpre t (by simp [List.takeWhile, htc])).1
          omega
    · rw [if_neg hge]
      by_cases htc : t = c
      · subst htc
        simp only [if_true, true_iff]
        refine ⟨List.mem_cons_self _ _, by omega, ?_⟩
        intro x hx
        simp [List.takeWhile] at hx
      · have hne : ¬ (some t = some c) := fun h => htc (Option.some.inj h)
        rw [if_neg hne]
        by_cases hhi : (k.tasks t).prior = cfg.OS_PRIOTITY_HIGHEST_LEVEL
        · rw [if_pos hhi]
          constructor
          · intro h; exact absurd h (by simp)
          · rintro ⟨_, _, hpre⟩
            exact absurd hhi (hpre t (by simp [List.takeWhile, htc])).2
        · rw [if_neg hhi, ih]
          have htw : (t :: rest).takeWhile (fun x => decide (x ≠ c))
              = t :: rest.takeWhile (fun x => decide (x ≠ c)) := by
            simp [List.takeWhile, htc]
          rw [htw]
          constructor
          · rintro ⟨hm, hneg, hpre⟩
            refine ⟨List.mem_cons_of_mem _ hm, hneg, ?_⟩
            intro x hx
            rcases List.mem_cons.mp hx with rfl | hx
            · exact ⟨by omega, hhi⟩
            · exact hpre x hx
          · rintro ⟨hm, hneg, hpre⟩
            refine ⟨?_, hneg, fun x hx => hpre x (List.mem_cons_of_mem _ hx)⟩
            rcases List.mem_cons.mp hm with h | h
            · exact absurd h.symm htc
            · exact h

theorem can_preempt_loop_null (cfg : Config) (k : Kernel) (l : List Nat) :
    _schedule_can_preempt_loop cfg k none l = true := by
  induction l with
  | nil => rfl
  | cons t rest ih =>
    unfold _schedule_can_preempt_loop
    simp [ih]

theorem takeWhile_ne_prefix (c : Nat) (pre post : List Nat) (h : c ∉ pre) :
    (pre ++ c :: post).takeWhile (fun x => decide (x ≠ c)) = pre := by
  induction pre with
  | nil => simp [List.takeWhile]
  | cons a rest ih =>
    have ha : a ≠ c := fun e => h (by simp [e])
    have hr : c ∉ rest := fun e => h (List.mem_cons_of_mem _ e)
    show (a :: (rest ++ c :: post)).takeWhile (fun x => decide (x ≠ c)) = a :: rest
    rw [List.takeWhile_cons_of_pos (by simp [ha]), ih hr]

/-- C33: `_schedule_can_preempt` returns false for the task `c` if and only if
`c` is in the ready list, the priority of `c` is negative, and every task before
`c` in the ready list has a negative priority other than the highest level.
Hence a task of non-negative priority, a task that is not in the ready list,
and a null current task are preemptible. -/
theorem can_preempt_false_iff (cfg : Config) (k : Kernel) (c : Nat) :
    (_schedule_can_preempt cfg k (some c) = false
      ↔ c ∈ k.sch_pend_list ∧ (k.tasks c).prior < 0
        ∧ ∀ x ∈ k.sch_pend_list.takeWhile (fun x => decide (x ≠ c)),
            (k.tasks x).prior < 0 ∧ (k.tasks x).prior ≠ cfg.OS_PRIOTITY_HIGHEST_LEVEL)
      ∧ (0 ≤ (k.tasks c).prior → _schedule_can_preempt cfg k (some c) = true)
      ∧ (c ∉ k.sch_pend_list → _schedule_can_preempt cfg k (some c) = true)
      ∧ _schedule_can_preempt cfg k none = true := by
  have hiff := can_preempt_loop_false_iff cfg k c k.sch_pend_list
  refine ⟨hiff, ?_, ?_, can_preempt_loop_null cfg k _⟩
  · intro hge
    cases hg : _schedule_can_preempt cfg k (some c) with
    | true => rfl
    | false =>
      have := (hiff.mp hg).2.1
      omega
  · intro hnot
    cases hg : _schedule_can_preempt cfg k (some c) with
    | true => rfl
    | false => exact absurd (hiff.mp hg).1 hnot

/-- C33, witness: in the sample state with the ready list [0, 1] of priorities
-5 and -1 the gate returns false for task 1, and in the sample state with the
non-negative priorities it returns true for the running task 0. -/
theorem can_preempt_false_iff_witness :
    _schedule_can_preempt sample_cfg sample_coop (some 1) = false
      ∧ _schedule_can_preempt sample_cfg sample_kernel (some 0) = true
      ∧ _schedule_can_preempt sample_cfg sample_coop (some 7) = true :=
  ⟨(can_preempt_false_iff sample_cfg sample_coop 1).1.mpr
      ⟨by decide, by decide, by decide⟩,
    (can_preempt_false_iff sample_cfg sample_kernel 0).2.1 (by decide),
    (can_preempt_false_iff sample_cfg sample_coop 7).2.2.1 (by decide)⟩

/-- C32 (amended): the preempt gate by the place of the current task `c` in the
ready list.  At the head of the list, `c` is kept exactly when its priority is
negative, whatever the priorities of the other ready tasks.  Behind the tasks
`pre`, `c` is kept exactly when its priority is negative and every task of
`pre` has a negative priority other than the highest level, also when these
priorities are better than its own.  Outside the ready list `c` is
preemptible. -/
theorem preempt_gate_by_place (cfg : Config) (k : Kernel) (c : Nat) :
    (k.sch_pend_list.head? = some c →
        (_schedule_can_preempt cfg k (some c) = false ↔ (k.tasks c).prior < 0))
      ∧ (∀ pre post, k.sch_pend_list = pre ++ c :: post → c ∉ pre →
          (_schedule_can_preempt cfg k (some c) = false
            ↔ (k.tasks c).prior < 0
              ∧ ∀ x ∈ pre, (k.tasks x).prior < 0
                  ∧ (k.tasks x).prior ≠ cfg.OS_PRIOTITY_HIGHEST_LEVEL))
      ∧ (c ∉ k.sch_pend_list → _schedule_can_preempt cfg k (some c) = true) := by
  have hiff := can_preempt_loop_false_iff cfg k c k.sch_pend_list
  have hplace : ∀ pre post, k.sch_pend_list = pre ++ c :: post → c ∉ pre →
      (_schedule_can_preempt cfg k (some c) = false
        ↔ (k.tasks c).prior < 0
          ∧ ∀ x ∈ pre, (k.tasks x).prior < 0
              ∧ (k.tasks x).prior ≠ cfg.OS_PRIOTITY_HIGHEST_LEVEL) := by
    intro pre post hlist hpre
    have htw := takeWhile_ne_prefix c pre post hpre
    rw [← hlist] at htw
    have hmem : c ∈ k.sch_pend_list := by rw [hlist]; simp
    unfold _schedule_can_preempt
    rw [hiff, htw]
    exact ⟨fun h => ⟨h.2.1, h.2.2⟩, fun h => ⟨hmem, h.1, h.2⟩⟩
  refine ⟨?_, hplace, ?_⟩
  · intro hhead
    cases hl : k.sch_pend_list with
    | nil => rw [hl] at hhead; exact Option.noConfusion hhead
    | cons a rest =>
      rw [hl] at hhead
      simp only [List.head?_cons, Option.some.injEq] at hhead
      subst hhead
      have := hplace [] rest (by rw [hl]; rfl) (List.not_mem_nil _)
      rw [this]
      exact ⟨fun h => h.1, fun h => ⟨h, fun x hx => absurd hx (List.not_mem_nil _)⟩⟩
  · intro hnot
    cases hg : _schedule_can_preempt cfg k (some c) with
    | true => rfl
    | false => exact absurd (hiff.mp hg).1 hnot

/-- C32, witness: task 1 of priority -1 stands behind task 0 of priority -5 in
the ready list and is kept; task 2 of priority 1 at the head of the ready list
[2, 1, 0] is preemptible. -/
theorem preempt_gate_by_place_witness :
    _schedule_can_preempt sample_cfg sample_coop (some 1) = false
      ∧ _schedule_can_preempt sample_cfg sample_kernel (some 2) = true :=
  ⟨((preempt_gate_by_place sample_cfg sample_coop 1).2.1 [0] [] rfl (by decide)).mpr
      ⟨by decide, by decide⟩,
    by
      have h := (preempt_gate_by_place sample_cfg sample_kernel 2).1 rfl
      cases hg : _schedule_can_preempt sample_cfg sample_kernel (some 2) with
      | true => rfl
      | false => exact absurd (h.mp hg) (by decide)⟩

/-- C32, counterexample: the ready list is [0, 1] with priorities -5 and -1 and
the current task is 1, so the current task is not at the head and a task of
better priority precedes it; the gate refuses all the same, and the pend-switch
keeps task 1 running and hands out task 1 twice.  Conversely, with the ready
list [2, 1, 0] of priorities 1, 3 and 5 and the current task 2 at its head with
a priority strictly better than the others, the gate allows the preemption. -/
theorem preempt_gate_by_place_counterexample :
    (sample_coop.sch_pend_list, sample_coop.pTask, (sample_coop.tasks 0).prior,
        (sample_coop.tasks 1).prior) = ([0, 1], some 1, -5, -1)
      ∧ _schedule_can_preempt sample_cfg sample_coop sample_coop.pTask = false
      ∧ (kernel_scheduler_inPendSV_c sample_cfg sample_coop 10).map
          (fun res => (res.1.pTask, res.2)) = some (some 1, 1, 1)
      ∧ (sample_kernel.sch_pend_list, (sample_kernel.tasks 2).prior,
          (sample_kernel.tasks 1).prior, (sample_kernel.tasks 0).prior) = ([2, 1, 0], 1, 3, 5)
      ∧ _schedule_can_preempt sample_cfg sample_kernel (some 2) = true := by
  decide

/-! ### Waiter records in reachable states -/

/-- C38: in every state reached from a start-up state by steps of the kernel
(event create, set, wait, timeout callback, pend-switch and the other calls),
every task in the wait queue of an event carries a waiter record whose listen
mask has no bit in common with the triggered latch of the event; and there the
waiter loop of event set, for every event and all arguments, runs to its end
and does not take the early return for a missing waiter record. -/
theorem event_waiters_have_records (cfg : Config) (hpc : cfg.PC_ERROR 0 = false)
    (k0 k : Kernel) (acts : List event_action) (h0 : boot k0)
    (hrun : event_run cfg k0 acts = some k) :
    (∀ e t, t ∈ (k.events e).q_list →
        ∃ d, (k.tasks t).pPendData = some d ∧ (k.events e).triggered &&& d.listen = 0)
      ∧ (∀ e set clear toggle, ∃ k1 reported postcode,
          _event_set_waiters cfg (_event_set_value (k.events e) set clear toggle)
            (_event_set_trigger (k.events e) set clear toggle) (k.events e).q_list k 0 0
              = .finished k1 reported postcode) := by
  obtain ⟨_, hw, _, _⟩ := event_run_inv cfg hpc acts k0 k (event_inv_boot k0 h0) hrun
  refine ⟨hw, ?_⟩
  intro e set clear toggle
  apply event_set_waiters_finished
  intro t ht
  obtain ⟨d, hd, _⟩ := hw e t ht
  rw [hd]
  exact Option.some_ne_none d

/-- C38, witness: from the start state an event is created and task 0 waits on
it with nothing to report, which queues it on the event with its record. -/
theorem event_waiters_have_records_witness :
    ∃ k, event_run sample_cfg sample_init
          [.event_init 0 15 15 0 0, .event_wait 0 (some ⟨0, 0⟩) 1 5] = some k
      ∧ (∀ e t, t ∈ (k.events e).q_list →
          ∃ d, (k.tasks t).pPendData = some d ∧ (k.events e).triggered &&& d.listen = 0)
      ∧ (∃ k1 reported postcode,
          _event_set_waiters sample_cfg (_event_set_value (k.events 0) 1 0 0)
            (_event_set_trigger (k.events 0) 1 0 0) (k.events 0).q_list k 0 0
              = .finished k1 reported postcode) := by
  have hsome : (event_run sample_cfg sample_init
      [.event_init 0 15 15 0 0, .event_wait 0 (some ⟨0, 0⟩) 1 5]).isSome = true := by decide
  obtain ⟨k, h⟩ := Option.isSome_iff_exists.mp hsome
  have hw := event_waiters_have_records sample_cfg (by decide) sample_init k _
    boot_sample_init h
  exact ⟨k, h, hw.1, hw.2 0 1 0 0⟩

/-! ### Selection of the next task -/

theorem time_analyze_from (k : Kernel) (a b ms : Nat) :
    ((_schedule_time_analyze k a b ms).tasks a).exec.analyze.last_run_ms
        = u32 (ms + (4294967296 - u32 (k.tasks a).exec.analyze.last_active_ms))
      ∧ ((_schedule_time_analyze k a b ms).tasks a).exec.analyze.total_run_ms
        = u32 ((k.tasks a).exec.analyze.total_run_ms
            + u32 (ms + (4294967296 - u32 (k.tasks a).exec.analyze.last_active_ms))) := by
  unfold _schedule_time_analyze
  by_cases h : a = b
  · subst h
    simp [task_update]
  · simp [task_update, Function.update_noteq h]

theorem time_analyze_to (k : Kernel) (a b ms : Nat) :
    ((_schedule_time_analyze k a b ms).tasks b).exec.analyze.last_active_ms = ms := by
  unfold _schedule_time_analyze
  simp [task_update]

theorem time_analyze_other (k : Kernel) (a b ms t : Nat) (ha : t ≠ a) (hb : t ≠ b) :
    (_schedule_time_analyze k a b ms).tasks t = k.tasks t := by
  unfold _schedule_time_analyze
  simp [task_update, Function.update_noteq ha, Function.update_noteq hb]

theorem time_analyze_from_active (k : Kernel) (a b ms : Nat) (h : b ≠ a) :
    ((_schedule_time_analyze k a b ms).tasks a).exec.analyze.last_active_ms
        = (k.tasks a).exec.analyze.last_active_ms := by
  unfold _schedule_time_analyze
  simp [task_update, Function.update_noteq h.symm]

theorem time_analyze_to_run (k : Kernel) (a b ms : Nat) (h : b ≠ a) :
    ((_schedule_time_analyze k a b ms).tasks b).exec.analyze.last_run_ms
        = (k.tasks b).exec.analyze.last_run_ms
      ∧ ((_schedule_time_analyze k a b ms).tasks b).exec.analyze.total_run_ms
        = (k.tasks b).exec.analyze.total_run_ms := by
  unfold _schedule_time_analyze
  simp [task_update, Function.update_noteq h]

theorem u32_elapsed (ms a : Nat) :
    u32 (ms + (4294967296 - u32 a)) < 4294967296
      ∧ (u32 (ms + (4294967296 - u32 a)) + a) % 4294967296 = ms % 4294967296 := by
  unfold u32
  omega

/-- C31: the selection of the pend-switch.  Let `k1` be the state after the two
drains and `c` its running task.  If the gate allows the preemption and `n` is
the head of the ready list, the pend-switch returns with the outputs `c` and
`n` and `n` is the running task; `last_run_ms` of `c` is the 32-bit difference
of the time `ms` of the switch and the `last_active_ms` of `c` and has been
added to `total_run_ms` of `c` (32-bit sum); `last_active_ms` of `n` is `ms`;
the other analytics of `c` and `n`, every other member of every task, the
lists, the mutexes and the events are as after the drains.  If the gate
refuses, the pend-switch returns the state after the drains unchanged and
both outputs are `c`. -/
theorem pendsv_selection (cfg : Config) (k : Kernel) (ms : Nat) (k1 : Kernel) (c : Nat)
    (hdrain : _schedule_entry (_schedule_exit cfg k ms) ms = some k1)
    (hcur : k1.pTask = some c) :
    (∀ n, _schedule_can_preempt cfg k1 (some c) = true → k1.sch_pend_list.head? = some n →
      ∃ k', kernel_scheduler_inPendSV_c cfg k ms = some (k', c, n)
        ∧ k'.pTask = some n ∧ k'.pendsv_ms = ms
        ∧ (k'.tasks c).exec.analyze.last_run_ms < 4294967296
        ∧ ((k'.tasks c).exec.analyze.last_run_ms + (k1.tasks c).exec.analyze.last_active_ms)
            % 4294967296 = ms % 4294967296
        ∧ (k'.tasks c).exec.analyze.total_run_ms
            = u32 ((k1.tasks c).exec.analyze.total_run_ms
                + (k'.tasks c).exec.analyze.last_run_ms)
        ∧ (k'.tasks n).exec.analyze.last_active_ms = ms
        ∧ (n ≠ c →
            (k'.tasks c).exec.analyze.last_active_ms = (k1.tasks c).exec.analyze.last_active_ms
            ∧ (k'.tasks n).exec.analyze.last_run_ms = (k1.tasks n).exec.analyze.last_run_ms
            ∧ (k'.tasks n).exec.analyze.total_run_ms = (k1.tasks n).exec.analyze.total_run_ms)
        ∧ (∀ t, t ≠ c → t ≠ n → k'.tasks t = k1.tasks t)
        ∧ (∀ t, ((k'.tasks t).prior, (k'.tasks t).linker, (k'.tasks t).pPendCtx,
              (k'.tasks t).pPendData, (k'.tasks t).expire, (k'.tasks t).exec.entry,
              (k'.tasks t).exec.exit, (k'.tasks t).exec.analyze.last_pend_ms)
            = ((k1.tasks t).prior, (k1.tasks t).linker, (k1.tasks t).pPendCtx,
              (k1.tasks t).pPendData, (k1.tasks t).expire, (k1.tasks t).exec.entry,
              (k1.tasks t).exec.exit, (k1.tasks t).exec.analyze.last_pend_ms))
        ∧ (∀ r, list_get k' r = list_get k1 r)
        ∧ k'.mutexes = k1.mutexes ∧ k'.events = k1.events)
      ∧ (_schedule_can_preempt cfg k1 (some c) = false →
          kernel_scheduler_inPendSV_c cfg k ms = some (k1, c, c)) := by
  constructor
  · intro n hgate hhead
    have hres : kernel_scheduler_inPendSV_c cfg k ms
        = some ({ _schedule_time_analyze k1 c n ms with pTask := some n, pendsv_ms := ms },
            c, n) := by
      unfold kernel_scheduler_inPendSV_c
      rw [hdrain]
      simp only [hcur, hgate, if_true, _schedule_nextTaskGet, hhead]
    have hfrom := time_analyze_from k1 c n ms
    have hel := u32_elapsed ms (k1.tasks c).exec.analyze.last_active_ms
    refine ⟨_, hres, rfl, rfl, ?_, ?_, ?_, ?_, ?_, ?_, ?_, ?_, rfl, rfl⟩
    · show ((_schedule_time_analyze k1 c n ms).tasks c).exec.analyze.last_run_ms < _
      rw [hfrom.1]; exact hel.1
    · show (((_schedule_time_analyze k1 c n ms).tasks c).exec.analyze.last_run_ms + _) % _ = _
      rw [hfrom.1]; exact hel.2
    · show ((_schedule_time_analyze k1 c n ms).tasks c).exec.analyze.total_run_ms
        = u32 (_ + ((_schedule_time_analyze k1 c n ms).tasks c).exec.analyze.last_run_ms)
      rw [hfrom.2, hfrom.1]
    · exact time_analyze_to k1 c n ms
    · intro hne
      exact ⟨time_analyze_from_active k1 c n ms hne, time_analyze_to_run k1 c n ms hne⟩
    · intro t h1 h2
      exact time_analyze_other k1 c n ms t h1 h2
    · intro t
      exact time_analyze_proj
        (fun y => (y.prior, y.linker, y.pPendCtx, y.pPendData, y.expire, y.exec.entry,
          y.exec.exit, y.exec.analyze.last_pend_ms))
        (fun _ _ => rfl) (fun _ _ => rfl) (fun _ _ => rfl) k1 c n ms t
    · intro r
      rw [list_get_switch, list_get_time_analyze]
  · intro hgate
    unfold kernel_scheduler_inPendSV_c
    rw [hdrain]
    simp only [hcur, hgate, Bool.false_eq_true, if_false]

/-- C31, witness: task 0 runs with `last_active_ms` 0, the ready list is [2, 0]
and task 1 of priority 3, whose deadline has expired, stands in the entry list;
the pend-switch at time 10 drains it into the ready list and switches from
task 0 to the head of the list, task 2. -/
theorem pendsv_selection_witness :
    ∃ k', kernel_scheduler_inPendSV_c sample_cfg
          (schedule_callback_fromTimeOut sample_cfg sample_event_kernel 1) 10 = some (k', 0, 2)
      ∧ k'.pTask = some 2
      ∧ (k'.tasks 0).exec.analyze.last_run_ms < 4294967296
      ∧ (k'.tasks 2).exec.analyze.last_active_ms = 10 := by
  have hsome : (_schedule_entry (_schedule_exit sample_cfg
      (schedule_callback_fromTimeOut sample_cfg sample_event_kernel 1) 10) 10).isSome = true := by
    decide
  obtain ⟨k1, h⟩ := Option.isSome_iff_exists.mp hsome
  have hfacts : (_schedule_entry (_schedule_exit sample_cfg
      (schedule_callback_fromTimeOut sample_cfg sample_event_kernel 1) 10) 10).map
        (fun s => (s.pTask, s.sch_pend_list.head?, _schedule_can_preempt sample_cfg s (some 0)))
      = some (some 0, some 2, true) := by decide
  rw [h] at hfacts
  simp only [Option.map_some', Option.some.injEq, Prod.mk.injEq] at hfacts
  obtain ⟨k', hk, hp, _, hlt, _, _, hact, _⟩ :=
    (pendsv_selection sample_cfg _ 10 k1 0 h hfacts.1).1 2 hfacts.2.2 hfacts.2.1
  exact ⟨k', hk, hp, hlt, hact⟩

/-! ### A deadline that expires next to a wake-up -/

theorem timeout_after_wake (cfg : Config) (k : Kernel) (t : Nat) (cb : Option callback)
    (res : Int) :
    ((schedule_callback_fromTimeOut cfg (schedule_entry_trigger cfg k t cb res).1 t).tasks t)
        = { k.tasks t with
            exec := { (k.tasks t).exec with
              entry := { result := cfg.PC_OS_WAIT_TIMEOUT, func := none } },
            linker := { pList := some .entry } }
      ∧ (∀ u, u ≠ t →
          (schedule_callback_fromTimeOut cfg (schedule_entry_trigger cfg k t cb res).1 t).tasks u
            = k.tasks u)
      ∧ t ∈ (schedule_callback_fromTimeOut cfg
          (schedule_entry_trigger cfg k t cb res).1 t).sch_entry_list
      ∧ (linked k → linked (schedule_callback_fromTimeOut cfg
          (schedule_entry_trigger cfg k t cb res).1 t)) := by
  unfold schedule_callback_fromTimeOut
  refine ⟨?_, ?_, ?_, ?_⟩
  · rw [entry_trigger_task_self, entry_trigger_task_self]
  · intro u hu
    rw [entry_trigger_task_other _ _ _ _ _ u hu, entry_trigger_task_other _ _ _ _ _ u hu]
  · show t ∈ list_get (schedule_entry_trigger cfg (schedule_entry_trigger cfg k t cb res).1 t
      none cfg.PC_OS_WAIT_TIMEOUT).1 .entry
    rw [entry_trigger_entry_list]
    simp
  · intro hl
    exact linked_entry_trigger cfg _ t none _ (linked_entry_trigger cfg k t cb res hl)

theorem event_set_waiters_frame (cfg : Config) (val trigger : Nat) (t : Nat) (l : List Nat) :
    ∀ (k : Kernel) (reported : Nat) (postcode : Int) (k1 : Kernel), t ∉ l →
      ((∃ pc, _event_set_waiters cfg val trigger l k reported postcode = .returned k1 pc)
        ∨ (∃ rep pc, _event_set_waiters cfg val trigger l k reported postcode
            = .finished k1 rep pc)) →
      k1.tasks t = k.tasks t ∧ (t ∈ k.sch_entry_list → t ∈ k1.sch_entry_list) := by
  induction l with
  | nil =>
    intro k reported postcode k1 _ h
    simp only [_event_set_waiters] at h
    rcases h with ⟨pc, h⟩ | ⟨rep, pc, h⟩
    · exact event_set_loop.noConfusion h
    · injection h with h1 _ _
      subst h1
      exact ⟨rfl, id⟩
  | cons w rest ih =>
    intro k reported postcode k1 hnot h
    have hwt : t ≠ w := fun e => hnot (by simp [e])
    have hrest : t ∉ rest := fun e => hnot (List.mem_cons_of_mem _ e)
    unfold _event_set_waiters at h
    cases hd : (k.tasks w).pPendData with
    | none =>
      rw [hd] at h
      simp only at h
      rcases h with ⟨pc, h⟩ | ⟨rep, pc, h⟩
      · injection h with h1 _
        subst h1
        exact ⟨rfl, id⟩
      · exact event_set_loop.noConfusion h
    | some sche =>
      rw [hd] at h
      simp only at h
      by_cases hrep : trigger &&& sche.listen ≠ 0
      · rw [if_pos hrep] at h
        have hstep : ((schedule_entry_trigger cfg
            (task_update k w (fun x =>
              { x with pPendData := some { sche with
                  pEvtVal := { value := val, trigger := trigger } } }))
            w (some .event_schedule) 0).1).tasks t = k.tasks t
            ∧ (t ∈ k.sch_entry_list → t ∈ ((schedule_entry_trigger cfg
            (task_update k w (fun x =>
              { x with pPendData := some { sche with
                  pEvtVal := { value := val, trigger := trigger } } }))
            w (some .event_schedule) 0).1).sch_entry_list) := by
          constructor
          · rw [entry_trigger_task_other _ _ _ _ _ t hwt, task_update_other _ _ _ _ hwt]
          · intro hin
            show t ∈ list_get (schedule_entry_trigger cfg _ w (some .event_schedule) 0).1 .entry
            rw [entry_trigger_entry_list]
            apply List.mem_append_left
            have hin' : t ∈ list_get (task_update k w (fun x =>
                { x with pPendData := some { sche with
                    pEvtVal := { value := val, trigger := trigger } } })) .entry := by
              rw [list_get_task_update]; exact hin
            split
            · exact (List.mem_erase_of_ne hwt).mpr hin'
            · exact hin'
        by_cases hpc : cfg.PC_ERROR (schedule_entry_trigger cfg
            (task_update k w (fun x =>
              { x with pPendData := some { sche with
                  pEvtVal := { value := val, trigger := trigger } } }))
            w (some .event_schedule) 0).2 = true
        · rw [if_pos hpc] at h
          rcases h with ⟨pc, h⟩ | ⟨rep, pc, h⟩
          · exact event_set_loop.noConfusion h
          · injection h with h1 _ _
            subst h1
            exact hstep
        · rw [if_neg hpc] at h
          obtain ⟨h1, h2⟩ := ih _ _ _ k1 hrest h
          exact ⟨h1.trans hstep.1, fun hin => h2 (hstep.2 hin)⟩
      · rw [if_neg hrep] at h
        exact ih k reported postcode k1 hrest h

theorem event_set_routine_frame (cfg : Config) (k : Kernel) (e set clear toggle t : Nat)
    (ht : t ∉ (k.events e).q_list) :
    (_event_set_privilege_routine cfg k e set clear toggle).1.tasks t = k.tasks t
      ∧ (t ∈ k.sch_entry_list →
          t ∈ (_event_set_privilege_routine cfg k e set clear toggle).1.sch_entry_list) := by
  unfold _event_set_privilege_routine
  simp only
  cases hW : _event_set_waiters cfg (_event_set_value (k.events e) set clear toggle)
    (_event_set_trigger (k.events e) set clear toggle) (k.events e).q_list k 0 0 with
  | returned k1 pc =>
    simp only
    exact event_set_waiters_frame cfg _ _ t _ k 0 0 k1 ht (Or.inl ⟨pc, hW⟩)
  | finished k1 rep pc =>
    simp only
    exact event_set_waiters_frame cfg _ _ t _ k 0 0 k1 ht (Or.inr ⟨rep, pc, hW⟩)

theorem mutex_unlock_routine_frame (cfg : Config) (k : Kernel) (m t : Nat)
    (res : Kernel × Int) (ht : t ∉ (k.mutexes m).q_list)
    (h : _mutex_unlock_privilege_routine cfg k m = some res) :
    (res.1.tasks t).exec.entry = (k.tasks t).exec.entry
      ∧ (t ∈ k.sch_entry_list → t ∈ res.1.sch_entry_list) := by
  unfold _mutex_unlock_privilege_routine at h
  simp only at h
  cases hh : (k.mutexes m).pHoldTask with
  | none => rw [hh] at h; exact Option.noConfusion h
  | some hold =>
    rw [hh] at h
    simp only at h
    have hentry : ((task_update k hold
        (fun x => { x with prior := (k.mutexes m).originalPriority })).tasks t).exec.entry
          = (k.tasks t).exec.entry := by
      by_cases hth : t = hold
      · subst hth; rw [task_update_self]
      · rw [task_update_other _ _ _ _ hth]
    cases hq : (k.mutexes m).q_list with
    | nil =>
      rw [hq] at h
      simp only [list_head, List.head?_nil, Option.some.injEq] at h
      subst h
      exact ⟨hentry, id⟩
    | cons w rest =>
      rw [hq] at h
      simp only [list_head, List.head?_cons, Option.some.injEq] at h
      subst h
      have hwt : t ≠ w := fun e => ht (by rw [hq, e]; exact List.mem_cons_self _ _)
      constructor
      · rw [entry_trigger_task_other _ _ _ _ _ t hwt]
        exact hentry
      · intro hin
        show t ∈ list_get (schedule_entry_trigger cfg _ w none 0).1 .entry
        rw [entry_trigger_entry_list]
        apply List.mem_append_left
        split
        · exact (List.mem_erase_of_ne hwt).mpr hin
        · exact hin

/-- C34 (amended): a deadline that expires next to a wake-up, in a state whose
lists agree with the linkers.  In both orders the task stands once in the entry
list.  When the deadline callback runs after the task was staged for wake-up
with any callback and result, the entry record of the task holds the timeout
result and no callback: the later staging replaces the earlier one, while the
rest of the task is as the wake-up left it.  When the deadline callback runs
first, a later event set on any event, or a later unlock of any mutex, does not
find the task in its wait queue and leaves the entry record of the task, the
timeout result without callback, as it is; event set changes nothing of the
task. -/
theorem timeout_wake_race (cfg : Config) (k : Kernel) (t : Nat) (hl : linked k) :
    (∀ cb res,
        ((schedule_callback_fromTimeOut cfg (schedule_entry_trigger cfg k t cb res).1 t).tasks
            t).exec.entry = { result := cfg.PC_OS_WAIT_TIMEOUT, func := none }
        ∧ (schedule_callback_fromTimeOut cfg
            (schedule_entry_trigger cfg k t cb res).1 t).sch_entry_list.count t = 1
        ∧ ((schedule_callback_fromTimeOut cfg (schedule_entry_trigger cfg k t cb res).1 t).tasks
            t).pPendData = (k.tasks t).pPendData
        ∧ ((schedule_callback_fromTimeOut cfg (schedule_entry_trigger cfg k t cb res).1 t).tasks
            t).expire = (k.tasks t).expire)
      ∧ ((schedule_callback_fromTimeOut cfg k t).tasks t).exec.entry
          = { result := cfg.PC_OS_WAIT_TIMEOUT, func := none }
      ∧ (schedule_callback_fromTimeOut cfg k t).sch_entry_list.count t = 1
      ∧ (∀ e set clear toggle,
          t ∉ ((schedule_callback_fromTimeOut cfg k t).events e).q_list
          ∧ (_event_set_privilege_routine cfg (schedule_callback_fromTimeOut cfg k t) e set clear
              toggle).1.tasks t = (schedule_callback_fromTimeOut cfg k t).tasks t
          ∧ (_event_set_privilege_routine cfg (schedule_callback_fromTimeOut cfg k t) e set clear
              toggle).1.sch_entry_list.count t = 1)
      ∧ (∀ m res,
          _mutex_unlock_privilege_routine cfg (schedule_callback_fromTimeOut cfg k t) m
            = some res →
          t ∉ ((schedule_callback_fromTimeOut cfg k t).mutexes m).q_list
          ∧ (res.1.tasks t).exec.entry = { result := cfg.PC_OS_WAIT_TIMEOUT, func := none }
          ∧ t ∈ res.1.sch_entry_list) := by
  have hk1l : linked (schedule_callback_fromTimeOut cfg k t) :=
    linked_entry_trigger cfg k t none _ hl
  have hk1self : (schedule_callback_fromTimeOut cfg k t).tasks t
      = { k.tasks t with
          exec := { (k.tasks t).exec with
            entry := { result := cfg.PC_OS_WAIT_TIMEOUT, func := none } },
          linker := { pList := some .entry } } := by
    unfold schedule_callback_fromTimeOut
    rw [entry_trigger_task_self]
  have hk1mem : t ∈ (schedule_callback_fromTimeOut cfg k t).sch_entry_list := by
    show t ∈ list_get (schedule_entry_trigger cfg k t none cfg.PC_OS_WAIT_TIMEOUT).1 .entry
    rw [entry_trigger_entry_list]
    simp
  have hk1entry : ((schedule_callback_fromTimeOut cfg k t).tasks t).exec.entry
      = { result := cfg.PC_OS_WAIT_TIMEOUT, func := none } := by
    rw [hk1self]
  have hout : ∀ r, r ≠ .entry → t ∉ list_get (schedule_callback_fromTimeOut cfg k t) r := by
    intro r hr hin
    have h1 := hk1l.2 r t hin
    rw [hk1self] at h1
    exact hr (Option.some.inj h1).symm
  refine ⟨?_, hk1entry, List.count_eq_one_of_mem (hk1l.1 .entry) hk1mem, ?_, ?_⟩
  · intro cb res
    obtain ⟨h1, _, h3, h4⟩ := timeout_after_wake cfg k t cb res
    refine ⟨?_, List.count_eq_one_of_mem ((h4 hl).1 .entry) h3, ?_, ?_⟩
    · rw [h1]
    · rw [h1]
    · rw [h1]
  · intro e set clear toggle
    have hnot : t ∉ ((schedule_callback_fromTimeOut cfg k t).events e).q_list :=
      hout (.event e) (by simp)
    obtain ⟨h1, h2⟩ := event_set_routine_frame cfg (schedule_callback_fromTimeOut cfg k t) e set
      clear toggle t hnot
    have hl2 := (carries_event_set_routine cfg (schedule_callback_fromTimeOut cfg k t) e set
      clear toggle).1 hk1l
    exact ⟨hnot, h1, List.count_eq_one_of_mem (hl2.1 .entry) (h2 hk1mem)⟩
  · intro m res hres
    have hnot : t ∉ ((schedule_callback_fromTimeOut cfg k t).mutexes m).q_list :=
      hout (.mutex m) (by simp)
    obtain ⟨h1, h2⟩ := mutex_unlock_routine_frame cfg (schedule_callback_fromTimeOut cfg k t) m t
      res hnot hres
    exact ⟨hnot, h1.trans hk1entry, h2 hk1mem⟩

/-- C34, witness: task 1 waits on event 0 with a deadline; it is staged for
wake-up with the callback of the event and result 0, and then its deadline
callback runs. -/
theorem timeout_wake_race_witness :
    ((schedule_callback_fromTimeOut sample_cfg
        (schedule_entry_trigger sample_cfg sample_event_kernel 1 (some .event_schedule) 0).1
        1).tasks 1).exec.entry = { result := 1, func := none }
      ∧ (schedule_callback_fromTimeOut sample_cfg
          (schedule_entry_trigger sample_cfg sample_event_kernel 1 (some .event_schedule) 0).1
          1).sch_entry_list.count 1 = 1 :=
  have h := (timeout_wake_race sample_cfg sample_event_kernel 1 linked_sample_event_kernel).1
    (some .event_schedule) 0
  ⟨h.1, h.2.1⟩

/-- C34, counterexample: task 1 waits on the edge-mode event 0 with listen mask
1.  Event set with set bits 1 stages it first, with result 0 and the callback
of the event, writes the trigger word 1 into its waiter record and leaves the
latch empty; then the deadline callback of task 1 runs, before the pend-switch.
The task stands once in the entry list, but its entry record now holds the
timeout result 1 and no callback, and after the pend-switch at time 10 the
result of the task is the timeout result: the staging that came later is the
one delivered. -/
theorem timeout_wake_race_counterexample :
    (((_event_set_privilege_routine sample_cfg sample_event_kernel 0 1 0 0).1.tasks 1).exec.entry,
        (_event_set_privilege_routine sample_cfg sample_event_kernel 0 1 0 0).1.sch_entry_list,
        (((_event_set_privilege_routine sample_cfg sample_event_kernel 0 1 0 0).1.tasks
          1).pPendData.map (fun d => d.pEvtVal.trigger)),
        ((_event_set_privilege_routine sample_cfg sample_event_kernel 0 1 0 0).1.events
          0).triggered)
        = ({ result := 0, func := some .event_schedule }, [1], some 1, 0)
      ∧ (((schedule_callback_fromTimeOut sample_cfg
            (_event_set_privilege_routine sample_cfg sample_event_kernel 0 1 0 0).1 1).tasks
              1).exec.entry,
          (schedule_callback_fromTimeOut sample_cfg
            (_event_set_privilege_routine sample_cfg sample_event_kernel 0 1 0 0).1
              1).sch_entry_list)
        = ({ result := 1, func := none }, [1])
      ∧ (kernel_scheduler_inPendSV_c sample_cfg
          (schedule_callback_fromTimeOut sample_cfg
            (_event_set_privilege_routine sample_cfg sample_event_kernel 0 1 0 0).1 1) 10).map
          (fun res => ((res.1.tasks 1).exec.entry.result, res.1.sch_entry_list,
            res.1.sch_pend_list)) = some (1, [], [2, 1, 0])
      ∧ sample_cfg.PC_OS_WAIT_TIMEOUT = 1 := by
  decide

/-! ### The drains keep the lists in priority order -/

theorem sorted_kept_refl (k : Kernel) : sorted_kept k k := fun _ _ h => h

theorem sorted_kept_trans (k1 k2 k3 : Kernel) (h1 : sorted_kept k1 k2) (h2 : sorted_kept k2 k3) :
    sorted_kept k1 k3 :=
  fun r hr h => h2 r hr (h1 r hr h)

/-- No list gains a task and the priorities of the listed tasks stay. -/
theorem prior_sorted_of_frame (k k' : Kernel) (r : list_ref)
    (hlist : (list_get k' r).Sublist (list_get k r))
    (hprior : ∀ t ∈ list_get k' r, (k'.tasks t).prior = (k.tasks t).prior)
    (h : prior_sorted k r) : prior_sorted k' r := by
  unfold prior_sorted at h ⊢
  refine (h.sublist hlist).imp_of_mem ?_
  intro a b ha hb hab
  rw [hprior a ha, hprior b hb]
  exact hab

theorem sorted_kept_task_update (k : Kernel) (t : Nat) (f : schedule_task → schedule_task)
    (hf : (f (k.tasks t)).prior = (k.tasks t).prior) : sorted_kept k (task_update k t f) := by
  intro r _ h
  apply prior_sorted_of_frame k _ r _ _ h
  · rw [list_get_task_update]
  · intro u _
    by_cases hu : u = t
    · subst hu; rw [task_update_self]; exact hf
    · rw [task_update_other _ _ _ _ hu]

theorem sorted_kept_request (cfg : Config) (k : Kernel) :
    sorted_kept k (kernel_thread_schedule_request cfg k).1 := by
  intro r _ h
  apply prior_sorted_of_frame k _ r _ _ h
  · rw [schedule_request_list_get]
  · intro u _
    rw [schedule_request_tasks]

/-- The sorted insert of a list transaction with the comparison function of the
scheduler: every list in priority order stays in priority order. -/
theorem prior_sorted_transaction_specific (k : Kernel) (t : Nat) (r r' : list_ref)
    (h : prior_sorted k r') :
    prior_sorted
      (linker_list_transaction_specific k t r _schedule_priority_node_order_compare_condition)
      r' := by
  have hprior : ∀ x, ((linker_list_transaction_specific k t r
      _schedule_priority_node_order_compare_condition).tasks x).prior = (k.tasks x).prior :=
    fun x => transaction_specific_prior k t r _ x
  have hsub : (list_get (linker_unlink k t) r').Sublist (list_get k r') := by
    rw [linker_unlink_list_get]
    split
    · exact List.erase_sublist _ _
    · exact List.Sublist.refl _
  by_cases hr : r' = r
  · subst hr
    unfold prior_sorted at h ⊢
    simp only [hprior]
    rw [transaction_specific_target, compare_condition_prior]
    have htasks : (linker_unlink k t).tasks = k.tasks := linker_unlink_tasks k t
    rw [htasks]
    obtain ⟨pre, post, _, h2, _, _, h5⟩ :=
      sorted_insert_asc (fun u => (k.tasks u).prior) t _ (h.sublist hsub)
    rw [h2]; exact h5
  · apply prior_sorted_of_frame k _ r' _ _ h
    · rw [transaction_specific_other _ _ _ _ _ hr]
      exact hsub
    · intro u _
      exact hprior u

theorem sorted_kept_transaction_specific (k : Kernel) (t : Nat) (r : list_ref) :
    sorted_kept k
      (linker_list_transaction_specific k t r _schedule_priority_node_order_compare_condition) :=
  fun r' _ h => prior_sorted_transaction_specific k t r r' h

theorem sorted_kept_toTargetList (k : Kernel) (t : Nat) (r : Option list_ref) :
    sorted_kept k (_schedule_transfer_toTargetList k t r) := by
  unfold _schedule_transfer_toTargetList
  cases r with
  | none => exact sorted_kept_refl k
  | some r => exact sorted_kept_transaction_specific k t r

theorem sorted_kept_toNullList (k : Kernel) (x : Nat) :
    sorted_kept k (_schedule_transfer_toNullList k x) := by
  intro r _ h
  apply prior_sorted_of_frame k _ r _ _ h
  · rw [list_get_transfer_toNullList]
    split
    · exact List.erase_sublist _ _
    · exact List.Sublist.refl _
  · intro u _
    unfold _schedule_transfer_toNullList
    rw [transaction_common_tasks]
    by_cases hu : u = x
    · subst hu; rw [Function.update_same]
    · rw [Function.update_noteq hu]

theorem sorted_kept_event_schedule (k : Kernel) (t : Nat) (ke : Kernel)
    (h : _event_schedule k t = some ke) : sorted_kept k ke := by
  obtain ⟨e1, _, _, _, _, e6, _, _, e9, _⟩ := event_schedule_spec k t ke h
  intro r _ hs
  apply prior_sorted_of_frame k ke r _ _ hs
  · rw [e9 r]
  · intro u _
    by_cases hu : u = t
    · subst hu; exact e6
    · rw [e1 u hu]

theorem sorted_kept_schedule_entry_task (k : Kernel) (ms t : Nat) (k1 : Kernel)
    (h : _schedule_entry_task k ms t = some k1) : sorted_kept k k1 := by
  unfold _schedule_entry_task at h
  have htail : ∀ K : Kernel, sorted_kept K (_schedule_transfer_toPendList
      (task_update K t (fun x =>
        { x with pPendCtx := none,
                 exec := { x.exec with analyze := { x.exec.analyze with last_pend_ms := ms } } }))
      t) := by
    intro K
    exact sorted_kept_trans _ _ _
      (sorted_kept_task_update K t (fun x =>
        { x with pPendCtx := none,
                 exec := { x.exec with analyze := { x.exec.analyze with last_pend_ms := ms } } })
        rfl)
      (sorted_kept_transaction_specific _ t .pend)
  cases hf : (k.tasks t).exec.entry.func with
  | none =>
    rw [hf] at h
    simp only [Option.map_some', Option.some.injEq] at h
    subst h
    exact htail k
  | some cb =>
    cases cb
    rw [hf] at h
    cases hes : _event_schedule k t with
    | none => rw [hes] at h; exact Option.noConfusion h
    | some ke =>
      rw [hes] at h
      simp only [Option.map_some', Option.some.injEq] at h
      subst h
      exact sorted_kept_trans _ _ _ (sorted_kept_event_schedule k t ke hes)
        (sorted_kept_trans _ _ _
          (sorted_kept_task_update ke t (fun x =>
            { x with exec := { x.exec with entry := { x.exec.entry with func := none } } }) rfl)
          (htail _))

theorem sorted_kept_schedule_entry_loop (ms : Nat) (l : List Nat) :
    ∀ (k k' : Kernel), _schedule_entry_loop ms l k = some k' → sorted_kept k k' := by
  induction l with
  | nil =>
    intro k k' h
    simp only [_schedule_entry_loop, Option.some.injEq] at h
    subst h
    exact sorted_kept_refl k
  | cons t rest ih =>
    intro k k' h
    simp only [_schedule_entry_loop] at h
    cases hstep : _schedule_entry_task k ms t with
    | none => rw [hstep] at h; exact Option.noConfusion h
    | some k1 =>
      rw [hstep] at h
      exact sorted_kept_trans _ _ _ (sorted_kept_schedule_entry_task k ms t k1 hstep) (ih k1 k' h)

/-- A task that has left every list may get any priority. -/
theorem sorted_kept_detached (k : Kernel) (x : Nat) (f : schedule_task → schedule_task)
    (hout : ∀ r, x ∉ list_get k r) : sorted_kept k (task_update k x f) := by
  intro r _ h
  apply prior_sorted_of_frame k _ r _ _ h
  · rw [list_get_task_update]
  · intro u hu
    rw [list_get_task_update] at hu
    have hux : u ≠ x := fun e => hout r (e ▸ hu)
    rw [task_update_other _ _ _ _ hux]

theorem toNullList_detached (k : Kernel) (x : Nat) (hl : linked k) :
    ∀ r, x ∉ list_get (_schedule_transfer_toNullList k x) r := by
  intro r hx
  rw [list_get_transfer_toNullList, linked_erase_eq k hl] at hx
  exact (List.Nodup.mem_erase_iff (hl.1 r)).mp hx |>.1 rfl

theorem sorted_kept_schedule_exit_task (cfg : Config) (k : Kernel) (x : Nat) (hl : linked k) :
    sorted_kept k (_schedule_exit_task cfg k x) := by
  unfold _schedule_exit_task
  simp only
  have h1 : sorted_kept k (if (k.tasks x).exec.exit.timeout_ms ≠ 0 then
      task_update k x (fun y =>
        { y with expire := timeout_set cfg y.expire (k.tasks x).exec.exit.timeout_ms false })
    else k) ∧ linked (if (k.tasks x).exec.exit.timeout_ms ≠ 0 then
      task_update k x (fun y =>
        { y with expire := timeout_set cfg y.expire (k.tasks x).exec.exit.timeout_ms false })
    else k) := by
    split
    · exact ⟨sorted_kept_task_update k x (fun y =>
        { y with expire := timeout_set cfg y.expire (k.tasks x).exec.exit.timeout_ms false }) rfl,
        (carries_task_update k x (fun y =>
        { y with expire := timeout_set cfg y.expire (k.tasks x).exec.exit.timeout_ms false })
          rfl).1 hl⟩
    · exact ⟨sorted_kept_refl k, hl⟩
  generalize (if (k.tasks x).exec.exit.timeout_ms ≠ 0 then
      task_update k x (fun y =>
        { y with expire := timeout_set cfg y.expire (k.tasks x).exec.exit.timeout_ms false })
    else k) = K1 at h1 ⊢
  obtain ⟨h1, hl1⟩ := h1
  refine sorted_kept_trans _ _ _ h1 ?_
  cases (k.tasks x).exec.exit.pToList with
  | none =>
    simp only
    refine sorted_kept_trans _ _ _ (sorted_kept_toNullList K1 x) ?_
    have hout := toNullList_detached K1 x hl1
    refine sorted_kept_trans _ _ _
      (sorted_kept_detached _ x (fun _ => schedule_task.zero) hout)
      (sorted_kept_task_update _ x (fun y =>
        { y with exec := { y.exec with exit := { pToList := none, timeout_ms := 0 },
                                       entry := { y.exec.entry with result := cfg.PC_EOR_KERNEL } } })
        rfl)
  | some r =>
    simp only
    exact sorted_kept_trans _ _ _ (sorted_kept_toTargetList K1 x (some r))
      (sorted_kept_task_update _ x (fun y =>
        { y with exec := { y.exec with exit := { pToList := none, timeout_ms := 0 },
                                       entry := { y.exec.entry with result := cfg.PC_EOR_KERNEL } } })
        rfl)

theorem sorted_kept_schedule_exit (cfg : Config) (l : List Nat) :
    ∀ k : Kernel, linked k → sorted_kept k (l.foldl (_schedule_exit_task cfg) k) := by
  induction l with
  | nil => intro k _; exact sorted_kept_refl k
  | cons x rest ih =>
    intro k hl
    exact sorted_kept_trans _ _ _ (sorted_kept_schedule_exit_task cfg k x hl)
      (ih _ ((carries_schedule_exit_task cfg k x).1 hl))

theorem sorted_kept_time_analyze (k : Kernel) (a b ms : Nat) :
    sorted_kept k (_schedule_time_analyze k a b ms) := by
  intro r _ h
  apply prior_sorted_of_frame k _ r _ _ h
  · rw [list_get_time_analyze]
  · intro u _
    exact time_analyze_proj (fun y => y.prior) (fun _ _ => rfl) (fun _ _ => rfl) (fun _ _ => rfl)
      k a b ms u

/-- The pend-switch keeps every list other than the entry list in priority
order. -/
theorem pendsv_sorted_kept (cfg : Config) (k : Kernel) (ms : Nat) (res : Kernel × Nat × Nat)
    (hl : linked k) (h : kernel_scheduler_inPendSV_c cfg k ms = some res) :
    sorted_kept k res.1 := by
  unfold kernel_scheduler_inPendSV_c at h
  cases hk1 : _schedule_entry (_schedule_exit cfg k ms) ms with
  | none => rw [hk1] at h; exact Option.noConfusion h
  | some k1 =>
    rw [hk1] at h
    simp only at h
    have hc1 : sorted_kept k k1 :=
      sorted_kept_trans _ _ _ (sorted_kept_schedule_exit cfg k.sch_exit_list k hl)
        (sorted_kept_schedule_entry_loop ms _ _ k1 hk1)
    by_cases hp : _schedule_can_preempt cfg k1 k1.pTask = true
    · rw [if_pos hp] at h
      cases hc : k1.pTask with
      | none => rw [hc] at h; exact Option.noConfusion h
      | some c =>
        cases hn : _schedule_nextTaskGet k1 with
        | none => rw [hc, hn] at h; exact Option.noConfusion h
        | some n =>
          rw [hc, hn] at h
          simp only [Option.some.injEq] at h
          subst h
          refine sorted_kept_trans _ _ _ hc1
            (sorted_kept_trans _ _ _ (sorted_kept_time_analyze k1 c n ms) ?_)
          intro r _ hs
          exact prior_sorted_of_frame _ _ r (by rw [list_get_switch]) (fun _ _ => rfl) hs
    · rw [if_neg hp] at h
      cases hc : k1.pTask with
      | none => rw [hc] at h; exact Option.noConfusion h
      | some c =>
        rw [hc] at h
        simp only [Option.some.injEq] at h
        subst h
        exact hc1

/-- The tasks of the ready list and of the wait queues stay where they are, with
their records, while the staging lists are drained. -/
theorem drains_members_kept (cfg : Config) (k : Kernel) (ms : Nat) (k2 : Kernel) (hl : linked k)
    (htarget : ∀ x ∈ k.sch_exit_list, (k.tasks x).exec.exit.pToList ≠ some .exit
      ∧ (k.tasks x).exec.exit.pToList ≠ some .entry)
    (h : _schedule_entry (_schedule_exit cfg k ms) ms = some k2) :
    ∀ r, r ≠ .entry → r ≠ .exit → ∀ y ∈ list_get k r,
      y ∈ list_get k2 r ∧ k2.tasks y = k.tasks y := by
  have hxnd : k.sch_exit_list.Nodup := hl.1 .exit
  have hend : k.sch_entry_list.Nodup := hl.1 .entry
  have hxlink : ∀ x ∈ k.sch_exit_list, (k.tasks x).linker.pList = some .exit :=
    fun x hx => hl.2 .exit x hx
  have helink : ∀ t ∈ k.sch_entry_list, (k.tasks t).linker.pList = some .entry :=
    fun t ht => hl.2 .entry t ht
  have hdisj : ∀ t ∈ k.sch_entry_list, t ∉ k.sch_exit_list := by
    intro t ht hx
    have h1 := helink t ht
    rw [hxlink t hx] at h1
    exact absurd (Option.some.inj h1) (by simp)
  obtain ⟨f1, _, _, f4, f5, _, _⟩ := schedule_exit_fold_spec cfg k.sch_exit_list k hxnd hxlink
    (fun x hx => (htarget x hx).1)
  have hk1 : _schedule_exit cfg k ms = k.sch_exit_list.foldl (_schedule_exit_task cfg) k := rfl
  rw [← hk1] at f1 f4 f5
  clear hk1
  obtain ⟨k1, hk1e⟩ : ∃ k1, k1 = _schedule_exit cfg k ms := ⟨_, rfl⟩
  rw [← hk1e] at f1 f4 f5 h
  have hk1entry : k1.sch_entry_list = k.sch_entry_list :=
    f4 .entry (by simp) (fun x hx => (htarget x hx).2)
  have hk1task : ∀ t ∈ k.sch_entry_list, k1.tasks t = k.tasks t :=
    fun t ht => f1 t (hdisj t ht)
  obtain ⟨g1, _, g3, _, g5, _, _⟩ := schedule_entry_loop_spec ms k1.sch_entry_list k1 k2
    (by rw [hk1entry]; exact hend)
    (fun t ht => by
      rw [hk1entry] at ht
      rw [hk1task t ht]; exact helink t ht) h
  rw [hk1entry] at g1 g3
  intro r hre hrx y hy
  have hlink := hl.2 r y hy
  have hyx : y ∉ k.sch_exit_list := by
    intro hm
    rw [hxlink y hm] at hlink
    exact hrx (Option.some.inj hlink).symm
  have hye : y ∉ k.sch_entry_list := by
    intro hm
    rw [helink y hm] at hlink
    exact hre (Option.some.inj hlink).symm
  refine ⟨?_, by rw [g1 y hye, f1 y hyx]⟩
  have hy1 : y ∈ list_get k1 r := f5 r hrx y hy
  by_cases hp : r = .pend
  · subst hp
    exact (g3.mem_iff).mpr (List.mem_append.mpr (Or.inr hy1))
  · rw [g5 r hp hre]
    exact hy1

/-! ### The lists that the drains build -/

theorem sorted_insert_congr (pred pred' : Nat → Nat → Bool) (t : Nat) (l : List Nat)
    (h : ∀ x ∈ l, pred x t = pred' x t) :
    sorted_insert pred t l = sorted_insert pred' t l := by
  induction l with
  | nil => rfl
  | cons a rest ih =>
    have ha := h a (List.mem_cons_self _ _)
    have hr := ih (fun x hx => h x (List.mem_cons_of_mem _ hx))
    simp only [sorted_insert, ha, hr]

theorem sorted_into_nil (prior : Nat → Int) (l : List Nat) : sorted_into prior l [] = l := rfl

theorem sorted_into_cons (prior : Nat → Int) (l : List Nat) (t : Nat) (ts : List Nat) :
    sorted_into prior l (t :: ts)
      = sorted_into prior (sorted_insert (fun cur new => decide (prior new < prior cur)) t l) ts :=
  rfl

theorem sorted_into_append (prior : Nat → Int) (l ts us : List Nat) :
    sorted_into prior l (ts ++ us) = sorted_into prior (sorted_into prior l ts) us := by
  unfold sorted_into
  rw [List.foldl_append]

theorem mem_sorted_into (prior : Nat → Int) (ts : List Nat) :
    ∀ (l : List Nat) (x : Nat), x ∈ sorted_into prior l ts ↔ x ∈ l ∨ x ∈ ts := by
  induction ts with
  | nil => intro l x; simp [sorted_into_nil]
  | cons t rest ih =>
    intro l x
    rw [sorted_into_cons, ih, mem_sorted_insert_iff]
    simp only [List.mem_cons]
    tauto

theorem sorted_into_congr (p p' : Nat → Int) (ts : List Nat) :
    ∀ (l : List Nat), (∀ x, x ∈ l ∨ x ∈ ts → p x = p' x) →
      sorted_into p l ts = sorted_into p' l ts := by
  induction ts with
  | nil => intro l _; rfl
  | cons t rest ih =>
    intro l h
    rw [sorted_into_cons, sorted_into_cons]
    have ht : p t = p' t := h t (Or.inr (List.mem_cons_self _ _))
    have hins : sorted_insert (fun cur new => decide (p new < p cur)) t l
        = sorted_insert (fun cur new => decide (p' new < p' cur)) t l := by
      apply sorted_insert_congr
      intro x hx
      simp only [ht, h x (Or.inl hx)]
    rw [hins]
    apply ih
    intro x hx
    rcases hx with hx | hx
    · rcases (mem_sorted_insert_iff _ t x l).mp hx with e | e
      · rw [e]; exact ht
      · exact h x (Or.inl e)
    · exact h x (Or.inr (List.mem_cons_of_mem _ hx))

/-- A list transaction with the comparison function of the scheduler, for a
task that comes from another list: the target list is the old one with the task
put in by the sorted insert, and no third list changes. -/
theorem transaction_specific_insert (K : Kernel) (t : Nat) (r : list_ref)
    (hl : (K.tasks t).linker.pList ≠ some r) :
    list_get (linker_list_transaction_specific K t r
        _schedule_priority_node_order_compare_condition) r
      = sorted_insert (fun cur new => decide ((K.tasks new).prior < (K.tasks cur).prior)) t
          (list_get K r) := by
  rw [transaction_specific_target, compare_condition_prior, linker_unlink_tasks,
    linker_unlink_list_get, if_neg hl]

theorem transaction_specific_untouched (K : Kernel) (t : Nat) (r r' : list_ref)
    (f : Kernel → Option Nat → Option Nat → Bool)
    (h1 : r' ≠ r) (h2 : (K.tasks t).linker.pList ≠ some r') :
    list_get (linker_list_transaction_specific K t r f) r' = list_get K r' := by
  rw [transaction_specific_other _ _ _ _ _ h1, linker_unlink_list_get, if_neg h2]

theorem schedule_exit_task_lists (cfg : Config) (k : Kernel) (x : Nat)
    (hlink : (k.tasks x).linker.pList = some .exit) :
    ∀ r, r ≠ .exit →
      list_get (_schedule_exit_task cfg k x) r
        = if (k.tasks x).exec.exit.pToList = some r then
            sorted_insert (fun cur new => decide ((k.tasks new).prior < (k.tasks cur).prior)) x
              (list_get k r)
          else list_get k r := by
  intro r hr
  have hnl : (k.tasks x).linker.pList ≠ some r := by
    rw [hlink]
    intro e
    exact hr (Option.some.inj e).symm
  unfold _schedule_exit_task
  simp only [list_get_task_update]
  have h1 : ∀ K1 : Kernel, K1 = (if (k.tasks x).exec.exit.timeout_ms ≠ 0 then
      task_update k x (fun y =>
        { y with expire := timeout_set cfg y.expire (k.tasks x).exec.exit.timeout_ms false })
    else k) →
      (∀ r', list_get K1 r' = list_get k r') ∧ (∀ u, (K1.tasks u).prior = (k.tasks u).prior)
        ∧ (K1.tasks x).linker = (k.tasks x).linker := by
    intro K1 hK
    subst hK
    split
    · refine ⟨fun r' => list_get_task_update _ _ _ _, ?_, ?_⟩
      · intro u
        by_cases hu : u = x
        · subst hu; rw [task_update_self]
        · rw [task_update_other _ _ _ _ hu]
      · rw [task_update_self]
    · exact ⟨fun _ => rfl, fun _ => rfl, rfl⟩
  obtain ⟨K1, hK1⟩ : ∃ K1, K1 = (if (k.tasks x).exec.exit.timeout_ms ≠ 0 then
      task_update k x (fun y =>
        { y with expire := timeout_set cfg y.expire (k.tasks x).exec.exit.timeout_ms false })
    else k) := ⟨_, rfl⟩
  obtain ⟨a1, a2, a3⟩ := h1 K1 hK1
  rw [← hK1]
  have hnl1 : (K1.tasks x).linker.pList ≠ some r := by rw [a3]; exact hnl
  have hpred : (fun cur new => decide ((K1.tasks new).prior < (K1.tasks cur).prior))
      = (fun cur new => decide ((k.tasks new).prior < (k.tasks cur).prior)) := by
    funext cur new
    rw [a2 cur, a2 new]
  cases hto : (k.tasks x).exec.exit.pToList with
  | none =>
    simp only [list_get_task_update, reduceCtorEq, if_false]
    rw [list_get_transfer_toNullList, if_neg hnl1, a1]
  | some r0 =>
    simp only [_schedule_transfer_toTargetList, Option.some.injEq]
    by_cases hrr : r0 = r
    · subst hrr
      rw [if_pos rfl, transaction_specific_insert K1 x r0 hnl1, hpred, a1]
    · rw [if_neg hrr, transaction_specific_untouched K1 x r0 r _ (Ne.symm hrr) hnl1, a1]

theorem schedule_exit_fold_lists (cfg : Config) (l : List Nat) :
    ∀ (k : Kernel), l.Nodup → (∀ x ∈ l, (k.tasks x).linker.pList = some .exit) →
      (∀ x ∈ l, (k.tasks x).exec.exit.pToList ≠ some .exit) →
      (∀ x ∈ l, ∀ r, r ≠ .exit → x ∉ list_get k r) →
      ∀ r, r ≠ .exit →
        list_get (l.foldl (_schedule_exit_task cfg) k) r
          = sorted_into (fun t => (k.tasks t).prior) (list_get k r)
              (l.filter (fun x => decide ((k.tasks x).exec.exit.pToList = some r))) := by
  induction l with
  | nil => intro k _ _ _ _ r _; rfl
  | cons x rest ih =>
    intro k hnd hlink hne hout r hr
    rw [List.nodup_cons] at hnd
    obtain ⟨hxrest, hndrest⟩ := hnd
    have hxl := hlink x (List.mem_cons_self _ _)
    obtain ⟨s1, s2, _⟩ := schedule_exit_task_spec cfg k x hxl (hne x (List.mem_cons_self _ _))
    have hlists := schedule_exit_task_lists cfg k x hxl
    have hneq : ∀ u ∈ rest, u ≠ x := fun u hu h => hxrest (h ▸ hu)
    have hout1 : ∀ u ∈ rest, ∀ r', r' ≠ .exit → u ∉ list_get (_schedule_exit_task cfg k x) r' := by
      intro u hu r' hr' hmem
      rw [hlists r' hr'] at hmem
      have hk := hout u (List.mem_cons_of_mem _ hu) r' hr'
      split at hmem
      · rcases (mem_sorted_insert_iff _ x u _).mp hmem with e | e
        · exact hneq u hu e
        · exact hk e
      · exact hk hmem
    have hi := ih (_schedule_exit_task cfg k x) hndrest
      (fun u hu => by rw [s1 u (hneq u hu)]; exact hlink u (List.mem_cons_of_mem _ hu))
      (fun u hu => by rw [s1 u (hneq u hu)]; exact hne u (List.mem_cons_of_mem _ hu))
      hout1 r hr
    simp only [List.foldl_cons]
    rw [hi]
    have hfilter : rest.filter (fun u =>
        decide (((_schedule_exit_task cfg k x).tasks u).exec.exit.pToList = some r))
        = rest.filter (fun u => decide ((k.tasks u).exec.exit.pToList = some r)) := by
      apply List.filter_congr
      intro u hu
      rw [s1 u (hneq u hu)]
    rw [hfilter]
    have hcongr : sorted_into (fun t => ((_schedule_exit_task cfg k x).tasks t).prior)
        (list_get (_schedule_exit_task cfg k x) r)
        (rest.filter (fun u => decide ((k.tasks u).exec.exit.pToList = some r)))
        = sorted_into (fun t => (k.tasks t).prior)
        (list_get (_schedule_exit_task cfg k x) r)
        (rest.filter (fun u => decide ((k.tasks u).exec.exit.pToList = some r))) := by
      apply sorted_into_congr
      intro u hu
      by_cases hux : u = x
      · subst hux
        rcases hu with hu | hu
        · rw [hlists r hr] at hu
          by_cases hto : (k.tasks u).exec.exit.pToList = some r
          · exact (s2 r hto).1.2.2.2.2.2.2
          · rw [if_neg hto] at hu
            exact absurd hu (hout u (List.mem_cons_self _ _) r hr)
        · exact absurd (List.mem_of_mem_filter hu) hxrest
      · show ((_schedule_exit_task cfg k x).tasks u).prior = (k.tasks u).prior
        rw [s1 u hux]
    rw [hcongr, hlists r hr]
    by_cases hto : (k.tasks x).exec.exit.pToList = some r
    · rw [if_pos hto, List.filter_cons_of_pos (by simpa using hto), sorted_into_cons]
    · rw [if_neg hto, List.filter_cons_of_neg (by simpa using hto)]

theorem schedule_entry_task_pend (k : Kernel) (ms t : Nat) (k1 : Kernel)
    (h : _schedule_entry_task k ms t = some k1)
    (hlink : (k.tasks t).linker.pList = some .entry) :
    list_get k1 .pend
      = sorted_insert (fun cur new => decide ((k.tasks new).prior < (k.tasks cur).prior)) t
          (list_get k .pend) := by
  unfold _schedule_entry_task at h
  have htail : ∀ K : Kernel, (K.tasks t).linker.pList = some .entry →
      list_get (_schedule_transfer_toPendList
        (task_update K t (fun x =>
          { x with pPendCtx := none,
                   exec := { x.exec with analyze := { x.exec.analyze with last_pend_ms := ms } } }))
        t) .pend
      = sorted_insert (fun cur new => decide ((K.tasks new).prior < (K.tasks cur).prior)) t
          (list_get K .pend) := by
    intro K hK
    unfold _schedule_transfer_toPendList
    rw [transaction_specific_insert _ t .pend (by rw [task_update_self]; simp [hK]),
      list_get_task_update]
    apply sorted_insert_congr
    intro x _
    have hp : ∀ u, ((task_update K t (fun x =>
          { x with pPendCtx := none,
                   exec := { x.exec with analyze := { x.exec.analyze with last_pend_ms := ms } } })).tasks
          u).prior = (K.tasks u).prior := by
      intro u
      by_cases hu : u = t
      · subst hu; rw [task_update_self]
      · rw [task_update_other _ _ _ _ hu]
    rw [hp t, hp x]
  cases hf : (k.tasks t).exec.entry.func with
  | none =>
    rw [hf] at h
    simp only [Option.map_some', Option.some.injEq] at h
    subst h
    exact htail k hlink
  | some cb =>
    cases cb
    rw [hf] at h
    cases hes : _event_schedule k t with
    | none => rw [hes] at h; exact Option.noConfusion h
    | some ke =>
      rw [hes] at h
      simp only [Option.map_some', Option.some.injEq] at h
      subst h
      obtain ⟨e1, e2, _, _, _, e6, _, _, e9, _⟩ := event_schedule_spec k t ke hes
      have hp : ∀ u, ((task_update ke t (fun x =>
          { x with exec := { x.exec with entry := { x.exec.entry with func := none } } })).tasks
          u).prior = (k.tasks u).prior := by
        intro u
        by_cases hu : u = t
        · subst hu; rw [task_update_self]; exact e6
        · rw [task_update_other _ _ _ _ hu, e1 u hu]
      rw [htail _ (by rw [task_update_self]; show (ke.tasks t).linker.pList = _; rw [e2]; exact hlink),
        list_get_task_update, e9]
      apply sorted_insert_congr
      intro x _
      rw [hp t, hp x]

theorem schedule_entry_loop_pend (ms : Nat) (l : List Nat) :
    ∀ (k k' : Kernel), l.Nodup → (∀ t ∈ l, (k.tasks t).linker.pList = some .entry) →
      _schedule_entry_loop ms l k = some k' →
      list_get k' .pend = sorted_into (fun t => (k.tasks t).prior) (list_get k .pend) l
        ∧ ∀ u, (k'.tasks u).prior = (k.tasks u).prior := by
  induction l with
  | nil =>
    intro k k' _ _ h
    simp only [_schedule_entry_loop, Option.some.injEq] at h
    subst h
    exact ⟨rfl, fun _ => rfl⟩
  | cons t rest ih =>
    intro k k' hnd hlink h
    rw [List.nodup_cons] at hnd
    obtain ⟨htrest, hndrest⟩ := hnd
    simp only [_schedule_entry_loop] at h
    cases hstep : _schedule_entry_task k ms t with
    | none => rw [hstep] at h; exact Option.noConfusion h
    | some k1 =>
      rw [hstep] at h
      have htl := hlink t (List.mem_cons_self _ _)
      obtain ⟨s1, s2, _⟩ := schedule_entry_task_spec k ms t k1 hstep htl
      have hpend := schedule_entry_task_pend k ms t k1 hstep htl
      have hneq : ∀ u ∈ rest, u ≠ t := fun u hu e => htrest (e ▸ hu)
      have hp1 : ∀ u, (k1.tasks u).prior = (k.tasks u).prior := by
        intro u
        by_cases hu : u = t
        · subst hu; exact s2.2.2.2.2.2.2.2.1
        · rw [s1 u hu]
      obtain ⟨i1, i2⟩ := ih k1 k' hndrest
        (fun u hu => by rw [s1 u (hneq u hu)]; exact hlink u (List.mem_cons_of_mem _ hu)) h
      have hfun : (fun u => (k1.tasks u).prior) = (fun u => (k.tasks u).prior) := funext hp1
      refine ⟨?_, fun u => by rw [i2 u, hp1 u]⟩
      rw [i1, hfun, hpend, sorted_into_cons]

/-- What the two drains make of the ready list and of the wait queues: every
task of the exit list goes into its target list and then every task of the
entry list into the ready list, each by the sorted insert under the priorities
as they are before the drains. -/
theorem drains_lists (cfg : Config) (k : Kernel) (ms : Nat) (k2 : Kernel) (hl : linked k)
    (htarget : ∀ x ∈ k.sch_exit_list, (k.tasks x).exec.exit.pToList ≠ some .exit
      ∧ (k.tasks x).exec.exit.pToList ≠ some .entry)
    (h : _schedule_entry (_schedule_exit cfg k ms) ms = some k2) :
    ∀ r, r ≠ .entry → r ≠ .exit →
      list_get k2 r
        = sorted_into (fun t => (k.tasks t).prior) (list_get k r)
            (k.sch_exit_list.filter (fun x => decide ((k.tasks x).exec.exit.pToList = some r))
              ++ (if r = .pend then k.sch_entry_list else [])) := by
  have hxnd : k.sch_exit_list.Nodup := hl.1 .exit
  have hend : k.sch_entry_list.Nodup := hl.1 .entry
  have hxlink : ∀ x ∈ k.sch_exit_list, (k.tasks x).linker.pList = some .exit :=
    fun x hx => hl.2 .exit x hx
  have helink : ∀ t ∈ k.sch_entry_list, (k.tasks t).linker.pList = some .entry :=
    fun t ht => hl.2 .entry t ht
  have hdisj : ∀ t ∈ k.sch_entry_list, t ∉ k.sch_exit_list := by
    intro t ht hx
    have h1 := helink t ht
    rw [hxlink t hx] at h1
    exact absurd (Option.some.inj h1) (by simp)
  have hout : ∀ x ∈ k.sch_exit_list, ∀ r, r ≠ .exit → x ∉ list_get k r := by
    intro x hx r hr hm
    have h1 := hl.2 r x hm
    rw [hxlink x hx] at h1
    exact hr (Option.some.inj h1).symm
  obtain ⟨f1, f2, _, f4, _, _, _⟩ := schedule_exit_fold_spec cfg k.sch_exit_list k hxnd hxlink
    (fun x hx => (htarget x hx).1)
  have flists := schedule_exit_fold_lists cfg k.sch_exit_list k hxnd hxlink
    (fun x hx => (htarget x hx).1) hout
  have hk1 : _schedule_exit cfg k ms = k.sch_exit_list.foldl (_schedule_exit_task cfg) k := rfl
  rw [← hk1] at f1 f2 f4 flists
  clear hk1
  obtain ⟨k1, hk1e⟩ : ∃ k1, k1 = _schedule_exit cfg k ms := ⟨_, rfl⟩
  rw [← hk1e] at f1 f2 f4 flists h
  have hk1entry : k1.sch_entry_list = k.sch_entry_list :=
    f4 .entry (by simp) (fun x hx => (htarget x hx).2)
  have hk1task : ∀ t ∈ k.sch_entry_list, k1.tasks t = k.tasks t :=
    fun t ht => f1 t (hdisj t ht)
  have hloop : _schedule_entry_loop ms k.sch_entry_list k1 = some k2 := by
    have : _schedule_entry k1 ms = _schedule_entry_loop ms k1.sch_entry_list k1 := rfl
    rw [this, hk1entry] at h
    exact h
  obtain ⟨g1, _, _, _, g5, _, _⟩ := schedule_entry_loop_spec ms k.sch_entry_list k1 k2 hend
    (fun t ht => by rw [hk1task t ht]; exact helink t ht) hloop
  obtain ⟨p1, _⟩ := schedule_entry_loop_pend ms k.sch_entry_list k1 k2 hend
    (fun t ht => by rw [hk1task t ht]; exact helink t ht) hloop
  intro r hre hrx
  by_cases hp : r = .pend
  · subst hp
    rw [if_pos rfl, sorted_into_append, p1, flists .pend hrx]
    apply sorted_into_congr
    intro u hu
    show (k1.tasks u).prior = (k.tasks u).prior
    by_cases hux : u ∈ k.sch_exit_list
    · rcases hu with hu | hu
      · rcases (mem_sorted_into _ _ _ u).mp hu with e | e
        · exact absurd e (hout u hux .pend hrx)
        · have hto : (k.tasks u).exec.exit.pToList = some .pend := by
            simpa using (List.mem_filter.mp e).2
          exact (f2 u hux .pend hto).1.2.2.2.2.2.2
      · exact absurd hux (hdisj u hu)
    · rw [f1 u hux]
  · rw [if_neg hp, List.append_nil, g5 r hp hre, flists r hrx]

/-- C30: the drains of the pend-switch.  In a state whose lists agree with the
linkers, with a running task, a task in the ready or in the entry list, no
exit-staged task aimed at a staging list and every entry callback able to find
its event, the pend-switch completes, and afterwards: both staging lists are
empty; every task that stood in the exit list with a target list stands in
that list, its linker records it, its exit record is cleared and its entry
result is `PC_EOR`; every task that stood in the entry list stands in the ready
list, its callback has run (for `_event_schedule`: deadline node unlinked,
entry result 0 for a task with a waiter record) and is cleared, its pending
context is cleared and `last_pend_ms` is the time of the switch.  The drained
tasks are sorted into their lists: the tasks that stood in the ready list or in
a wait queue stand there still, every priority of a listed or drained task is
as before, and the ready list and every wait queue that was in priority order
(non-decreasing numeric priority) before the switch is in priority order after
it, with the drained tasks in it; exactly, the ready list and every wait queue
after the switch is the list of before with the tasks of the exit list aimed at
it and then, for the ready list, the tasks of the entry list put in one after
the other by the sorted insert, so a drained task stands behind every task of
numerically equal or lower priority that was there or was drained before it.
The lists after the switch are those left by the entry drain run on the state
that the exit drain left. -/
theorem pendsv_drains (cfg : Config) (k : Kernel) (ms c : Nat) (hl : linked k)
    (htarget : ∀ x ∈ k.sch_exit_list, (k.tasks x).exec.exit.pToList ≠ some .exit
      ∧ (k.tasks x).exec.exit.pToList ≠ some .entry)
    (hcb : ∀ t ∈ k.sch_entry_list, (k.tasks t).exec.entry.func = some .event_schedule →
      (k.tasks t).pPendData = none ∨ ∃ e, (k.tasks t).pPendCtx = some (.event e))
    (hrun : k.pTask = some c)
    (hready : k.sch_pend_list ≠ [] ∨ k.sch_entry_list ≠ []) :
    ∃ k' cur next,
      kernel_scheduler_inPendSV_c cfg k ms = some (k', cur, next)
        ∧ k'.sch_exit_list = [] ∧ k'.sch_entry_list = []
        ∧ (∀ x ∈ k.sch_exit_list, ∀ r, (k.tasks x).exec.exit.pToList = some r →
            x ∈ list_get k' r ∧ exit_drained cfg r (k.tasks x) (k'.tasks x)
            ∧ (k'.tasks x).prior = (k.tasks x).prior)
        ∧ (∀ t ∈ k.sch_entry_list,
            t ∈ k'.sch_pend_list ∧ entry_drained ms (k.tasks t) (k'.tasks t)
            ∧ (k'.tasks t).prior = (k.tasks t).prior)
        ∧ (∀ r, r ≠ .entry → r ≠ .exit → ∀ y ∈ list_get k r,
            y ∈ list_get k' r ∧ (k'.tasks y).prior = (k.tasks y).prior)
        ∧ (∀ r, r ≠ .entry → prior_sorted k r → prior_sorted k' r)
        ∧ (∀ r, r ≠ .entry → r ≠ .exit →
            list_get k' r
              = sorted_into (fun t => (k.tasks t).prior) (list_get k r)
                  (k.sch_exit_list.filter
                      (fun x => decide ((k.tasks x).exec.exit.pToList = some r))
                    ++ (if r = .pend then k.sch_entry_list else [])))
        ∧ (∃ k2, _schedule_entry (_schedule_exit cfg k ms) ms = some k2
            ∧ ∀ r, list_get k' r = list_get k2 r) := by
  obtain ⟨k2, k', cur, next, h1, h2, h3, h4, h5, h6, h7, _, _, _, h11, _⟩ :=
    pendsv_spec cfg k ms c hl htarget hcb hrun hready
  have hs := pendsv_sorted_kept cfg k ms (k', cur, next) hl h2
  have hm := drains_members_kept cfg k ms k2 hl htarget h1
  refine ⟨k', cur, next, h2, h4, h5, ?_, ?_, ?_, hs, ?_, k2, h1, h3⟩
  · intro x hx r hr
    obtain ⟨a, b⟩ := h6 x hx r hr
    exact ⟨a, b, b.2.2.2.2.2.2⟩
  · intro t ht
    obtain ⟨a, b⟩ := h7 t ht
    exact ⟨a, b, b.2.2.2.2.2.2.2.1⟩
  · intro r hre hrx y hy
    obtain ⟨a, b⟩ := hm r hre hrx y hy
    exact ⟨by rw [h3 r]; exact a, by rw [h11 y, b]⟩
  · intro r hre hrx
    rw [h3 r]
    exact drains_lists cfg k ms k2 hl htarget h1 r hre hrx

/-- C30, witness: task 0 of priority 5 is ready, task 1 is staged for the wait
queue of event 0 and task 2 of priority 1 is staged for the ready list; after
the pend-switch at time 10 both staging lists are empty, task 1 is in the wait
queue with a cleared exit record and entry result `PC_EOR`, and task 2 stands
in the ready list in front of task 0, with `last_pend_ms` = 10; the ready list
is the one that the sorted insert of task 2 gives, and at equal priorities the
sorted insert puts the newer task behind the older one. -/
theorem pendsv_drains_witness :
    (∃ k' cur next,
      kernel_scheduler_inPendSV_c sample_cfg sample_staged 10 = some (k', cur, next)
        ∧ k'.sch_exit_list = [] ∧ k'.sch_entry_list = []
        ∧ 1 ∈ (k'.events 0).q_list
        ∧ (k'.tasks 1).exec.exit = { pToList := none, timeout_ms := 0 }
        ∧ (k'.tasks 1).exec.entry.result = -1
        ∧ 2 ∈ k'.sch_pend_list
        ∧ (k'.tasks 2).exec.analyze.last_pend_ms = 10
        ∧ (k'.tasks 2).pPendCtx = none
        ∧ prior_sorted k' .pend)
      ∧ (kernel_scheduler_inPendSV_c sample_cfg sample_staged 10).map
          (fun res => (res.1.sch_pend_list, res.1.sch_pend_list.map (fun t => (res.1.tasks t).prior),
            (res.1.events 0).q_list)) = some ([2, 0], [1, 5], [1])
      ∧ sorted_into (fun t => (sample_staged.tasks t).prior) sample_staged.sch_pend_list [2]
          = [2, 0]
      ∧ sorted_into (fun _ => (3 : Int)) [0] [2] = [0, 2] := by
  refine ⟨?_, by decide, by decide, by decide⟩
  obtain ⟨k', cur, next, h1, h2, h3, h4, h5, _, h7, _⟩ :=
    pendsv_drains sample_cfg sample_staged 10 0 linked_sample_staged
      (fun x hx => by rw [List.mem_singleton.mp hx]; decide)
      (fun t ht => by rw [List.mem_singleton.mp ht]; intro _; exact Or.inl rfl)
      rfl (Or.inl (by decide))
  obtain ⟨a1, a2, _⟩ := h4 1 (List.mem_singleton.mpr rfl) (.event 0) rfl
  obtain ⟨b1, b2, _⟩ := h5 2 (List.mem_singleton.mpr rfl)
  exact ⟨k', cur, next, h1, h2, h3, a1, a2.2.1, a2.2.2.1, b1, b2.2.2.1, b2.1,
    h7 .pend (by decide) (List.pairwise_singleton _ _)⟩

/-! ### The head of the ready list after a pend-switch -/

/-- C28 (amended): the head of the ready list after a pend-switch.  Whenever a
pend-switch completes, either the head of the ready list is the running task,
or the gate kept the running task, which then stands in the ready list behind
tasks of negative priority other than the highest level and has a negative
priority itself.  So the head has numerically at most the priority of the
running task (and at most that priority plus one) whenever the ready list is in
non-decreasing numeric priority after the switch, which is the case when the
lists agree with the linkers and the ready list is in non-decreasing numeric
priority before the switch. -/
theorem pendsv_head_bound (cfg : Config) (k : Kernel) (ms : Nat) (k' : Kernel) (cur next : Nat)
    (h : kernel_scheduler_inPendSV_c cfg k ms = some (k', cur, next)) :
    ((k'.pTask = some next ∧ k'.sch_pend_list.head? = some next)
      ∨ (k'.pTask = some cur ∧ next = cur
          ∧ ∃ pre post, k'.sch_pend_list = pre ++ cur :: post
            ∧ (∀ x ∈ pre, (k'.tasks x).prior < 0
                ∧ (k'.tasks x).prior ≠ cfg.OS_PRIOTITY_HIGHEST_LEVEL)
            ∧ (k'.tasks cur).prior < 0))
      ∧ (k'.sch_pend_list.Pairwise (fun a b => (k'.tasks a).prior ≤ (k'.tasks b).prior) →
          ∃ hd c, k'.sch_pend_list.head? = some hd ∧ k'.pTask = some c
            ∧ (k'.tasks hd).prior ≤ (k'.tasks c).prior
            ∧ (k'.tasks hd).prior ≤ (k'.tasks c).prior + 1)
      ∧ (linked k →
          k.sch_pend_list.Pairwise (fun a b => (k.tasks a).prior ≤ (k.tasks b).prior) →
          k'.sch_pend_list.Pairwise (fun a b => (k'.tasks a).prior ≤ (k'.tasks b).prior)
          ∧ ∃ hd c, k'.sch_pend_list.head? = some hd ∧ k'.pTask = some c
            ∧ (k'.tasks hd).prior ≤ (k'.tasks c).prior + 1) := by
  have hg := pendsv_gate cfg k ms k' cur next h
  have hbound : k'.sch_pend_list.Pairwise (fun a b => (k'.tasks a).prior ≤ (k'.tasks b).prior) →
      ∃ hd c, k'.sch_pend_list.head? = some hd ∧ k'.pTask = some c
        ∧ (k'.tasks hd).prior ≤ (k'.tasks c).prior
        ∧ (k'.tasks hd).prior ≤ (k'.tasks c).prior + 1 := by
    intro hs
    rcases hg with ⟨h1, h2⟩ | ⟨h1, _, pre, post, h3, _, _⟩
    · exact ⟨next, next, h2, h1, le_refl _, by omega⟩
    · cases pre with
      | nil =>
        refine ⟨cur, cur, by rw [h3]; rfl, h1, le_refl _, by omega⟩
      | cons a pre =>
        rw [h3] at hs
        have hle : (k'.tasks a).prior ≤ (k'.tasks cur).prior := by
          have := (List.pairwise_cons.mp hs).1 cur (by simp)
          exact this
        exact ⟨a, cur, by rw [h3]; rfl, h1, hle, by omega⟩
  refine ⟨hg, hbound, ?_⟩
  intro hl hs
  have hs' : prior_sorted k' .pend :=
    pendsv_sorted_kept cfg k ms (k', cur, next) hl h .pend (by simp) hs
  obtain ⟨hd, c, a1, a2, _, a4⟩ := hbound hs'
  exact ⟨hs', hd, c, a1, a2, a4⟩

/-- C28, witness: task 0 of priority -5 is running and ready, task 1 of
priority -1 has been woken and stands in the entry list; the pend-switch puts
task 1 behind task 0 and the head of the ready list stays the running task. -/
theorem pendsv_head_bound_witness :
    (∃ k' cur next, kernel_scheduler_inPendSV_c sample_cfg sample_woken 10 = some (k', cur, next)
      ∧ ((k'.pTask = some next ∧ k'.sch_pend_list.head? = some next)
        ∨ (k'.pTask = some cur ∧ next = cur
            ∧ ∃ pre post, k'.sch_pend_list = pre ++ cur :: post
              ∧ (∀ x ∈ pre, (k'.tasks x).prior < 0
                  ∧ (k'.tasks x).prior ≠ sample_cfg.OS_PRIOTITY_HIGHEST_LEVEL)
              ∧ (k'.tasks cur).prior < 0)))
      ∧ (kernel_scheduler_inPendSV_c sample_cfg sample_woken 10).map
          (fun res => (res.1.pTask, res.1.sch_pend_list,
            res.1.sch_pend_list.map (fun t => (res.1.tasks t).prior)))
          = some (some 0, [0, 1], [-5, -1]) := by
  refine ⟨?_, by decide⟩
  have hsome : (kernel_scheduler_inPendSV_c sample_cfg sample_woken 10).isSome = true := by decide
  obtain ⟨⟨k', cur, next⟩, h⟩ := Option.isSome_iff_exists.mp hsome
  exact ⟨k', cur, next, h, (pendsv_head_bound sample_cfg sample_woken 10 k' cur next h).1⟩

/-- C28, counterexample: a run of public calls and pend-switches from a start
state whose ready list is in priority order: the tasks 2, 1 and 0 of priorities
-9, -5 and -1, task 0 running.  Two mutexes and an event are created; task 0
locks both mutexes and waits on the event; the pend-switch runs task 2, which
locks mutex 0 and so gives task 0 the priority -9 and blocks; the pend-switch
runs task 1, which sets the event; the pend-switch puts task 0, of priority -9,
in front of task 1 and keeps task 1 running; task 1 unlocks mutex 1, which
gives task 0 the priority -1 recorded there although task 2 still waits for
mutex 0.  The next pend-switch keeps task 1 of priority -5 running, and the
head of the ready list, task 0, has priority -1, which is not at most
-5 + 1. -/
theorem pendsv_head_bound_counterexample :
    boot sample_three_coop
      ∧ (sample_three_coop.pTask, sample_three_coop.sch_pend_list,
          sample_three_coop.sch_pend_list.map (fun t => (sample_three_coop.tasks t).prior))
          = (some 0, [2, 1, 0], [-9, -5, -1])
      ∧ (event_run sample_cfg sample_three_coop
          [ .kernel (.mutex_init 0), .kernel (.mutex_init 0), .event_init 0 15 15 0 0,
            .kernel (.mutex_lock 0), .kernel (.mutex_lock 1),
            .event_wait 0 (some ⟨0, 0⟩) 1 4294967295, .kernel (.pendsv 1),
            .kernel (.mutex_lock 0), .kernel (.pendsv 2),
            .event_set 0 1 0 0, .kernel (.pendsv 3),
            .kernel (.mutex_unlock 1) ]).map
          (fun s => (s.pTask, s.sch_pend_list, s.sch_pend_list.map (fun t => (s.tasks t).prior),
            (s.mutexes 0).q_list))
          = some (some 1, [0, 1], [-1, -5], [2])
      ∧ ((event_run sample_cfg sample_three_coop
          [ .kernel (.mutex_init 0), .kernel (.mutex_init 0), .event_init 0 15 15 0 0,
            .kernel (.mutex_lock 0), .kernel (.mutex_lock 1),
            .event_wait 0 (some ⟨0, 0⟩) 1 4294967295, .kernel (.pendsv 1),
            .kernel (.mutex_lock 0), .kernel (.pendsv 2),
            .event_set 0 1 0 0, .kernel (.pendsv 3),
            .kernel (.mutex_unlock 1) ]).bind
          (fun s => kernel_scheduler_inPendSV_c sample_cfg s 4)).map
          (fun res => (res.1.pTask, res.2, res.1.sch_pend_list,
            res.1.sch_pend_list.map (fun t => (res.1.tasks t).prior)))
          = some (some 1, (1, 1), [0, 1], [-1, -5])
      ∧ ¬ ((-1 : Int) ≤ -5 + 1) := by
  refine ⟨⟨fun _ => ⟨rfl, rfl⟩, fun _ => ⟨rfl, rfl⟩, rfl, rfl, rfl, by decide, by decide⟩,
    by decide, by decide, by decide, by decide⟩

end AtRTOS
